import Mathlib

/-!
# Pintos file system and virtual memory: buffer cache and inode layer

A shallow embedding of `filesys/cache.c` and `filesys/inode.c`.

Conventions of the embedding.

* A C array is a function from the index to the element; only the indices
  inside the array's bounds are meaningful.  A byte buffer is `Nat → Nat`
  (offset to byte value).
* `block_sector_t` is a 32-bit unsigned number, a `Nat` below `2 ^ 32`;
  `(block_sector_t) -1` is `NONE = 4294967295`.
* `int` and `off_t` are `Int`; C division and remainder are `Int.tdiv` and
  `Int.tmod` (truncation toward zero).  Signed overflow is not modelled.
* A function returns `none` when the kernel panics (a failed `ASSERT`), when
  it uses a pointer to no live object, or when the iteration budget of a loop
  or of a restart is used up.
* Locks and threads are not modelled: the embedding is the sequential
  semantics.  The write-behind thread of `cache_init` only calls `cache_save`.
* `malloc` and `calloc` succeed or fail as a Boolean argument of the caller
  says.
-/

namespace Pintos

/-! ## Block device -/

/-- Size of a block device sector in bytes (devices/block.h). -/
def BLOCK_SECTOR_SIZE : Nat := 512

/-- The value of `(block_sector_t) -1`. -/
def NONE : Nat := 4294967295

/-- Modelled from the spec: the block device (devices/block.c is not among the
sources) is sector-addressable with `block_read` and `block_write` and is
assumed reliable.  `contents s i` is byte `i` of sector `s`.  The two logs are
ghost state: the sector ids passed to `block_read` and to `block_write`, most
recent first. -/
structure Block where
  contents : Nat → Nat → Nat
  reads : List Nat
  writes : List Nat

/-- Modelled from the spec: `block_read (dev, s, buf)` fills the 512 bytes of
`buf` with sector `s`. -/
def block_read (dev : Block) (s : Nat) (buf : Nat → Nat) : Block × (Nat → Nat) :=
  ({ dev with reads := s :: dev.reads },
   fun i => if i < BLOCK_SECTOR_SIZE then dev.contents s i else buf i)

/-- Modelled from the spec: `block_write (dev, s, buf)` stores the 512 bytes of
`buf` in sector `s`. -/
def block_write (dev : Block) (s : Nat) (buf : Nat → Nat) : Block :=
  { contents := fun s' i =>
      if s' = s then (if i < BLOCK_SECTOR_SIZE then buf i else dev.contents s' i)
      else dev.contents s' i,
    reads := dev.reads,
    writes := s :: dev.writes }

/-! ## Buffer cache (filesys/cache.c) -/

def CACHE_SIZE : Nat := 64

/-- The C `struct cache_entry` without its list element and lock. -/
structure cache_entry where
  sector : Nat
  dirty : Bool
  accessed : Bool
  data : Nat → Nat

/-- The static `buffer_cache` array together with the device `fs_device`. -/
structure Cache where
  buffer_cache : Nat → cache_entry
  fs_device : Block

/-- C `memcpy (dst + offset, src, size)`. -/
def memcpy_to (dst : Nat → Nat) (offset : Nat) (src : Nat → Nat) (size : Nat) : Nat → Nat :=
  fun i => if offset ≤ i ∧ i < offset + size then src (i - offset) else dst i

/-- C `memcpy (buffer, src + offset, size)`, the bytes copied out. -/
def memcpy_from (src : Nat → Nat) (offset size : Nat) : List Nat :=
  (List.range size).map (fun k => src (offset + k))

/-- C `memset (dst, 0, BLOCK_SECTOR_SIZE)`. -/
def memset_zero (dst : Nat → Nat) : Nat → Nat :=
  fun i => if i < BLOCK_SECTOR_SIZE then 0 else dst i

/-- Replace entry `i` of the array. -/
def set_entry (bc : Nat → cache_entry) (i : Nat) (e : cache_entry) : Nat → cache_entry :=
  fun j => if j = i then e else bc j

/-- The `for` loop of `next_cache_entry`, with `n` iterations left, at index
`i`, `cache_e` pointing at entry `last` (`none` is `NULL`).  Returns the array
and `cache_e` at the end of the loop. -/
def clock_scan : Nat → Nat → (Nat → cache_entry) → Option Nat → (Nat → cache_entry) × Option Nat
  | 0, _, bc, last => (bc, last)
  | n + 1, i, bc, _ =>
    if (bc i).accessed then
      clock_scan n (i + 1) (set_entry bc i { bc i with accessed := false }) (some i)
    else
      (bc, some i)

/-- C `next_cache_entry`; the first argument bounds the number of restarts. -/
def next_cache_entry : Nat → Cache → Option (Cache × Nat)
  | 0, _ => none
  | fuel + 1, c =>
    match clock_scan CACHE_SIZE 0 c.buffer_cache none with
    | (_, none) => none
    | (bc, some i) =>
      if !(bc i).accessed then
        if (bc i).dirty then
          some ({ buffer_cache := set_entry bc i { bc i with dirty := false },
                  fs_device := block_write c.fs_device (bc i).sector (bc i).data }, i)
        else
          some ({ buffer_cache := bc, fs_device := c.fs_device }, i)
      else
        next_cache_entry fuel { buffer_cache := bc, fs_device := c.fs_device }

/-- The `for` loop of `find_cache_entry`: the first index from `i` on, among
the next `n`, whose entry holds `sector`. -/
def find_scan (bc : Nat → cache_entry) (sector : Nat) : Nat → Nat → Option Nat
  | 0, _ => none
  | n + 1, i => if (bc i).sector = sector then some i else find_scan bc sector n (i + 1)

/-- C `find_cache_entry`; the first argument bounds the number of restarts. -/
def find_cache_entry : Nat → Cache → Nat → Option (Cache × Nat)
  | 0, _, _ => none
  | fuel + 1, c, sector =>
    match find_scan c.buffer_cache sector CACHE_SIZE 0 with
    | none =>
      match next_cache_entry (fuel + 1) c with
      | none => none
      | some (c1, i) =>
        let e := c1.buffer_cache i
        let r := block_read c1.fs_device sector e.data
        some ({ buffer_cache := set_entry c1.buffer_cache i { e with sector := sector, data := r.2 },
                fs_device := r.1 }, i)
    | some i =>
      if (c.buffer_cache i).sector = sector then some (c, i)
      else find_cache_entry fuel c sector

/-- Number of restarts granted to the lookup and to the victim selection.  In
a sequential execution neither restarts (see `find_cache_entry_total`). -/
def RETRIES : Nat := 1

/-- C `allocate_cache` and `cache_init` on the device `dev`; the data arrays
are static storage, hence zero. -/
def cache_init (dev : Block) : Cache :=
  { buffer_cache := fun _ => { sector := NONE, dirty := false, accessed := false, data := fun _ => 0 },
    fs_device := dev }

/-- C `cache_write`. -/
def cache_write (c : Cache) (sector : Nat) (buffer : Nat → Nat) (size offset : Int) : Option Cache :=
  if 0 ≤ size ∧ 0 ≤ offset ∧ offset + size ≤ BLOCK_SECTOR_SIZE then
    match find_cache_entry RETRIES c sector with
    | none => none
    | some (c1, i) =>
      let e := c1.buffer_cache i
      some { buffer_cache := set_entry c1.buffer_cache i
               { e with dirty := true, accessed := true,
                        data := memcpy_to e.data offset.toNat buffer size.toNat },
             fs_device := c1.fs_device }
  else none

/-- C `cache_read`; the second component is the bytes copied to `buffer`. -/
def cache_read (c : Cache) (sector : Nat) (size offset : Int) : Option (Cache × List Nat) :=
  if 0 ≤ size ∧ 0 ≤ offset ∧ offset + size ≤ BLOCK_SECTOR_SIZE then
    match find_cache_entry RETRIES c sector with
    | none => none
    | some (c1, i) =>
      let e := c1.buffer_cache i
      some ({ buffer_cache := set_entry c1.buffer_cache i { e with accessed := true },
              fs_device := c1.fs_device },
            memcpy_from e.data offset.toNat size.toNat)
  else none

/-- The loop of `cache_save`, with `n` iterations left, at index `i`. -/
def cache_save_loop : Nat → Nat → Cache → Cache
  | 0, _, c => c
  | n + 1, i, c =>
    let e := c.buffer_cache i
    if e.dirty then
      cache_save_loop n (i + 1)
        { buffer_cache := set_entry c.buffer_cache i { e with dirty := false },
          fs_device := block_write c.fs_device e.sector e.data }
    else
      cache_save_loop n (i + 1) c

/-- C `cache_save`. -/
def cache_save (c : Cache) : Cache := cache_save_loop CACHE_SIZE 0 c

/-- C `cache_zero`. -/
def cache_zero (c : Cache) (sector : Nat) : Option Cache :=
  match find_cache_entry RETRIES c sector with
  | none => none
  | some (c1, i) =>
    let e := c1.buffer_cache i
    some { buffer_cache := set_entry c1.buffer_cache i
             { e with data := memset_zero e.data, dirty := true, accessed := true },
           fs_device := c1.fs_device }

/-! ### Abstraction of the cache -/

/-- The bytes of `sector` as seen through the cache: the data of the entry the
lookup finds, or the device's bytes when no entry holds the sector. -/
def view (c : Cache) (s : Nat) (i : Nat) : Nat :=
  match find_scan c.buffer_cache s CACHE_SIZE 0 with
  | some j => (c.buffer_cache j).data i
  | none => c.fs_device.contents s i

/-- Whether the lookup finds `sector` in the cache. -/
def resident (c : Cache) (s : Nat) : Bool :=
  (find_scan c.buffer_cache s CACHE_SIZE 0).isSome

/-- Coherence of the cache: a device sector is held by at most one entry, and
a clean entry equals its sector on the device. -/
structure CacheInv (c : Cache) : Prop where
  uniq : ∀ j k, j < CACHE_SIZE → k < CACHE_SIZE →
    (c.buffer_cache j).sector = (c.buffer_cache k).sector →
    (c.buffer_cache j).sector ≠ NONE → j = k
  clean : ∀ j, j < CACHE_SIZE → (c.buffer_cache j).dirty = false →
    (c.buffer_cache j).sector ≠ NONE → ∀ i, i < BLOCK_SECTOR_SIZE →
    (c.buffer_cache j).data i = c.fs_device.contents (c.buffer_cache j).sector i

/-! ### Sequential executions of the cache interface -/

/-- One call of the cache interface. -/
inductive CacheOp where
  | write (sector : Nat) (buffer : Nat → Nat) (size offset : Int)
  | read (sector : Nat) (size offset : Int)
  | zero (sector : Nat)
  | save

/-- The `ASSERT`s of the call hold. -/
def CacheOp.ok : CacheOp → Bool
  | .write _ _ size offset => decide (0 ≤ size ∧ 0 ≤ offset ∧ offset + size ≤ BLOCK_SECTOR_SIZE)
  | .read _ size offset => decide (0 ≤ size ∧ 0 ≤ offset ∧ offset + size ≤ BLOCK_SECTOR_SIZE)
  | .zero _ => true
  | .save => true

/-- Perform one call on the cache. -/
def CacheOp.run (c : Cache) : CacheOp → Option Cache
  | .write sector buffer size offset => cache_write c sector buffer size offset
  | .read sector size offset => (cache_read c sector size offset).map Prod.fst
  | .zero sector => cache_zero c sector
  | .save => some (cache_save c)

/-- Perform a sequence of calls, first to last. -/
def cache_run : Cache → List CacheOp → Option Cache
  | c, [] => some c
  | c, op :: ops =>
    match op.run c with
    | none => none
    | some c1 => cache_run c1 ops

/-- The logical contents of the sectors after one call, as the specification
words them: `cache_write (sector, src, size, offset)` changes exactly bytes
`[offset, offset + size)` of `sector`, `cache_zero` makes the 512 bytes of the
sector zero, reads and flushes change nothing. -/
def logical_step (m : Nat → Nat → Nat) : CacheOp → Nat → Nat → Nat
  | .write sector buffer size offset => fun s i =>
      if s = sector ∧ offset.toNat ≤ i ∧ i < offset.toNat + size.toNat
      then buffer (i - offset.toNat) else m s i
  | .read _ _ _ => m
  | .zero sector => fun s i => if s = sector ∧ i < BLOCK_SECTOR_SIZE then 0 else m s i
  | .save => m

/-- The logical contents of the sectors after a sequence of calls on a device
whose original contents are `m`. -/
def logical (m : Nat → Nat → Nat) (ops : List CacheOp) : Nat → Nat → Nat :=
  ops.foldl logical_step m

/-! ## Free map -/

/-- Modelled from the spec: the free-map (filesys/free-map.c is not among the
sources) is a bitmap allocator with the interface `allocate (out_sector_id) ->
bool` and `release (sector_id)`.  `used s` tells whether sector `s` is
allocated, `size` is the number of sectors of the device; `released` is ghost
state, the sector ids passed to `release`, most recent first. -/
structure FreeMap where
  size : Nat
  used : Nat → Bool
  released : List Nat

/-- Modelled from the spec: the scan of the bitmap for the lowest free sector
among the `n` sectors from `i` on. -/
def free_map_scan (used : Nat → Bool) : Nat → Nat → Option Nat
  | 0, _ => none
  | n + 1, i => if used i then free_map_scan used n (i + 1) else some i

/-- Modelled from the spec: `free_map_allocate (&sector)` hands out the lowest
free sector and marks it used, or fails (`none`) when every sector is used. -/
def free_map_allocate (fm : FreeMap) : Option (FreeMap × Nat) :=
  match free_map_scan fm.used fm.size 0 with
  | none => none
  | some s =>
    some ({ size := fm.size, used := fun x => if x = s then true else fm.used x,
            released := fm.released }, s)

/-- Modelled from the spec: `free_map_release (sector)` marks the sector free. -/
def free_map_release (fm : FreeMap) (s : Nat) : FreeMap :=
  { size := fm.size, used := fun x => if x = s then false else fm.used x,
    released := s :: fm.released }

/-! ## Inodes (filesys/inode.c) -/

def INODE_MAGIC : Nat := 0x494e4f44
def NUM_DIRECT : Nat := 188
def NUM_INDIRECT : Nat := 64
def INDIRECT_LEN : Nat := 256
def MAX_INODE_LEN : Int := 8 * 1024 * 1024
def UINT16_MAX : Nat := 65535

/-- Modelled from the spec: `ROUND_UP (x, step)` of lib/round.h (not among the
sources) rounds `x` up to the nearest multiple of `step`, with C division. -/
def ROUND_UP (x step : Int) : Int := Int.tdiv (x + step - 1) step * step

/-- The C `struct inode_disk`. -/
structure inode_disk where
  length : Int
  magic : Nat
  direct : Nat → Nat
  indirect : Nat → Nat

/-- The C `struct inode` without its list element and lock; `addr` is the
address of the object, its identity. -/
structure inode where
  addr : Nat
  sector : Nat
  open_cnt : Int
  removed : Bool
  deny_write_cnt : Int
  data : inode_disk

/-- The state of the file system: the buffer cache over `fs_device`, the
free-map, the list `open_inodes` (front first) and the next address `malloc`
hands out (addresses are never reused in the model). -/
structure FS where
  cache : Cache
  free_map : FreeMap
  open_inodes : List inode
  heap_next : Nat

/-- The value of a `uint16_t` object: what a C array of `uint16_t` yields when
its element `v` is read. -/
def uint16_t (v : Nat) : Nat := v % 65536

/-- Store `v` at index `i` of a C array. -/
def array_set (a : Nat → Nat) (i v : Nat) : Nat → Nat :=
  fun j => if j = i then v else a j

/-- The two bytes of a `uint16_t` in memory (little endian). -/
def u16_bytes (v : Nat) : Nat → Nat :=
  fun i => if i = 0 then v % 256 else if i = 1 then v / 256 % 256 else 0

/-- The `uint16_t` whose two bytes in memory are `bytes`. -/
def u16_of_bytes (bytes : List Nat) : Nat :=
  bytes.getD 0 0 % 256 + 256 * (bytes.getD 1 0 % 256)

/-- C `byte_to_sector_disk`. -/
def byte_to_sector_disk (c : Cache) (disk : inode_disk) (pos : Int) : Option (Cache × Nat) :=
  if 0 ≤ pos then
    if pos ≥ disk.length then some (c, NONE)
    else
      let idx := Int.tdiv pos BLOCK_SECTOR_SIZE
      if idx < NUM_DIRECT then some (c, uint16_t (disk.direct idx.toNat))
      else
        let ind_idx := Int.tdiv (idx - NUM_DIRECT) INDIRECT_LEN
        let ind_ofs := Int.tmod (idx - NUM_DIRECT) INDIRECT_LEN
        match cache_read c (uint16_t (disk.indirect ind_idx.toNat)) 2 ind_ofs with
        | none => none
        | some (c1, bytes) => some (c1, u16_of_bytes bytes)
  else none

/-- C `allocate_short`; the second component is the value stored to `*shortp`,
`none` when the function returns false. -/
def allocate_short (fs : FS) : Option (FS × Option Nat) :=
  match free_map_allocate fs.free_map with
  | none => some (fs, none)
  | some (fm, sector) =>
    if sector > UINT16_MAX then
      some ({ fs with free_map := free_map_release fm sector }, none)
    else
      match cache_zero fs.cache sector with
      | none => none
      | some c => some ({ fs with cache := c, free_map := fm }, some sector)

/-- C `append_sector`; returns the state, the inode and the C return value. -/
def append_sector (fs : FS) (disk : inode_disk) : Option (FS × inode_disk × Bool) :=
  let new_length := ROUND_UP disk.length BLOCK_SECTOR_SIZE + BLOCK_SECTOR_SIZE
  if new_length > MAX_INODE_LEN then some (fs, disk, false)
  else
    let idx := Int.tdiv (new_length - 1) BLOCK_SECTOR_SIZE
    if idx < NUM_DIRECT then
      match allocate_short fs with
      | none => none
      | some (fs1, none) => some (fs1, disk, false)
      | some (fs1, some s) =>
        some (fs1, { disk with direct := array_set disk.direct idx.toNat s,
                               length := new_length }, true)
    else
      let old_idx := Int.tdiv (disk.length - 1) BLOCK_SECTOR_SIZE
      let old_ind_idx := Int.tdiv (old_idx - NUM_DIRECT) INDIRECT_LEN
      let ind_idx := Int.tdiv (idx - NUM_DIRECT) INDIRECT_LEN
      let first :=
        if ind_idx > old_ind_idx then
          match allocate_short fs with
          | none => none
          | some (fs1, none) => some (fs1, disk, false)
          | some (fs1, some s) =>
            some (fs1, { disk with indirect := array_set disk.indirect ind_idx.toNat s }, true)
        else some (fs, disk, true)
      match first with
      | none => none
      | some (fs1, disk1, false) => some (fs1, disk1, false)
      | some (fs1, disk1, true) =>
        match allocate_short fs1 with
        | none => none
        | some (fs2, none) =>
          if ind_idx > old_ind_idx then
            some ({ fs2 with free_map :=
                      free_map_release fs2.free_map (uint16_t (disk1.indirect ind_idx.toNat)) },
                  disk1, false)
          else some (fs2, disk1, false)
        | some (fs2, some dir_idx) =>
          let ind_ofs := Int.tmod (idx - NUM_DIRECT) INDIRECT_LEN
          match cache_write fs2.cache (uint16_t (disk1.indirect ind_idx.toNat)) (u16_bytes dir_idx)
              2 ind_ofs with
          | none => none
          | some c => some ({ fs2 with cache := c }, { disk1 with length := new_length }, true)

/-- The `while` loop of `extend_disk`; `fuel` bounds the iterations. -/
def extend_loop : Nat → FS → inode_disk → Int → Option (FS × inode_disk)
  | 0, fs, disk, length => if disk.length < length then none else some (fs, disk)
  | fuel + 1, fs, disk, length =>
    if disk.length < length then
      match append_sector fs disk with
      | none => none
      | some (fs1, disk1, true) => extend_loop fuel fs1 disk1 length
      | some (fs1, disk1, false) => some (fs1, disk1)
    else some (fs, disk)

/-- C `extend_disk`; returns the state, the inode and the C return value.  Every
iteration of the loop adds a sector, so `length - disk.length` iterations are
enough. -/
def extend_disk (fs : FS) (disk : inode_disk) (length : Int) : Option (FS × inode_disk × Int) :=
  if disk.length ≥ length then some (fs, disk, disk.length)
  else
    let disk0 := { disk with length := ROUND_UP disk.length BLOCK_SECTOR_SIZE }
    match extend_loop (length - disk0.length).toNat fs disk0 length with
    | none => none
    | some (fs1, disk1) =>
      let disk2 := if disk1.length > length then { disk1 with length := length } else disk1
      some (fs1, disk2, disk2.length)

/-- Byte `i` of a 32-bit word in memory (little endian). -/
def u32_byte (v : Nat) (i : Nat) : Nat := v / 256 ^ i % 256

/-- The 32-bit word whose four bytes in memory start at offset `o` of `bytes`. -/
def u32_of_bytes (bytes : List Nat) (o : Nat) : Nat :=
  bytes.getD o 0 % 256 + 256 * (bytes.getD (o + 1) 0 % 256) +
    65536 * (bytes.getD (o + 2) 0 % 256) + 16777216 * (bytes.getD (o + 3) 0 % 256)

/-- The 512 bytes of a `struct inode_disk` in memory: `length` (4 bytes, two's
complement), `magic` (4 bytes), `direct[188]` and `indirect[64]` (2 bytes
each), little endian. -/
def inode_disk_bytes (d : inode_disk) : Nat → Nat :=
  fun i =>
    if i < 4 then u32_byte (d.length % 4294967296).toNat i
    else if i < 8 then u32_byte d.magic (i - 4)
    else if i < 384 then u16_bytes (d.direct ((i - 8) / 2)) ((i - 8) % 2)
    else if i < 512 then u16_bytes (d.indirect ((i - 384) / 2)) ((i - 384) % 2)
    else 0

/-- The `struct inode_disk` whose 512 bytes in memory are `bytes`. -/
def inode_disk_of_bytes (bytes : List Nat) : inode_disk :=
  { length :=
      if u32_of_bytes bytes 0 < 2147483648 then (u32_of_bytes bytes 0 : Int)
      else (u32_of_bytes bytes 0 : Int) - 4294967296,
    magic := u32_of_bytes bytes 4,
    direct := fun j => u16_of_bytes [bytes.getD (8 + 2 * j) 0, bytes.getD (9 + 2 * j) 0],
    indirect := fun j => u16_of_bytes [bytes.getD (384 + 2 * j) 0, bytes.getD (385 + 2 * j) 0] }

/-- The loop `for (ofs = ...; ofs < disk->length; ofs += BLOCK_SECTOR_SIZE)
free_map_release (byte_to_sector_disk (disk, ofs))` of `inode_create` and
`inode_close`; `fuel` bounds the iterations. -/
def release_loop : Nat → Cache → FreeMap → inode_disk → Int → Option (Cache × FreeMap)
  | 0, c, fm, disk, ofs => if ofs < disk.length then none else some (c, fm)
  | fuel + 1, c, fm, disk, ofs =>
    if ofs < disk.length then
      match byte_to_sector_disk c disk ofs with
      | none => none
      | some (c1, s) =>
        release_loop fuel c1 (free_map_release fm s) disk (ofs + BLOCK_SECTOR_SIZE)
    else some (c, fm)

/-- C `inode_create`; `mem_ok` tells whether `calloc` succeeds. -/
def inode_create (fs : FS) (sector : Nat) (length : Int) (mem_ok : Bool) : Option (FS × Bool) :=
  if mem_ok then
    match extend_disk fs
        { length := 0, magic := INODE_MAGIC, direct := fun _ => 0, indirect := fun _ => 0 }
        length with
    | none => none
    | some (fs1, disk1, len) =>
      if len < length then
        match release_loop disk1.length.toNat fs1.cache fs1.free_map disk1 0 with
        | none => none
        | some (c, fm) => some ({ fs1 with cache := c, free_map := fm }, false)
      else
        match cache_write fs1.cache sector (inode_disk_bytes disk1) BLOCK_SECTOR_SIZE 0 with
        | none => none
        | some c => some ({ fs1 with cache := c }, true)
  else some (fs, false)

/-- C `inode_init` on a cache and a free-map. -/
def inode_init (c : Cache) (fm : FreeMap) : FS :=
  { cache := c, free_map := fm, open_inodes := [], heap_next := 1 }

/-- The live inode object at address `a`. -/
def inode_at (fs : FS) (a : Nat) : Option inode :=
  fs.open_inodes.find? (fun n => decide (n.addr = a))

/-- Assign to the fields of the inode object at address `a`. -/
def inode_update (fs : FS) (a : Nat) (f : inode → inode) : FS :=
  { fs with open_inodes := fs.open_inodes.map (fun n => if n.addr = a then f n else n) }

/-- C `inode_reopen`; `none` as argument is the null pointer, `none` as result
the use of a pointer to no live inode. -/
def inode_reopen (fs : FS) (inode : Option Nat) : Option (FS × Option Nat) :=
  match inode with
  | none => some (fs, none)
  | some a =>
    match inode_at fs a with
    | none => none
    | some _ => some (inode_update fs a (fun n => { n with open_cnt := n.open_cnt + 1 }), some a)

/-- C `inode_open`; `mem_ok` tells whether `malloc` succeeds. -/
def inode_open (fs : FS) (sector : Nat) (mem_ok : Bool) : Option (FS × Option Nat) :=
  match fs.open_inodes.find? (fun n => decide (n.sector = sector)) with
  | some n => inode_reopen fs (some n.addr)
  | none =>
    if mem_ok then
      match cache_read fs.cache sector BLOCK_SECTOR_SIZE 0 with
      | none => none
      | some (c, bytes) =>
        some ({ cache := c, free_map := fs.free_map,
                open_inodes :=
                  { addr := fs.heap_next, sector := sector, open_cnt := 1, removed := false,
                    deny_write_cnt := 0, data := inode_disk_of_bytes bytes } :: fs.open_inodes,
                heap_next := fs.heap_next + 1 }, some fs.heap_next)
    else some (fs, none)

/-- C `inode_get_inumber`. -/
def inode_get_inumber (fs : FS) (a : Nat) : Option Nat :=
  (inode_at fs a).map (fun n => n.sector)

/-- C `inode_close`. -/
def inode_close (fs : FS) (inode : Option Nat) : Option FS :=
  match inode with
  | none => some fs
  | some a =>
    match inode_at fs a with
    | none => none
    | some n =>
      if n.open_cnt - 1 = 0 then
        let l := fs.open_inodes.eraseP (fun m => decide (m.addr = a))
        if n.removed then
          match release_loop n.data.length.toNat fs.cache
              (free_map_release fs.free_map n.sector) n.data 0 with
          | none => none
          | some (c, fm) =>
            some { cache := c, free_map := fm, open_inodes := l, heap_next := fs.heap_next }
        else some { fs with open_inodes := l }
      else some (inode_update fs a (fun m => { m with open_cnt := m.open_cnt - 1 }))

/-- C `inode_remove`. -/
def inode_remove (fs : FS) (a : Nat) : Option FS :=
  match inode_at fs a with
  | none => none
  | some _ => some (inode_update fs a (fun n => { n with removed := true }))

/-- The `while` loop of `inode_read_at`; `fuel` bounds the iterations, `buf` is
the part of the buffer filled so far. -/
def read_loop : Nat → Cache → inode_disk → Int → Int → List Nat → Int →
    Option (Cache × List Nat × Int)
  | 0, c, disk, size, offset, buf, bytes_read =>
    if size > 0 ∧ offset < disk.length then none else some (c, buf, bytes_read)
  | fuel + 1, c, disk, size, offset, buf, bytes_read =>
    if size > 0 ∧ offset < disk.length then
      match byte_to_sector_disk c disk offset with
      | none => none
      | some (c1, sector_idx) =>
        if sector_idx = NONE then none
        else
          let sector_ofs := Int.tmod offset BLOCK_SECTOR_SIZE
          let inode_left := disk.length - offset
          let sector_left := BLOCK_SECTOR_SIZE - sector_ofs
          let min_left := if inode_left < sector_left then inode_left else sector_left
          let chunk_size := if size < min_left then size else min_left
          if chunk_size ≤ 0 then some (c1, buf, bytes_read)
          else
            match cache_read c1 sector_idx chunk_size sector_ofs with
            | none => none
            | some (c2, bytes) =>
              read_loop fuel c2 disk (size - chunk_size) (offset + chunk_size) (buf ++ bytes)
                (bytes_read + chunk_size)
    else some (c, buf, bytes_read)

/-- C `inode_read_at`; returns the state, the bytes stored in the buffer and
the C return value.  Every iteration copies at least one byte, so `size`
iterations are enough. -/
def inode_read_at (fs : FS) (a : Nat) (size offset : Int) : Option (FS × List Nat × Int) :=
  match inode_at fs a with
  | none => none
  | some n =>
    match read_loop size.toNat fs.cache n.data size offset [] 0 with
    | none => none
    | some (c, buf, bytes_read) => some ({ fs with cache := c }, buf, bytes_read)

/-- The `while` loop of `inode_write_at`; `fuel` bounds the iterations. -/
def write_loop : Nat → Cache → inode_disk → (Nat → Nat) → Int → Int → Int →
    Option (Cache × Int)
  | 0, c, disk, _, size, offset, bytes_written =>
    if size > 0 ∧ offset < disk.length then none else some (c, bytes_written)
  | fuel + 1, c, disk, buffer, size, offset, bytes_written =>
    if size > 0 ∧ offset < disk.length then
      match byte_to_sector_disk c disk offset with
      | none => none
      | some (c1, sector_idx) =>
        if sector_idx = NONE then none
        else
          let sector_ofs := Int.tmod offset BLOCK_SECTOR_SIZE
          let inode_left := disk.length - offset
          let sector_left := BLOCK_SECTOR_SIZE - sector_ofs
          let min_left := if inode_left < sector_left then inode_left else sector_left
          let chunk_size := if size < min_left then size else min_left
          if chunk_size ≤ 0 then some (c1, bytes_written)
          else
            match cache_write c1 sector_idx (fun i => buffer (bytes_written.toNat + i))
                chunk_size sector_ofs with
            | none => none
            | some c2 =>
              write_loop fuel c2 disk buffer (size - chunk_size) (offset + chunk_size)
                (bytes_written + chunk_size)
    else some (c, bytes_written)

/-- C `inode_write_at`; returns the state and the C return value. -/
def inode_write_at (fs : FS) (a : Nat) (buffer : Nat → Nat) (size offset : Int) :
    Option (FS × Int) :=
  match inode_at fs a with
  | none => none
  | some n =>
    if n.deny_write_cnt ≠ 0 then some (fs, 0)
    else
      match extend_disk fs n.data (offset + size) with
      | none => none
      | some (fs1, disk1, _) =>
        match write_loop size.toNat fs1.cache disk1 buffer size offset 0 with
        | none => none
        | some (c, bytes_written) =>
          some (inode_update { fs1 with cache := c } a (fun m => { m with data := disk1 }),
                bytes_written)

/-- C `inode_deny_write`. -/
def inode_deny_write (fs : FS) (a : Nat) : Option FS :=
  match inode_at fs a with
  | none => none
  | some n =>
    if n.deny_write_cnt + 1 ≤ n.open_cnt then
      some (inode_update fs a (fun m => { m with deny_write_cnt := m.deny_write_cnt + 1 }))
    else none

/-- C `inode_allow_write`. -/
def inode_allow_write (fs : FS) (a : Nat) : Option FS :=
  match inode_at fs a with
  | none => none
  | some n =>
    if n.deny_write_cnt > 0 ∧ n.deny_write_cnt ≤ n.open_cnt then
      some (inode_update fs a (fun m => { m with deny_write_cnt := m.deny_write_cnt - 1 }))
    else none

/-- C `inode_length`. -/
def inode_length (fs : FS) (a : Nat) : Option Int :=
  (inode_at fs a).map (fun n => n.data.length)

/-! ### Sequential executions of open, reopen and close -/

/-- One call of `inode_open`, `inode_reopen` or `inode_close`. -/
inductive InodeOp where
  | do_open (sector : Nat) (mem_ok : Bool)
  | do_reopen (inode : Option Nat)
  | do_close (inode : Option Nat)

/-- Perform one call on the file system. -/
def InodeOp.run (fs : FS) : InodeOp → Option FS
  | .do_open sector mem_ok => (inode_open fs sector mem_ok).map Prod.fst
  | .do_reopen inode => (inode_reopen fs inode).map Prod.fst
  | .do_close inode => inode_close fs inode

/-- Perform a sequence of calls, first to last. -/
def inode_run : FS → List InodeOp → Option FS
  | fs, [] => some fs
  | fs, op :: ops =>
    match op.run fs with
    | none => none
    | some fs1 => inode_run fs1 ops

/-- Open-uniqueness: no two inodes of the open list have the same sector, no
two the same address, and every address was handed out by `malloc`. -/
structure OpenInv (fs : FS) : Prop where
  sectors : (fs.open_inodes.map (fun n => n.sector)).Nodup
  addrs : (fs.open_inodes.map (fun n => n.addr)).Nodup
  fresh : ∀ n ∈ fs.open_inodes, n.addr < fs.heap_next

/-- The free-map does not run out of sector ids that fit in `uint16_t` during
the next `k` allocations: each of them succeeds with an id of at most
`UINT16_MAX`. -/
def allocs_fit : Nat → FreeMap → Bool
  | 0, _ => true
  | k + 1, fm =>
    match free_map_allocate fm with
    | none => false
    | some (fm1, s) => decide (s ≤ UINT16_MAX) && allocs_fit k fm1

/-- What the proofs about the example runs keep of a state of the file system:
the cache is coherent, the free-map has `size` sectors of which exactly those
below `a` are in use, `rel` is its log of released sectors, and every sector
outside `[lo, a)` holds the bytes `V` as seen through the cache. -/
structure FsAbs (fs : FS) (lo a size : Nat) (rel : List Nat) (V : Nat → Nat → Nat) : Prop where
  inv : CacheInv fs.cache
  used : ∀ x, fs.free_map.used x = decide (x < a)
  size_eq : fs.free_map.size = size
  released : fs.free_map.released = rel
  view_eq : ∀ s, s ≠ NONE → (s < lo ∨ a ≤ s) → ∀ i, i < BLOCK_SECTOR_SIZE →
    view fs.cache s i = V s i

/-! ### Concrete states used in the examples -/

/-- A device whose byte `i` of sector `s` is `(s + i) mod 256`. -/
def example_dev : Block :=
  { contents := fun s i => (s + i) % 256, reads := [], writes := [] }

/-- A free-map over 65536 sectors in which sectors 0, 1 and 2 are in use. -/
def example_free_map : FreeMap :=
  { size := 65536, used := fun s => decide (s < 3), released := [] }

/-- The file system right after `cache_init` and `inode_init`. -/
def example_fs : FS := inode_init (cache_init example_dev) example_free_map

/-- An inode object at address 1 for an empty file at sector 2, opened once,
whose writes are denied once. -/
def example_denied_inode : inode :=
  { addr := 1, sector := 2, open_cnt := 1, removed := false, deny_write_cnt := 1,
    data := { length := 0, magic := INODE_MAGIC, direct := fun _ => 0,
              indirect := fun _ => 0 } }

/-- A file system whose only open inode is `example_denied_inode`. -/
def example_denied_fs : FS :=
  { cache := cache_init example_dev,
    free_map := example_free_map,
    open_inodes := [example_denied_inode],
    heap_next := 2 }

/-- An on-disk inode of 190 sectors whose indirect slots all name sector 7. -/
def example_indirect_disk : inode_disk :=
  { length := 190 * 512, magic := INODE_MAGIC, direct := fun i => 100 + i,
    indirect := fun _ => 7 }

/-- An inode object at address 1 for a file at sector 2 that is two sectors
short of `MAX_INODE_LEN`. -/
def example_big_inode : inode :=
  { addr := 1, sector := 2, open_cnt := 1, removed := false, deny_write_cnt := 0,
    data := { length := MAX_INODE_LEN - 1024, magic := INODE_MAGIC,
              direct := fun i => 1000 + i, indirect := fun j => 900 + j } }

/-- A file system whose only open inode is `example_big_inode`. -/
def example_big_fs : FS :=
  { cache := cache_init example_dev,
    free_map := example_free_map,
    open_inodes := [example_big_inode],
    heap_next := 2 }

/-- What is observed in `example_scenario`. -/
structure Observations where
  /-- length of the inode after `inode_open` -/
  length : Int
  /-- the sector `byte_to_sector` returns for position 96256 after `inode_open` -/
  sector_96256 : Nat
  /-- whether the free-map has that sector allocated -/
  sector_96256_used : Bool
  /-- the bytes and the return value of `inode_read_at (inode, buf, 3, 96256)`
  after `inode_open` -/
  read_96256 : List Nat × Int
  /-- return value of `inode_write_at (inode, {0xAB}, 1, 96768)` -/
  write_96768 : Int
  /-- return value of `inode_write_at (inode, {0xCD}, 1, 97280)`, which grows the
  file by a sector -/
  write_97280 : Int
  /-- length of the inode after the two writes -/
  length_end : Int
  /-- the bytes and the return value of `inode_read_at (inode, buf, 1, 96768)`
  after the two writes -/
  read_96768 : List Nat × Int
  deriving DecidableEq

/-- The run `example_scenario` from the point where `inode_create` has returned
`r`: `inode_open (2)`, a look at position 96256 (the first byte of sector index
188), a write of the byte 0xAB at position 96768 (sector index 189), a write of
the byte 0xCD at position 97280 (which appends sector index 190), and a read of
position 96768. -/
def example_scenario_from (r : Option (FS × Bool)) : Option Observations :=
  match r with
  | some (fs1, true) =>
    match inode_open fs1 2 true with
    | some (fs2, some a) =>
      match inode_at fs2 a with
      | some n =>
        match byte_to_sector_disk fs2.cache n.data 96256, inode_read_at fs2 a 3 96256 with
        | some (_, s), some (fs3, bytes, cnt) =>
          match inode_write_at fs3 a (fun _ => 0xAB) 1 96768 with
          | some (fs4, w1) =>
            match inode_write_at fs4 a (fun _ => 0xCD) 1 97280 with
            | some (fs5, w2) =>
              match inode_length fs5 a, inode_read_at fs5 a 1 96768 with
              | some len, some (_, bytes2, cnt2) =>
                some { length := n.data.length, sector_96256 := s,
                       sector_96256_used := fs2.free_map.used s,
                       read_96256 := (bytes, cnt), write_96768 := w1, write_97280 := w2,
                       length_end := len, read_96768 := (bytes2, cnt2) }
              | _, _ => none
            | none => none
          | none => none
        | _, _ => none
      | none => none
    | _ => none
  | _ => none

/-- A run on the fresh file system `example_fs`: `inode_create (2, 190 * 512)`,
followed by the calls of `example_scenario_from`. -/
def example_scenario : Option Observations :=
  example_scenario_from (inode_create example_fs 2 (190 * 512) true)

/-- An on-disk inode of 189 sectors: data sectors 3 to 190 in the direct slots,
and sector 200 as its first indirect sector. -/
def example_image_disk : inode_disk :=
  { length := 189 * 512, magic := INODE_MAGIC, direct := fun i => 3 + i,
    indirect := fun j => if j = 0 then 200 else 0 }

/-- A device that holds `example_image_disk` in sector 2 and, in sector 200, an
indirect sector whose entry 0 names the data sector 201. -/
def example_image_dev : Block :=
  { contents := fun s i =>
      if s = 2 then inode_disk_bytes example_image_disk i
      else if s = 200 then u16_bytes 201 i
      else 0,
    reads := [], writes := [] }

/-- A free-map over 4096 sectors in which sectors 0 to 201 are in use. -/
def example_image_free_map : FreeMap :=
  { size := 4096, used := fun s => decide (s ≤ 201), released := [] }

/-- The run `example_remove_scenario` from the point where `inode_open` has
returned `r`: `inode_remove`, `inode_close`.  Observed: the length of the
inode, its first indirect slot, the sectors released to the free-map (most
recent first), and whether the free-map still has sector 200 allocated
afterwards. -/
def example_remove_from (r : Option (FS × Option Nat)) : Option (Int × Nat × List Nat × Bool) :=
  match r with
  | some (fs1, some a) =>
    match inode_remove fs1 a with
    | some fs2 =>
      match inode_at fs2 a, inode_close fs2 (some a) with
      | some n, some fs3 =>
        some (n.data.length, uint16_t (n.data.indirect 0), fs3.free_map.released,
              fs3.free_map.used 200)
      | _, _ => none
    | none => none
  | _ => none

/-- A run on the device `example_image_dev`: `inode_open (2)`, followed by the
calls of `example_remove_from`. -/
def example_remove_scenario : Option (Int × Nat × List Nat × Bool) :=
  example_remove_from
    (inode_open (inode_init (cache_init example_image_dev) example_image_free_map) 2 true)

/-- A run on the fresh file system `example_fs`: `inode_create (2, 0)`,
`inode_open (2)`, a write of one byte at position 0, `inode_close` by the only
opener, and `inode_open (2)` again.  Observed: the return value of the write,
the length of the inode before the close, and its length after the second
open. -/
def example_close_scenario : Option (Int × Int × Int) :=
  match inode_create example_fs 2 0 true with
  | some (fs1, true) =>
    match inode_open fs1 2 true with
    | some (fs2, some a) =>
      match inode_write_at fs2 a (fun _ => 65) 1 0 with
      | some (fs3, w) =>
        match inode_length fs3 a, inode_close fs3 (some a) with
        | some len, some fs4 =>
          match inode_open fs4 2 true with
          | some (fs5, some b) =>
            match inode_length fs5 b with
            | some len2 => some (w, len, len2)
            | none => none
          | _ => none
        | _, _ => none
      | none => none
    | _ => none
  | _ => none

/-- A free-map over 193 sectors in which sectors 0, 1 and 2 are in use: 190
sectors are free. -/
def example_small_free_map : FreeMap :=
  { size := 193, used := fun s => decide (s < 3), released := [] }

/-- A run on a fresh cache and `example_small_free_map`: `inode_create (2, 191
* 512)`, which needs 191 data sectors.  Observed: the return value, whether the
free-map has sectors 191 and 190 allocated afterwards, the number of sectors
released, and whether sector 49343 is among them. -/
def example_create_scenario : Option (Bool × Bool × Bool × Nat × Bool) :=
  (inode_create (inode_init (cache_init example_dev) example_small_free_map) 2
      (191 * 512) true).map
    (fun p => (p.2, p.1.free_map.used 191, p.1.free_map.used 190,
      p.1.free_map.released.length, decide (49343 ∈ p.1.free_map.released)))

/-! ## Virtual memory: swap (vm/swap.c) -/

/-- Size of a page in bytes (threads/vaddr.h). -/
def PGSIZE : Nat := 4096

def SWAP_SLOT_NUM_SECTORS : Nat := PGSIZE / BLOCK_SECTOR_SIZE

/-- The C `struct swap_slot` without its list element; `addr` is the address of
the object, its identity. -/
structure swap_slot where
  addr : Nat
  first_sector : Nat
  deriving DecidableEq

/-- The globals of vm/swap.c: the swap device, its number of sectors
(`block_size (swap_block)`), `next_sector`, the lists `swap_occupied` and
`swap_unoccupied` (front first), and the next address `malloc` hands out for a
slot.  `next_sector` does not wrap: the device has fewer than `2 ^ 32 - 8`
sectors. -/
structure Swap where
  swap_block : Block
  block_size : Nat
  next_sector : Nat
  swap_occupied : List swap_slot
  swap_unoccupied : List swap_slot
  heap_next : Nat

/-- C `swap_init` on the swap device `dev` of `size` sectors. -/
def swap_init (dev : Block) (size : Nat) : Swap :=
  { swap_block := dev, block_size := size, next_sector := 0, swap_occupied := [],
    swap_unoccupied := [], heap_next := 1 }

/-- C `get_slot`; `mem_ok` tells whether `malloc` succeeds.  The result is
`none` when the null pointer that `malloc` returned is dereferenced; the slot
is `none` when the function returns `NULL`. -/
def get_slot (sw : Swap) (mem_ok : Bool) : Option (Swap × Option swap_slot) :=
  match sw.swap_unoccupied with
  | [] =>
    if sw.next_sector ≥ sw.block_size then some (sw, none)
    else if mem_ok then
      some ({ sw with next_sector := sw.next_sector + SWAP_SLOT_NUM_SECTORS,
                      swap_occupied := sw.swap_occupied ++
                        [{ addr := sw.heap_next, first_sector := sw.next_sector }],
                      heap_next := sw.heap_next + 1 },
            some { addr := sw.heap_next, first_sector := sw.next_sector })
    else none
  | ss :: rest =>
    some ({ sw with swap_occupied := sw.swap_occupied ++ [ss], swap_unoccupied := rest },
          some ss)

/-- The loop of `swap_in`, with `n` iterations left, at index `i`: sector
`first + i` of the device is read to `kpage + i * BLOCK_SECTOR_SIZE`. -/
def swap_in_loop : Nat → Nat → Block → Nat → (Nat → Nat) → Block × (Nat → Nat)
  | 0, _, dev, _, kpage => (dev, kpage)
  | n + 1, i, dev, first, kpage =>
    let r := block_read dev (first + i) (fun k => kpage (i * BLOCK_SECTOR_SIZE + k))
    swap_in_loop n (i + 1) r.1 first
      (memcpy_to kpage (i * BLOCK_SECTOR_SIZE) r.2 BLOCK_SECTOR_SIZE)

/-- C `swap_in`; `kpage` is the contents of the page at the kernel address
given, and the result has its new contents and the C return value.  The result
is `none` when `ss` points to no slot of the two lists. -/
def swap_in (sw : Swap) (ss : swap_slot) (kpage : Nat → Nat) :
    Option (Swap × (Nat → Nat) × Bool) :=
  if ss ∈ sw.swap_occupied ++ sw.swap_unoccupied then
    let r := swap_in_loop SWAP_SLOT_NUM_SECTORS 0 sw.swap_block ss.first_sector kpage
    some ({ sw with swap_block := r.1,
                    swap_occupied := sw.swap_occupied.filter (fun s => decide (s.addr ≠ ss.addr)),
                    swap_unoccupied :=
                      sw.swap_unoccupied.filter (fun s => decide (s.addr ≠ ss.addr)) ++ [ss] },
          r.2, true)
  else none

/-- The loop of `swap_out`, with `n` iterations left, at index `i`: the 512
bytes at `kpage + i * BLOCK_SECTOR_SIZE` are written to sector `first + i`. -/
def swap_out_loop : Nat → Nat → Block → Nat → (Nat → Nat) → Block
  | 0, _, dev, _, _ => dev
  | n + 1, i, dev, first, kpage =>
    swap_out_loop n (i + 1)
      (block_write dev (first + i) (fun k => kpage (i * BLOCK_SECTOR_SIZE + k))) first kpage

/-- C `swap_out`; `kpage` is the contents of the page at the kernel address
given.  The result is `none` when a null pointer is dereferenced: the one that
`get_slot` returns when the device is full (`ss->first_sector`), or the one of
`malloc` inside `get_slot`. -/
def swap_out (sw : Swap) (kpage : Nat → Nat) (mem_ok : Bool) : Option (Swap × swap_slot) :=
  match get_slot sw mem_ok with
  | none => none
  | some (_, none) => none
  | some (sw1, some ss) =>
    some ({ sw1 with swap_block :=
              swap_out_loop SWAP_SLOT_NUM_SECTORS 0 sw1.swap_block ss.first_sector kpage },
          ss)

/-! ### Sequential executions of swap_out and swap_in -/

/-- One call of `swap_out` or `swap_in`. -/
inductive SwapOp where
  | out (kpage : Nat → Nat) (mem_ok : Bool)
  | back (ss : swap_slot) (kpage : Nat → Nat)

/-- Perform one call; the second component is the slot `swap_out` returned. -/
def SwapOp.run (sw : Swap) : SwapOp → Option (Swap × Option swap_slot)
  | .out kpage mem_ok => (swap_out sw kpage mem_ok).map (fun r => (r.1, some r.2))
  | .back ss kpage => (swap_in sw ss kpage).map (fun r => (r.1, none))

/-- Perform a sequence of calls, first to last; the second component lists the
slots the calls of `swap_out` returned. -/
def swap_run : Swap → List SwapOp → Option (Swap × List swap_slot)
  | sw, [] => some (sw, [])
  | sw, op :: ops =>
    match op.run sw with
    | none => none
    | some (sw1, r) =>
      match swap_run sw1 ops with
      | none => none
      | some (sw2, l) => some (sw2, r.toList ++ l)

/-- The slots of the swap table are distinct objects, each in one place of the
two lists, they lie below `next_sector` at multiples of the slot size, and no
two of them overlap. -/
structure SwapInv (sw : Swap) : Prop where
  nodup : (sw.swap_occupied ++ sw.swap_unoccupied).Nodup
  fresh : ∀ s ∈ sw.swap_occupied ++ sw.swap_unoccupied, s.addr < sw.heap_next
  ident : ∀ s ∈ sw.swap_occupied ++ sw.swap_unoccupied,
    ∀ t ∈ sw.swap_occupied ++ sw.swap_unoccupied, s.addr = t.addr → s = t
  below : ∀ s ∈ sw.swap_occupied ++ sw.swap_unoccupied,
    s.first_sector + SWAP_SLOT_NUM_SECTORS ≤ sw.next_sector
  apart : ∀ s ∈ sw.swap_occupied ++ sw.swap_unoccupied,
    ∀ t ∈ sw.swap_occupied ++ sw.swap_unoccupied,
    s = t ∨ s.first_sector + SWAP_SLOT_NUM_SECTORS ≤ t.first_sector ∨
      t.first_sector + SWAP_SLOT_NUM_SECTORS ≤ s.first_sector
  aligned : ∀ s ∈ sw.swap_occupied ++ sw.swap_unoccupied,
    s.first_sector % SWAP_SLOT_NUM_SECTORS = 0
  next_aligned : sw.next_sector % SWAP_SLOT_NUM_SECTORS = 0

/-- The swap device holds the page `B` in the sectors of slot `ss`. -/
def slot_holds (dev : Block) (ss : swap_slot) (B : Nat → Nat) : Prop :=
  ∀ i < SWAP_SLOT_NUM_SECTORS, ∀ j < BLOCK_SECTOR_SIZE,
    dev.contents (ss.first_sector + i) j = B (i * BLOCK_SECTOR_SIZE + j)

/-- A page whose byte `j` is `(7 * j + 3) mod 256`. -/
def example_page : Nat → Nat := fun j => (7 * j + 3) % 256

/-- The swap table after `swap_init` on a swap device of 16 sectors. -/
def example_swap : Swap := swap_init example_dev 16

/-- The swap table `example_swap` after `swap_out` of `example_page`: the page
is in the slot at sector 0. -/
def example_swap_one : Swap :=
  { swap_block := swap_out_loop SWAP_SLOT_NUM_SECTORS 0 example_dev 0 example_page,
    block_size := 16, next_sector := 8,
    swap_occupied := [{ addr := 1, first_sector := 0 }],
    swap_unoccupied := [], heap_next := 2 }

/-- The swap table `example_swap_one` after `swap_out` of a page of zeros: the
second page is in the slot at sector 8, and the device is full. -/
def example_swap_full : Swap :=
  { swap_block := swap_out_loop SWAP_SLOT_NUM_SECTORS 0 example_swap_one.swap_block 8
      (fun _ => 0),
    block_size := 16, next_sector := 16,
    swap_occupied := [{ addr := 1, first_sector := 0 }, { addr := 2, first_sector := 8 }],
    swap_unoccupied := [], heap_next := 3 }

/-! ## Virtual memory: page directories, files, frames and pages

A thread is named by the address of its page directory: `cur` stands for
`thread_current ()`, and for `thread_current ()->pagedir`.  A null pointer is
the address 0.  A pointer to a `struct frame` or a `struct page` is the index
of the object in its list. -/

/-- Base address of the kernel, `0xc0000000` (threads/vaddr.h). -/
def PHYS_BASE : Nat := 3221225472

/-- Modelled from the spec: `is_user_vaddr` of threads/vaddr.h, the addresses
below `PHYS_BASE`. -/
def is_user_vaddr (vaddr : Nat) : Bool := decide (vaddr < PHYS_BASE)

/-- Modelled from the spec: `pg_round_down` of threads/vaddr.h, the start of
the page that holds `va`. -/
def pg_round_down (va : Nat) : Nat := va - va % PGSIZE

/-- An entry of a page directory that is present: the frame it maps to and the
bits writable, accessed and dirty. -/
structure pte where
  kpage : Nat
  writable : Bool
  accessed : Bool
  dirty : Bool
  deriving DecidableEq

/-- The C `struct frame` of vm/frame.c without its list element. -/
structure frame where
  kpage : Nat
  pd : Nat
  upage : Nat
  deriving DecidableEq

/-- The C `struct page` of vm/page.h without its list element.  The field
`frame`, which `page_alloc` leaves as `malloc` returned it, starts as 0. -/
structure page where
  pd : Nat
  frame : Nat
  upage : Nat
  active : Bool
  file : Nat
  off : Int
  writable : Bool
  ss : Option swap_slot
  deriving DecidableEq

/-- The state of the virtual-memory subsystem: the page directories (by
address, then by user page), the frame table with `next_frame` (an index) and
the static `fail_on_next` of `get_next_frame`, the supplemental page table of
every thread, the swap table, the contents of the frames (by kernel address),
the contents of the files (by `struct file *`), and the log of the calls of
`file_write_at`: file, offset and bytes written. -/
structure VM where
  pagedirs : Nat → Nat → Option pte
  frame_table : List frame
  next_frame : Nat
  fail_on_next : Bool
  sup_page_table : Nat → List page
  swap : Swap
  memory : Nat → Nat → Nat
  files : Nat → List Nat
  file_writes : List (Nat × Int × List Nat)

/-- Replace the entry of page directory `pd` for `upage`. -/
def pagedir_update (vm : VM) (pd upage : Nat) (e : Option pte) : VM :=
  { vm with pagedirs := fun d u => if d = pd ∧ u = upage then e else vm.pagedirs d u }

/-- Modelled from the spec: `pagedir_get_page (pd, upage)`, the kernel address
that `upage` maps to, 0 when it is not mapped. -/
def pagedir_get_page (vm : VM) (pd upage : Nat) : Nat :=
  match vm.pagedirs pd upage with
  | some e => e.kpage
  | none => 0

/-- Modelled from the spec: `pagedir_set_page (pd, upage, kpage, writable)`
when it returns true; the new entry is neither accessed nor dirty. -/
def pagedir_set_page (vm : VM) (pd upage kpage : Nat) (writable : Bool) : VM :=
  pagedir_update vm pd upage
    (some { kpage := kpage, writable := writable, accessed := false, dirty := false })

/-- Modelled from the spec: `pagedir_clear_page (pd, upage)`. -/
def pagedir_clear_page (vm : VM) (pd upage : Nat) : VM :=
  pagedir_update vm pd upage none

/-- Modelled from the spec: `pagedir_is_dirty (pd, upage)`, false when `upage`
is not mapped. -/
def pagedir_is_dirty (vm : VM) (pd upage : Nat) : Bool :=
  match vm.pagedirs pd upage with
  | some e => e.dirty
  | none => false

/-- Modelled from the spec: `pagedir_set_dirty (pd, upage, dirty)`. -/
def pagedir_set_dirty (vm : VM) (pd upage : Nat) (dirty : Bool) : VM :=
  match vm.pagedirs pd upage with
  | some e => pagedir_update vm pd upage (some { e with dirty := dirty })
  | none => vm

/-- Modelled from the spec: `pagedir_is_accessed (pd, upage)`, false when
`upage` is not mapped. -/
def pagedir_is_accessed (vm : VM) (pd upage : Nat) : Bool :=
  match vm.pagedirs pd upage with
  | some e => e.accessed
  | none => false

/-- Modelled from the spec: `pagedir_set_accessed (pd, upage, accessed)`. -/
def pagedir_set_accessed (vm : VM) (pd upage : Nat) (accessed : Bool) : VM :=
  match vm.pagedirs pd upage with
  | some e => pagedir_update vm pd upage (some { e with accessed := accessed })
  | none => vm

/-- Modelled from the spec: `file_length (f)`. -/
def file_length (vm : VM) (f : Nat) : Int := ((vm.files f).length : Int)

/-- The number of bytes that a transfer of `size` bytes at offset `off` of a
file of `len` bytes covers: it stops at the end of the file. -/
def file_span (len size off : Int) : Nat :=
  if size ≤ 0 ∨ off < 0 ∨ len ≤ off then 0 else (min size (len - off)).toNat

/-- Modelled from the spec: `file_read_at (f, upage, size, off)` by the thread
`cur`, for `size ≤ PGSIZE` and a user page `upage`: the bytes of the file from
`off`, up to its end, are copied to the frame that `upage` maps to, whose entry
becomes accessed and dirty; the result has the number of bytes read.  The
result is `none` when bytes are to be copied and `upage` is not mapped. -/
def file_read_at (vm : VM) (cur f upage : Nat) (size off : Int) : Option (VM × Int) :=
  let n := file_span (file_length vm f) size off
  if n = 0 then some (vm, 0)
  else
    match vm.pagedirs cur upage with
    | none => none
    | some e =>
      some ({ pagedir_update vm cur upage (some { e with accessed := true, dirty := true }) with
              memory := fun k i =>
                if k = e.kpage ∧ i < n then (vm.files f).getD (off.toNat + i) 0
                else vm.memory k i },
            (n : Int))

/-- Modelled from the spec: `file_write_at (f, upage, size, off)` by the thread
`cur`, for `size ≤ PGSIZE` and a user page `upage`: the bytes of the frame that
`upage` maps to are copied to the file from `off`, up to its end (the file does
not grow), and the entry of `upage` becomes accessed; the call is logged; the
result has the number of bytes written.  The result is `none` when bytes are to
be copied and `upage` is not mapped. -/
def file_write_at (vm : VM) (cur f upage : Nat) (size off : Int) : Option (VM × Int) :=
  let n := file_span (file_length vm f) size off
  if n = 0 then some ({ vm with file_writes := vm.file_writes ++ [(f, off, [])] }, 0)
  else
    match vm.pagedirs cur upage with
    | none => none
    | some e =>
      some ({ pagedir_update vm cur upage (some { e with accessed := true }) with
              files := fun g =>
                if g = f then
                  (List.range (vm.files f).length).map (fun i =>
                    if off.toNat ≤ i ∧ i < off.toNat + n then vm.memory e.kpage (i - off.toNat)
                    else (vm.files f).getD i 0)
                else vm.files g,
              file_writes := vm.file_writes ++
                [(f, off, (List.range n).map (fun i => vm.memory e.kpage i))] },
            (n : Int))

/-- Modelled from the spec: a store of the byte `b` at the user address `uaddr`
by the program of thread `cur`, which the hardware performs when the page is
mapped writable (the entry becomes accessed and dirty); `none` is a page
fault. -/
def user_store (vm : VM) (cur uaddr b : Nat) : Option VM :=
  match vm.pagedirs cur (pg_round_down uaddr) with
  | none => none
  | some e =>
    if e.writable then
      some { pagedir_update vm cur (pg_round_down uaddr)
               (some { e with accessed := true, dirty := true }) with
             memory := fun k i =>
               if k = e.kpage ∧ i = uaddr % PGSIZE then b else vm.memory k i }
    else none

/-- Replace the supplemental page table of thread `cur`. -/
def set_sup_page_table (vm : VM) (cur : Nat) (t : List page) : VM :=
  { vm with sup_page_table := fun c => if c = cur then t else vm.sup_page_table c }

/-! ### Supplemental page table (vm/page.c) -/

/-- C `find_page` over the list `t`: the first page that `m` matches, `none`
for `NULL`. -/
def find_page (m : page → Bool) : List page → Option Nat
  | [] => none
  | p :: rest => if m p then some 0 else (find_page m rest).map (fun i => i + 1)

/-- C `find_upage` (with `match_upage`). -/
def find_upage (vm : VM) (cur upage : Nat) : Option Nat :=
  find_page (fun p => decide (p.upage = upage)) (vm.sup_page_table cur)

/-- C `find_file` (with `match_file`). -/
def find_file (vm : VM) (cur f : Nat) : Option Nat :=
  find_page (fun p => decide (p.file = f)) (vm.sup_page_table cur)

/-- C `page_in_table`. -/
def page_in_table (vm : VM) (cur vaddr : Nat) : Bool :=
  decide (vaddr ≠ 0) && (find_upage vm cur vaddr).isSome

/-- C `page_alloc`; `mem_ok` tells whether `malloc` succeeds.  The second
component is the new page, `none` for `NULL`. -/
def page_alloc (vm : VM) (cur pd upage : Nat) (writable mem_ok : Bool) : VM × Option Nat :=
  if page_in_table vm cur upage then (vm, none)
  else if mem_ok then
    (set_sup_page_table vm cur (vm.sup_page_table cur ++
        [{ pd := pd, frame := 0, upage := upage, active := false, file := 0, off := 0,
           writable := writable, ss := none }]),
      some (vm.sup_page_table cur).length)
  else (vm, none)

/-- C `page_set_frame`.  The result is `none` when `page_alloc` returned `NULL`
(a null pointer is dereferenced) and when the assertion
`page_s->writable == writable` fails. -/
def page_set_frame (vm : VM) (cur upage kpage : Nat) (writable mem_ok : Bool) : Option VM :=
  let r := match find_upage vm cur upage with
    | some i => (vm, some i)
    | none => page_alloc vm cur cur upage writable mem_ok
  match r.2 with
  | none => none
  | some i =>
    match (r.1.sup_page_table cur)[i]? with
    | none => none
    | some p =>
      if p.writable = writable then
        some (set_sup_page_table r.1 cur
          ((r.1.sup_page_table cur).set i { p with active := true, frame := kpage }))
      else none

/-- C `page_set_file`. -/
def page_set_file (vm : VM) (cur upage f : Nat) (off : Int) (mem_ok : Bool) : VM × Bool :=
  match page_alloc vm cur cur upage true mem_ok with
  | (_, none) => (vm, false)
  | (vm1, some i) =>
    match (vm1.sup_page_table cur)[i]? with
    | none => (vm, false)
    | some p =>
      (set_sup_page_table vm1 cur ((vm1.sup_page_table cur).set i { p with file := f, off := off }),
        true)

/-- C `page_remove`.  The result is `none` when no page of the table has the
address `upage`: `list_remove` is given a null pointer. -/
def page_remove (vm : VM) (cur upage : Nat) : Option VM :=
  match find_upage vm cur upage with
  | none => none
  | some i =>
    match (vm.sup_page_table cur)[i]? with
    | none => none
    | some p =>
      some (pagedir_clear_page (set_sup_page_table vm cur ((vm.sup_page_table cur).eraseIdx i))
        p.pd upage)

/-- C `file_size_in_page`; `none` when the assertion `page->file != NULL`
fails. -/
def file_size_in_page (vm : VM) (p : page) : Option Int :=
  if p.file = 0 then none
  else if file_length vm p.file - p.off < (PGSIZE : Int) then some (file_length vm p.file - p.off)
  else some (PGSIZE : Int)

/-- The loop of `page_unmap` with `n` iterations allowed; `none` also when
they do not suffice. -/
def page_unmap_loop : Nat → VM → Nat → Nat → Option VM
  | 0, _, _, _ => none
  | n + 1, vm, cur, f =>
    match find_file vm cur f with
    | none => some vm
    | some i =>
      match (vm.sup_page_table cur)[i]? with
      | none => none
      | some page_s =>
        let written : Option VM :=
          if pagedir_is_dirty vm page_s.pd page_s.upage then
            match file_size_in_page vm page_s with
            | none => none
            | some size => (file_write_at vm cur f page_s.upage size page_s.off).map (fun r => r.1)
          else some vm
        match written with
        | none => none
        | some vm1 =>
          match page_remove vm1 cur page_s.upage with
          | none => none
          | some vm2 => page_unmap_loop n vm2 cur f

/-- C `page_unmap`: the loop is allowed one iteration for every page of the
table, and one more to find that no page is left. -/
def page_unmap (vm : VM) (cur f : Nat) : Option VM :=
  page_unmap_loop ((vm.sup_page_table cur).length + 1) vm cur f

/-- Replace the contents of the frame at `kpage`. -/
def set_frame_contents (vm : VM) (kpage : Nat) (c : Nat → Nat) : VM :=
  { vm with memory := fun k => if k = kpage then c else vm.memory k }

/-- C `page_write_data`. -/
def page_write_data (vm : VM) (cur upage : Nat) : Option (VM × Bool) :=
  match find_upage vm cur upage with
  | none => some (vm, false)
  | some i =>
    match (vm.sup_page_table cur)[i]? with
    | none => none
    | some page_s =>
      if page_s.file ≠ 0 then
        match file_size_in_page vm page_s with
        | none => none
        | some size =>
          match file_read_at vm cur page_s.file upage size page_s.off with
          | none => none
          | some (vm1, bytes_read) =>
            some (pagedir_set_dirty vm1 page_s.pd upage false, decide (bytes_read = size))
      else
        match page_s.ss with
        | some ss =>
          match swap_in vm.swap ss (vm.memory page_s.frame) with
          | none => none
          | some (sw, kpage, success) =>
            some (pagedir_set_dirty
              (set_frame_contents { vm with swap := sw } page_s.frame kpage)
              page_s.pd upage false, success)
        | none => some (vm, false)

/-- C `page_is_writable`; `none` when the assertion `page_s != NULL` fails. -/
def page_is_writable (vm : VM) (cur upage : Nat) : Option Bool :=
  match find_upage vm cur upage with
  | none => none
  | some i => ((vm.sup_page_table cur)[i]?).map (fun p => p.writable)

/-- C `page_set_swap`; `none` when no page of the table of the running thread
has the address `upage`: a null pointer is dereferenced. -/
def page_set_swap (vm : VM) (cur upage : Nat) (ss : Option swap_slot) : Option (VM × Bool) :=
  match find_upage vm cur upage with
  | none => none
  | some i =>
    match (vm.sup_page_table cur)[i]? with
    | none => none
    | some p =>
      some (set_sup_page_table vm cur
        ((vm.sup_page_table cur).set i { p with ss := ss, active := false }), true)

/-- C `stack_growth`; the pointers are 32 bits wide. -/
def stack_growth (uaddr esp : Nat) : Bool :=
  decide (uaddr = (esp + 2 ^ 32 - 4) % 2 ^ 32) || decide (uaddr = (esp + 2 ^ 32 - 32) % 2 ^ 32) ||
    decide (uaddr ≥ esp)

/-! ### Frame table (vm/frame.c) -/

/-- The loop of `frame_clock` over the frames left, the first of which has
index `i`; `last` is `frame_s`. -/
def frame_clock_loop : List frame → Nat → VM → Option Nat → VM × Option Nat
  | [], _, vm, last => (vm, last)
  | f :: rest, i, vm, _ =>
    if pagedir_is_accessed vm f.pd f.upage then
      frame_clock_loop rest (i + 1) (pagedir_set_accessed vm f.pd f.upage false) (some i)
    else (vm, some i)

/-- C `frame_clock`. -/
def frame_clock (vm : VM) : VM × Option Nat :=
  frame_clock_loop vm.frame_table 0 vm none

/-- C `evict_frame` of the frame with index `f`, called by thread `cur`.  The
result is `none` when `swap_out` or `page_set_swap` dereferences a null
pointer. -/
def evict_frame (vm : VM) (cur f : Nat) (mem_ok : Bool) : Option VM :=
  match vm.frame_table[f]? with
  | none => none
  | some fr =>
    match swap_out vm.swap (vm.memory fr.kpage) mem_ok with
    | none => none
    | some (sw, ss) =>
      match page_set_swap { vm with swap := sw } cur fr.upage (some ss) with
      | none => none
      | some (vm1, ok) => if ok then some vm1 else none

/-- C `get_next_frame`, called by thread `cur`; `none` when an assertion fails
or a null pointer is dereferenced. -/
def get_next_frame (vm : VM) (cur : Nat) (mem_ok : Bool) : Option (VM × Nat) :=
  if vm.fail_on_next then
    match frame_clock vm with
    | (_, none) => none
    | (vm1, some f) => (evict_frame vm1 cur f mem_ok).map (fun vm2 => (vm2, f))
  else if vm.next_frame < vm.frame_table.length then
    if vm.next_frame + 1 = vm.frame_table.length then
      some ({ vm with next_frame := 0, fail_on_next := true }, vm.next_frame)
    else some ({ vm with next_frame := vm.next_frame + 1 }, vm.next_frame)
  else none

/-- C `frame_init`; `kpages` are the pages that `palloc_get_page (PAL_USER)`
returns before it returns `NULL`.  The result is `none` when the assertion
`!list_empty (&frame_table)` fails. -/
def frame_init (vm : VM) (kpages : List Nat) : Option VM :=
  if kpages = [] then none
  else some { vm with frame_table := kpages.map (fun k => { kpage := k, pd := 0, upage := 0 }),
                      next_frame := 0 }

/-- C `frame_alloc`, called by thread `cur`; `pt_ok` tells whether
`pagedir_set_page` succeeds.  The result is `none` for `NOT_REACHED ()`, and
when `get_next_frame` does not return. -/
def frame_alloc (vm : VM) (cur upage : Nat) (writable mem_ok pt_ok : Bool) :
    Option (VM × Nat) :=
  match get_next_frame vm cur mem_ok with
  | none => none
  | some (vm1, f) =>
    match vm1.frame_table[f]? with
    | none => none
    | some fr =>
      if pagedir_get_page vm1 cur upage ≠ 0 ∨ pt_ok = false then none
      else
        some ({ pagedir_set_page vm1 cur upage fr.kpage writable with
                frame_table := vm1.frame_table.set f { fr with upage := upage, pd := cur } },
              fr.kpage)

/-- C `frame_free`. -/
def frame_free (vm : VM) (pd : Nat) : VM :=
  { vm with frame_table := vm.frame_table.map (fun fr =>
      if fr.pd = pd then { fr with pd := 0, upage := 0 } else fr) }

/-- C `page_fetch`, called by thread `cur`; `none` when a call inside does not
return.  `page_is_writable` is called only when `write` is true. -/
def page_fetch (vm : VM) (cur uaddr esp : Nat) (write mem_ok pt_ok : Bool) :
    Option (VM × Bool) :=
  if !is_user_vaddr uaddr then some (vm, false)
  else
    if !page_in_table vm cur (pg_round_down uaddr) then
      if esp = 0 then some (vm, false)
      else if stack_growth uaddr esp then
        match frame_alloc vm cur (pg_round_down uaddr) true mem_ok pt_ok with
        | none => none
        | some (vm1, kpage) =>
          (page_set_frame vm1 cur (pg_round_down uaddr) kpage true mem_ok).map
            (fun vm2 => (vm2, true))
      else some (vm, false)
    else
      let denied : Option Bool :=
        if write then (page_is_writable vm cur (pg_round_down uaddr)).map (fun w => !w)
        else some false
      match denied with
      | none => none
      | some true => some (vm, false)
      | some false =>
        match frame_alloc vm cur (pg_round_down uaddr) true mem_ok pt_ok with
        | none => none
        | some (vm1, kpage) =>
          match page_set_frame vm1 cur (pg_round_down uaddr) kpage true mem_ok with
          | none => none
          | some vm2 =>
            (page_write_data vm2 cur (pg_round_down uaddr)).map (fun r => (r.1, true))

/-! ### Concrete states of the virtual memory used in the examples -/

/-- A machine with two frames, at the kernel addresses `0xc0271000` and
`0xc0272000`, whose byte `i` is `(k + i) mod 256` for the frame at `k`; no page
is mapped, no thread has a page, the swap device has 16 sectors, and the file 7
has 1025 bytes, all of them 17. -/
def example_vm : VM :=
  { pagedirs := fun _ _ => none,
    frame_table := [{ kpage := 0xc0271000, pd := 0, upage := 0 },
                    { kpage := 0xc0272000, pd := 0, upage := 0 }],
    next_frame := 0,
    fail_on_next := false,
    sup_page_table := fun _ => [],
    swap := example_swap,
    memory := fun k i => (k + i) % 256,
    files := fun f => if f = 7 then List.replicate 1025 17 else [],
    file_writes := [] }

/-- The machine `example_vm` after `frame_alloc (0xbfffe000, true)` by thread
1: the first frame belongs to the page. -/
def example_vm_alloc : VM :=
  { pagedir_set_page { example_vm with next_frame := 1 } 1 0xbfffe000 0xc0271000 true with
    frame_table := [{ kpage := 0xc0271000, pd := 1, upage := 0xbfffe000 },
                    { kpage := 0xc0272000, pd := 0, upage := 0 }] }

/-- The machine `example_vm` after `page_set_frame (0x08048000, 0xc0271000,
false)` by thread 1: the thread has a page that is not writable, and the page
directory does not map it. -/
def example_vm_read_only : VM :=
  set_sup_page_table example_vm 1
    [{ pd := 1, frame := 0xc0271000, upage := 0x08048000, active := true, file := 0, off := 0,
       writable := false, ss := none }]

/-- The property of the specification for the pages of thread `c`: every
active page is mapped to its frame by its page directory, and the frame table
records that frame as owned by the page directory and the user page of the
page. -/
def active_pages_own_frames (vm : VM) (c : Nat) : Bool :=
  (vm.sup_page_table c).all (fun p =>
    !p.active ||
      (decide (pagedir_get_page vm p.pd p.upage = p.frame) &&
        vm.frame_table.any (fun fr =>
          decide (fr.kpage = p.frame) && decide (fr.pd = p.pd) && decide (fr.upage = p.upage))))

/-- Two threads on the machine `example_vm`, which has two frames.  Thread 1
calls `page_fetch (0xbfffeffc, 0xbffff000, false)`, thread 2 calls the same,
and then thread 2 calls `page_fetch (0xbfffdffc, 0xbfffe000, false)`, which
evicts a frame.  The result has `active_pages_own_frames` for thread 1 and for
thread 2 before the third call, and for thread 1 after it, then the pages of
thread 1, the pages of thread 2, the frame table, and the kernel address that
`0xbfffe000` maps to in the page directory of thread 1, all after the third
call. -/
def example_eviction_scenario :
    Option (Bool × Bool × Bool × List page × List page × List frame × Nat) :=
  match page_fetch example_vm 1 0xbfffeffc 0xbffff000 false true true with
  | none => none
  | some (vm1, _) =>
    match page_fetch vm1 2 0xbfffeffc 0xbffff000 false true true with
    | none => none
    | some (vm2, _) =>
      match page_fetch vm2 2 0xbfffdffc 0xbfffe000 false true true with
      | none => none
      | some (vm3, _) =>
        some (active_pages_own_frames vm2 1, active_pages_own_frames vm2 2,
          active_pages_own_frames vm3 1, vm3.sup_page_table 1, vm3.sup_page_table 2,
          vm3.frame_table, pagedir_get_page vm3 1 0xbfffe000)

/-- What `page_unmap (f)` is to write according to the specification: for
every page of the list `t` backed by `f` whose dirty bit is set, in the order
of the list, at the offset of the page, the first
`min (file_length (f) - off, PGSIZE)` bytes of the frame that the page is
mapped to. -/
def page_unmap_writes (vm : VM) (cur f : Nat) (t : List page) : List (Nat × Int × List Nat) :=
  (t.filter (fun p => decide (p.file = f) && pagedir_is_dirty vm p.pd p.upage)).map (fun p =>
    (f, p.off, (List.range (min (file_length vm f - p.off) (PGSIZE : Int)).toNat).map
      (fun i => vm.memory (pagedir_get_page vm cur p.upage) i)))

/-- Thread 1 maps the file 7, of 1025 bytes, at `0x10000000` with
`page_set_file`, fetches the page for a write access at `0x10000400`, stores
the byte `0xFF` there, and calls `page_unmap`.  The result has the length of
the file, its bytes 1023 and 1024, the pages of thread 1, and file, offset and
number of bytes of the calls of `file_write_at`, all after `page_unmap`. -/
def example_mmap_scenario : Option (Nat × Nat × Nat × List page × List (Nat × Int × Nat)) :=
  match page_set_file example_vm 1 0x10000000 7 0 true with
  | (_, false) => none
  | (vm1, true) =>
    match page_fetch vm1 1 0x10000400 0xbffff000 true true true with
    | none => none
    | some (vm2, _) =>
      match user_store vm2 1 0x10000400 0xFF with
      | none => none
      | some vm3 =>
        match page_unmap vm3 1 7 with
        | none => none
        | some vm4 =>
          some ((vm4.files 7).length, (vm4.files 7).getD 1023 0, (vm4.files 7).getD 1024 0,
            vm4.sup_page_table 1,
            vm4.file_writes.map (fun w => (w.1, w.2.1, w.2.2.length)))

/-- The machine `example_vm` with the file 7 mapped by thread 1 at
`0x10000000`, in the frame `0xc0271000`, after the program has stored `0xFF` at
`0x10000400`: the frame has the 1025 bytes of the file with byte 1024 replaced,
and the dirty bit of the page is set. -/
def example_vm_mapped : VM :=
  { example_vm with
    pagedirs := fun d u =>
      if d = 1 ∧ u = 0x10000000 then
        some { kpage := 0xc0271000, writable := true, accessed := true, dirty := true }
      else none,
    next_frame := 1,
    sup_page_table := fun c =>
      if c = 1 then
        [{ pd := 1, frame := 0xc0271000, upage := 0x10000000, active := true, file := 7,
           off := 0, writable := true, ss := none }]
      else [],
    memory := fun k i =>
      if k = 0xc0271000 ∧ i = 1024 then 255
      else if k = 0xc0271000 ∧ i < 1025 then 17 else (k + i) % 256 }

/-! ## Fixed-point arithmetic (lib/kernel/fixed-point.c) -/

/-- The value of a C `int` whose mathematical value is `v`: 32 bits, two's
complement.  Signed overflow, which C leaves undefined, wraps around. -/
def int32 (v : Int) : Int := (v + 2147483648) % 4294967296 - 2147483648

/-- The macro `f(q)`, `1 << (q)`, for `0 ≤ q ≤ 31`. -/
def f (q : Int) : Int := int32 (2 ^ q.toNat)

/-- C `fxp_of_int`. -/
def fxp_of_int (q n : Int) : Int := int32 (n * f q)

/-- C `fxp_trunc`. -/
def fxp_trunc (q x : Int) : Int := int32 (Int.tdiv x (f q))

/-- C `fxp_round`; `sgn * f(q) / 2` is `(sgn * f(q)) / 2`. -/
def fxp_round (q x : Int) : Int :=
  let sgn : Int := if x ≥ 0 then 1 else -1
  int32 (Int.tdiv (int32 (x + int32 (Int.tdiv (int32 (sgn * f q)) 2))) (f q))

/-! ### Concrete states of the file system used in the examples of growth -/

/-- A file system over a fresh cache whose free-map, of 65536 sectors, has the
sectors 0 to 190 in use. -/
def example_fs_188 : FS :=
  inode_init (cache_init example_dev)
    { size := 65536, used := fun s => decide (s < 191), released := [] }

/-- An inode of 188 sectors, the sectors 3 to 190, all in the direct slots; the
array `indirect` is all zero, as `calloc` left it in `inode_create`. -/
def example_disk_188 : inode_disk :=
  { length := 96256, magic := INODE_MAGIC, direct := fun i => if i < 188 then 3 + i else 0,
    indirect := fun _ => 0 }

/-- A file system over a fresh cache whose free-map, of 191 sectors, has every
sector in use. -/
def example_fs_full : FS :=
  inode_init (cache_init example_dev)
    { size := 191, used := fun s => decide (s < 191), released := [] }

/-- A file system over a fresh cache whose free-map, of 70000 sectors, has the
sectors 0 to 65535 in use: the lowest free sector is 65536. -/
def example_fs_high : FS :=
  inode_init (cache_init example_dev)
    { size := 70000, used := fun s => decide (s < 65536), released := [] }

/-- A file system over a fresh cache whose free-map, of 500 sectors, has one
free sector, 499. -/
def example_fs_one_free : FS :=
  inode_init (cache_init example_dev)
    { size := 500, used := fun s => decide (s < 499), released := [] }

/-- An inode of 444 sectors: 188 in the direct slots and 256 through the first
indirect sector, sector 191; the next sector is the first of `indirect[1]`. -/
def example_disk_444 : inode_disk :=
  { length := 227328, magic := INODE_MAGIC, direct := fun i => if i < 188 then 3 + i else 0,
    indirect := fun i => if i = 0 then 191 else 0 }

/-- The result of `append_sector` for `example_disk_444` on
`example_fs_one_free`. -/
def example_append_failure : FS × inode_disk × Bool :=
  match append_sector example_fs_one_free example_disk_444 with
  | some r => r
  | none => (example_fs_one_free, example_disk_444, true)

/-- The free-map of `example_fs_188` after the allocation of sector 191. -/
def example_free_map_191 : FreeMap :=
  { size := 65536, used := fun x => if x = 191 then true else decide (x < 191), released := [] }

/-- The free-map of `example_fs_high` after the allocation of sector 65536. -/
def example_free_map_65536 : FreeMap :=
  { size := 70000, used := fun x => if x = 65536 then true else decide (x < 65536),
    released := [] }

/-! ### Concrete states of the virtual memory used in the examples of eviction -/

/-- The machine `example_vm_alloc` after a second call of `frame_alloc` by
thread 1, for `0xbfffd000`: both frames belong to thread 1, and
`fail_on_next` is set. -/
def example_vm_alloc2 : VM :=
  match frame_alloc example_vm_alloc 1 0xbfffd000 true true true with
  | some r => r.1
  | none => example_vm

/-- The machine `example_vm_alloc2` after `frame_free` for thread 1: both
frames are unowned. -/
def example_vm_exited : VM := frame_free example_vm_alloc2 1

/-- The machine `example_vm` after thread 1 and then thread 2 have called
`page_fetch (0xbfffeffc, 0xbffff000, false)`: each has its stack page at
`0xbfffe000`, thread 1 in the first frame and thread 2 in the second. -/
def example_vm_two_threads : VM :=
  match page_fetch example_vm 1 0xbfffeffc 0xbffff000 false true true with
  | none => example_vm
  | some (vm1, _) =>
    match page_fetch vm1 2 0xbfffeffc 0xbffff000 false true true with
    | none => example_vm
    | some (vm2, _) => vm2

/-- The machine `example_vm_two_threads` after `evict_frame` of the first
frame, called by thread 2. -/
def example_vm_evicted : VM :=
  match evict_frame example_vm_two_threads 2 0 true with
  | some vm => vm
  | none => example_vm

/-- The machine `example_vm` after thread 1 has called `page_fetch` for its
stack pages at `0xbfffe000` and at `0xbfffd000`: they are in the first and in
the second frame. -/
def example_vm_one_thread : VM :=
  match page_fetch example_vm 1 0xbfffeffc 0xbffff000 false true true with
  | none => example_vm
  | some (vm1, _) =>
    match page_fetch vm1 1 0xbfffdffc 0xbfffe000 false true true with
    | none => example_vm
    | some (vm2, _) => vm2

/-- The result of `frame_alloc (0xbfffc000, true)` by thread 1 on the machine
`example_vm_one_thread`, which evicts the first frame. -/
def example_vm_third : VM × Nat :=
  match frame_alloc example_vm_one_thread 1 0xbfffc000 true true true with
  | some r => r
  | none => (example_vm, 0)

/-! ### Concrete swap tables used in the examples of the slot lists -/

/-- Four calls: `swap_out` of `example_page`, `swap_in` of the slot at sector 0,
`swap_in` of the same slot again, now free, and `swap_out` of a page of
zeros. -/
def example_swap_ops : List SwapOp :=
  [SwapOp.out example_page true, SwapOp.back { addr := 1, first_sector := 0 } (fun _ => 0),
   SwapOp.back { addr := 1, first_sector := 0 } (fun _ => 0), SwapOp.out (fun _ => 0) true]

/-- The calls `example_swap_ops` on a swap device of 16 sectors: the swap table
at the end and the slots that the two calls of `swap_out` returned. -/
def example_swap_run : Swap × List swap_slot :=
  match swap_run (swap_init example_dev 16) example_swap_ops with
  | some r => r
  | none => (example_swap, [])

/-- The swap table on a swap device of 12 sectors after one `swap_out`: the
slot at sector 0 is occupied and `next_sector` is 8. -/
def example_swap_12 : Swap :=
  match swap_out (swap_init example_dev 12) example_page true with
  | some r => r.1
  | none => example_swap

/-! ### Concrete states of the virtual memory used in the examples of page contents -/

/-- The machine `example_vm` after `page_fetch (0xbfffeffc, 0xbffff000, false)`
by thread 1, a stack growth in the first pass over the frame table. -/
def example_vm_stack : VM :=
  match page_fetch example_vm 1 0xbfffeffc 0xbffff000 false true true with
  | some r => r.1
  | none => example_vm

/-- The machine `example_vm_one_thread`, in which both frames are taken, after
`page_fetch (0xbfffcffc, 0xbfffd000, false)` by thread 1, a stack growth that
evicts the first frame. -/
def example_vm_stack_evict : VM :=
  match page_fetch example_vm_one_thread 1 0xbfffcffc 0xbfffd000 false true true with
  | some r => r.1
  | none => example_vm

/-- The machine `example_vm_mapped` after the page of thread 1 at `0x10000000`,
which is backed by the file 7 and has the byte `0xFF` at offset 1024, has been
written to a swap slot with `swap_out` and the slot has been recorded on the
page with `page_set_swap`. -/
def example_vm_swapped : VM :=
  match swap_out example_vm_mapped.swap (example_vm_mapped.memory 0xc0271000) true with
  | none => example_vm
  | some (sw, ss) =>
    match page_set_swap { example_vm_mapped with swap := sw } 1 0x10000000 (some ss) with
    | some r => r.1
    | none => example_vm

/-- The result of `page_write_data (0x10000000)` by thread 1 on the machine
`example_vm_swapped`. -/
def example_vm_restored : VM × Bool :=
  match page_write_data example_vm_swapped 1 0x10000000 with
  | some r => r
  | none => (example_vm, false)

/-! ## System calls: descriptors and console output (userprog/syscall.c)

The definitions follow the file of the virtual-memory project; the file of the
user-programs project has the same `fd_to_file_store`, `fd_to_file`,
`remove_fd` and the same branch of `sys_write` for `STD_OUT`, its `create_fd`
has no `mapped`, and its `is_valid_uaddr` never calls `page_fetch`. -/

/-- The macro `STD_IN`. -/
def STD_IN : Int := 0

/-- The macro `STD_OUT`. -/
def STD_OUT : Int := 1

/-- The macro `MIN_USER_FD`. -/
def MIN_USER_FD : Int := 2

/-- The macro `MAX_PUTBUF_LEN`. -/
def MAX_PUTBUF_LEN : Nat := 300

/-- The C `struct file_store` of userprog/process.h without its list element;
`file` is the `struct file *`, 0 for `NULL`. -/
structure file_store where
  file : Nat
  fd : Int
  mapped : Bool
  deriving DecidableEq

/-- C `create_fd` on the list `files_open` of the running thread: the new list
and the result.  `mem_ok` tells whether `malloc` succeeds. -/
def create_fd (files_open : List file_store) (f : Nat) (mapped mem_ok : Bool) :
    List file_store × Int :=
  if f = 0 then (files_open, -1)
  else if !mem_ok then (files_open, -1)
  else
    let fd : Int :=
      match files_open with
      | [] => MIN_USER_FD
      | front :: _ => int32 (front.fd + 1)
    ({ file := f, fd := fd, mapped := mapped } :: files_open, fd)

/-- The loop of `fd_to_file_store` over the entries from index `k` on:
`file_s` is the variable of that name (`none` for `NULL`, else the index of an
entry), assigned at every entry that is visited; the result is its value after
the loop. -/
def fd_scan (fd : Int) : List file_store → Nat → Option Nat → Option Nat
  | [], _, file_s => file_s
  | e :: rest, k, _ => if e.fd = fd then some k else fd_scan fd rest (k + 1) (some k)

/-- C `fd_to_file_store`: the index in `files_open` of the entry that is
returned, `none` for `NULL`. -/
def fd_to_file_store (files_open : List file_store) (fd : Int) : Option Nat :=
  if fd < MIN_USER_FD then none else fd_scan fd files_open 0 none

/-- C `fd_to_file`: the `struct file *` of the entry that `fd_to_file_store`
returns, 0 for `NULL`. -/
def fd_to_file (files_open : List file_store) (fd : Int) : Nat :=
  match fd_to_file_store files_open fd with
  | none => 0
  | some k =>
    match files_open[k]? with
    | some file_s => file_s.file
    | none => 0

/-- C `remove_fd`: the list without the entry that `fd_to_file_store` returns,
and the `struct file *` of that entry, 0 for `NULL`. -/
def remove_fd (files_open : List file_store) (fd : Int) : List file_store × Nat :=
  match fd_to_file_store files_open fd with
  | none => (files_open, 0)
  | some k =>
    match files_open[k]? with
    | some file_s => (files_open.eraseIdx k, file_s.file)
    | none => (files_open, 0)

/-- The descriptors of a list are at least `MIN_USER_FD` and strictly
decreasing from the front. -/
def FdInv (l : List file_store) : Prop :=
  l.Pairwise (fun a b => b.fd < a.fd) ∧ ∀ e ∈ l, MIN_USER_FD ≤ e.fd

/-- C `is_valid_uaddr`, called by thread `cur`; `none` when a call inside does
not return.  `pagedir_get_page` is asked for the page of `uaddr`. -/
def is_valid_uaddr (vm : VM) (cur uaddr esp : Nat) (write mem_ok pt_ok : Bool) :
    Option (VM × Bool) :=
  if !is_user_vaddr uaddr then some (vm, false)
  else if pagedir_get_page vm cur (pg_round_down uaddr) = 0 then
    page_fetch vm cur uaddr esp write mem_ok pt_ok
  else if write then
    (page_is_writable vm cur (pg_round_down uaddr)).map (fun w => (vm, w))
  else some (vm, true)

/-- Modelled from the spec: the byte that the kernel reads at the user address
`uaddr` while thread `cur` runs, through the page directory of the thread;
`none` when the page is not mapped. -/
def user_load (vm : VM) (cur uaddr : Nat) : Option Nat :=
  (vm.pagedirs cur (pg_round_down uaddr)).map (fun e => vm.memory e.kpage (uaddr % PGSIZE))

/-- Modelled from the spec: `putbuf (buffer, n)` of lib/kernel/console.c, which
writes the `n` bytes at `buffer`, in order, to the console; the console is the
list of the bytes written to it so far.  The result is `none` when one of the
bytes is not mapped. -/
def putbuf (vm : VM) (cur : Nat) (console : List Nat) (buffer n : Nat) : Option (List Nat) :=
  ((List.range n).mapM (fun i => user_load vm cur (buffer + i))).map (fun bs => console ++ bs)

/-- Modelled from the spec: `file_write (f, buffer, size)` for a file whose
position is `pos`: the bytes at the user addresses from `buffer` are copied to
the file from `pos`, up to its end (the file does not grow); the result has the
number of bytes written.  The result is `none` when one of the bytes to copy is
not mapped.  The position of the file is not part of the state. -/
def file_write (vm : VM) (cur f buffer : Nat) (size pos : Int) : Option (VM × Int) :=
  let n := file_span (file_length vm f) size pos
  ((List.range n).mapM (fun i => user_load vm cur (buffer + i))).map (fun bs =>
    ({ vm with
       files := fun g =>
         if g = f then
           (List.range (vm.files f).length).map (fun i =>
             if pos.toNat ≤ i ∧ i < pos.toNat + n then bs.getD (i - pos.toNat) 0
             else (vm.files f).getD i 0)
         else vm.files g },
     (n : Int)))

/-- The loop `for (i = 0; i < size; i++)` of `sys_write` with `n` bytes left to
check, the next of them at `addr`: the result has false when a byte is not
valid, so that the caller exits. -/
def sys_write_check : Nat → VM → Nat → Nat → Nat → Bool → Bool → Option (VM × Bool)
  | 0, vm, _, _, _, _, _ => some (vm, true)
  | n + 1, vm, cur, addr, esp, mem_ok, pt_ok =>
    match is_valid_uaddr vm cur addr esp false mem_ok pt_ok with
    | none => none
    | some (vm1, false) => some (vm1, false)
    | some (vm1, true) => sys_write_check n vm1 cur (addr + 1) esp mem_ok pt_ok

/-- The loop `while (remaining > MAX_PUTBUF_LEN)` of `sys_write` followed by
the last `putbuf`; every call gets `buffer`.  The first argument bounds the
number of calls of `putbuf`. -/
def sys_write_putbuf : Nat → VM → Nat → List Nat → Nat → Nat → Option (List Nat)
  | 0, _, _, _, _, _ => none
  | fuel + 1, vm, cur, console, buffer, remaining =>
    if remaining > MAX_PUTBUF_LEN then
      match putbuf vm cur console buffer MAX_PUTBUF_LEN with
      | none => none
      | some console1 =>
        sys_write_putbuf fuel vm cur console1 buffer (remaining - MAX_PUTBUF_LEN)
    else putbuf vm cur console buffer remaining

/-- C `sys_write`, called by thread `cur` with the list `files_open`; `pos` is
the position of the file of `fd`.  The result is `none` when a call inside
does not return; else it has the machine, the console and the value returned,
`none` when the thread exits by `sys_exit (-1)`. -/
def sys_write (vm : VM) (cur : Nat) (console : List Nat) (files_open : List file_store)
    (pos : Int) (fd : Int) (buffer size esp : Nat) (mem_ok pt_ok : Bool) :
    Option (VM × List Nat × Option Int) :=
  if fd = STD_IN then some (vm, console, none)
  else
    match is_valid_uaddr vm cur buffer esp false mem_ok pt_ok with
    | none => none
    | some (vm0, false) => some (vm0, console, none)
    | some (vm0, true) =>
      match sys_write_check size vm0 cur buffer esp mem_ok pt_ok with
      | none => none
      | some (vm1, false) => some (vm1, console, none)
      | some (vm1, true) =>
        if fd = STD_OUT then
          (sys_write_putbuf (size / MAX_PUTBUF_LEN + 1) vm1 cur console buffer size).map
            (fun console1 => (vm1, console1, some (int32 (size : Int))))
        else
          let f := fd_to_file files_open fd
          if f = 0 then some (vm1, console, some (-1))
          else
            (file_write vm1 cur f buffer (int32 (size : Int)) pos).map
              (fun r => (r.1, console, some (int32 r.2)))

/-- The list of a thread that has opened the file 11 and then the file 12. -/
def example_files_open : List file_store :=
  (create_fd (create_fd [] 11 false true).1 12 false true).1

/-! # Theorems -/

/-! ## Buffer cache -/

theorem set_entry_same (bc : Nat → cache_entry) (i : Nat) (e : cache_entry) :
    set_entry bc i e i = e := by simp [set_entry]

theorem set_entry_other (bc : Nat → cache_entry) (i : Nat) (e : cache_entry) (j : Nat)
    (h : j ≠ i) : set_entry bc i e j = bc j := by simp [set_entry, h]

theorem find_scan_sector_congr {bc bc' : Nat → cache_entry}
    (h : ∀ k, (bc' k).sector = (bc k).sector) (s : Nat) (n i : Nat) :
    find_scan bc' s n i = find_scan bc s n i := by
  induction n generalizing i with
  | zero => rfl
  | succ n ih => simp [find_scan, h, ih]

theorem find_scan_some {bc : Nat → cache_entry} {s n i j : Nat}
    (h : find_scan bc s n i = some j) :
    i ≤ j ∧ j < i + n ∧ (bc j).sector = s ∧ ∀ k, i ≤ k → k < j → (bc k).sector ≠ s := by
  induction n generalizing i with
  | zero => simp [find_scan] at h
  | succ n ih =>
    unfold find_scan at h
    split at h
    · rename_i hs
      injection h with h
      subst h
      exact ⟨le_refl _, by omega, hs, fun k h1 h2 => by omega⟩
    · rename_i hs
      obtain ⟨h1, h2, h3, h4⟩ := ih h
      refine ⟨by omega, by omega, h3, fun k hk1 hk2 => ?_⟩
      by_cases hki : k = i
      · subst hki; exact hs
      · exact h4 k (by omega) hk2

theorem find_scan_none {bc : Nat → cache_entry} {s n i : Nat}
    (h : find_scan bc s n i = none) :
    ∀ k, i ≤ k → k < i + n → (bc k).sector ≠ s := by
  induction n generalizing i with
  | zero => intro k h1 h2; omega
  | succ n ih =>
    unfold find_scan at h
    split at h
    · simp at h
    · rename_i hs
      intro k h1 h2
      by_cases hki : k = i
      · subst hki; exact hs
      · exact ih h k (by omega) (by omega)

theorem find_scan_eq_some {bc : Nat → cache_entry} {s n i j : Nat}
    (h1 : i ≤ j) (h2 : j < i + n) (h3 : (bc j).sector = s)
    (h4 : ∀ k, i ≤ k → k < j → (bc k).sector ≠ s) :
    find_scan bc s n i = some j := by
  cases h : find_scan bc s n i with
  | none => exact absurd h3 (find_scan_none h j h1 h2)
  | some j' =>
    obtain ⟨a, b, c, d⟩ := find_scan_some h
    rcases Nat.lt_trichotomy j j' with hlt | heq | hgt
    · exact absurd h3 (d j h1 hlt)
    · rw [heq]
    · exact absurd c (h4 j' a hgt)

theorem find_scan_eq_none {bc : Nat → cache_entry} {s n i : Nat}
    (h : ∀ k, i ≤ k → k < i + n → (bc k).sector ≠ s) :
    find_scan bc s n i = none := by
  cases h' : find_scan bc s n i with
  | none => rfl
  | some j =>
    obtain ⟨a, b, c, _⟩ := find_scan_some h'
    exact absurd c (h j a b)

theorem clock_scan_spec (n i : Nat) (bc : Nat → cache_entry) (last : Option Nat) :
    (∀ k, ((clock_scan n i bc last).1 k).sector = (bc k).sector ∧
          ((clock_scan n i bc last).1 k).dirty = (bc k).dirty ∧
          ((clock_scan n i bc last).1 k).data = (bc k).data) ∧
    (n = 0 → (clock_scan n i bc last).2 = last) ∧
    (0 < n → ∃ j, (clock_scan n i bc last).2 = some j ∧ i ≤ j ∧ j < i + n ∧
          ((clock_scan n i bc last).1 j).accessed = false) := by
  induction n generalizing i bc last with
  | zero => exact ⟨fun k => ⟨rfl, rfl, rfl⟩, fun _ => rfl, fun h => absurd h (by omega)⟩
  | succ n ih =>
    unfold clock_scan
    by_cases hacc : (bc i).accessed = true
    · simp only [hacc, if_true]
      obtain ⟨h1, h2, h3⟩ := ih (i + 1) (set_entry bc i { bc i with accessed := false }) (some i)
      refine ⟨fun k => ?_, fun h => absurd h (by omega), fun _ => ?_⟩
      · obtain ⟨a, b, c⟩ := h1 k
        rw [a, b, c]
        by_cases hk : k = i
        · subst hk; simp [set_entry]
        · simp [set_entry, hk]
      · rcases Nat.eq_zero_or_pos n with hn | hn
        · subst hn
          refine ⟨i, h2 rfl, le_refl _, by omega, ?_⟩
          simp [clock_scan, set_entry]
        · obtain ⟨j, a, b, c, d⟩ := h3 hn
          exact ⟨j, a, by omega, by omega, d⟩
    · simp only [hacc]
      refine ⟨fun k => ⟨rfl, rfl, rfl⟩, fun h => absurd h (by omega), fun _ => ?_⟩
      exact ⟨i, rfl, le_refl _, by omega, by simpa using hacc⟩

theorem next_cache_entry_spec (fuel : Nat) (c : Cache) :
    ∃ c' j, next_cache_entry (fuel + 1) c = some (c', j) ∧ j < CACHE_SIZE ∧
      (∀ k, (c'.buffer_cache k).sector = (c.buffer_cache k).sector ∧
            (c'.buffer_cache k).data = (c.buffer_cache k).data) ∧
      (∀ k, k ≠ j → (c'.buffer_cache k).dirty = (c.buffer_cache k).dirty) ∧
      (c'.buffer_cache j).dirty = false ∧ (c'.buffer_cache j).accessed = false ∧
      c'.fs_device = (if (c.buffer_cache j).dirty
        then block_write c.fs_device (c.buffer_cache j).sector (c.buffer_cache j).data
        else c.fs_device) := by
  obtain ⟨h1, _, h3⟩ := clock_scan_spec CACHE_SIZE 0 c.buffer_cache none
  obtain ⟨j, hj, _, hlt, hacc⟩ := h3 (by decide)
  unfold next_cache_entry
  generalize hr : clock_scan CACHE_SIZE 0 c.buffer_cache none = r at *
  obtain ⟨bc, o⟩ := r
  simp only at hj h1 hacc
  subst hj
  simp only [hacc]
  obtain ⟨hs, hd, hdat⟩ := h1 j
  by_cases hdirty : (bc j).dirty = true
  · simp only [hdirty, Bool.not_false, if_true]
    refine ⟨_, j, rfl, by omega, fun k => ?_, fun k hk => ?_, ?_, ?_, ?_⟩
    · by_cases hk : k = j
      · subst hk; simp [set_entry, hs, hdat]
      · simp [set_entry, hk, (h1 k).1, (h1 k).2.2]
    · simp [set_entry, hk, (h1 k).2.1]
    · simp [set_entry]
    · simp [set_entry, hacc]
    · rw [← hd, hdirty]; simp [hs, hdat]
  · simp only [hdirty, Bool.not_false, if_true]
    refine ⟨_, j, rfl, by omega, fun k => ⟨(h1 k).1, (h1 k).2.2⟩, fun k _ => (h1 k).2.1, ?_, hacc, ?_⟩
    · simpa using hdirty
    · rw [← hd]; simp [hdirty]

theorem find_cache_entry_hit {c : Cache} {s j : Nat} (fuel : Nat)
    (h : find_scan c.buffer_cache s CACHE_SIZE 0 = some j) :
    find_cache_entry (fuel + 1) c s = some (c, j) := by
  unfold find_cache_entry
  simp [h, (find_scan_some h).2.2.1]

theorem find_cache_entry_miss {c : Cache} {s : Nat} (fuel : Nat)
    (h : find_scan c.buffer_cache s CACHE_SIZE 0 = none) :
    ∃ c1 j, next_cache_entry (fuel + 1) c = some (c1, j) ∧
      find_cache_entry (fuel + 1) c s =
        some ({ buffer_cache := set_entry c1.buffer_cache j
                  { sector := s, dirty := (c1.buffer_cache j).dirty,
                    accessed := (c1.buffer_cache j).accessed,
                    data := (block_read c1.fs_device s (c1.buffer_cache j).data).2 },
                fs_device := (block_read c1.fs_device s (c1.buffer_cache j).data).1 }, j) := by
  obtain ⟨c1, j, h1, _⟩ := next_cache_entry_spec fuel c
  refine ⟨c1, j, h1, ?_⟩
  unfold find_cache_entry
  simp [h, h1]

/-- The lookup returns in a sequential execution, whatever the cache holds. -/
theorem find_cache_entry_total (c : Cache) (s : Nat) :
    ∃ c1 j, find_cache_entry RETRIES c s = some (c1, j) ∧ j < CACHE_SIZE ∧
      (c1.buffer_cache j).sector = s := by
  cases h : find_scan c.buffer_cache s CACHE_SIZE 0 with
  | some j =>
    obtain ⟨_, h2, h3, _⟩ := find_scan_some h
    exact ⟨c, j, find_cache_entry_hit 0 h, by omega, h3⟩
  | none =>
    obtain ⟨c1, j, h1, h2⟩ := find_cache_entry_miss 0 h
    obtain ⟨c1', j', h1', hlt, _⟩ := next_cache_entry_spec 0 c
    rw [h1] at h1'
    injection h1' with h1'
    injection h1' with ha hb
    subst ha; subst hb
    exact ⟨_, j, h2, hlt, by simp [set_entry]⟩

theorem find_cache_entry_spec {c : Cache} (hinv : CacheInv c) (s : Nat) :
    ∃ c1 j, find_cache_entry RETRIES c s = some (c1, j) ∧ j < CACHE_SIZE ∧
      (c1.buffer_cache j).sector = s ∧
      find_scan c1.buffer_cache s CACHE_SIZE 0 = some j ∧
      CacheInv c1 ∧
      (∀ s', s' ≠ NONE → ∀ i, i < BLOCK_SECTOR_SIZE → view c1 s' i = view c s' i) ∧
      c1.fs_device.reads = (if resident c s then c.fs_device.reads else s :: c.fs_device.reads) := by
  cases h : find_scan c.buffer_cache s CACHE_SIZE 0 with
  | some j =>
    obtain ⟨_, h2, h3, _⟩ := find_scan_some h
    exact ⟨c, j, find_cache_entry_hit 0 h, by omega, h3, h, hinv, fun _ _ _ _ => rfl,
      by simp [resident, h]⟩
  | none =>
    have hno := find_scan_none h
    obtain ⟨c1, j, h1, h2⟩ := find_cache_entry_miss 0 h
    obtain ⟨c1', j', h1', hlt, hsd, hdirty, hdj, _, hdev⟩ := next_cache_entry_spec 0 c
    rw [h1] at h1'
    injection h1' with h1'
    injection h1' with ha hb
    subst ha; subst hb
    have hsec : ∀ k, (c1.buffer_cache k).sector = (c.buffer_cache k).sector := fun k => (hsd k).1
    have hdat : ∀ k, (c1.buffer_cache k).data = (c.buffer_cache k).data := fun k => (hsd k).2
    -- the victim's old sector differs from `s`
    have hvs : (c.buffer_cache j).sector ≠ s := hno j (Nat.zero_le _) (by omega)
    -- contents of the device after the write-back
    have hcont : ∀ s' i, i < BLOCK_SECTOR_SIZE → c1.fs_device.contents s' i =
        if s' = (c.buffer_cache j).sector ∧ (c.buffer_cache j).dirty = true
        then (c.buffer_cache j).data i else c.fs_device.contents s' i := by
      intro s' i hi
      rw [hdev]
      by_cases hd : (c.buffer_cache j).dirty = true
      · simp [hd, block_write, hi]
      · simp [hd]
    refine ⟨_, j, h2, hlt, by simp [set_entry], ?_, ?_, ?_, ?_⟩
    · apply find_scan_eq_some (Nat.zero_le _) (by omega) (by simp [set_entry])
      intro k _ hk
      have : k ≠ j := by omega
      simp only [set_entry, this, if_false, hsec]
      exact hno k (Nat.zero_le _) (by omega)
    · constructor
      · intro a b ha hb hab hne
        simp only [set_entry] at hab hne
        by_cases haj : a = j <;> by_cases hbj : b = j
        · omega
        · simp only [haj, hbj, if_true, if_false, hsec] at hab
          exact absurd hab.symm (hno b (Nat.zero_le _) (by omega))
        · simp only [haj, hbj, if_true, if_false, hsec] at hab
          exact absurd hab (hno a (Nat.zero_le _) (by omega))
        · simp only [haj, hbj, if_false, hsec] at hab hne
          exact hinv.uniq a b ha hb hab hne
      · intro a ha hda hne i hi
        simp only [set_entry, block_read] at hda hne ⊢
        by_cases haj : a = j
        · simp [haj, hi]
        · simp only [haj, if_false, hsec, hdat] at hda hne ⊢
          rw [hdirty a haj] at hda
          rw [hinv.clean a ha hda hne i hi, hcont _ _ hi]
          have : ¬ ((c.buffer_cache a).sector = (c.buffer_cache j).sector ∧ (c.buffer_cache j).dirty = true) := by
            intro ⟨h1, _⟩
            exact haj (hinv.uniq a j ha hlt h1 hne)
          simp [this]
    · intro s' hs' i hi
      have hnew : ∀ k, (set_entry c1.buffer_cache j
          { sector := s, dirty := (c1.buffer_cache j).dirty,
            accessed := (c1.buffer_cache j).accessed,
            data := (block_read c1.fs_device s (c1.buffer_cache j).data).2 } k).sector =
          if k = j then s else (c.buffer_cache k).sector := by
        intro k
        by_cases hk : k = j <;> simp [set_entry, hk, hsec]
      by_cases hss : s' = s
      · subst hss
        have hfs : find_scan (set_entry c1.buffer_cache j
            { sector := s', dirty := (c1.buffer_cache j).dirty,
              accessed := (c1.buffer_cache j).accessed,
              data := (block_read c1.fs_device s' (c1.buffer_cache j).data).2 }) s' CACHE_SIZE 0
            = some j := by
          apply find_scan_eq_some (Nat.zero_le _) (by omega) (by simp [set_entry])
          intro k _ hk
          rw [hnew k]
          have : k ≠ j := by omega
          simp only [this, if_false]
          exact hno k (Nat.zero_le _) (by omega)
        simp only [view]
        rw [hfs, h]
        simp only [set_entry, if_true, block_read, hi]
        rw [hcont _ _ hi]
        have : ¬ (s' = (c.buffer_cache j).sector ∧ (c.buffer_cache j).dirty = true) :=
          fun ⟨e, _⟩ => hvs e.symm
        simp [this]
      · cases hf : find_scan c.buffer_cache s' CACHE_SIZE 0 with
        | some a =>
          obtain ⟨_, ha, hsa, hfirst⟩ := find_scan_some hf
          by_cases haj : a = j
          · subst haj
            have hfs : find_scan (set_entry c1.buffer_cache a
                { sector := s, dirty := (c1.buffer_cache a).dirty,
                  accessed := (c1.buffer_cache a).accessed,
                  data := (block_read c1.fs_device s (c1.buffer_cache a).data).2 }) s' CACHE_SIZE 0
                = none := by
              apply find_scan_eq_none
              intro k _ hk
              rw [hnew k]
              by_cases hka : k = a
              · simp [hka]; exact fun e => hss e.symm
              · simp only [hka, if_false]
                intro e
                exact hka (hinv.uniq k a (by omega) (by omega) (by rw [e, hsa]) (by rw [e]; exact hs'))
            simp only [view]
            rw [hfs, hf]
            simp only [block_read]
            rw [hcont _ _ hi]
            by_cases hd : (c.buffer_cache a).dirty = true
            · simp [hd, hsa]
            · have := hinv.clean a (by omega) (by simpa using hd) (by rw [hsa]; exact hs') i hi
              rw [this, hsa]
              simp
          · have hfs : find_scan (set_entry c1.buffer_cache j
                { sector := s, dirty := (c1.buffer_cache j).dirty,
                  accessed := (c1.buffer_cache j).accessed,
                  data := (block_read c1.fs_device s (c1.buffer_cache j).data).2 }) s' CACHE_SIZE 0
                = some a := by
              apply find_scan_eq_some (Nat.zero_le _) (by omega)
              · rw [hnew a]; simp [haj, hsa]
              · intro k _ hk
                rw [hnew k]
                by_cases hkj : k = j
                · simp [hkj]; exact fun e => hss e.symm
                · simp only [hkj, if_false]
                  exact hfirst k (Nat.zero_le _) hk
            simp only [view]
            rw [hfs, hf]
            simp only [set_entry, haj, if_false, hdat]
        | none =>
          have hno' := find_scan_none hf
          have hfs : find_scan (set_entry c1.buffer_cache j
              { sector := s, dirty := (c1.buffer_cache j).dirty,
                accessed := (c1.buffer_cache j).accessed,
                data := (block_read c1.fs_device s (c1.buffer_cache j).data).2 }) s' CACHE_SIZE 0
              = none := by
            apply find_scan_eq_none
            intro k _ hk
            rw [hnew k]
            by_cases hkj : k = j
            · simp [hkj]; exact fun e => hss e.symm
            · simp only [hkj, if_false]
              exact hno' k (Nat.zero_le _) hk
          simp only [view]
          rw [hfs, hf]
          simp only [block_read]
          rw [hcont _ _ hi]
          have : ¬ (s' = (c.buffer_cache j).sector ∧ (c.buffer_cache j).dirty = true) :=
            fun ⟨e, _⟩ => hno' j (Nat.zero_le _) (by omega) e.symm
          simp [this]
    · simp [resident, h, block_read, hdev]
      split <;> simp [block_write]

theorem view_touch {c1 : Cache} {j s : Nat}
    (hj : find_scan c1.buffer_cache s CACHE_SIZE 0 = some j) (e : cache_entry)
    (hs : e.sector = s) (s' i : Nat) :
    view { buffer_cache := set_entry c1.buffer_cache j e, fs_device := c1.fs_device } s' i =
      if s' = s then e.data i else view c1 s' i := by
  obtain ⟨_, hlt, hjs, _⟩ := find_scan_some hj
  have hsec : ∀ k, (set_entry c1.buffer_cache j e k).sector = (c1.buffer_cache k).sector := by
    intro k
    by_cases hk : k = j
    · subst hk; simp [set_entry, hs, hjs]
    · simp [set_entry, hk]
  simp only [view]
  rw [find_scan_sector_congr hsec]
  by_cases hss : s' = s
  · subst hss
    rw [hj]
    simp [set_entry]
  · simp only [hss, if_false]
    cases hf : find_scan c1.buffer_cache s' CACHE_SIZE 0 with
    | none => rfl
    | some a =>
      have := (find_scan_some hf).2.2.1
      have haj : a ≠ j := by
        intro e1; subst e1; exact hss (this.symm.trans hjs)
      simp [set_entry, haj]

theorem inv_touch {c1 : Cache} (hinv : CacheInv c1) {j s : Nat} (hj : j < CACHE_SIZE)
    (hsec : (c1.buffer_cache j).sector = s) (e : cache_entry) (hs : e.sector = s)
    (hd : e.dirty = true ∨ (e.dirty = (c1.buffer_cache j).dirty ∧ e.data = (c1.buffer_cache j).data)) :
    CacheInv { buffer_cache := set_entry c1.buffer_cache j e, fs_device := c1.fs_device } := by
  have hsec' : ∀ k, (set_entry c1.buffer_cache j e k).sector = (c1.buffer_cache k).sector := by
    intro k
    by_cases hk : k = j
    · subst hk; simp [set_entry, hs, hsec]
    · simp [set_entry, hk]
  constructor
  · intro a b ha hb hab hne
    simp only [hsec'] at hab hne
    exact hinv.uniq a b ha hb hab hne
  · intro a ha hda hne i hi
    simp only [hsec'] at hne ⊢
    by_cases haj : a = j
    · subst haj
      simp only [set_entry, if_true] at hda ⊢
      rcases hd with hd | ⟨hd1, hd2⟩
      · rw [hd] at hda; exact absurd hda (by simp)
      · rw [hd2]
        rw [hd1] at hda
        exact hinv.clean a ha hda hne i hi
    · simp only [set_entry, haj, if_false] at hda ⊢
      exact hinv.clean a ha hda hne i hi

theorem cache_read_inv {c : Cache} (hinv : CacheInv c) (s : Nat) (size offset : Int)
    (h : 0 ≤ size ∧ 0 ≤ offset ∧ offset + size ≤ BLOCK_SECTOR_SIZE) :
    ∃ c' bytes, cache_read c s size offset = some (c', bytes) ∧ CacheInv c' ∧
      (∀ s', s' ≠ NONE → ∀ i, i < BLOCK_SECTOR_SIZE → view c' s' i = view c s' i) ∧
      (s ≠ NONE → bytes = memcpy_from (view c s) offset.toNat size.toNat) ∧
      c'.fs_device.reads = (if resident c s then c.fs_device.reads else s :: c.fs_device.reads) := by
  obtain ⟨c1, j, hfind, hlt, hsec, hscan, hinv1, hview, hreads⟩ := find_cache_entry_spec hinv s
  have hr : cache_read c s size offset = some
      ({ buffer_cache := set_entry c1.buffer_cache j
           { sector := (c1.buffer_cache j).sector, dirty := (c1.buffer_cache j).dirty,
             accessed := true, data := (c1.buffer_cache j).data },
         fs_device := c1.fs_device },
       memcpy_from (c1.buffer_cache j).data offset.toNat size.toNat) := by
    simp only [cache_read, h, and_self, if_true, hfind]
  refine ⟨_, _, hr, ?_, ?_, ?_, hreads⟩
  · exact inv_touch hinv1 hlt hsec _ hsec (Or.inr ⟨rfl, rfl⟩)
  · intro s' hs' i hi
    rw [view_touch hscan _ ?hs, ← hview s' hs' i hi]
    case hs => exact hsec
    by_cases hss : s' = s
    · subst hss; simp [view, hscan]
    · simp [hss]
  · intro hs
    simp only [memcpy_from]
    apply List.map_congr_left
    intro k hk
    have hk' : offset.toNat + k < BLOCK_SECTOR_SIZE := by
      have := List.mem_range.mp hk
      simp only [BLOCK_SECTOR_SIZE] at h ⊢
      omega
    rw [← hview s hs _ hk']
    simp [view, hscan]

theorem cache_write_inv {c : Cache} (hinv : CacheInv c) (s : Nat) (buffer : Nat → Nat)
    (size offset : Int)
    (h : 0 ≤ size ∧ 0 ≤ offset ∧ offset + size ≤ BLOCK_SECTOR_SIZE) :
    ∃ c', cache_write c s buffer size offset = some c' ∧ CacheInv c' ∧
      (∀ s', s' ≠ NONE → ∀ i, i < BLOCK_SECTOR_SIZE → view c' s' i =
        if s' = s ∧ offset.toNat ≤ i ∧ i < offset.toNat + size.toNat
        then buffer (i - offset.toNat) else view c s' i) := by
  obtain ⟨c1, j, hfind, hlt, hsec, hscan, hinv1, hview, _⟩ := find_cache_entry_spec hinv s
  have hw : cache_write c s buffer size offset = some
      { buffer_cache := set_entry c1.buffer_cache j
          { sector := (c1.buffer_cache j).sector, dirty := true, accessed := true,
            data := memcpy_to (c1.buffer_cache j).data offset.toNat buffer size.toNat },
        fs_device := c1.fs_device } := by
    simp only [cache_write, h, and_self, if_true, hfind]
  refine ⟨_, hw, ?_, ?_⟩
  · exact inv_touch hinv1 hlt hsec _ hsec (Or.inl rfl)
  · intro s' hs' i hi
    rw [view_touch hscan _ ?hs, ← hview s' hs' i hi]
    case hs => exact hsec
    by_cases hss : s' = s
    · subst hss
      simp only [memcpy_to, true_and, if_true]
      split
      · rfl
      · simp [view, hscan]
    · simp [hss]

theorem cache_zero_inv {c : Cache} (hinv : CacheInv c) (s : Nat) :
    ∃ c', cache_zero c s = some c' ∧ CacheInv c' ∧
      (∀ s', s' ≠ NONE → ∀ i, i < BLOCK_SECTOR_SIZE → view c' s' i =
        if s' = s then 0 else view c s' i) := by
  obtain ⟨c1, j, hfind, hlt, hsec, hscan, hinv1, hview, _⟩ := find_cache_entry_spec hinv s
  have hz : cache_zero c s = some
      { buffer_cache := set_entry c1.buffer_cache j
          { sector := (c1.buffer_cache j).sector, dirty := true, accessed := true,
            data := memset_zero (c1.buffer_cache j).data },
        fs_device := c1.fs_device } := by
    simp only [cache_zero, hfind]
  refine ⟨_, hz, ?_, ?_⟩
  · exact inv_touch hinv1 hlt hsec _ hsec (Or.inl rfl)
  · intro s' hs' i hi
    rw [view_touch hscan _ ?hs, ← hview s' hs' i hi]
    case hs => exact hsec
    by_cases hss : s' = s
    · subst hss
      simp [memset_zero, hi]
    · simp [hss]

/-- Writing one dirty entry back keeps the cache coherent and the view. -/
theorem flush_entry_inv {c : Cache} (hinv : CacheInv c) {i : Nat} (hi : i < CACHE_SIZE) :
    CacheInv { buffer_cache := set_entry c.buffer_cache i
                 { sector := (c.buffer_cache i).sector, dirty := false,
                   accessed := (c.buffer_cache i).accessed, data := (c.buffer_cache i).data },
               fs_device := block_write c.fs_device (c.buffer_cache i).sector (c.buffer_cache i).data } ∧
    (∀ s', s' ≠ NONE → ∀ b, b < BLOCK_SECTOR_SIZE →
      view { buffer_cache := set_entry c.buffer_cache i
               { sector := (c.buffer_cache i).sector, dirty := false,
                 accessed := (c.buffer_cache i).accessed, data := (c.buffer_cache i).data },
             fs_device := block_write c.fs_device (c.buffer_cache i).sector (c.buffer_cache i).data } s' b
        = view c s' b) := by
  have hsec : ∀ k, (set_entry c.buffer_cache i
      { sector := (c.buffer_cache i).sector, dirty := false,
        accessed := (c.buffer_cache i).accessed, data := (c.buffer_cache i).data } k).sector
      = (c.buffer_cache k).sector := by
    intro k
    by_cases hk : k = i
    · subst hk; simp [set_entry]
    · simp [set_entry, hk]
  have hdat : ∀ k, (set_entry c.buffer_cache i
      { sector := (c.buffer_cache i).sector, dirty := false,
        accessed := (c.buffer_cache i).accessed, data := (c.buffer_cache i).data } k).data
      = (c.buffer_cache k).data := by
    intro k
    by_cases hk : k = i
    · subst hk; simp [set_entry]
    · simp [set_entry, hk]
  constructor
  · constructor
    · intro a b ha hb hab hne
      simp only [hsec] at hab hne
      exact hinv.uniq a b ha hb hab hne
    · intro a ha hda hne b hb
      simp only [hsec, hdat] at hne ⊢
      simp only [block_write, hb, if_true]
      by_cases hai : a = i
      · subst hai; simp
      · simp only [set_entry, hai, if_false] at hda
        have hss : (c.buffer_cache a).sector ≠ (c.buffer_cache i).sector :=
          fun e => hai (hinv.uniq a i ha hi e hne)
        simp only [hss, if_false]
        exact hinv.clean a ha hda hne b hb
  · intro s' hs' b hb
    simp only [view]
    rw [find_scan_sector_congr hsec]
    cases hf : find_scan c.buffer_cache s' CACHE_SIZE 0 with
    | some a => simp only [hdat]
    | none =>
      have hne : s' ≠ (c.buffer_cache i).sector :=
        fun e => find_scan_none hf i (Nat.zero_le _) (by omega) e.symm
      simp [block_write, hne]

theorem cache_save_loop_spec (n i : Nat) (c : Cache) (hinv : CacheInv c)
    (hb : i + n ≤ CACHE_SIZE) :
    CacheInv (cache_save_loop n i c) ∧
    (∀ k, ((cache_save_loop n i c).buffer_cache k).sector = (c.buffer_cache k).sector) ∧
    (∀ k, i ≤ k → k < i + n → ((cache_save_loop n i c).buffer_cache k).dirty = false) ∧
    (∀ k, k < i → ((cache_save_loop n i c).buffer_cache k).dirty = (c.buffer_cache k).dirty) ∧
    (∀ s', s' ≠ NONE → ∀ b, b < BLOCK_SECTOR_SIZE →
      view (cache_save_loop n i c) s' b = view c s' b) := by
  induction n generalizing i c with
  | zero =>
    exact ⟨hinv, fun _ => rfl, fun k h1 h2 => absurd h2 (by omega), fun _ _ => rfl,
      fun _ _ _ _ => rfl⟩
  | succ n ih =>
    unfold cache_save_loop
    by_cases hd : (c.buffer_cache i).dirty = true
    · simp only [hd, if_true]
      obtain ⟨hinv1, hview1⟩ := @flush_entry_inv c hinv i (by omega)
      obtain ⟨h1, h2, h3, h4, h5⟩ := ih (i + 1) _ hinv1 (by omega)
      refine ⟨h1, fun k => ?_, fun k hk1 hk2 => ?_, fun k hk => ?_, fun s' hs' b hb => ?_⟩
      · rw [h2 k]
        by_cases hk : k = i
        · subst hk; simp [set_entry]
        · simp [set_entry, hk]
      · by_cases hk : k = i
        · subst hk
          rw [h4 k (by omega)]
          simp [set_entry]
        · exact h3 k (by omega) (by omega)
      · rw [h4 k (by omega)]
        have : k ≠ i := by omega
        simp [set_entry, this]
      · rw [h5 s' hs' b hb, hview1 s' hs' b hb]
    · have hd' : (c.buffer_cache i).dirty = false := by simpa using hd
      simp only [hd', Bool.false_eq_true, if_false]
      obtain ⟨h1, h2, h3, h4, h5⟩ := ih (i + 1) c hinv (by omega)
      refine ⟨h1, h2, fun k hk1 hk2 => ?_, fun k hk => h4 k (by omega), h5⟩
      by_cases hk : k = i
      · subst hk
        rw [h4 k (by omega)]
        exact hd'
      · exact h3 k (by omega) (by omega)

theorem cache_save_inv {c : Cache} (hinv : CacheInv c) :
    CacheInv (cache_save c) ∧
    (∀ k, k < CACHE_SIZE → ((cache_save c).buffer_cache k).dirty = false) ∧
    (∀ s', s' ≠ NONE → ∀ b, b < BLOCK_SECTOR_SIZE → view (cache_save c) s' b = view c s' b) := by
  obtain ⟨h1, _, h3, _, h5⟩ := cache_save_loop_spec CACHE_SIZE 0 c hinv (by omega)
  exact ⟨h1, fun k hk => h3 k (Nat.zero_le _) (by omega), h5⟩

theorem cache_init_inv (dev : Block) : CacheInv (cache_init dev) := by
  constructor
  · intro j k _ _ _ hne
    exact absurd rfl hne
  · intro j _ _ hne
    exact absurd rfl hne

theorem view_cache_init (dev : Block) (s : Nat) (hs : s ≠ NONE) (i : Nat) :
    view (cache_init dev) s i = dev.contents s i := by
  have : find_scan (cache_init dev).buffer_cache s CACHE_SIZE 0 = none := by
    apply find_scan_eq_none
    intro k _ _
    exact fun e => hs e.symm
  simp only [view, this]
  rfl

/-- A sequence of calls whose assertions hold runs to the end, keeps the cache
coherent, and the view follows the logical contents. -/
theorem cache_run_spec (ops : List CacheOp) (c : Cache) (m : Nat → Nat → Nat)
    (hinv : CacheInv c)
    (hview : ∀ s, s ≠ NONE → ∀ i, i < BLOCK_SECTOR_SIZE → view c s i = m s i)
    (hok : ∀ op ∈ ops, op.ok = true) :
    ∃ c', cache_run c ops = some c' ∧ CacheInv c' ∧
      (∀ s, s ≠ NONE → ∀ i, i < BLOCK_SECTOR_SIZE → view c' s i = logical m ops s i) := by
  induction ops generalizing c m with
  | nil => exact ⟨c, rfl, hinv, hview⟩
  | cons op ops ih =>
    have hop := hok op (List.mem_cons_self _ _)
    have hrest : ∀ op' ∈ ops, op'.ok = true := fun op' h => hok op' (List.mem_cons_of_mem _ h)
    have key : ∃ c1, op.run c = some c1 ∧ CacheInv c1 ∧
        (∀ s, s ≠ NONE → ∀ i, i < BLOCK_SECTOR_SIZE → view c1 s i = logical_step m op s i) := by
      cases op with
      | write sector buffer size offset =>
        simp only [CacheOp.ok, decide_eq_true_eq] at hop
        obtain ⟨c1, h1, h2, h3⟩ := cache_write_inv hinv sector buffer size offset hop
        refine ⟨c1, h1, h2, fun s hs i hi => ?_⟩
        rw [h3 s hs i hi, hview s hs i hi]
        rfl
      | read sector size offset =>
        simp only [CacheOp.ok, decide_eq_true_eq] at hop
        obtain ⟨c1, bytes, h1, h2, h3, _⟩ := cache_read_inv hinv sector size offset hop
        refine ⟨c1, by simp [CacheOp.run, h1], h2, fun s hs i hi => ?_⟩
        rw [h3 s hs i hi, hview s hs i hi]
        rfl
      | zero sector =>
        obtain ⟨c1, h1, h2, h3⟩ := cache_zero_inv hinv sector
        refine ⟨c1, h1, h2, fun s hs i hi => ?_⟩
        rw [h3 s hs i hi]
        simp only [logical_step, hi, and_true]
        split
        · rfl
        · exact hview s hs i hi
      | save =>
        obtain ⟨h1, _, h3⟩ := cache_save_inv hinv
        exact ⟨_, rfl, h1, fun s hs i hi => by rw [h3 s hs i hi, hview s hs i hi]; rfl⟩
    obtain ⟨c1, hrun, hinv1, hview1⟩ := key
    obtain ⟨c', h1, h2, h3⟩ := ih c1 (logical_step m op) hinv1 hview1 hrest
    refine ⟨c', ?_, h2, ?_⟩
    · simp only [cache_run, hrun, h1]
    · intro s hs i hi
      rw [h3 s hs i hi]
      rfl

/-- What the lookup returns on any cache: the entry it hands out holds the
sector and is the one a later lookup finds; the device is read exactly when the
sector was not resident. -/
theorem find_cache_entry_basic (c : Cache) (s : Nat) :
    ∃ c1 j, find_cache_entry RETRIES c s = some (c1, j) ∧ j < CACHE_SIZE ∧
      (c1.buffer_cache j).sector = s ∧
      find_scan c1.buffer_cache s CACHE_SIZE 0 = some j ∧
      c1.fs_device.reads = (if resident c s then c.fs_device.reads else s :: c.fs_device.reads) := by
  cases h : find_scan c.buffer_cache s CACHE_SIZE 0 with
  | some j =>
    obtain ⟨_, h2, h3, _⟩ := find_scan_some h
    exact ⟨c, j, find_cache_entry_hit 0 h, by omega, h3, h, by simp [resident, h]⟩
  | none =>
    have hno := find_scan_none h
    obtain ⟨c1, j, h1, h2⟩ := find_cache_entry_miss 0 h
    obtain ⟨c1', j', h1', hlt, hsd, _, _, _, hdev⟩ := next_cache_entry_spec 0 c
    rw [h1] at h1'
    injection h1' with h1'
    injection h1' with ha hb
    subst ha; subst hb
    refine ⟨_, j, h2, hlt, by simp [set_entry], ?_, ?_⟩
    · apply find_scan_eq_some (Nat.zero_le _) (by omega) (by simp [set_entry])
      intro k _ hk
      have : k ≠ j := by omega
      simp only [set_entry, this, if_false, (hsd k).1]
      exact hno k (Nat.zero_le _) (by omega)
    · simp [resident, h, block_read, hdev]
      split <;> simp [block_write]

/-- C1: in a sequential execution from `cache_init`, after any sequence of
cache calls whose assertions hold (long enough to evict or not), `cache_read
(sector, dst, size, offset)` on a device sector returns bytes `[offset, offset
+ size)` of the sector's logical contents: the device's original bytes
overwritten in order by the earlier `cache_zero` and `cache_write` calls, each
write changing exactly its byte range. -/
theorem cache_read_returns_logical_contents (dev : Block) (ops : List CacheOp)
    (hok : ∀ op ∈ ops, op.ok = true) (sector : Nat) (size offset : Int)
    (hsector : sector ≠ NONE) (hsize : 0 ≤ size) (hoffset : 0 ≤ offset)
    (hend : offset + size ≤ 512) :
    ∃ c c', cache_run (cache_init dev) ops = some c ∧
      cache_read c sector size offset =
        some (c', memcpy_from (logical dev.contents ops sector) offset.toNat size.toNat) := by
  obtain ⟨c, hrun, hinv, hview⟩ := cache_run_spec ops (cache_init dev) dev.contents
    (cache_init_inv dev) (fun s hs i _ => view_cache_init dev s hs i) hok
  obtain ⟨c', bytes, hread, _, _, hbytes, _⟩ := cache_read_inv hinv sector size offset
    ⟨hsize, hoffset, by simpa [BLOCK_SECTOR_SIZE] using hend⟩
  refine ⟨c, c', hrun, ?_⟩
  rw [hread, hbytes hsector]
  congr 2
  simp only [memcpy_from]
  apply List.map_congr_left
  intro k hk
  have := List.mem_range.mp hk
  exact hview sector hsector _ (by simp only [BLOCK_SECTOR_SIZE]; omega)

/-- One byte written at offset 511 of sector 7 is read back, next to the
device's original byte 510, after 70 other sectors went through the 64-entry
cache. -/
theorem cache_read_returns_logical_contents_witness :
    (∀ op ∈ CacheOp.write 7 (fun _ => 171) 1 511 ::
        (List.range 70).map (fun k => CacheOp.zero (100 + k)), op.ok = true) ∧
    ∃ c c', cache_run (cache_init example_dev)
        (CacheOp.write 7 (fun _ => 171) 1 511 ::
          (List.range 70).map (fun k => CacheOp.zero (100 + k))) = some c ∧
      cache_read c 7 2 510 = some (c', [5, 171]) := by
  have hok : ∀ op ∈ CacheOp.write 7 (fun _ => 171) 1 511 ::
      (List.range 70).map (fun k => CacheOp.zero (100 + k)), op.ok = true := by
    intro op hop
    rcases List.mem_cons.mp hop with rfl | hop
    · decide
    · obtain ⟨k, _, rfl⟩ := List.mem_map.mp hop
      rfl
  exact ⟨hok, cache_read_returns_logical_contents example_dev _ hok 7 2 510
    (by decide) (by decide) (by decide) (by decide)⟩

/-- C2: after `cache_save` in a sequential execution every entry is clean,
every entry that holds a sector equals that sector on the device, and the
device holds the logical contents (the bytes written through the cache). -/
theorem cache_save_writes_everything_back (dev : Block) (ops : List CacheOp)
    (hok : ∀ op ∈ ops, op.ok = true) :
    ∃ c, cache_run (cache_init dev) ops = some c ∧
      (∀ k, k < CACHE_SIZE → ((cache_save c).buffer_cache k).dirty = false ∧
        (((cache_save c).buffer_cache k).sector ≠ NONE → ∀ i, i < BLOCK_SECTOR_SIZE →
          (cache_save c).fs_device.contents ((cache_save c).buffer_cache k).sector i =
            ((cache_save c).buffer_cache k).data i)) ∧
      (∀ s, s ≠ NONE → ∀ i, i < BLOCK_SECTOR_SIZE →
        (cache_save c).fs_device.contents s i = logical dev.contents ops s i) := by
  obtain ⟨c, hrun, hinv, hview⟩ := cache_run_spec ops (cache_init dev) dev.contents
    (cache_init_inv dev) (fun s hs i _ => view_cache_init dev s hs i) hok
  obtain ⟨hinv', hclean, hview'⟩ := cache_save_inv hinv
  refine ⟨c, hrun, fun k hk => ⟨hclean k hk, fun hne i hi => ?_⟩, fun s hs i hi => ?_⟩
  · exact (hinv'.clean k hk (hclean k hk) hne i hi).symm
  · rw [← hview s hs i hi, ← hview' s hs i hi]
    simp only [view]
    cases hf : find_scan (cache_save c).buffer_cache s CACHE_SIZE 0 with
    | none => rfl
    | some a =>
      obtain ⟨_, ha, hsa, _⟩ := find_scan_some hf
      have := hinv'.clean a (by omega) (hclean a (by omega)) (by rw [hsa]; exact hs) i hi
      simp only [this, hsa]

/-- C3 (as stated, refuted): on a freshly initialised cache `cache_zero (5)`
reads sector 5 from the block device. -/
theorem cache_zero_reads_device_on_miss :
    (cache_zero (cache_init example_dev) 5).map (fun c => c.fs_device.reads) = some [5] := by
  rfl

/-- C3 (amended): `cache_zero (sector)` leaves the sector's cache buffer all
zero and marked dirty; it reads nothing from the block device when the sector
is resident, and reads the sector once when it is not. -/
theorem cache_zero_zeroes_and_reads_on_miss (c : Cache) (sector : Nat) :
    ∃ c' j, cache_zero c sector = some c' ∧ j < CACHE_SIZE ∧
      find_scan c'.buffer_cache sector CACHE_SIZE 0 = some j ∧
      (c'.buffer_cache j).sector = sector ∧ (c'.buffer_cache j).dirty = true ∧
      (∀ i, i < BLOCK_SECTOR_SIZE → (c'.buffer_cache j).data i = 0) ∧
      c'.fs_device.reads =
        (if resident c sector then c.fs_device.reads else sector :: c.fs_device.reads) := by
  obtain ⟨c1, j, hfind, hlt, hsec, hscan, hreads⟩ := find_cache_entry_basic c sector
  have hz : cache_zero c sector = some
      { buffer_cache := set_entry c1.buffer_cache j
          { sector := (c1.buffer_cache j).sector, dirty := true, accessed := true,
            data := memset_zero (c1.buffer_cache j).data },
        fs_device := c1.fs_device } := by
    simp only [cache_zero, hfind]
  refine ⟨_, j, hz, hlt, ?_, ?_, ?_, ?_, hreads⟩
  · have hsec' : ∀ k, (set_entry c1.buffer_cache j
        { sector := (c1.buffer_cache j).sector, dirty := true, accessed := true,
          data := memset_zero (c1.buffer_cache j).data } k).sector = (c1.buffer_cache k).sector := by
      intro k
      by_cases hk : k = j
      · subst hk; simp [set_entry]
      · simp [set_entry, hk]
    show find_scan (set_entry _ _ _) _ _ _ = _
    rw [find_scan_sector_congr hsec', hscan]
  · simp [set_entry, hsec]
  · simp [set_entry]
  · intro i hi
    simp [set_entry, memset_zero, hi]

/-- Four bytes written at offset 0 of sector 3 are on the device after the
flush. -/
theorem cache_save_writes_everything_back_witness :
    (∀ op ∈ [CacheOp.write 3 (fun i => 84 + i) 4 0], op.ok = true) ∧
    ∃ c, cache_run (cache_init example_dev) [CacheOp.write 3 (fun i => 84 + i) 4 0] = some c ∧
      (cache_save c).fs_device.contents 3 1 = 85 := by
  refine ⟨by decide, ?_⟩
  obtain ⟨c, hrun, _, hdev⟩ := cache_save_writes_everything_back example_dev
    [CacheOp.write 3 (fun i => 84 + i) 4 0] (by decide)
  exact ⟨c, hrun, hdev 3 (by decide) 1 (by decide)⟩

/-! ## Inodes -/

/-- `cache_read` returns on any cache when its assertions hold. -/
theorem cache_read_total (c : Cache) (s : Nat) (size offset : Int)
    (h : 0 ≤ size ∧ 0 ≤ offset ∧ offset + size ≤ BLOCK_SECTOR_SIZE) :
    ∃ c' bytes, cache_read c s size offset = some (c', bytes) ∧ bytes.length = size.toNat := by
  obtain ⟨c1, j, hfind, _⟩ := find_cache_entry_total c s
  have hr : cache_read c s size offset = some
      ({ buffer_cache := set_entry c1.buffer_cache j
           { sector := (c1.buffer_cache j).sector, dirty := (c1.buffer_cache j).dirty,
             accessed := true, data := (c1.buffer_cache j).data },
         fs_device := c1.fs_device },
       memcpy_from (c1.buffer_cache j).data offset.toNat size.toNat) := by
    simp only [cache_read, h, and_self, if_true, hfind]
  exact ⟨_, _, hr, by simp [memcpy_from]⟩

/-- `cache_write` returns on any cache when its assertions hold. -/
theorem cache_write_total (c : Cache) (s : Nat) (buffer : Nat → Nat) (size offset : Int)
    (h : 0 ≤ size ∧ 0 ≤ offset ∧ offset + size ≤ BLOCK_SECTOR_SIZE) :
    ∃ c', cache_write c s buffer size offset = some c' := by
  obtain ⟨c1, j, hfind, _⟩ := find_cache_entry_total c s
  exact ⟨_, by simp only [cache_write, h, and_self, if_true, hfind]; rfl⟩

/-- `cache_zero` returns on any cache. -/
theorem cache_zero_total (c : Cache) (s : Nat) : ∃ c', cache_zero c s = some c' := by
  obtain ⟨c1, j, hfind, _⟩ := find_cache_entry_total c s
  exact ⟨_, by simp only [cache_zero, hfind]; rfl⟩

theorem inode_at_mem {fs : FS} {a : Nat} {n : inode} (h : inode_at fs a = some n) :
    n ∈ fs.open_inodes ∧ n.addr = a := by
  unfold inode_at at h
  exact ⟨List.mem_of_find?_eq_some h, by simpa using List.find?_some h⟩

theorem find_eq_of_nodup {α β : Type} [DecidableEq β] (f : α → β) :
    ∀ (l : List α), (l.map f).Nodup → ∀ n ∈ l, l.find? (fun m => decide (f m = f n)) = some n := by
  intro l
  induction l with
  | nil => intro _ n hn; simp at hn
  | cons x xs ih =>
    intro hnd n hn
    rw [List.map_cons, List.nodup_cons] at hnd
    rcases List.mem_cons.mp hn with rfl | hn'
    · simp
    · have hne : f x ≠ f n := by
        intro e
        exact hnd.1 (e ▸ List.mem_map_of_mem f hn')
      rw [List.find?_cons_of_neg _ (by simpa using hne)]
      exact ih hnd.2 n hn'

theorem inode_at_of_mem {fs : FS} (hinv : OpenInv fs) {n : inode} (hn : n ∈ fs.open_inodes) :
    inode_at fs n.addr = some n :=
  find_eq_of_nodup (fun m : inode => m.addr) fs.open_inodes hinv.addrs n hn

theorem inode_update_map_sector (l : List inode) (a : Nat) (f : inode → inode)
    (hf : ∀ n, (f n).sector = n.sector) :
    (l.map (fun n => if n.addr = a then f n else n)).map (fun n => n.sector)
      = l.map (fun n => n.sector) := by
  rw [List.map_map]
  apply List.map_congr_left
  intro n _
  simp only [Function.comp]
  split
  · exact hf n
  · rfl

theorem inode_update_map_addr (l : List inode) (a : Nat) (f : inode → inode)
    (hf : ∀ n, (f n).addr = n.addr) :
    (l.map (fun n => if n.addr = a then f n else n)).map (fun n => n.addr)
      = l.map (fun n => n.addr) := by
  rw [List.map_map]
  apply List.map_congr_left
  intro n _
  simp only [Function.comp]
  split
  · exact hf n
  · rfl

theorem inode_update_inv {fs : FS} (hinv : OpenInv fs) (a : Nat) (f : inode → inode)
    (hs : ∀ n, (f n).sector = n.sector) (ha : ∀ n, (f n).addr = n.addr) :
    OpenInv (inode_update fs a f) := by
  constructor
  · simp only [inode_update]
    rw [inode_update_map_sector _ _ _ hs]
    exact hinv.sectors
  · simp only [inode_update]
    rw [inode_update_map_addr _ _ _ ha]
    exact hinv.addrs
  · intro n hn
    simp only [inode_update, List.mem_map] at hn
    obtain ⟨m, hm, rfl⟩ := hn
    have := hinv.fresh m hm
    split
    · rw [ha]; exact this
    · exact this

theorem inode_at_update {fs : FS} {a : Nat} {n : inode} (h : inode_at fs a = some n)
    (f : inode → inode) (ha : ∀ m, (f m).addr = m.addr) :
    inode_at (inode_update fs a f) a = some (f n) := by
  unfold inode_at inode_update at *
  simp only
  generalize fs.open_inodes = l at h
  induction l with
  | nil => simp at h
  | cons x xs ih =>
    by_cases hx : x.addr = a
    · simp only [List.find?_cons, hx, decide_True] at h
      injection h with h
      subst h
      simp [hx, ha]
    · rw [List.find?_cons_of_neg _ (by simpa using hx)] at h
      simp only [List.map_cons, hx, if_false]
      rw [List.find?_cons_of_neg _ (by simpa using hx)]
      exact ih h

theorem inode_open_hit {fs : FS} (hinv : OpenInv fs) {n : inode} (hn : n ∈ fs.open_inodes)
    (mem_ok : Bool) :
    inode_open fs n.sector mem_ok =
      some (inode_update fs n.addr (fun m => { m with open_cnt := m.open_cnt + 1 }), some n.addr) := by
  have h1 := find_eq_of_nodup (fun m : inode => m.sector) fs.open_inodes hinv.sectors n hn
  have h2 := inode_at_of_mem hinv hn
  simp only [inode_open, h1, inode_reopen, h2]

theorem inode_open_miss {fs : FS} {s : Nat} (hs : ∀ n ∈ fs.open_inodes, n.sector ≠ s) :
    ∃ c bytes, inode_open fs s true =
      some ({ cache := c, free_map := fs.free_map,
              open_inodes :=
                { addr := fs.heap_next, sector := s, open_cnt := 1, removed := false,
                  deny_write_cnt := 0, data := inode_disk_of_bytes bytes } :: fs.open_inodes,
              heap_next := fs.heap_next + 1 }, some fs.heap_next) := by
  obtain ⟨c, bytes, hr, _⟩ := cache_read_total fs.cache s BLOCK_SECTOR_SIZE 0
    (by simp [BLOCK_SECTOR_SIZE])
  have h1 : fs.open_inodes.find? (fun n => decide (n.sector = s)) = none := by
    simpa using hs
  exact ⟨c, bytes, by simp only [inode_open, h1, hr, if_true]⟩

theorem inode_open_inv {fs : FS} (hinv : OpenInv fs) (s : Nat) (mem_ok : Bool) {r : FS × Option Nat}
    (h : inode_open fs s mem_ok = some r) : OpenInv r.1 := by
  cases hf : fs.open_inodes.find? (fun n => decide (n.sector = s)) with
  | some n =>
    have hn := List.mem_of_find?_eq_some hf
    have hs : n.sector = s := by simpa using List.find?_some hf
    rw [← hs, inode_open_hit hinv hn] at h
    injection h with h
    subst h
    exact inode_update_inv hinv _ _ (fun _ => rfl) (fun _ => rfl)
  | none =>
    cases mem_ok with
    | false =>
      simp only [inode_open, hf, Bool.false_eq_true, if_false] at h
      injection h with h
      subst h
      exact hinv
    | true =>
      have hs : ∀ n ∈ fs.open_inodes, n.sector ≠ s := by simpa using hf
      obtain ⟨c, bytes, h'⟩ := inode_open_miss hs
      rw [h'] at h
      injection h with h
      subst h
      constructor
      · simp only [List.map_cons, List.nodup_cons]
        refine ⟨?_, hinv.sectors⟩
        intro hmem
        obtain ⟨m, hm, hms⟩ := List.mem_map.mp hmem
        exact hs m hm hms
      · simp only [List.map_cons, List.nodup_cons]
        refine ⟨?_, hinv.addrs⟩
        intro hmem
        obtain ⟨m, hm, hma⟩ := List.mem_map.mp hmem
        have := hinv.fresh m hm
        omega
      · intro m hm
        rcases List.mem_cons.mp hm with rfl | hm
        · simp
        · have := hinv.fresh m hm
          show m.addr < fs.heap_next + 1
          omega

theorem erase_inv {fs : FS} (hinv : OpenInv fs) (a : Nat) (c : Cache) (fm : FreeMap) :
    OpenInv { cache := c, free_map := fm,
              open_inodes := fs.open_inodes.eraseP (fun m => decide (m.addr = a)),
              heap_next := fs.heap_next } := by
  have hsub : List.Sublist (fs.open_inodes.eraseP (fun m : inode => decide (m.addr = a)))
      fs.open_inodes := List.eraseP_sublist fs.open_inodes
  constructor
  · exact hinv.sectors.sublist (hsub.map _)
  · exact hinv.addrs.sublist (hsub.map _)
  · intro n hn
    exact hinv.fresh n (hsub.subset hn)

theorem inode_close_inv {fs : FS} (hinv : OpenInv fs) (inode : Option Nat) {fs' : FS}
    (h : inode_close fs inode = some fs') : OpenInv fs' := by
  cases inode with
  | none =>
    simp only [inode_close] at h
    injection h with h
    subst h
    exact hinv
  | some a =>
    simp only [inode_close] at h
    cases hat : inode_at fs a with
    | none => simp [hat] at h
    | some n =>
      simp only [hat] at h
      by_cases hcnt : n.open_cnt - 1 = 0
      · simp only [hcnt, if_true] at h
        by_cases hrem : n.removed = true
        · simp only [hrem, if_true] at h
          cases hrel : release_loop n.data.length.toNat fs.cache
              (free_map_release fs.free_map n.sector) n.data 0 with
          | none => simp [hrel] at h
          | some r =>
            obtain ⟨c, fm⟩ := r
            simp only [hrel] at h
            injection h with h
            subst h
            exact erase_inv hinv a c fm
        · simp only [hrem] at h
          injection h with h
          subst h
          exact erase_inv hinv a fs.cache fs.free_map
      · simp only [hcnt, if_false] at h
        injection h with h
        subst h
        exact inode_update_inv hinv _ _ (fun _ => rfl) (fun _ => rfl)

theorem inode_reopen_inv {fs : FS} (hinv : OpenInv fs) (inode : Option Nat) {r : FS × Option Nat}
    (h : inode_reopen fs inode = some r) : OpenInv r.1 := by
  cases inode with
  | none =>
    simp only [inode_reopen] at h
    injection h with h
    subst h
    exact hinv
  | some a =>
    simp only [inode_reopen] at h
    cases hat : inode_at fs a with
    | none => simp [hat] at h
    | some n =>
      simp only [hat] at h
      injection h with h
      subst h
      exact inode_update_inv hinv _ _ (fun _ => rfl) (fun _ => rfl)

theorem inode_run_inv (ops : List InodeOp) {fs fs' : FS} (hinv : OpenInv fs)
    (h : inode_run fs ops = some fs') : OpenInv fs' := by
  induction ops generalizing fs with
  | nil =>
    simp only [inode_run] at h
    injection h with h
    subst h
    exact hinv
  | cons op ops ih =>
    simp only [inode_run] at h
    cases hop : op.run fs with
    | none => simp [hop] at h
    | some fs1 =>
      simp only [hop] at h
      refine ih ?_ h
      cases op with
      | do_open s ok =>
        simp only [InodeOp.run, Option.map_eq_some'] at hop
        obtain ⟨r, hr, rfl⟩ := hop
        exact inode_open_inv hinv s ok hr
      | do_reopen i =>
        simp only [InodeOp.run, Option.map_eq_some'] at hop
        obtain ⟨r, hr, rfl⟩ := hop
        exact inode_reopen_inv hinv i hr
      | do_close i => exact inode_close_inv hinv i hop

theorem inode_init_inv (c : Cache) (fm : FreeMap) : OpenInv (inode_init c fm) := by
  constructor
  · simp [inode_init]
  · simp [inode_init]
  · intro n hn
    simp [inode_init] at hn

/-- C9: with `deny_write_cnt > 0`, `inode_write_at` returns 0 and leaves the
whole file-system state (the inode's length and block map, the free-map, the
cache) unchanged, whatever the buffer, size and offset. -/
theorem inode_write_at_denied (fs : FS) (a : Nat) (n : inode) (hn : inode_at fs a = some n)
    (hdeny : n.deny_write_cnt > 0) (buffer : Nat → Nat) (size offset : Int) :
    inode_write_at fs a buffer size offset = some (fs, 0) := by
  have : n.deny_write_cnt ≠ 0 := by omega
  simp only [inode_write_at, hn, this, ne_eq, not_false_eq_true, if_true]

/-- An inode of length 0 with `deny_write_cnt = 1`: a write of 100 bytes at
offset 0 returns 0 and changes nothing. -/
theorem inode_write_at_denied_witness :
    ∃ n, inode_at example_denied_fs 1 = some n ∧ n.deny_write_cnt > 0 ∧
      inode_write_at example_denied_fs 1 (fun _ => 65) 100 0 = some (example_denied_fs, 0) :=
  ⟨example_denied_inode, rfl, by decide,
    inode_write_at_denied example_denied_fs 1 example_denied_inode rfl (by decide) _ 100 0⟩

theorem inode_close_keep {fs : FS} {a : Nat} {n : inode} (hat : inode_at fs a = some n)
    (hcnt : n.open_cnt - 1 ≠ 0) :
    inode_close fs (some a) =
      some (inode_update fs a (fun m => { m with open_cnt := m.open_cnt - 1 })) := by
  simp only [inode_close, hat, hcnt, if_false]

/-- C10: after any sequence of `inode_open`, `inode_reopen` and `inode_close`
calls the open list holds at most one inode per sector; `inode_open (s)` while
an inode for `s` is open returns that object and adds exactly 1 to its
`open_cnt`, changing nothing else of the list; and for a sector `s` that is not
open, `open (s); open (s); close; open (s)` returns the same inode three times
and leaves its `open_cnt` at 2. -/
theorem inode_open_unique (c : Cache) (fm : FreeMap) (ops : List InodeOp) (fs : FS)
    (hrun : inode_run (inode_init c fm) ops = some fs) :
    (fs.open_inodes.map (fun n => n.sector)).Nodup ∧
    (∀ n ∈ fs.open_inodes, ∀ mem_ok : Bool,
      inode_open fs n.sector mem_ok =
        some (inode_update fs n.addr (fun m => { m with open_cnt := m.open_cnt + 1 }),
              some n.addr) ∧
      inode_at (inode_update fs n.addr (fun m => { m with open_cnt := m.open_cnt + 1 })) n.addr
        = some { n with open_cnt := n.open_cnt + 1 }) ∧
    (∀ s, (∀ n ∈ fs.open_inodes, n.sector ≠ s) → ∀ ok2 ok3 : Bool,
      ∃ a fs1 fs2 fs3 fs4 n,
        inode_open fs s true = some (fs1, some a) ∧
        inode_open fs1 s ok2 = some (fs2, some a) ∧
        inode_close fs2 (some a) = some fs3 ∧
        inode_open fs3 s ok3 = some (fs4, some a) ∧
        inode_at fs4 a = some n ∧ n.sector = s ∧ n.open_cnt = 2 ∧
        (fs4.open_inodes.map (fun m => m.sector)).Nodup) := by
  have hinv := inode_run_inv ops (inode_init_inv c fm) hrun
  refine ⟨hinv.sectors, fun n hn ok => ⟨inode_open_hit hinv hn ok, ?_⟩, ?_⟩
  · exact inode_at_update (inode_at_of_mem hinv hn) _ (fun _ => rfl)
  · intro s hs ok2 ok3
    obtain ⟨c1, bytes, h1⟩ := inode_open_miss hs
    have hinv1 := inode_open_inv hinv s true h1
    simp only at hinv1
    have hmem1 : inode.mk fs.heap_next s 1 false 0 (inode_disk_of_bytes bytes) ∈
        (FS.mk c1 fs.free_map
          (inode.mk fs.heap_next s 1 false 0 (inode_disk_of_bytes bytes) :: fs.open_inodes)
          (fs.heap_next + 1)).open_inodes := List.mem_cons_self _ _
    have h2 := inode_open_hit hinv1 hmem1 ok2
    have hinv2 := inode_open_inv hinv1 _ ok2 h2
    have hat2 := inode_at_update (inode_at_of_mem hinv1 hmem1)
      (fun m => { m with open_cnt := m.open_cnt + 1 }) (fun _ => rfl)
    simp only at h2 hinv2 hat2
    have h3 := inode_close_keep hat2 (by norm_num)
    have hinv3 := inode_close_inv hinv2 _ h3
    have hat3 := inode_at_update hat2 (fun m => { m with open_cnt := m.open_cnt - 1 })
      (fun _ => rfl)
    simp only at hat3
    have hmem3 := (inode_at_mem hat3).1
    have h4 := inode_open_hit hinv3 hmem3 ok3
    have hat4 := inode_at_update hat3 (fun m => { m with open_cnt := m.open_cnt + 1 })
      (fun _ => rfl)
    have hinv4 := inode_open_inv hinv3 _ ok3 h4
    exact ⟨_, _, _, _, _, _, h1, h2, h3, h4, hat4, rfl, by norm_num, hinv4.sectors⟩

/-- The sequence `open (5); open (5); close; open (5)` on a fresh file system. -/
theorem inode_open_unique_witness :
    ∃ fs, inode_run (inode_init (cache_init example_dev) example_free_map)
        [InodeOp.do_open 5 true, InodeOp.do_open 5 true, InodeOp.do_close (some 1),
         InodeOp.do_open 5 true] = some fs ∧
      (fs.open_inodes.map (fun n => n.sector)).Nodup := by
  have hsome : (inode_run (inode_init (cache_init example_dev) example_free_map)
      [InodeOp.do_open 5 true, InodeOp.do_open 5 true, InodeOp.do_close (some 1),
       InodeOp.do_open 5 true]).isSome = true := by rfl
  obtain ⟨fs, hfs⟩ := Option.isSome_iff_exists.mp hsome
  exact ⟨fs, hfs, (inode_open_unique _ _ _ fs hfs).1⟩

/-- C4 (the code at a failing input): for the byte position `189 * 512` (sector
index 189, so `k = 1`, `j = 0`, `o = 1`) of an inode whose indirect sector is
sector 7, `byte_to_sector_disk` returns the `u16` made of bytes 1 and 2 of the
indirect sector, `8 + 256 * 9`, while the `u16` at byte offset `o * 2 = 2` is
`9 + 256 * 10`. -/
theorem byte_to_sector_disk_reads_entry_at_byte_offset :
    (byte_to_sector_disk (cache_init example_dev) example_indirect_disk (189 * 512)).map Prod.snd
        = some 2312 ∧
      u16_of_bytes [example_dev.contents 7 2, example_dev.contents 7 3] = 2569 := by
  constructor <;> rfl

/-- What `byte_to_sector_disk` returns for a position in the indirect range: the
`u16` whose low byte is at byte offset `o` and whose high byte is at byte offset
`o + 1` of the indirect sector, where `o = (i - 188) mod 256`. -/
theorem byte_to_sector_disk_indirect {c : Cache} (hinv : CacheInv c) (disk : inode_disk)
    (pos : Int) (h0 : 0 ≤ pos) (hlen : pos < disk.length)
    (hidx : (NUM_DIRECT : Int) ≤ pos / 512) :
    ∃ c', byte_to_sector_disk c disk pos = some (c',
        view c (uint16_t (disk.indirect ((pos / 512 - 188) / 256).toNat))
            ((pos / 512 - 188) % 256).toNat % 256 +
          256 * (view c (uint16_t (disk.indirect ((pos / 512 - 188) / 256).toNat))
            (((pos / 512 - 188) % 256).toNat + 1) % 256)) ∧ CacheInv c' ∧
      (∀ s, s ≠ NONE → ∀ i, i < BLOCK_SECTOR_SIZE → view c' s i = view c s i) := by
  have hidx' : (188 : Int) ≤ pos / 512 := by simpa [NUM_DIRECT] using hidx
  have e1 : Int.tdiv pos 512 = pos / 512 := Int.tdiv_eq_ediv h0 (by norm_num)
  have e2 : Int.tdiv (pos / 512 - 188) 256 = (pos / 512 - 188) / 256 :=
    Int.tdiv_eq_ediv (by omega) (by norm_num)
  have e3 : Int.tmod (pos / 512 - 188) 256 = (pos / 512 - 188) % 256 :=
    Int.tmod_eq_emod (by omega) (by norm_num)
  have hs : uint16_t (disk.indirect ((pos / 512 - 188) / 256).toNat) ≠ NONE := by
    simp only [uint16_t, NONE]; omega
  obtain ⟨c', bytes, hr, hinv', hview, hbytes, _⟩ := cache_read_inv hinv
    (uint16_t (disk.indirect ((pos / 512 - 188) / 256).toNat)) 2 ((pos / 512 - 188) % 256)
    ⟨by norm_num, by omega, by simp only [BLOCK_SECTOR_SIZE]; omega⟩
  refine ⟨c', ?_, hinv', hview⟩
  have hnl : ¬ (pos ≥ disk.length) := by omega
  have hnd : ¬ (pos / 512 < 188) := by omega
  simp only [byte_to_sector_disk, h0, if_true, hnl, if_false, BLOCK_SECTOR_SIZE, NUM_DIRECT,
    INDIRECT_LEN, Nat.cast_ofNat, e1, e2, e3, hnd, hr, hbytes hs]
  simp [u16_of_bytes, memcpy_from, List.range_succ]

theorem allocs_fit_succ {k : Nat} {fm : FreeMap} (h : allocs_fit (k + 1) fm = true) :
    ∃ fm1 s, free_map_allocate fm = some (fm1, s) ∧ s ≤ UINT16_MAX ∧ allocs_fit k fm1 = true := by
  unfold allocs_fit at h
  cases hf : free_map_allocate fm with
  | none => simp [hf] at h
  | some r =>
    obtain ⟨fm1, s⟩ := r
    simp only [hf, Bool.and_eq_true, decide_eq_true_eq] at h
    exact ⟨fm1, s, rfl, h.1, h.2⟩

theorem allocs_fit_pred {k : Nat} {fm : FreeMap} (h : allocs_fit (k + 1) fm = true) :
    allocs_fit k fm = true := by
  induction k generalizing fm with
  | zero => rfl
  | succ k ih =>
    obtain ⟨fm1, s, h1, h2, h3⟩ := allocs_fit_succ h
    unfold allocs_fit
    simp only [h1, Bool.and_eq_true, decide_eq_true_eq]
    exact ⟨h2, ih h3⟩

theorem allocs_fit_le {k k' : Nat} (hk : k ≤ k') {fm : FreeMap} (h : allocs_fit k' fm = true) :
    allocs_fit k fm = true := by
  induction hk with
  | refl => exact h
  | step _ ih => exact ih (allocs_fit_pred h)

theorem allocate_short_ok {k : Nat} {fs : FS} (h : allocs_fit (k + 1) fs.free_map = true) :
    ∃ fs1 s, allocate_short fs = some (fs1, some s) ∧ allocs_fit k fs1.free_map = true ∧
      fs1.open_inodes = fs.open_inodes ∧ fs1.heap_next = fs.heap_next := by
  obtain ⟨fm1, s, h1, h2, h3⟩ := allocs_fit_succ h
  obtain ⟨c, hc⟩ := cache_zero_total fs.cache s
  have : ¬ (s > UINT16_MAX) := by omega
  exact ⟨FS.mk c fm1 fs.open_inodes fs.heap_next, s,
    by simp only [allocate_short, h1, this, if_false, hc], h3, rfl, rfl⟩

theorem ROUND_UP_of_dvd {x : Int} (h0 : 0 ≤ x) (hx : x % 512 = 0) :
    ROUND_UP x 512 = x := by
  simp only [ROUND_UP]
  rw [Int.tdiv_eq_ediv (by omega) (by norm_num)]
  omega

theorem append_sector_ok {k : Nat} {fs : FS} {disk : inode_disk} (h0 : 0 ≤ disk.length)
    (hmul : disk.length % 512 = 0) (hmax : disk.length + 512 ≤ MAX_INODE_LEN)
    (h : allocs_fit (k + 2) fs.free_map = true) :
    ∃ fs1 disk1, append_sector fs disk = some (fs1, disk1, true) ∧
      disk1.length = disk.length + 512 ∧ allocs_fit k fs1.free_map = true ∧
      fs1.open_inodes = fs.open_inodes ∧ fs1.heap_next = fs.heap_next := by
  have hr := ROUND_UP_of_dvd h0 hmul
  have hmax' : disk.length + 512 ≤ 8388608 := by simpa [MAX_INODE_LEN] using hmax
  have hng : ¬ (disk.length + 512 > MAX_INODE_LEN) := by omega
  have e1 : Int.tdiv (disk.length + 512 - 1) 512 = (disk.length + 512 - 1) / 512 :=
    Int.tdiv_eq_ediv (by omega) (by norm_num)
  unfold append_sector
  simp only [BLOCK_SECTOR_SIZE, Nat.cast_ofNat, hr, hng, if_false, e1, NUM_DIRECT, INDIRECT_LEN]
  by_cases hd : (disk.length + 512 - 1) / 512 < 188
  · simp only [hd, if_true]
    obtain ⟨fs1, s, h1, h2, h3, h4⟩ := allocate_short_ok (allocs_fit_pred h)
    simp only [h1]
    exact ⟨_, _, rfl, rfl, h2, h3, h4⟩
  · simp only [hd, if_false]
    have e2 : Int.tmod ((disk.length + 512 - 1) / 512 - 188) 256 =
        ((disk.length + 512 - 1) / 512 - 188) % 256 :=
      Int.tmod_eq_emod (by omega) (by norm_num)
    by_cases hi : Int.tdiv ((disk.length + 512 - 1) / 512 - 188) 256 >
        Int.tdiv (Int.tdiv (disk.length - 1) 512 - 188) 256
    · simp only [hi, if_true]
      obtain ⟨fs1, s, h1, h2, h3, h4⟩ := allocate_short_ok h
      obtain ⟨fs2, s2, h1', h2', h3', h4'⟩ := allocate_short_ok h2
      simp only [h1, h1', e2]
      obtain ⟨c, hc⟩ := cache_write_total fs2.cache
        (uint16_t (array_set disk.indirect
          (Int.tdiv ((disk.length + 512 - 1) / 512 - 188) 256).toNat s
          (Int.tdiv ((disk.length + 512 - 1) / 512 - 188) 256).toNat)) (u16_bytes s2) 2
        (((disk.length + 512 - 1) / 512 - 188) % 256)
        ⟨by norm_num, by omega, by simp only [BLOCK_SECTOR_SIZE]; omega⟩
      simp only [hc]
      exact ⟨_, _, rfl, rfl, h2', by rw [← h3]; exact h3', by rw [← h4]; exact h4'⟩
    · simp only [hi, if_false]
      obtain ⟨fs2, s2, h1', h2', h3', h4'⟩ := allocate_short_ok (allocs_fit_pred h)
      simp only [h1', e2]
      obtain ⟨c, hc⟩ := cache_write_total fs2.cache
        (uint16_t (disk.indirect
          (Int.tdiv ((disk.length + 512 - 1) / 512 - 188) 256).toNat)) (u16_bytes s2) 2
        (((disk.length + 512 - 1) / 512 - 188) % 256)
        ⟨by norm_num, by omega, by simp only [BLOCK_SECTOR_SIZE]; omega⟩
      simp only [hc]
      exact ⟨_, _, rfl, rfl, h2', h3', h4'⟩

theorem append_sector_full {fs : FS} {disk : inode_disk} (h0 : 0 ≤ disk.length)
    (hmul : disk.length % 512 = 0) (hmax : MAX_INODE_LEN ≤ disk.length) :
    append_sector fs disk = some (fs, disk, false) := by
  have hr := ROUND_UP_of_dvd h0 hmul
  have hg : disk.length + 512 > MAX_INODE_LEN := by omega
  unfold append_sector
  simp only [BLOCK_SECTOR_SIZE, Nat.cast_ofNat, hr, hg, if_true]

theorem extend_loop_ok (m : Nat) : ∀ (fuel k : Nat) (fs : FS) (disk : inode_disk) (T R : Int),
    0 ≤ disk.length → disk.length % 512 = 0 → disk.length + 512 * m = R →
    R ≤ MAX_INODE_LEN → (0 < m → R - 512 < T) →
    ((T ≤ R ∧ m ≤ fuel) ∨ (R = MAX_INODE_LEN ∧ m < fuel)) →
    allocs_fit (2 * m + k) fs.free_map = true →
    ∃ fs1 disk1, extend_loop fuel fs disk T = some (fs1, disk1) ∧ disk1.length = R ∧
      fs1.open_inodes = fs.open_inodes ∧ fs1.heap_next = fs.heap_next ∧
      allocs_fit k fs1.free_map = true := by
  induction m with
  | zero =>
    intro fuel k fs disk T R h0 hmul hR hmax _ hstop hfit
    have hlen : disk.length = R := by simpa using hR
    have hfit' : allocs_fit k fs.free_map = true := by simpa using hfit
    rcases hstop with ⟨hT, _⟩ | ⟨hRm, hfuel⟩
    · have : ¬ (disk.length < T) := by omega
      cases fuel with
      | zero => exact ⟨fs, disk, by simp only [extend_loop, this, if_false], hlen, rfl, rfl, hfit'⟩
      | succ f => exact ⟨fs, disk, by simp only [extend_loop, this, if_false], hlen, rfl, rfl, hfit'⟩
    · cases fuel with
      | zero => omega
      | succ f =>
        by_cases hc : disk.length < T
        · have hfull := @append_sector_full fs disk h0 hmul (by omega)
          exact ⟨fs, disk, by simp only [extend_loop, hc, if_true, hfull], hlen, rfl, rfl, hfit'⟩
        · exact ⟨fs, disk, by simp only [extend_loop, hc, if_false], hlen, rfl, rfl, hfit'⟩
  | succ m ih =>
    intro fuel k fs disk T R h0 hmul hR hmax hlast hstop hfit
    have hlt : disk.length < T := by
      have := hlast (by omega)
      push_cast at hR
      omega
    have hfuel : 0 < fuel := by rcases hstop with ⟨_, h⟩ | ⟨_, h⟩ <;> omega
    obtain ⟨f, rfl⟩ : ∃ f, fuel = f + 1 := ⟨fuel - 1, by omega⟩
    have hfit2 : allocs_fit ((2 * m + k) + 2) fs.free_map = true := by
      have : 2 * (m + 1) + k = (2 * m + k) + 2 := by ring
      rw [← this]; exact hfit
    obtain ⟨fs1, disk1, ha, hl1, hf1, ho1, hh1⟩ := append_sector_ok h0 hmul
      (by push_cast at hR; omega) hfit2
    obtain ⟨fs2, disk2, hb, hl2, hf2, ho2, hh2⟩ := ih f k fs1 disk1 T R (by omega) (by omega)
      (by push_cast at hR ⊢; omega) hmax (fun hm => hlast (by omega))
      (by rcases hstop with ⟨h1, h2⟩ | ⟨h1, h2⟩
          · exact Or.inl ⟨h1, by omega⟩
          · exact Or.inr ⟨h1, by omega⟩) hf1
    refine ⟨fs2, disk2, ?_, hl2, by rw [hf2, ho1], by rw [ho2, hh1], hh2⟩
    simp only [extend_loop, hlt, if_true, ha, hb]

/-- Growth to a target at or beyond `MAX_INODE_LEN` ends with the length
`MAX_INODE_LEN` when the free-map keeps handing out ids that fit. -/
theorem extend_disk_to_max {fs : FS} {disk : inode_disk} {T : Int}
    (h0 : 0 ≤ disk.length) (hmax : disk.length ≤ MAX_INODE_LEN) (hT : MAX_INODE_LEN ≤ T)
    (hfit : allocs_fit (2 * ((MAX_INODE_LEN - disk.length) / 512).toNat) fs.free_map = true) :
    ∃ fs1 disk1, extend_disk fs disk T = some (fs1, disk1, MAX_INODE_LEN) ∧
      disk1.length = MAX_INODE_LEN ∧ fs1.open_inodes = fs.open_inodes ∧
      fs1.heap_next = fs.heap_next := by
  have hM : MAX_INODE_LEN = 8388608 := by norm_num [MAX_INODE_LEN]
  by_cases hge : disk.length ≥ T
  · have : disk.length = MAX_INODE_LEN := by omega
    exact ⟨fs, disk, by rw [← this]; simp only [extend_disk, hge, if_true], this, rfl, rfl⟩
  · have hru : ROUND_UP disk.length 512 = (disk.length + 511) / 512 * 512 := by
      simp only [ROUND_UP]
      rw [Int.tdiv_eq_ediv (by omega) (by norm_num)]
      have : disk.length + 512 - 1 = disk.length + 511 := by ring
      rw [this]
    obtain ⟨m, hm⟩ : ∃ m : Nat, (m : Int) = (MAX_INODE_LEN - ROUND_UP disk.length 512) / 512 :=
      ⟨((MAX_INODE_LEN - ROUND_UP disk.length 512) / 512).toNat, by
        rw [Int.toNat_of_nonneg]; rw [hru, hM]; omega⟩
    have hmle : 2 * m + 0 ≤ 2 * ((MAX_INODE_LEN - disk.length) / 512).toNat := by
      have : (m : Int) ≤ (MAX_INODE_LEN - disk.length) / 512 := by rw [hm, hru, hM]; omega
      omega
    obtain ⟨fs1, disk1, hl, hlen, ho, hh, _⟩ := extend_loop_ok m
      (T - ROUND_UP disk.length 512).toNat 0 fs
      { disk with length := ROUND_UP disk.length 512 } T MAX_INODE_LEN
      (by simp only [hru]; omega) (by simp only [hru]; omega)
      (by simp only [hm, hru, hM]; omega) (le_refl _) (fun _ => by omega)
      (by
        rcases eq_or_lt_of_le hT with h | h
        · left
          refine ⟨by omega, ?_⟩
          have : (m : Int) ≤ T - ROUND_UP disk.length 512 := by rw [hm, hru, ← h, hM]; omega
          omega
        · right
          refine ⟨rfl, ?_⟩
          have : (m : Int) < T - ROUND_UP disk.length 512 := by rw [hm, hru]; rw [hM] at h ⊢; omega
          omega)
      (allocs_fit_le hmle hfit)
    refine ⟨fs1, disk1, ?_, hlen, ho, hh⟩
    have hng : ¬ (MAX_INODE_LEN > T) := by omega
    simp only [extend_disk, hge, if_false, BLOCK_SECTOR_SIZE, Nat.cast_ofNat, hl, hlen, hng]

theorem u16_of_bytes_lt (bytes : List Nat) : u16_of_bytes bytes < 65536 := by
  simp only [u16_of_bytes]
  omega

/-- For a position inside the file `byte_to_sector_disk` returns, and never
`(block_sector_t) -1`. -/
theorem byte_to_sector_disk_total (c : Cache) (disk : inode_disk) (pos : Int)
    (h0 : 0 ≤ pos) (hlen : pos < disk.length) :
    ∃ c' s, byte_to_sector_disk c disk pos = some (c', s) ∧ s ≠ NONE := by
  have hnl : ¬ (pos ≥ disk.length) := by omega
  have e1 : Int.tdiv pos 512 = pos / 512 := Int.tdiv_eq_ediv h0 (by norm_num)
  by_cases hd : pos / 512 < 188
  · refine ⟨c, uint16_t (disk.direct (pos / 512).toNat), ?_, ?_⟩
    · simp only [byte_to_sector_disk, h0, if_true, hnl, if_false, BLOCK_SECTOR_SIZE, NUM_DIRECT,
        Nat.cast_ofNat, e1, hd]
    · simp only [uint16_t, NONE]; omega
  · have e3 : Int.tmod (pos / 512 - 188) 256 = (pos / 512 - 188) % 256 :=
      Int.tmod_eq_emod (by omega) (by norm_num)
    obtain ⟨c', bytes, hr, _⟩ := cache_read_total c
      (uint16_t (disk.indirect (Int.tdiv (pos / 512 - 188) 256).toNat)) 2
      ((pos / 512 - 188) % 256)
      ⟨by norm_num, by omega, by simp only [BLOCK_SECTOR_SIZE]; omega⟩
    refine ⟨c', u16_of_bytes bytes, ?_, ?_⟩
    · simp only [byte_to_sector_disk, h0, if_true, hnl, if_false, BLOCK_SECTOR_SIZE, NUM_DIRECT,
        INDIRECT_LEN, Nat.cast_ofNat, e1, e3, hd, hr]
    · have := u16_of_bytes_lt bytes
      simp only [NONE]; omega

/-- The loop of `inode_write_at` returns, having written every requested byte
that lies below the length of the file. -/
theorem write_loop_count (fuel : Nat) : ∀ (c : Cache) (disk : inode_disk) (buffer : Nat → Nat)
    (size offset bytes_written : Int), 0 ≤ offset → size.toNat ≤ fuel →
    ∃ c', write_loop fuel c disk buffer size offset bytes_written =
      some (c', bytes_written + max 0 (min size (disk.length - offset))) := by
  induction fuel with
  | zero =>
    intro c disk buffer size offset bw _ hf
    have hs : ¬ (size > 0 ∧ offset < disk.length) := by omega
    refine ⟨c, ?_⟩
    simp only [write_loop, hs, if_false]
    congr 2
    omega
  | succ f ih =>
    intro c disk buffer size offset bw h0 hf
    by_cases hc : size > 0 ∧ offset < disk.length
    · obtain ⟨c1, s, hb, hs⟩ := byte_to_sector_disk_total c disk offset h0 hc.2
      have e1 : Int.tmod offset 512 = offset % 512 := Int.tmod_eq_emod h0 (by norm_num)
      obtain ⟨chunk, hchunk⟩ : ∃ chunk : Int, chunk =
          (if size < (if disk.length - offset < 512 - offset % 512 then disk.length - offset
              else 512 - offset % 512) then size
            else (if disk.length - offset < 512 - offset % 512 then disk.length - offset
              else 512 - offset % 512)) := ⟨_, rfl⟩
      have hc1 : 1 ≤ chunk := by rw [hchunk]; split_ifs <;> omega
      have hc2 : chunk ≤ size := by rw [hchunk]; split_ifs <;> omega
      have hc3 : chunk ≤ disk.length - offset := by rw [hchunk]; split_ifs <;> omega
      have hc4 : offset % 512 + chunk ≤ 512 := by rw [hchunk]; split_ifs <;> omega
      obtain ⟨c2, hw⟩ := cache_write_total c1 s (fun i => buffer (bw.toNat + i)) chunk
        (offset % 512) ⟨by omega, by omega, by simp only [BLOCK_SECTOR_SIZE]; omega⟩
      obtain ⟨c3, hrec⟩ := ih c2 disk buffer (size - chunk) (offset + chunk) (bw + chunk)
        (by omega) (by omega)
      refine ⟨c3, ?_⟩
      have hnle : ¬ (chunk ≤ 0) := by omega
      simp only [write_loop, hc, and_self, if_true, hb, hs, if_false, BLOCK_SECTOR_SIZE,
        Nat.cast_ofNat, e1, ← hchunk, hnle, hw, hrec]
      congr 2
      omega
    · refine ⟨c, ?_⟩
      simp only [write_loop, hc, if_false]
      congr 2
      omega

theorem allocate_short_frame {fs fs1 : FS} {r : Option Nat}
    (h : allocate_short fs = some (fs1, r)) :
    fs1.open_inodes = fs.open_inodes ∧ fs1.heap_next = fs.heap_next := by
  unfold allocate_short at h
  split at h
  · injection h with h; injection h with h1 h2; subst h1; exact ⟨rfl, rfl⟩
  · split at h
    · injection h with h; injection h with h1 h2; subst h1; exact ⟨rfl, rfl⟩
    · split at h
      · simp at h
      · injection h with h; injection h with h1 h2; subst h1; exact ⟨rfl, rfl⟩

theorem append_sector_frame {fs fs1 : FS} {disk disk1 : inode_disk} {b : Bool}
    (h : append_sector fs disk = some (fs1, disk1, b)) :
    fs1.open_inodes = fs.open_inodes ∧ fs1.heap_next = fs.heap_next ∧
    (disk1.length = disk.length ∨
      (disk1.length = ROUND_UP disk.length 512 + 512 ∧
        ROUND_UP disk.length 512 + 512 ≤ MAX_INODE_LEN)) := by
  unfold append_sector at h
  simp only [BLOCK_SECTOR_SIZE, Nat.cast_ofNat] at h
  split at h
  · injection h with h; injection h with h1 h2; injection h2 with h2 h3
    subst h1; subst h2; exact ⟨rfl, rfl, Or.inl rfl⟩
  · rename_i hle
    split at h
    · split at h
      · simp at h
      · rename_i fsa heq
        injection h with h; injection h with h1 h2; injection h2 with h2 h3
        subst h1; subst h2
        obtain ⟨a, b⟩ := allocate_short_frame heq
        exact ⟨a, b, Or.inl rfl⟩
      · rename_i fsa s heq
        injection h with h; injection h with h1 h2; injection h2 with h2 h3
        subst h1; subst h2
        obtain ⟨a, b⟩ := allocate_short_frame heq
        exact ⟨a, b, Or.inr ⟨rfl, by omega⟩⟩
    · have hf : ∀ fsa diska ba, (if Int.tdiv (Int.tdiv (ROUND_UP disk.length 512 + 512 - 1) 512
            - (NUM_DIRECT : Int)) (INDIRECT_LEN : Int) >
          Int.tdiv (Int.tdiv (disk.length - 1) 512 - (NUM_DIRECT : Int)) (INDIRECT_LEN : Int) then
          match allocate_short fs with
          | none => none
          | some (fs1, none) => some (fs1, disk, false)
          | some (fs1, some s) =>
            some (fs1, inode_disk.mk disk.length disk.magic disk.direct
              (array_set disk.indirect
                (Int.tdiv (Int.tdiv (ROUND_UP disk.length 512 + 512 - 1) 512
                  - (NUM_DIRECT : Int)) (INDIRECT_LEN : Int)).toNat s), true)
        else some (fs, disk, true)) = some (fsa, diska, ba) →
          fsa.open_inodes = fs.open_inodes ∧ fsa.heap_next = fs.heap_next ∧
          diska.length = disk.length := by
        intro fsa diska ba hfirst
        split at hfirst
        · split at hfirst
          · simp at hfirst
          · rename_i fsb heq
            injection hfirst with h; injection h with h1 h2; injection h2 with h2 h3
            subst h1; subst h2
            obtain ⟨a, b⟩ := allocate_short_frame heq
            exact ⟨a, b, rfl⟩
          · rename_i fsb s heq
            injection hfirst with h; injection h with h1 h2; injection h2 with h2 h3
            subst h1; subst h2
            obtain ⟨a, b⟩ := allocate_short_frame heq
            exact ⟨a, b, rfl⟩
        · injection hfirst with h; injection h with h1 h2; injection h2 with h2 h3
          subst h1; subst h2
          exact ⟨rfl, rfl, rfl⟩
      split at h
      · simp at h
      · rename_i fsa diska he
        injection h with h; injection h with h1 h2; injection h2 with h2 h3
        subst h1; subst h2
        obtain ⟨a, b, c⟩ := hf _ _ _ he
        exact ⟨a, b, Or.inl c⟩
      · rename_i fsa diska he
        obtain ⟨a, b, c⟩ := hf _ _ _ he
        split at h
        · simp at h
        · rename_i fsb heq
          obtain ⟨a', b'⟩ := allocate_short_frame heq
          split at h
          · injection h with h; injection h with h1 h2; injection h2 with h2 h3
            subst h1; subst h2
            exact ⟨a'.trans a, b'.trans b, Or.inl c⟩
          · injection h with h; injection h with h1 h2; injection h2 with h2 h3
            subst h1; subst h2
            exact ⟨a'.trans a, b'.trans b, Or.inl c⟩
        · rename_i fsb dir_idx heq
          obtain ⟨a', b'⟩ := allocate_short_frame heq
          split at h
          · simp at h
          · injection h with h; injection h with h1 h2; injection h2 with h2 h3
            subst h1; subst h2
            exact ⟨a'.trans a, b'.trans b, Or.inr ⟨rfl, by omega⟩⟩

theorem extend_loop_frame (fuel : Nat) : ∀ (fs : FS) (disk : inode_disk) (T : Int) (fs1 : FS)
    (disk1 : inode_disk), extend_loop fuel fs disk T = some (fs1, disk1) →
    0 ≤ disk.length → disk.length % 512 = 0 → disk.length ≤ MAX_INODE_LEN →
    disk1.length ≤ MAX_INODE_LEN ∧ 0 ≤ disk1.length ∧
      fs1.open_inodes = fs.open_inodes ∧ fs1.heap_next = fs.heap_next := by
  induction fuel with
  | zero =>
    intro fs disk T fs1 disk1 h h0 _ hmax
    simp only [extend_loop] at h
    split at h
    · simp at h
    · injection h with h; injection h with h1 h2; subst h1; subst h2
      exact ⟨hmax, h0, rfl, rfl⟩
  | succ f ih =>
    intro fs disk T fs1 disk1 h h0 hmul hmax
    simp only [extend_loop] at h
    split at h
    · split at h
      · simp at h
      · rename_i fsa diska heq
        obtain ⟨a, b, c⟩ := append_sector_frame heq
        have hr := ROUND_UP_of_dvd h0 hmul
        have hM : MAX_INODE_LEN = 8388608 := by norm_num [MAX_INODE_LEN]
        have hl : 0 ≤ diska.length ∧ diska.length % 512 = 0 ∧ diska.length ≤ MAX_INODE_LEN := by
          rcases c with c | ⟨c1, c2⟩
          · rw [c]; exact ⟨h0, hmul, hmax⟩
          · rw [hr] at c1 c2
            rw [c1]
            exact ⟨by omega, by omega, c2⟩
        obtain ⟨p, q, r, s⟩ := ih fsa diska T fs1 disk1 h hl.1 hl.2.1 hl.2.2
        exact ⟨p, q, r.trans a, s.trans b⟩
      · rename_i fsa diska heq
        injection h with h; injection h with h1 h2; subst h1; subst h2
        obtain ⟨a, b, c⟩ := append_sector_frame heq
        have hr := ROUND_UP_of_dvd h0 hmul
        rcases c with c | ⟨c1, c2⟩
        · rw [c]; exact ⟨hmax, h0, a, b⟩
        · rw [hr] at c1 c2
          rw [c1]
          exact ⟨c2, by omega, a, b⟩
    · injection h with h; injection h with h1 h2; subst h1; subst h2
      exact ⟨hmax, h0, rfl, rfl⟩

theorem extend_disk_frame {fs fs1 : FS} {disk disk1 : inode_disk} {T r : Int}
    (h : extend_disk fs disk T = some (fs1, disk1, r))
    (h0 : 0 ≤ disk.length) (hmax : disk.length ≤ MAX_INODE_LEN) :
    disk1.length ≤ MAX_INODE_LEN ∧ 0 ≤ disk1.length ∧ r = disk1.length ∧
      fs1.open_inodes = fs.open_inodes ∧ fs1.heap_next = fs.heap_next := by
  have hM : MAX_INODE_LEN = 8388608 := by norm_num [MAX_INODE_LEN]
  simp only [extend_disk, BLOCK_SECTOR_SIZE, Nat.cast_ofNat] at h
  split at h
  · injection h with h; injection h with h1 h2; injection h2 with h2 h3
    subst h1; subst h2; subst h3
    exact ⟨hmax, h0, rfl, rfl, rfl⟩
  · rename_i hlt
    have hru : ROUND_UP disk.length 512 = (disk.length + 511) / 512 * 512 := by
      simp only [ROUND_UP]
      rw [Int.tdiv_eq_ediv (by omega) (by norm_num)]
      have : disk.length + 512 - 1 = disk.length + 511 := by ring
      rw [this]
    split at h
    · simp at h
    · rename_i fsa diska heq
      obtain ⟨p, q, r', s⟩ := extend_loop_frame _ _ _ _ _ _ heq
        (by simp only [hru]; omega) (by simp only [hru]; omega) (by simp only [hru]; omega)
      injection h with h; injection h with h1 h2; injection h2 with h2 h3
      subst h1; subst h2; subst h3
      refine ⟨?_, ?_, rfl, r', s⟩
      · split
        · show T ≤ MAX_INODE_LEN
          omega
        · exact p
      · split
        · show 0 ≤ T
          omega
        · exact q

theorem inode_at_congr {fs fs' : FS} (h : fs'.open_inodes = fs.open_inodes) (a : Nat) :
    inode_at fs' a = inode_at fs a := by
  simp only [inode_at, h]

theorem inode_write_at_eq {fs : FS} {a : Nat} {n : inode} (hn : inode_at fs a = some n)
    (hdeny : n.deny_write_cnt = 0) {buffer : Nat → Nat} {size offset : Int}
    {fs1 : FS} {disk1 : inode_disk} {r : Int} {c : Cache} {bw : Int}
    (he : extend_disk fs n.data (offset + size) = some (fs1, disk1, r))
    (hw : write_loop size.toNat fs1.cache disk1 buffer size offset 0 = some (c, bw)) :
    inode_write_at fs a buffer size offset =
      some (inode_update { fs1 with cache := c } a (fun m => { m with data := disk1 }), bw) := by
  have hd : ¬ (n.deny_write_cnt ≠ 0) := by simp [hdeny]
  simp only [inode_write_at, hn, hd, if_false, he, hw]

theorem inode_length_after_write {fs fs1 : FS} {a : Nat} {n : inode}
    (hn : inode_at fs a = some n) (ho : fs1.open_inodes = fs.open_inodes) (c : Cache)
    (disk1 : inode_disk) :
    inode_length (inode_update { fs1 with cache := c } a (fun m => { m with data := disk1 })) a
      = some disk1.length := by
  have hat : inode_at { fs1 with cache := c } a = some n := by
    rw [← hn]; exact inode_at_congr ho a
  simp only [inode_length]
  rw [inode_at_update hat (fun m => { m with data := disk1 }) (fun _ => rfl)]
  rfl

/-- C8: with a free-map that keeps handing out sector ids that fit in `u16`, a
write that ends exactly at `MAX_INODE_LEN` (8388608) returns `size` and leaves
the length at 8388608; the same write with one more byte returns one less than
its size, the length again 8388608; and whatever is written, the length of the
inode does not exceed `MAX_INODE_LEN`, nor does the length of an inode that
`inode_create` makes. -/
theorem inode_write_at_max_inode_len (fs : FS) (a : Nat) (n : inode)
    (hn : inode_at fs a = some n) (hdeny : n.deny_write_cnt = 0)
    (h0 : 0 ≤ n.data.length) (hmax : n.data.length ≤ MAX_INODE_LEN)
    (buffer : Nat → Nat) (size offset : Int) (hsize : 0 ≤ size) (hoffset : 0 ≤ offset)
    (hend : offset + size = MAX_INODE_LEN)
    (hfit : allocs_fit (2 * ((MAX_INODE_LEN - n.data.length) / 512).toNat) fs.free_map = true) :
    MAX_INODE_LEN = 8388608 ∧
    (∃ fs', inode_write_at fs a buffer size offset = some (fs', size) ∧
      inode_length fs' a = some MAX_INODE_LEN) ∧
    (∃ fs', inode_write_at fs a buffer (size + 1) offset = some (fs', size + 1 - 1) ∧
      inode_length fs' a = some MAX_INODE_LEN) ∧
    (∀ (buffer' : Nat → Nat) (size' offset' : Int) (fs' : FS) (r : Int),
      inode_write_at fs a buffer' size' offset' = some (fs', r) →
      ∃ len, inode_length fs' a = some len ∧ len ≤ MAX_INODE_LEN) ∧
    (∀ (fs0 fs' : FS) (sector : Nat) (length : Int) (mem_ok : Bool),
      inode_create fs0 sector length mem_ok = some (fs', true) → length ≤ MAX_INODE_LEN) := by
  have hM : MAX_INODE_LEN = 8388608 := by norm_num [MAX_INODE_LEN]
  have hd : ¬ (n.deny_write_cnt ≠ 0) := by simp [hdeny]
  have key : ∀ sz : Int, 0 ≤ sz → MAX_INODE_LEN ≤ offset + sz →
      ∃ fs', inode_write_at fs a buffer sz offset =
          some (fs', max 0 (min sz (MAX_INODE_LEN - offset))) ∧
        inode_length fs' a = some MAX_INODE_LEN := by
    intro sz hsz hT
    obtain ⟨fs1, disk1, he, hl, ho, _⟩ := @extend_disk_to_max fs n.data (offset + sz) h0 hmax hT hfit
    obtain ⟨c', hw⟩ := write_loop_count sz.toNat fs1.cache disk1 buffer sz offset 0 hoffset
      (le_refl _)
    have hw' : write_loop sz.toNat fs1.cache disk1 buffer sz offset 0 =
        some (c', max 0 (min sz (MAX_INODE_LEN - offset))) := by rw [hw, hl, zero_add]
    exact ⟨_, inode_write_at_eq hn hdeny he hw', by rw [inode_length_after_write hn ho, hl]⟩
  refine ⟨hM, ?_, ?_, ?_, ?_⟩
  · obtain ⟨fs', h1, h2⟩ := key size hsize (by omega)
    refine ⟨fs', ?_, h2⟩
    rw [h1]
    congr 2
    omega
  · obtain ⟨fs', h1, h2⟩ := key (size + 1) (by omega) (by omega)
    refine ⟨fs', ?_, h2⟩
    rw [h1]
    congr 2
    omega
  · intro buffer' size' offset' fs' r h
    simp only [inode_write_at, hn, hd, if_false] at h
    split at h
    · simp at h
    · rename_i fs1 disk1 r1 he
      obtain ⟨p, _, _, ho, _⟩ := extend_disk_frame he h0 hmax
      split at h
      · simp at h
      · rename_i c' bw hw
        injection h with h; injection h with h1 h2; subst h1
        exact ⟨disk1.length, inode_length_after_write hn ho _ _, p⟩
  · intro fs0 fs' sector length mem_ok h
    cases mem_ok with
    | false => simp [inode_create] at h
    | true =>
      simp only [inode_create, if_true] at h
      split at h
      · simp at h
      · rename_i fs1 disk1 len he
        obtain ⟨p, _, q, _, _⟩ := extend_disk_frame he (le_refl _) (by rw [hM]; norm_num)
        split at h
        · split at h <;> simp at h
        · omega

/-- A write of 2000 bytes that ends exactly at `MAX_INODE_LEN`, on a file two
sectors short of it. -/
theorem inode_write_at_max_inode_len_witness :
    inode_at example_big_fs 1 = some example_big_inode ∧
    allocs_fit (2 * ((MAX_INODE_LEN - example_big_inode.data.length) / 512).toNat)
      example_big_fs.free_map = true ∧
    (∃ fs', inode_write_at example_big_fs 1 (fun _ => 65) 2000 (MAX_INODE_LEN - 2000)
        = some (fs', 2000) ∧ inode_length fs' 1 = some MAX_INODE_LEN) ∧
    (∃ fs', inode_write_at example_big_fs 1 (fun _ => 65) (2000 + 1) (MAX_INODE_LEN - 2000)
        = some (fs', 2000 + 1 - 1) ∧ inode_length fs' 1 = some MAX_INODE_LEN) :=
  ⟨rfl, by decide,
    (inode_write_at_max_inode_len example_big_fs 1 example_big_inode rfl rfl (by decide)
      (by decide) (fun _ => 65) 2000 (MAX_INODE_LEN - 2000) (by decide) (by decide) (by decide)
      (by decide)).2.1,
    (inode_write_at_max_inode_len example_big_fs 1 example_big_inode rfl rfl (by decide)
      (by decide) (fun _ => 65) 2000 (MAX_INODE_LEN - 2000) (by decide) (by decide) (by decide)
      (by decide)).2.2.1⟩

/-! ### The example runs, followed call by call

The state is described by `FsAbs`: the cache is coherent, the free-map has the
sectors below `a` in use, and the sectors outside `[lo, a)` hold the bytes `V`
as seen through the cache. -/

theorem free_map_scan_first (used : Nat → Bool) (s : Nat) (hs : used s = false) :
    ∀ (n i : Nat), i ≤ s → s < i + n → (∀ j, i ≤ j → j < s → used j = true) →
      free_map_scan used n i = some s := by
  intro n
  induction n with
  | zero => intro i h1 h2 _; omega
  | succ n ih =>
    intro i h1 h2 hall
    simp only [free_map_scan]
    by_cases hi : i = s
    · subst hi
      simp [hs]
    · have : used i = true := hall i (le_refl _) (by omega)
      rw [if_pos this]
      exact ih (i + 1) (by omega) (by omega) (fun j hj1 hj2 => hall j (by omega) hj2)

theorem free_map_allocate_first (fm : FreeMap) (a : Nat) (hfree : fm.used a = false)
    (hlt : a < fm.size) (hused : ∀ j, j < a → fm.used j = true) :
    free_map_allocate fm =
      some (FreeMap.mk fm.size (fun x => if x = a then true else fm.used x) fm.released, a) := by
  have h : free_map_scan fm.used fm.size 0 = some a :=
    free_map_scan_first fm.used a hfree fm.size 0 (Nat.zero_le _) (by omega)
      (fun j _ hj => hused j hj)
  simp only [free_map_allocate, h]

theorem free_map_scan_none (used : Nat → Bool) : ∀ (n i : Nat),
    (∀ j, i ≤ j → j < i + n → used j = true) → free_map_scan used n i = none := by
  intro n
  induction n with
  | zero => intro i _; rfl
  | succ n ih =>
    intro i h
    unfold free_map_scan
    rw [h i (le_refl _) (by omega)]
    simp only [if_true]
    exact ih (i + 1) (fun j h1 h2 => h j (by omega) (by omega))

theorem allocate_short_abs {fs : FS} {lo a size : Nat} {rel : List Nat} {V : Nat → Nat → Nat}
    (h : FsAbs fs lo a size rel V) (hlo : lo ≤ a) (ha : a < size) (ha16 : a ≤ UINT16_MAX) :
    ∃ fs1, allocate_short fs = some (fs1, some a) ∧ FsAbs fs1 lo (a + 1) size rel V ∧
      fs1.open_inodes = fs.open_inodes ∧ fs1.heap_next = fs.heap_next := by
  have hscan : free_map_scan fs.free_map.used fs.free_map.size 0 = some a := by
    apply free_map_scan_first _ a (by rw [h.used]; simp) _ _ (Nat.zero_le _)
      (by rw [h.size_eq]; omega)
    intro j _ hj
    rw [h.used]
    simpa using hj
  obtain ⟨c, hc, hinv, hview⟩ := cache_zero_inv h.inv a
  have hng : ¬ a > UINT16_MAX := by omega
  refine ⟨FS.mk c (FreeMap.mk fs.free_map.size
      (fun x => if x = a then true else fs.free_map.used x) fs.free_map.released)
      fs.open_inodes fs.heap_next, ?_, ?_, rfl, rfl⟩
  · simp only [allocate_short, free_map_allocate, hscan, hng, if_false, hc]
  · refine ⟨hinv, ?_, h.size_eq, h.released, ?_⟩
    · intro x
      show (if x = a then true else fs.free_map.used x) = decide (x < a + 1)
      by_cases hx : x = a
      · subst hx; simp
      · rw [if_neg hx, h.used]
        have : (x < a) ↔ (x < a + 1) := by omega
        simp only [this]
    · intro s hs hr i hi
      show view c s i = V s i
      rw [hview s hs i hi, if_neg (by omega)]
      exact h.view_eq s hs (by omega) i hi

theorem allocate_short_none {fs : FS} {lo a size : Nat} {rel : List Nat} {V : Nat → Nat → Nat}
    (h : FsAbs fs lo a size rel V) (ha : size ≤ a) :
    allocate_short fs = some (fs, none) := by
  have hscan : free_map_scan fs.free_map.used fs.free_map.size 0 = none := by
    apply free_map_scan_none
    intro j _ hj
    rw [h.used]
    rw [h.size_eq] at hj
    simp only [decide_eq_true_eq]
    omega
  simp only [allocate_short, free_map_allocate, hscan]

theorem append_sector_direct_abs {fs : FS} {disk : inode_disk} {lo a size : Nat}
    {rel : List Nat} {V : Nat → Nat → Nat} {k : Nat}
    (h : FsAbs fs lo a size rel V) (hlo : lo ≤ a) (ha : a < size) (ha16 : a ≤ UINT16_MAX)
    (hlen : disk.length = 512 * (k : Int)) (hk : k < 188) :
    ∃ fs1 disk1, append_sector fs disk = some (fs1, disk1, true) ∧
      FsAbs fs1 lo (a + 1) size rel V ∧
      fs1.open_inodes = fs.open_inodes ∧ fs1.heap_next = fs.heap_next ∧
      disk1.length = 512 * ((k + 1 : Nat) : Int) ∧ disk1.magic = disk.magic ∧
      disk1.indirect = disk.indirect ∧
      ∀ i, disk1.direct i = if i = k then a else disk.direct i := by
  have hr : ROUND_UP disk.length 512 = disk.length :=
    ROUND_UP_of_dvd (by omega) (by omega)
  have hng : ¬ (disk.length + 512 > MAX_INODE_LEN) := by
    simp only [MAX_INODE_LEN]; omega
  have e1 : Int.tdiv (disk.length + 512 - 1) 512 = (k : Int) := by
    rw [Int.tdiv_eq_ediv (by omega) (by norm_num)]
    omega
  have hd : ((k : Int) < 188) := by omega
  obtain ⟨fs1, h1, habs, ho, hh⟩ := allocate_short_abs h hlo ha ha16
  unfold append_sector
  simp only [BLOCK_SECTOR_SIZE, Nat.cast_ofNat, hr, hng, if_false, e1, NUM_DIRECT, hd, if_true,
    h1]
  refine ⟨_, _, rfl, habs, ho, hh, ?_, rfl, rfl, ?_⟩
  · show disk.length + 512 = 512 * ((k + 1 : Nat) : Int)
    push_cast
    omega
  · intro i
    show array_set disk.direct (k : Int).toNat a i = _
    simp only [array_set, Int.toNat_ofNat]

theorem uint16_t_ne_NONE (v : Nat) : uint16_t v ≠ NONE := by
  unfold uint16_t NONE
  omega

theorem append_sector_indirect_abs {fs : FS} {disk : inode_disk} {lo a size : Nat}
    {rel : List Nat} {V : Nat → Nat → Nat} {k : Nat}
    (h : FsAbs fs lo a size rel V) (hlo : lo ≤ a) (ha : a < size) (ha16 : a ≤ UINT16_MAX)
    (hlen : disk.length = 512 * (k : Int)) (hk : 188 ≤ k) (hk2 : k ≤ 443) :
    ∃ fs1 disk1, append_sector fs disk = some (fs1, disk1, true) ∧
      FsAbs fs1 lo (a + 1) size rel
        (fun s i => if s = uint16_t (disk.indirect 0) ∧ k - 188 ≤ i ∧ i < k - 188 + 2
          then u16_bytes a (i - (k - 188)) else V s i) ∧
      fs1.open_inodes = fs.open_inodes ∧ fs1.heap_next = fs.heap_next ∧
      disk1.length = 512 * ((k + 1 : Nat) : Int) ∧ disk1.magic = disk.magic ∧
      disk1.indirect = disk.indirect ∧ disk1.direct = disk.direct := by
  have hr : ROUND_UP disk.length 512 = disk.length :=
    ROUND_UP_of_dvd (by omega) (by omega)
  have hng : ¬ (disk.length + 512 > MAX_INODE_LEN) := by
    simp only [MAX_INODE_LEN]; omega
  have e1 : Int.tdiv (disk.length + 512 - 1) 512 = (k : Int) := by
    rw [Int.tdiv_eq_ediv (by omega) (by norm_num)]
    omega
  have hd : ¬ ((k : Int) < 188) := by omega
  have e2 : Int.tdiv ((k : Int) - 188) 256 = 0 := by
    rw [Int.tdiv_eq_ediv (by omega) (by norm_num)]
    omega
  have e3 : Int.tdiv (Int.tdiv (disk.length - 1) 512 - 188) 256 = 0 := by
    have e4 : Int.tdiv (disk.length - 1) 512 = (k : Int) - 1 := by
      rw [Int.tdiv_eq_ediv (by omega) (by norm_num)]
      omega
    rw [e4]
    by_cases hk3 : k = 188
    · subst hk3; decide
    · rw [Int.tdiv_eq_ediv (by omega) (by norm_num)]
      omega
  have e5 : Int.tmod ((k : Int) - 188) 256 = ((k - 188 : Nat) : Int) := by
    rw [Int.tmod_eq_emod (by omega) (by norm_num)]
    omega
  obtain ⟨fs1, h1, habs, ho, hh⟩ := allocate_short_abs h hlo ha ha16
  obtain ⟨c2, hc2, hinv2, hview2⟩ := cache_write_inv habs.inv (uint16_t (disk.indirect 0))
    (u16_bytes a) 2 ((k - 188 : Nat) : Int)
    ⟨by norm_num, by omega, by simp only [BLOCK_SECTOR_SIZE]; omega⟩
  unfold append_sector
  simp only [BLOCK_SECTOR_SIZE, Nat.cast_ofNat, hr, hng, if_false, e1, NUM_DIRECT, hd,
    INDIRECT_LEN, e2, e3, gt_iff_lt, lt_irrefl, h1, e5, Int.toNat_zero, hc2]
  refine ⟨_, _, rfl, ⟨hinv2, habs.used, habs.size_eq, habs.released, ?_⟩, ho, hh, ?_, rfl, rfl,
    rfl⟩
  · intro s hs hr2 i hi
    show view c2 s i = _
    rw [hview2 s hs i hi]
    simp only [Int.toNat_ofNat, Int.toNat_ofNat_add_one]
    have e6 : (2 : Int).toNat = 2 := rfl
    rw [e6, habs.view_eq s hs hr2 i hi]
  · show disk.length + 512 = 512 * ((k + 1 : Nat) : Int)
    push_cast
    omega

theorem append_sector_fail_abs {fs : FS} {disk : inode_disk} {lo a size : Nat}
    {rel : List Nat} {V : Nat → Nat → Nat} {k : Nat}
    (h : FsAbs fs lo a size rel V) (ha : size ≤ a)
    (hlen : disk.length = 512 * (k : Int)) (hk : 189 ≤ k) (hk2 : k ≤ 443) :
    append_sector fs disk = some (fs, disk, false) := by
  have hr : ROUND_UP disk.length 512 = disk.length :=
    ROUND_UP_of_dvd (by omega) (by omega)
  have hng : ¬ (disk.length + 512 > MAX_INODE_LEN) := by
    simp only [MAX_INODE_LEN]; omega
  have e1 : Int.tdiv (disk.length + 512 - 1) 512 = (k : Int) := by
    rw [Int.tdiv_eq_ediv (by omega) (by norm_num)]
    omega
  have hd : ¬ ((k : Int) < 188) := by omega
  have e2 : Int.tdiv ((k : Int) - 188) 256 = 0 := by
    rw [Int.tdiv_eq_ediv (by omega) (by norm_num)]
    omega
  have e3 : Int.tdiv (Int.tdiv (disk.length - 1) 512 - 188) 256 = 0 := by
    have e4 : Int.tdiv (disk.length - 1) 512 = (k : Int) - 1 := by
      rw [Int.tdiv_eq_ediv (by omega) (by norm_num)]
      omega
    rw [e4, Int.tdiv_eq_ediv (by omega) (by norm_num)]
    omega
  have h1 := allocate_short_none h ha
  unfold append_sector
  simp only [BLOCK_SECTOR_SIZE, Nat.cast_ofNat, hr, hng, if_false, e1, NUM_DIRECT, hd,
    INDIRECT_LEN, e2, e3, gt_iff_lt, lt_irrefl, h1]

theorem extend_loop_done (fuel : Nat) (fs : FS) (disk : inode_disk) (T : Int)
    (h : ¬ disk.length < T) : extend_loop fuel fs disk T = some (fs, disk) := by
  cases fuel with
  | zero => simp only [extend_loop, h, if_false]
  | succ n => simp only [extend_loop, h, if_false]

theorem extend_loop_step {fs fs1 : FS} {disk disk1 : inode_disk} {T : Int} (fuel : Nat)
    (h : disk.length < T) (ha : append_sector fs disk = some (fs1, disk1, true)) :
    extend_loop (fuel + 1) fs disk T = extend_loop fuel fs1 disk1 T := by
  simp only [extend_loop, h, if_true, ha]

theorem extend_loop_direct_abs (m : Nat) : ∀ (fs : FS) (disk : inode_disk) (lo a size k : Nat)
    (rel : List Nat) (V : Nat → Nat → Nat) (T : Int),
    FsAbs fs lo a size rel V → lo ≤ a → a + m ≤ size → a + m ≤ UINT16_MAX + 1 →
    disk.length = 512 * (k : Int) → k + m ≤ 188 → 512 * ((k + m : Nat) : Int) < T + 512 →
    ∃ fs1 disk1, (∀ fuel, extend_loop (fuel + m) fs disk T = extend_loop fuel fs1 disk1 T) ∧
      FsAbs fs1 lo (a + m) size rel V ∧
      fs1.open_inodes = fs.open_inodes ∧ fs1.heap_next = fs.heap_next ∧
      disk1.length = 512 * ((k + m : Nat) : Int) ∧ disk1.magic = disk.magic ∧
      disk1.indirect = disk.indirect ∧
      ∀ i, disk1.direct i = if k ≤ i ∧ i < k + m then a + (i - k) else disk.direct i := by
  induction m with
  | zero =>
    intro fs disk lo a size k rel V T h _ _ _ hlen _ _
    exact ⟨fs, disk, fun _ => rfl, h, rfl, rfl, hlen, rfl, rfl, fun i => by
      rw [if_neg (by omega)]⟩
  | succ m ih =>
    intro fs disk lo a size k rel V T h hlo hsz h16 hlen hk hT
    obtain ⟨fs1, disk1, h1, habs1, ho1, hh1, hl1, hm1, hi1, hd1⟩ :=
      append_sector_direct_abs h hlo (by omega) (by omega) hlen (show k < 188 by omega)
    obtain ⟨fs2, disk2, h2, habs2, ho2, hh2, hl2, hm2, hi2, hd2⟩ :=
      ih fs1 disk1 lo (a + 1) size (k + 1) rel V T habs1 (by omega) (by omega) (by omega) hl1
        (by omega) (by
          have : k + 1 + m = k + (m + 1) := by omega
          rw [this]; exact hT)
    refine ⟨fs2, disk2, ?_, ?_, ho2.trans ho1, hh2.trans hh1, ?_, hm2.trans hm1,
      hi2.trans hi1, ?_⟩
    · intro fuel
      have e : fuel + (m + 1) = (fuel + m) + 1 := by omega
      rw [e, extend_loop_step _ (by push_cast at hT; omega) h1, h2]
    · have : a + 1 + m = a + (m + 1) := by omega
      rw [← this]; exact habs2
    · have : k + 1 + m = k + (m + 1) := by omega
      rw [← this]; exact hl2
    · intro i
      rw [hd2 i, hd1 i]
      by_cases c1 : k + 1 ≤ i ∧ i < k + 1 + m
      · rw [if_pos c1, if_pos (by omega)]
        omega
      · rw [if_neg c1]
        by_cases c2 : i = k
        · rw [if_pos c2, if_pos (by omega)]
          omega
        · rw [if_neg c2, if_neg (by omega)]

/-- The first 190 iterations of the loop of `extend_disk` on an empty inode
and a free-map whose lowest free sector is 3: the direct slots get the sectors
3 to 190, and the ids 191 and 192 are stored at the byte offsets 0 and 1 of the
sector that `indirect[0]` names, sector 0. -/
theorem extend_loop_190_abs (fs : FS) (disk : inode_disk) (size : Nat) (V : Nat → Nat → Nat)
    (T : Int) (h : FsAbs fs 3 3 size [] V) (hsz : 193 ≤ size) (hlen : disk.length = 0)
    (hind : disk.indirect 0 = 0) (hT : 512 * 189 < T) :
    ∃ fs1 disk1, (∀ fuel, extend_loop (fuel + 190) fs disk T = extend_loop fuel fs1 disk1 T) ∧
      FsAbs fs1 3 193 size []
        (fun s i => if s = 0 ∧ 1 ≤ i ∧ i < 3 then u16_bytes 192 (i - 1)
          else if s = 0 ∧ 0 ≤ i ∧ i < 2 then u16_bytes 191 (i - 0) else V s i) ∧
      fs1.open_inodes = fs.open_inodes ∧ fs1.heap_next = fs.heap_next ∧
      disk1.length = 97280 ∧ disk1.magic = disk.magic ∧
      disk1.indirect = disk.indirect ∧
      ∀ i, disk1.direct i = if i < 188 then 3 + i else disk.direct i := by
  obtain ⟨fs1, disk1, h1, habs1, ho1, hh1, hl1, hm1, hi1, hd1⟩ :=
    extend_loop_direct_abs 188 fs disk 3 3 size 0 [] V T h (le_refl _) (by omega)
      (by unfold UINT16_MAX; omega) (by rw [hlen]; rfl) (by omega) (by push_cast; omega)
  have hw1 : uint16_t (disk1.indirect 0) = 0 := by rw [hi1, hind]; rfl
  obtain ⟨fs2, disk2, h2, habs2, ho2, hh2, hl2, hm2, hi2, hd2⟩ :=
    @append_sector_indirect_abs fs1 disk1 3 191 size [] V 188 habs1 (by omega) (by omega)
      (by simp only [UINT16_MAX]; omega) hl1 (le_refl _) (by omega)
  have hw2 : uint16_t (disk2.indirect 0) = 0 := by rw [hi2]; exact hw1
  rw [hw1] at habs2
  obtain ⟨fs3, disk3, h3, habs3, ho3, hh3, hl3, hm3, hi3, hd3⟩ :=
    @append_sector_indirect_abs fs2 disk2 3 192 size [] _ 189 habs2 (by omega) (by omega)
      (by simp only [UINT16_MAX]; omega) hl2 (by omega) (by omega)
  rw [hw2] at habs3
  refine ⟨fs3, disk3, ?_, habs3, (ho3.trans ho2).trans ho1, (hh3.trans hh2).trans hh1, ?_,
    (hm3.trans hm2).trans hm1, (hi3.trans hi2).trans hi1, ?_⟩
  · intro fuel
    have e : fuel + 190 = (fuel + 1 + 1) + 188 := by omega
    rw [e, h1, extend_loop_step _ (by rw [hl1]; push_cast; omega) h2,
      extend_loop_step _ (by rw [hl2]; push_cast; omega) h3]
  · rw [hl3]; rfl
  · intro i
    rw [hd3, hd2, hd1 i]
    by_cases c : i < 188
    · rw [if_pos c, if_pos (by omega)]
      omega
    · rw [if_neg c, if_neg (by omega)]

theorem memcpy_from_getD (src : Nat → Nat) (offset size o : Nat) (h : o < size) :
    (memcpy_from src offset size).getD o 0 = src (offset + o) := by
  simp [memcpy_from, List.getD_eq_getElem?_getD, h]

/-- Reading an on-disk inode back from the 512 bytes it was written as. -/
theorem inode_disk_of_bytes_view (D : Nat → Nat) (d : inode_disk)
    (hD : ∀ i, i < 512 → D i = inode_disk_bytes d i) (h0 : 0 ≤ d.length)
    (h1 : d.length < 2147483648) :
    (inode_disk_of_bytes (memcpy_from D 0 512)).length = d.length ∧
    (∀ j, j < 188 → (inode_disk_of_bytes (memcpy_from D 0 512)).direct j = d.direct j % 65536) ∧
    (∀ j, j < 64 →
      (inode_disk_of_bytes (memcpy_from D 0 512)).indirect j = d.indirect j % 65536) := by
  refine ⟨?_, ?_, ?_⟩
  · obtain ⟨v, hv⟩ : ∃ v : Nat, d.length = (v : Int) := ⟨d.length.toNat, by omega⟩
    have hv2 : v < 2147483648 := by omega
    have hmod : (d.length % 4294967296).toNat = v := by omega
    have b0 : D 0 = v % 256 := by
      rw [hD 0 (by omega)]
      simp only [inode_disk_bytes, hmod, u32_byte]
      norm_num
    have b1 : D 1 = v / 256 % 256 := by
      rw [hD 1 (by omega)]
      simp only [inode_disk_bytes, hmod, u32_byte]
      norm_num
    have b2 : D 2 = v / 65536 % 256 := by
      rw [hD 2 (by omega)]
      simp only [inode_disk_bytes, hmod, u32_byte]
      norm_num
    have b3 : D 3 = v / 16777216 % 256 := by
      rw [hD 3 (by omega)]
      simp only [inode_disk_bytes, hmod, u32_byte]
      norm_num
    have hu : u32_of_bytes (memcpy_from D 0 512) 0 = v := by
      simp only [u32_of_bytes, memcpy_from_getD D 0 512 _ (show 0 < 512 by omega),
        memcpy_from_getD D 0 512 _ (show 0 + 1 < 512 by omega),
        memcpy_from_getD D 0 512 _ (show 0 + 2 < 512 by omega),
        memcpy_from_getD D 0 512 _ (show 0 + 3 < 512 by omega), Nat.zero_add, b0, b1, b2, b3]
      omega
    simp only [inode_disk_of_bytes, hu, hv2, if_true, hv]
  · intro j hj
    simp only [inode_disk_of_bytes]
    rw [memcpy_from_getD D 0 512 _ (show 8 + 2 * j < 512 by omega),
      memcpy_from_getD D 0 512 _ (show 9 + 2 * j < 512 by omega), Nat.zero_add, Nat.zero_add,
      hD _ (show 8 + 2 * j < 512 by omega), hD _ (show 9 + 2 * j < 512 by omega)]
    have e1 : (8 + 2 * j - 8) / 2 = j := by omega
    have e2 : (8 + 2 * j - 8) % 2 = 0 := by omega
    have e3 : (9 + 2 * j - 8) / 2 = j := by omega
    have e4 : (9 + 2 * j - 8) % 2 = 1 := by omega
    have c1 : ¬ (8 + 2 * j < 4) := by omega
    have c2 : ¬ (8 + 2 * j < 8) := by omega
    have c3 : 8 + 2 * j < 384 := by omega
    have c4 : ¬ (9 + 2 * j < 4) := by omega
    have c5 : ¬ (9 + 2 * j < 8) := by omega
    have c6 : 9 + 2 * j < 384 := by omega
    simp only [inode_disk_bytes, c1, c2, c3, c4, c5, c6, if_true, if_false, e1, e2, e3, e4,
      u16_bytes, u16_of_bytes, List.getD_cons_zero, List.getD_cons_succ, one_ne_zero]
    omega
  · intro j hj
    simp only [inode_disk_of_bytes]
    rw [memcpy_from_getD D 0 512 _ (show 384 + 2 * j < 512 by omega),
      memcpy_from_getD D 0 512 _ (show 385 + 2 * j < 512 by omega), Nat.zero_add, Nat.zero_add,
      hD _ (show 384 + 2 * j < 512 by omega), hD _ (show 385 + 2 * j < 512 by omega)]
    have e1 : (384 + 2 * j - 384) / 2 = j := by omega
    have e2 : (384 + 2 * j - 384) % 2 = 0 := by omega
    have e3 : (385 + 2 * j - 384) / 2 = j := by omega
    have e4 : (385 + 2 * j - 384) % 2 = 1 := by omega
    have c1 : ¬ (384 + 2 * j < 4) := by omega
    have c2 : ¬ (384 + 2 * j < 8) := by omega
    have c3 : ¬ (384 + 2 * j < 384) := by omega
    have c3b : 384 + 2 * j < 512 := by omega
    have c4 : ¬ (385 + 2 * j < 4) := by omega
    have c5 : ¬ (385 + 2 * j < 8) := by omega
    have c6 : ¬ (385 + 2 * j < 384) := by omega
    have c6b : 385 + 2 * j < 512 := by omega
    simp only [inode_disk_bytes, c1, c2, c3, c3b, c4, c5, c6, c6b, if_true, if_false, e1, e2,
      e3, e4, u16_bytes, u16_of_bytes, List.getD_cons_zero, List.getD_cons_succ, one_ne_zero]
    omega

theorem example_fs_abs : FsAbs example_fs 3 3 65536 [] example_dev.contents :=
  ⟨cache_init_inv _, fun _ => rfl, rfl, rfl, fun s hs _ i _ => view_cache_init _ s hs i⟩

theorem extend_disk_190_abs (fs : FS) (size : Nat) (V : Nat → Nat → Nat) (T : Int)
    (h : FsAbs fs 3 3 size [] V) (hsz : 193 ≤ size) (hT : 512 * 189 < T) (hT2 : T ≤ 8388608) :
    ∃ fs1 disk1,
      extend_loop (T - ROUND_UP 0 512).toNat fs
          { length := ROUND_UP 0 512, magic := INODE_MAGIC, direct := fun _ => 0,
            indirect := fun _ => 0 } T =
        extend_loop ((T - ROUND_UP 0 512).toNat - 190) fs1 disk1 T ∧
      FsAbs fs1 3 193 size []
        (fun s i => if s = 0 ∧ 1 ≤ i ∧ i < 3 then u16_bytes 192 (i - 1)
          else if s = 0 ∧ 0 ≤ i ∧ i < 2 then u16_bytes 191 (i - 0) else V s i) ∧
      fs1.open_inodes = fs.open_inodes ∧ fs1.heap_next = fs.heap_next ∧
      disk1.length = 97280 ∧ disk1.magic = INODE_MAGIC ∧
      disk1.indirect = (fun _ => 0) ∧
      ∀ i, disk1.direct i = if i < 188 then 3 + i else 0 := by
  have hr : ROUND_UP 0 512 = 0 := by decide
  obtain ⟨fs1, disk1, h1, habs, ho, hh, hl, hm, hi, hd⟩ :=
    extend_loop_190_abs fs (inode_disk.mk (ROUND_UP 0 512) INODE_MAGIC (fun _ => 0)
      (fun _ => 0)) size V T h hsz hr rfl hT
  refine ⟨fs1, disk1, ?_, habs, ho, hh, hl, hm, hi, hd⟩
  have e : (T - ROUND_UP 0 512).toNat = ((T - ROUND_UP 0 512).toNat - 190) + 190 := by
    rw [hr]; omega
  conv_lhs => rw [e]
  exact h1 _

theorem inode_create_190_abs (fs : FS) (size : Nat) (V : Nat → Nat → Nat)
    (h : FsAbs fs 3 3 size [] V) (hsz : 193 ≤ size) :
    ∃ fs1 disk1, inode_create fs 2 (190 * 512) true = some (fs1, true) ∧
      FsAbs fs1 3 193 size []
        (fun s i => if s = 2 ∧ i < 512 then inode_disk_bytes disk1 i
          else if s = 0 ∧ 1 ≤ i ∧ i < 3 then u16_bytes 192 (i - 1)
          else if s = 0 ∧ 0 ≤ i ∧ i < 2 then u16_bytes 191 (i - 0) else V s i) ∧
      fs1.open_inodes = fs.open_inodes ∧ fs1.heap_next = fs.heap_next ∧
      disk1.length = 97280 ∧ disk1.magic = INODE_MAGIC ∧
      disk1.indirect = (fun _ => 0) ∧
      ∀ i, disk1.direct i = if i < 188 then 3 + i else 0 := by
  obtain ⟨fs1, disk1, h1, habs, ho, hh, hl, hm, hi, hd⟩ :=
    extend_disk_190_abs fs size V (190 * 512) h hsz (by norm_num) (by norm_num)
  have hdone := extend_loop_done ((190 * 512 - ROUND_UP 0 512).toNat - 190) fs1 disk1
    (190 * 512) (by rw [hl]; norm_num)
  obtain ⟨c2, hc2, hinv2, hview2⟩ := cache_write_inv habs.inv 2 (inode_disk_bytes disk1)
    (BLOCK_SECTOR_SIZE : Int) 0 ⟨by simp [BLOCK_SECTOR_SIZE], le_refl _, by simp⟩
  have hge : ¬ ((0 : Int) ≥ 190 * 512) := by norm_num
  have hgt : ¬ (disk1.length > 190 * 512) := by rw [hl]; norm_num
  have hlt : ¬ (disk1.length < 190 * 512) := by rw [hl]; norm_num
  refine ⟨{ fs1 with cache := c2 }, disk1, ?_, ⟨hinv2, habs.used, habs.size_eq, habs.released,
    ?_⟩, ho, hh, hl, hm, hi, hd⟩
  · unfold inode_create extend_disk
    simp only [if_true, hge, if_false, BLOCK_SECTOR_SIZE, Nat.cast_ofNat] at hc2 ⊢
    rw [h1, hdone]
    simp only [hgt, if_false, hlt, hc2]
  · intro s hs hr i hi2
    show view c2 s i = _
    rw [hview2 s hs i hi2, habs.view_eq s hs hr i hi2]
    simp only [BLOCK_SECTOR_SIZE] at hi2
    simp only [Int.toNat_zero, Nat.zero_le, true_and, Nat.zero_add, BLOCK_SECTOR_SIZE,
      Int.toNat_ofNat, Nat.sub_zero, Nat.cast_ofNat]
    rfl

theorem read_loop_done (fuel : Nat) (c : Cache) (disk : inode_disk) (size offset : Int)
    (buf : List Nat) (br : Int) (h : ¬ (size > 0 ∧ offset < disk.length)) :
    read_loop fuel c disk size offset buf br = some (c, buf, br) := by
  cases fuel with
  | zero => simp only [read_loop, h, if_false]
  | succ n => simp only [read_loop, h, if_false]

theorem write_loop_done (fuel : Nat) (c : Cache) (disk : inode_disk) (buffer : Nat → Nat)
    (size offset bw : Int) (h : ¬ (size > 0 ∧ offset < disk.length)) :
    write_loop fuel c disk buffer size offset bw = some (c, bw) := by
  cases fuel with
  | zero => simp only [write_loop, h, if_false]
  | succ n => simp only [write_loop, h, if_false]

theorem chunk_size_eq (size offset len : Int)
    (hfit : offset % 512 + size ≤ 512) (hlen : offset + size ≤ len) :
    (if size < (if len - offset < 512 - offset % 512 then len - offset
        else 512 - offset % 512) then size
      else (if len - offset < 512 - offset % 512 then len - offset
        else 512 - offset % 512)) = size := by
  split_ifs <;> omega

/-- One iteration of the loop of `inode_read_at` that reads the whole request
from one sector. -/
theorem read_loop_chunk {c c1 : Cache} {disk : inode_disk} {s : Nat} (fuel : Nat)
    (size offset : Int) (buf : List Nat) (br : Int) (hsize : 0 < size) (hoff : 0 ≤ offset)
    (hfit : offset % 512 + size ≤ 512) (hlen : offset + size ≤ disk.length)
    (hb : byte_to_sector_disk c disk offset = some (c1, s)) (hinv : CacheInv c1)
    (hs : s ≠ NONE) :
    ∃ c2, read_loop (fuel + 1) c disk size offset buf br =
        some (c2, buf ++ memcpy_from (view c1 s) (offset % 512).toNat size.toNat, br + size) ∧
      CacheInv c2 ∧
      (∀ s', s' ≠ NONE → ∀ i, i < BLOCK_SECTOR_SIZE → view c2 s' i = view c1 s' i) := by
  have hc : size > 0 ∧ offset < disk.length := ⟨hsize, by omega⟩
  have e1 : Int.tmod offset 512 = offset % 512 := Int.tmod_eq_emod hoff (by norm_num)
  have hch := chunk_size_eq size offset disk.length hfit hlen
  obtain ⟨c2, bytes, hr, hinv2, hview2, hbytes, _⟩ := cache_read_inv hinv s size (offset % 512)
    ⟨by omega, by omega, by simp only [BLOCK_SECTOR_SIZE]; omega⟩
  have hbe := hbytes hs
  subst hbe
  have hnle : ¬ (size ≤ 0) := by omega
  have hdone := read_loop_done fuel c2 disk (size - size) (offset + size)
    (buf ++ memcpy_from (view c1 s) (offset % 512).toNat size.toNat) (br + size) (by omega)
  refine ⟨c2, ?_, hinv2, hview2⟩
  simp only [read_loop, hc, and_self, if_true, hb, hs, if_false, BLOCK_SECTOR_SIZE,
    Nat.cast_ofNat, e1, hch, hnle, hr, hdone]

/-- One iteration of the loop of `inode_write_at` that writes the whole request
to one sector. -/
theorem write_loop_chunk {c c1 : Cache} {disk : inode_disk} {s : Nat} (fuel : Nat)
    (buffer : Nat → Nat) (size offset : Int) (bw : Int) (hsize : 0 < size) (hoff : 0 ≤ offset)
    (hfit : offset % 512 + size ≤ 512) (hlen : offset + size ≤ disk.length)
    (hb : byte_to_sector_disk c disk offset = some (c1, s)) (hinv : CacheInv c1)
    (hs : s ≠ NONE) :
    ∃ c2, write_loop (fuel + 1) c disk buffer size offset bw = some (c2, bw + size) ∧
      CacheInv c2 ∧
      (∀ s', s' ≠ NONE → s' ≠ s → ∀ i, i < BLOCK_SECTOR_SIZE → view c2 s' i = view c1 s' i) := by
  have hc : size > 0 ∧ offset < disk.length := ⟨hsize, by omega⟩
  have e1 : Int.tmod offset 512 = offset % 512 := Int.tmod_eq_emod hoff (by norm_num)
  have hch := chunk_size_eq size offset disk.length hfit hlen
  obtain ⟨c2, hw, hinv2, hview2⟩ := cache_write_inv hinv s (fun i => buffer (bw.toNat + i))
    size (offset % 512) ⟨by omega, by omega, by simp only [BLOCK_SECTOR_SIZE]; omega⟩
  have hnle : ¬ (size ≤ 0) := by omega
  have hdone := write_loop_done fuel c2 disk buffer (size - size) (offset + size)
    (bw + size) (by omega)
  refine ⟨c2, ?_, hinv2, ?_⟩
  · simp only [write_loop, hc, and_self, if_true, hb, hs, if_false, BLOCK_SECTOR_SIZE,
      Nat.cast_ofNat, e1, hch, hnle, hw, hdone]
  · intro s' hs' hne i hi
    rw [hview2 s' hs' i hi, if_neg (fun h => hne h.1)]

theorem memcpy_from_congr (f g : Nat → Nat) (offset size : Nat)
    (h : ∀ i, offset ≤ i → i < offset + size → f i = g i) :
    memcpy_from f offset size = memcpy_from g offset size := by
  unfold memcpy_from
  apply List.map_congr_left
  intro k hk
  exact h _ (by omega) (by have := List.mem_range.mp hk; omega)

theorem inode_open_fresh_abs {fs : FS} {lo a size : Nat} {rel : List Nat}
    {V : Nat → Nat → Nat} (h : FsAbs fs lo a size rel V) (sector : Nat) (hsec : sector ≠ NONE)
    (htr : sector < lo ∨ a ≤ sector) (hopen : fs.open_inodes = []) :
    ∃ fs2, inode_open fs sector true = some (fs2, some fs.heap_next) ∧
      FsAbs fs2 lo a size rel V ∧
      inode_at fs2 fs.heap_next = some
        { addr := fs.heap_next, sector := sector, open_cnt := 1, removed := false,
          deny_write_cnt := 0, data := inode_disk_of_bytes (memcpy_from (V sector) 0 512) } ∧
      fs2.free_map = fs.free_map := by
  obtain ⟨c, bytes, hr, hinv, hview, hbytes, _⟩ := cache_read_inv h.inv sector
    (BLOCK_SECTOR_SIZE : Int) 0 ⟨by simp [BLOCK_SECTOR_SIZE], le_refl _, by simp⟩
  have hb : bytes = memcpy_from (V sector) 0 512 := by
    rw [hbytes hsec]
    simp only [BLOCK_SECTOR_SIZE, Int.toNat_zero, Nat.cast_ofNat, Int.toNat_ofNat]
    apply memcpy_from_congr
    intro i _ hi
    exact h.view_eq sector hsec htr i (by simp only [BLOCK_SECTOR_SIZE]; omega)
  rw [hb] at hr
  refine ⟨FS.mk c fs.free_map [inode.mk fs.heap_next sector 1 false 0
      (inode_disk_of_bytes (memcpy_from (V sector) 0 512))] (fs.heap_next + 1), ?_,
    ⟨hinv, h.used, h.size_eq, h.released, ?_⟩, ?_, rfl⟩
  · simp only [inode_open, hopen, List.find?_nil, if_true, hr]
  · intro s hs hr2 i hi
    show view c s i = V s i
    rw [hview s hs i hi]
    exact h.view_eq s hs hr2 i hi
  · simp [inode_at]

theorem byte_to_sector_disk_indirect_abs {fs : FS} {lo a size : Nat} {rel : List Nat}
    {V : Nat → Nat → Nat} (h : FsAbs fs lo a size rel V) (disk : inode_disk) (pos : Int)
    (k : Nat) (hk : pos / 512 = (k : Int) + 188) (hk2 : k < 256) (h0 : 0 ≤ pos)
    (hlen : pos < disk.length)
    (hw : uint16_t (disk.indirect 0) < lo ∨ a ≤ uint16_t (disk.indirect 0)) :
    ∃ c1, byte_to_sector_disk fs.cache disk pos = some (c1,
        V (uint16_t (disk.indirect 0)) k % 256 +
          256 * (V (uint16_t (disk.indirect 0)) (k + 1) % 256)) ∧
      CacheInv c1 ∧
      (∀ s, s ≠ NONE → ∀ i, i < BLOCK_SECTOR_SIZE → view c1 s i = view fs.cache s i) := by
  obtain ⟨c1, hb, hinv, hview⟩ := byte_to_sector_disk_indirect h.inv disk pos h0 hlen
    (by simp only [NUM_DIRECT]; omega)
  have e1 : ((pos / 512 - 188) / 256).toNat = 0 := by omega
  have e2 : ((pos / 512 - 188) % 256).toNat = k := by omega
  rw [e1, e2] at hb
  rw [h.view_eq _ (uint16_t_ne_NONE _) hw k (by simp only [BLOCK_SECTOR_SIZE]; omega),
    h.view_eq _ (uint16_t_ne_NONE _) hw (k + 1) (by simp only [BLOCK_SECTOR_SIZE]; omega)] at hb
  exact ⟨c1, hb, hinv, hview⟩

theorem inode_read_at_chunk_abs {fs : FS} {lo a size : Nat} {rel : List Nat}
    {V : Nat → Nat → Nat} (h : FsAbs fs lo a size rel V) {ad : Nat} {n : inode}
    (hn : inode_at fs ad = some n) (sz offset : Int) (hsize : 0 < sz) (hoff : 0 ≤ offset)
    (hfit : offset % 512 + sz ≤ 512) (hlen : offset + sz ≤ n.data.length) {s : Nat} {c1 : Cache}
    (hs : s ≠ NONE) (htr : s < lo ∨ a ≤ s)
    (hb : byte_to_sector_disk fs.cache n.data offset = some (c1, s)) (hinv : CacheInv c1)
    (hview : ∀ s, s ≠ NONE → ∀ i, i < BLOCK_SECTOR_SIZE → view c1 s i = view fs.cache s i) :
    ∃ fs1, inode_read_at fs ad sz offset =
        some (fs1, memcpy_from (V s) (offset % 512).toNat sz.toNat, sz) ∧
      FsAbs fs1 lo a size rel V ∧ inode_at fs1 ad = some n ∧
      fs1.free_map = fs.free_map := by
  obtain ⟨fuel, hf⟩ : ∃ fuel, sz.toNat = fuel + 1 := ⟨sz.toNat - 1, by omega⟩
  obtain ⟨c2, hr, hinv2, hview2⟩ := read_loop_chunk fuel sz offset [] 0 hsize hoff hfit hlen hb
    hinv hs
  have hm : memcpy_from (view c1 s) (offset % 512).toNat sz.toNat =
      memcpy_from (V s) (offset % 512).toNat sz.toNat := by
    apply memcpy_from_congr
    intro i _ hi
    have hi2 : i < BLOCK_SECTOR_SIZE := by simp only [BLOCK_SECTOR_SIZE]; omega
    rw [hview s hs i hi2]
    exact h.view_eq s hs htr i hi2
  rw [← hf, List.nil_append, zero_add, hm] at hr
  refine ⟨{ fs with cache := c2 }, ?_, ⟨hinv2, h.used, h.size_eq, h.released, ?_⟩, hn, rfl⟩
  · simp only [inode_read_at, hn, hr]
  · intro s' hs' hr2 i hi
    show view c2 s' i = V s' i
    rw [hview2 s' hs' i hi, hview s' hs' i hi]
    exact h.view_eq s' hs' hr2 i hi

theorem extend_disk_no_op (fs : FS) (disk : inode_disk) (T : Int) (h : T ≤ disk.length) :
    extend_disk fs disk T = some (fs, disk, disk.length) := by
  simp only [extend_disk, ge_iff_le, h, if_true]

theorem extend_disk_one_indirect_abs {fs : FS} {lo a size : Nat} {rel : List Nat}
    {V : Nat → Nat → Nat} (h : FsAbs fs lo a size rel V) (hlo : lo ≤ a) (ha : a < size)
    (ha16 : a ≤ UINT16_MAX) (disk : inode_disk) (k : Nat) (hlen : disk.length = 512 * (k : Int))
    (hk : 188 ≤ k) (hk2 : k ≤ 443) (T : Int) (hT1 : 512 * (k : Int) < T)
    (hT2 : T ≤ 512 * (k : Int) + 512) :
    ∃ fs1 disk1, extend_disk fs disk T = some (fs1, disk1, T) ∧
      FsAbs fs1 lo (a + 1) size rel
        (fun s i => if s = uint16_t (disk.indirect 0) ∧ k - 188 ≤ i ∧ i < k - 188 + 2
          then u16_bytes a (i - (k - 188)) else V s i) ∧
      fs1.open_inodes = fs.open_inodes ∧ fs1.heap_next = fs.heap_next ∧
      disk1.length = T ∧ disk1.magic = disk.magic ∧
      disk1.indirect = disk.indirect ∧ disk1.direct = disk.direct := by
  have hr : ROUND_UP disk.length 512 = disk.length :=
    ROUND_UP_of_dvd (by omega) (by omega)
  obtain ⟨fs1, disk1, h1, habs, ho, hh, hl, hm, hi, hd⟩ :=
    @append_sector_indirect_abs fs
      (inode_disk.mk (ROUND_UP disk.length 512) disk.magic disk.direct disk.indirect)
      lo a size rel V k h hlo ha ha16 (by rw [hr]; exact hlen) hk hk2
  obtain ⟨fuel, hf⟩ : ∃ fuel, (T - ROUND_UP disk.length 512).toNat = fuel + 1 :=
    ⟨(T - ROUND_UP disk.length 512).toNat - 1, by rw [hr]; omega⟩
  have hge : ¬ (disk.length ≥ T) := by omega
  have hstep := extend_loop_step (T := T) fuel (show
    (inode_disk.mk (ROUND_UP disk.length 512) disk.magic disk.direct disk.indirect).length < T
    by show ROUND_UP disk.length 512 < T; rw [hr]; omega) h1
  have hdone := extend_loop_done fuel fs1 disk1 T (by rw [hl]; push_cast; omega)
  by_cases hgt : disk1.length > T
  · refine ⟨fs1, { disk1 with length := T }, ?_, habs, ho, hh, rfl, hm, hi, hd⟩
    unfold extend_disk
    simp only [hge, if_false, BLOCK_SECTOR_SIZE, Nat.cast_ofNat, hf, hstep, hdone, hgt, if_true]
  · refine ⟨fs1, disk1, ?_, habs, ho, hh, by rw [hl] at hgt ⊢; push_cast at hgt ⊢; omega, hm,
      hi, hd⟩
    have hl2 : disk1.length = T := by rw [hl] at hgt ⊢; push_cast at hgt ⊢; omega
    unfold extend_disk
    simp only [hge, if_false, BLOCK_SECTOR_SIZE, Nat.cast_ofNat, hf, hstep, hdone, hgt]
    rw [hl2]

theorem inode_write_at_chunk_abs {fs fs1 : FS} {lo a size : Nat} {rel : List Nat}
    {V : Nat → Nat → Nat} {ad : Nat} {n : inode} {disk1 : inode_disk} {r : Int}
    (hn : inode_at fs ad = some n) (hdeny : n.deny_write_cnt = 0) (buffer : Nat → Nat)
    (sz offset : Int) (he : extend_disk fs n.data (offset + sz) = some (fs1, disk1, r))
    (ho : fs1.open_inodes = fs.open_inodes) (h : FsAbs fs1 lo a size rel V)
    (hsize : 0 < sz) (hoff : 0 ≤ offset)
    (hfit : offset % 512 + sz ≤ 512) (hlen : offset + sz ≤ disk1.length) {s : Nat} {c1 : Cache}
    (hs : s ≠ NONE) (hin : lo ≤ s ∧ s < a)
    (hb : byte_to_sector_disk fs1.cache disk1 offset = some (c1, s)) (hinv : CacheInv c1)
    (hview : ∀ s, s ≠ NONE → ∀ i, i < BLOCK_SECTOR_SIZE → view c1 s i = view fs1.cache s i) :
    ∃ fs2, inode_write_at fs ad buffer sz offset = some (fs2, sz) ∧
      FsAbs fs2 lo a size rel V ∧ inode_at fs2 ad = some { n with data := disk1 } ∧
      fs2.free_map = fs1.free_map := by
  obtain ⟨fuel, hf⟩ : ∃ fuel, sz.toNat = fuel + 1 := ⟨sz.toNat - 1, by omega⟩
  obtain ⟨c2, hw, hinv2, hview2⟩ := write_loop_chunk fuel buffer sz offset 0 hsize hoff hfit
    hlen hb hinv hs
  rw [← hf, zero_add] at hw
  refine ⟨_, inode_write_at_eq hn hdeny he hw,
    ⟨hinv2, h.used, h.size_eq, h.released, ?_⟩, ?_, rfl⟩
  · intro s' hs' hr2 i hi
    show view c2 s' i = V s' i
    rw [hview2 s' hs' (by omega) i hi, hview s' hs' i hi]
    exact h.view_eq s' hs' hr2 i hi
  · exact inode_at_update (show inode_at { fs1 with cache := c2 } ad = some n from
      (inode_at_congr (show ({ fs1 with cache := c2 } : FS).open_inodes = fs.open_inodes from ho)
        ad).trans hn) _ (fun _ => rfl)

theorem release_loop_done (fuel : Nat) (c : Cache) (fm : FreeMap) (disk : inode_disk)
    (ofs : Int) (h : ¬ ofs < disk.length) : release_loop fuel c fm disk ofs = some (c, fm) := by
  cases fuel with
  | zero => simp only [release_loop, h, if_false]
  | succ n => simp only [release_loop, h, if_false]

theorem release_loop_step {c c1 : Cache} {disk : inode_disk} {ofs : Int} {s : Nat} (fuel : Nat)
    (fm : FreeMap) (h : ofs < disk.length) (hb : byte_to_sector_disk c disk ofs = some (c1, s)) :
    release_loop (fuel + 1) c fm disk ofs =
      release_loop fuel c1 (free_map_release fm s) disk (ofs + 512) := by
  simp only [release_loop, h, if_true, hb, BLOCK_SECTOR_SIZE, Nat.cast_ofNat]

theorem byte_to_sector_disk_direct (c : Cache) (disk : inode_disk) (j : Nat) (hj : j < 188)
    (hlen : 512 * (j : Int) < disk.length) :
    byte_to_sector_disk c disk (512 * (j : Int)) = some (c, uint16_t (disk.direct j)) := by
  have h0 : (0 : Int) ≤ 512 * (j : Int) := by omega
  have hge : ¬ (512 * (j : Int) ≥ disk.length) := by omega
  have e1 : Int.tdiv (512 * (j : Int)) 512 = (j : Int) := by
    rw [Int.tdiv_eq_ediv h0 (by norm_num)]
    omega
  have hd : (j : Int) < 188 := by omega
  simp only [byte_to_sector_disk, h0, if_true, hge, if_false, BLOCK_SECTOR_SIZE, Nat.cast_ofNat,
    e1, NUM_DIRECT, hd, Int.toNat_ofNat]

theorem release_loop_direct (m : Nat) : ∀ (c : Cache) (fm : FreeMap) (disk : inode_disk)
    (j : Nat), j + m ≤ 188 → 512 * ((j + m : Nat) : Int) ≤ disk.length →
    (∀ i, i < 188 → disk.direct i = 3 + i) →
    ∃ fm1, (∀ fuel, release_loop (fuel + m) c fm disk (512 * (j : Int)) =
        release_loop fuel c fm1 disk (512 * ((j + m : Nat) : Int))) ∧
      fm1.size = fm.size ∧
      (∀ x, fm1.used x = if 3 + j ≤ x ∧ x < 3 + j + m then false else fm.used x) ∧
      fm1.released.length = fm.released.length + m ∧
      fm1.released = ((List.range m).map (fun i => 3 + j + i)).reverse ++ fm.released := by
  induction m with
  | zero =>
    intro c fm disk j _ _ _
    exact ⟨fm, fun _ => rfl, rfl, fun x => by rw [if_neg (by omega)], rfl, rfl⟩
  | succ m ih =>
    intro c fm disk j hj hlen hd
    have hb := byte_to_sector_disk_direct c disk j (by omega) (by push_cast at hlen; omega)
    have hu : uint16_t (disk.direct j) = 3 + j := by
      rw [hd j (by omega)]
      unfold uint16_t
      omega
    rw [hu] at hb
    obtain ⟨fm1, h1, hs1, hu1, hr1, hl1⟩ := ih c (free_map_release fm (3 + j)) disk (j + 1)
      (by omega) (by
        have : j + 1 + m = j + (m + 1) := by omega
        rw [this]; exact hlen) hd
    refine ⟨fm1, ?_, hs1, ?_, ?_, ?_⟩
    · intro fuel
      have e : fuel + (m + 1) = (fuel + m) + 1 := by omega
      have e2 : 512 * (j : Int) + 512 = 512 * ((j + 1 : Nat) : Int) := by push_cast; omega
      have e3 : j + 1 + m = j + (m + 1) := by omega
      rw [e, release_loop_step _ fm (by push_cast at hlen; omega) hb, e2, h1, e3]
    · intro x
      rw [hu1 x]
      show (if 3 + (j + 1) ≤ x ∧ x < 3 + (j + 1) + m then false
        else if x = 3 + j then false else fm.used x) = _
      by_cases c1 : 3 + (j + 1) ≤ x ∧ x < 3 + (j + 1) + m
      · rw [if_pos c1, if_pos (by omega)]
      · rw [if_neg c1]
        by_cases c2 : x = 3 + j
        · rw [if_pos c2, if_pos (by omega)]
        · rw [if_neg c2, if_neg (by omega)]
    · rw [hr1]
      show ((3 + j) :: fm.released).length + m = _
      simp only [List.length_cons]
      omega
    · rw [hl1]
      show _ ++ (3 + j) :: fm.released = _
      rw [List.range_succ_eq_map, List.map_cons, List.reverse_cons, List.append_assoc,
        List.map_map]
      simp only [List.singleton_append, Nat.add_zero]
      congr 2
      apply List.map_congr_left
      intro i _
      show 3 + (j + 1) + i = 3 + j + (i + 1)
      omega

/-- The state after `inode_create (2, 191 * 512)` on a file system with 190 free
sectors, in terms of what `example_create_scenario` observes. -/
theorem inode_create_191_abs (fs : FS) (V : Nat → Nat → Nat)
    (h : FsAbs fs 3 3 193 [] V) :
    ∃ fs2, inode_create fs 2 (191 * 512) true = some (fs2, false) ∧
      fs2.free_map.used 191 = true ∧ fs2.free_map.used 190 = false ∧
      fs2.free_map.released.length = 190 ∧ 49343 ∈ fs2.free_map.released := by
  obtain ⟨fs1, disk1, h1, habs, -, -, hl, -, hi, hd⟩ :=
    extend_disk_190_abs fs 193 V (191 * 512) h (le_refl _) (by norm_num) (by norm_num)
  have hfail := @append_sector_fail_abs fs1 disk1 3 193 193 [] _ 190 habs (le_refl _)
    (by rw [hl]; norm_num) (by omega) (by omega)
  have hr : ROUND_UP 0 512 = 0 := by decide
  obtain ⟨fuel, hf⟩ : ∃ fuel, ((191 * 512 : Int) - ROUND_UP 0 512).toNat - 190 = fuel + 1 :=
    ⟨((191 * 512 : Int) - ROUND_UP 0 512).toNat - 190 - 1, by rw [hr]; omega⟩
  have hlt : disk1.length < 191 * 512 := by rw [hl]; norm_num
  have hloop : extend_loop (fuel + 1) fs1 disk1 (191 * 512) = some (fs1, disk1) := by
    simp only [extend_loop, hlt, if_true, hfail]
  rw [hf, hloop] at h1
  -- the loop that releases the sectors
  obtain ⟨fm1, hrel1, -, hu1, hlen1, -⟩ := release_loop_direct 188 fs1.cache fs1.free_map disk1 0
    (by omega) (by rw [hl]; norm_num)
    (fun i hi2 => by rw [hd i, if_pos hi2])
  have hw : uint16_t (disk1.indirect 0) = 0 := by rw [hi]; rfl
  obtain ⟨V1, hV1⟩ : ∃ V1 : Nat → Nat → Nat, V1 =
      (fun s i => if s = 0 ∧ 1 ≤ i ∧ i < 3 then u16_bytes 192 (i - 1)
        else if s = 0 ∧ 0 ≤ i ∧ i < 2 then u16_bytes 191 (i - 0) else V s i) := ⟨_, rfl⟩
  rw [← hV1] at habs
  have hV0 : V1 0 0 = 191 ∧ V1 0 1 = 192 ∧ V1 0 2 = 0 := by
    rw [hV1]
    exact ⟨rfl, rfl, rfl⟩
  obtain ⟨c2, hb2, hinv2, hview2⟩ := byte_to_sector_disk_indirect_abs habs disk1 (512 * 188) 0
    (by norm_num) (by omega) (by norm_num) (by rw [hl]; norm_num) (Or.inl (by rw [hw]; omega))
  rw [hw, hV0.1, hV0.2.1] at hb2
  have e2 : 191 % 256 + 256 * (192 % 256) = 49343 := rfl
  rw [e2] at hb2
  have habs2 : FsAbs { fs1 with cache := c2 } 3 193 193 [] V1 :=
    ⟨hinv2, habs.used, habs.size_eq, habs.released, fun s hs hr2 i hi2 => by
      show view c2 s i = _
      rw [hview2 s hs i hi2]
      exact habs.view_eq s hs hr2 i hi2⟩
  obtain ⟨c3, hb3, -, -⟩ := byte_to_sector_disk_indirect_abs habs2 disk1 (512 * 188 + 512) 1
    (by norm_num) (by omega) (by norm_num) (by rw [hl]; norm_num) (Or.inl (by rw [hw]; omega))
  rw [hw, hV0.2.1, hV0.2.2] at hb3
  have e3 : 192 % 256 + 256 * (0 % 256) = 192 := rfl
  rw [e3] at hb3
  replace hb3 : byte_to_sector_disk c2 disk1 (512 * 188 + 512) = _ := hb3
  have hrel : release_loop disk1.length.toNat fs1.cache fs1.free_map disk1 0 =
      some (c3, free_map_release (free_map_release fm1 49343) 192) := by
    have ef : disk1.length.toNat = (97090 + 1 + 1) + 188 := by rw [hl]; rfl
    have e0 : (0 : Int) = 512 * ((0 : Nat) : Int) := by norm_num
    have e188 : 512 * ((0 + 188 : Nat) : Int) = 512 * 188 := by norm_num
    rw [ef, e0, hrel1, e188,
      release_loop_step _ fm1 (by rw [hl]; norm_num) hb2,
      release_loop_step _ _ (by rw [hl]; norm_num) hb3,
      release_loop_done _ _ _ _ _ (by rw [hl]; norm_num)]
  have hng : ¬ ((0 : Int) ≥ 191 * 512) := by norm_num
  have hgt : ¬ (disk1.length > 191 * 512) := by rw [hl]; norm_num
  refine ⟨FS.mk c3 (free_map_release (free_map_release fm1 49343) 192) fs1.open_inodes
    fs1.heap_next, ?_, ?_, ?_, ?_, ?_⟩
  · unfold inode_create extend_disk
    simp only [if_true, hng, if_false, BLOCK_SECTOR_SIZE, Nat.cast_ofNat]
    rw [h1]
    simp only [hgt, if_false, hlt, if_true, hrel]
  · show (if 191 = 192 then false else if 191 = 49343 then false else fm1.used 191) = true
    rw [if_neg (by omega), if_neg (by omega), hu1 191, if_neg (by omega), habs.used]
    decide
  · show (if 190 = 192 then false else if 190 = 49343 then false else fm1.used 190) = false
    rw [if_neg (by omega), if_neg (by omega), hu1 190, if_pos (by omega)]
  · show (192 :: 49343 :: fm1.released).length = 190
    simp only [List.length_cons, hlen1, habs.released, List.length_nil]
  · show 49343 ∈ 192 :: 49343 :: fm1.released
    simp

/-- The run `example_scenario`, followed call by call. -/
theorem example_scenario_eq :
    example_scenario = some
      { length := 97280, sector_96256 := 49343, sector_96256_used := false,
        read_96256 := ([191, 192, 193], 3), write_96768 := 1, write_97280 := 1,
        length_end := 97281, read_96768 := ([192], 1) } := by
  -- inode_create (2, 190 * 512)
  obtain ⟨fs1, disk1, h1, habs1, ho1, hh1, hl1, -, hi1, hd1⟩ :=
    inode_create_190_abs example_fs 65536 example_dev.contents example_fs_abs (by norm_num)
  obtain ⟨V1, hV1⟩ : ∃ V1 : Nat → Nat → Nat, V1 =
      (fun s i => if s = 2 ∧ i < 512 then inode_disk_bytes disk1 i
        else if s = 0 ∧ 1 ≤ i ∧ i < 3 then u16_bytes 192 (i - 1)
        else if s = 0 ∧ 0 ≤ i ∧ i < 2 then u16_bytes 191 (i - 0)
        else example_dev.contents s i) := ⟨_, rfl⟩
  rw [← hV1] at habs1
  have hV2 : ∀ i, i < 512 → V1 2 i = inode_disk_bytes disk1 i := by
    intro i hi
    rw [hV1]
    simp only [hi, and_self, if_true]
  have hV0 : V1 0 0 = 191 ∧ V1 0 1 = 192 ∧ V1 0 2 = 0 := by
    rw [hV1]
    exact ⟨rfl, rfl, rfl⟩
  have hVdev : ∀ s i, 3 ≤ s → V1 s i = (s + i) % 256 := by
    intro s i hs
    rw [hV1]
    have c1 : ¬ (s = 2 ∧ i < 512) := by omega
    have c2 : ¬ (s = 0 ∧ 1 ≤ i ∧ i < 3) := by omega
    have c3 : ¬ (s = 0 ∧ 0 ≤ i ∧ i < 2) := by omega
    simp only [c1, c2, c3, if_false]
    rfl
  -- inode_open (2)
  obtain ⟨fs2, h2, habs2, hn2, hfm2⟩ := inode_open_fresh_abs habs1 2 (by decide)
    (Or.inl (by omega)) (ho1.trans rfl)
  have hh : fs1.heap_next = 1 := hh1
  rw [hh] at h2 hn2
  obtain ⟨hdl, -, hdi⟩ := inode_disk_of_bytes_view (V1 2) disk1 hV2 (by omega) (by omega)
  rw [hl1] at hdl
  obtain ⟨d2, hd2⟩ : ∃ d2, d2 = inode_disk_of_bytes (memcpy_from (V1 2) 0 512) := ⟨_, rfl⟩
  rw [← hd2] at hn2 hdl hdi
  have hw : uint16_t (d2.indirect 0) = 0 := by
    rw [hdi 0 (by omega), hi1]; rfl
  -- byte_to_sector (96256)
  obtain ⟨c3, hb3, hinv3, hview3⟩ := byte_to_sector_disk_indirect_abs habs2 d2 96256 0
    (by norm_num) (by omega) (by norm_num) (by rw [hdl]; norm_num) (Or.inl (by rw [hw]; omega))
  rw [hw, hV0.1, hV0.2.1] at hb3
  have e3 : 191 % 256 + 256 * (192 % 256) = 49343 := rfl
  rw [e3] at hb3
  -- inode_read_at (3, 96256)
  obtain ⟨fs3, hr4, habs3, hn3, hfm3⟩ := inode_read_at_chunk_abs habs2 hn2 3 96256 (by norm_num)
    (by norm_num) (by norm_num) (by show (96256 : Int) + 3 ≤ d2.length; rw [hdl]; norm_num)
    (show (49343 : Nat) ≠ NONE by decide) (Or.inr (by omega)) hb3 hinv3 hview3
  have eb4 : memcpy_from (V1 49343) ((96256 : Int) % 512).toNat (3 : Int).toNat =
      [191, 192, 193] := by
    have e : ((96256 : Int) % 512).toNat = 0 := by decide
    have e2 : (3 : Int).toNat = 3 := rfl
    rw [e, e2]
    simp only [memcpy_from, List.range, List.range.loop, List.map, hVdev 49343 _ (by omega)]
  rw [eb4] at hr4
  -- inode_write_at (0xAB, 1, 96768)
  obtain ⟨c5, hb5, hinv5, hview5⟩ := byte_to_sector_disk_indirect_abs habs3 d2 96768 1
    (by norm_num) (by omega) (by norm_num) (by rw [hdl]; norm_num) (Or.inl (by rw [hw]; omega))
  rw [hw, hV0.2.1, hV0.2.2] at hb5
  have e5 : 192 % 256 + 256 * (0 % 256) = 192 := rfl
  rw [e5] at hb5
  obtain ⟨fs4, hw5, habs4, hn4, hfm4⟩ := inode_write_at_chunk_abs hn3 rfl (fun _ => 0xAB) 1 96768
    (extend_disk_no_op fs3 d2 (96768 + 1) (by rw [hdl]; norm_num)) rfl habs3 (by norm_num)
    (by norm_num) (by norm_num) (by show (96768 : Int) + 1 ≤ d2.length; rw [hdl]; norm_num)
    (show (192 : Nat) ≠ NONE by decide) ⟨by omega, by omega⟩ hb5 hinv5 hview5
  -- inode_write_at (0xCD, 1, 97280)
  obtain ⟨fs5, disk5, he6, habs5, ho5, -, hl5, -, hi5, -⟩ :=
    extend_disk_one_indirect_abs habs4 (by omega) (by omega) (by unfold UINT16_MAX; omega) d2 190
      (by rw [hdl]; norm_num) (by omega) (by omega) (97280 + 1) (by norm_num) (by norm_num)
  rw [hw] at habs5
  obtain ⟨V2, hV2def⟩ : ∃ V2 : Nat → Nat → Nat, V2 =
      (fun s i => if s = 0 ∧ 190 - 188 ≤ i ∧ i < 190 - 188 + 2
        then u16_bytes 193 (i - (190 - 188)) else V1 s i) := ⟨_, rfl⟩
  rw [← hV2def] at habs5
  have hV20 : V2 0 1 = 192 ∧ V2 0 2 = 193 ∧ V2 0 3 = 0 := by
    rw [hV2def]
    refine ⟨?_, rfl, rfl⟩
    show V1 0 1 = 192
    exact hV0.2.1
  have hV2dev : ∀ s i, 3 ≤ s → V2 s i = (s + i) % 256 := by
    intro s i hs
    rw [hV2def]
    have c1 : ¬ (s = 0 ∧ 190 - 188 ≤ i ∧ i < 190 - 188 + 2) := by omega
    simp only [c1, if_false]
    exact hVdev s i hs
  have hw6 : uint16_t (disk5.indirect 0) = 0 := by rw [hi5]; exact hw
  obtain ⟨c6, hb6, hinv6, hview6⟩ := byte_to_sector_disk_indirect_abs habs5 disk5 97280 2
    (by norm_num) (by omega) (by norm_num) (by rw [hl5]; norm_num) (Or.inl (by rw [hw6]; omega))
  rw [hw6, hV20.2.1, hV20.2.2] at hb6
  have e6 : 193 % 256 + 256 * (0 % 256) = 193 := rfl
  rw [e6] at hb6
  obtain ⟨fs6, hw6b, habs6, hn6, hfm6⟩ := inode_write_at_chunk_abs hn4 rfl (fun _ => 0xCD) 1
    97280 he6 ho5 habs5 (by norm_num) (by norm_num) (by norm_num)
    (by rw [hl5]) (show (193 : Nat) ≠ NONE by decide) ⟨by omega, by omega⟩ hb6 hinv6 hview6
  -- inode_length and inode_read_at (1, 96768)
  have hlen7 : inode_length fs6 1 = some 97281 := by
    simp only [inode_length, hn6, Option.map_some']
    rw [hl5]
    norm_num
  obtain ⟨c8, hb8, hinv8, hview8⟩ := byte_to_sector_disk_indirect_abs habs6 disk5 96768 1
    (by norm_num) (by omega) (by norm_num) (by rw [hl5]; norm_num) (Or.inl (by rw [hw6]; omega))
  rw [hw6, hV20.1, hV20.2.1] at hb8
  have e8 : 192 % 256 + 256 * (193 % 256) = 49600 := rfl
  rw [e8] at hb8
  obtain ⟨fs7, hr8, -, -, -⟩ := inode_read_at_chunk_abs habs6 hn6 1 96768 (by norm_num)
    (by norm_num) (by norm_num) (by show (96768 : Int) + 1 ≤ disk5.length; rw [hl5]; norm_num)
    (show (49600 : Nat) ≠ NONE by decide) (Or.inr (by omega)) hb8 hinv8 hview8
  have eb8 : memcpy_from (V2 49600) ((96768 : Int) % 512).toNat (1 : Int).toNat = [192] := by
    have e : ((96768 : Int) % 512).toNat = 0 := by decide
    have e2 : (1 : Int).toNat = 1 := rfl
    rw [e, e2]
    simp only [memcpy_from, List.range, List.range.loop, List.map, hV2dev 49600 _ (by omega)]
  rw [eb8] at hr8
  have hused : fs2.free_map.used 49343 = false := by
    rw [habs2.used]
    decide
  unfold example_scenario
  rw [h1]
  simp only [example_scenario_from, h2, hn2, hb3, hr4, hw5, hw6b, hlen7, hr8, hdl, hused]

/-- C5 (the code at a failing input): after `inode_create (2, 190 * 512)` and
`inode_open (2)` on a fresh file system the file is 97280 bytes long, and for
position 96256 `byte_to_sector` returns sector 49343, which the free-map never
allocated (the data sector allocated for that position is 191; 49343 is
`191 + 256 * 192`, the low bytes of two neighbouring entries of the indirect
sector). -/
theorem byte_to_sector_returns_unallocated_sector :
    example_scenario.map (fun o => (o.length, o.sector_96256, o.sector_96256_used))
      = some (97280, 49343, false) := by
  rw [example_scenario_eq]
  rfl

/-- C6 (the code at a failing input): the byte 0xAB (171) is written at position
96768, the file then grows by one sector through a write at position 97280, and
a read of position 96768 returns the byte 192 instead of 171. -/
theorem inode_read_at_loses_written_byte :
    example_scenario.map (fun o => (o.write_96768, o.write_97280, o.length_end, o.read_96768))
      = some (1, 1, 97281, ([192], 1)) := by
  rw [example_scenario_eq]
  rfl

/-- C7 (the code at a failing input): `inode_create (2, 97280)` returns true and
`inode_open (2)` gives an inode of length 97280, but the three bytes read at
position 96256 are 191, 192, 193 and not zero. -/
theorem inode_create_then_read_not_zero :
    example_scenario.map (fun o => (o.length, o.read_96256))
      = some (97280, ([191, 192, 193], 3)) := by
  rw [example_scenario_eq]
  rfl

/-- The loop of `inode_read_at` returns, having copied every requested byte
that lies below the length of the file. -/
theorem read_loop_count (fuel : Nat) : ∀ (c : Cache) (disk : inode_disk)
    (size offset : Int) (buf : List Nat) (bytes_read : Int), 0 ≤ offset → size.toNat ≤ fuel →
    ∃ c' buf', read_loop fuel c disk size offset buf bytes_read =
        some (c', buf', bytes_read + max 0 (min size (disk.length - offset))) ∧
      buf'.length = buf.length + (max 0 (min size (disk.length - offset))).toNat := by
  induction fuel with
  | zero =>
    intro c disk size offset buf br _ hf
    have hs : ¬ (size > 0 ∧ offset < disk.length) := by omega
    have hz : max 0 (min size (disk.length - offset)) = 0 := by omega
    refine ⟨c, buf, ?_, by rw [hz]; rfl⟩
    simp only [read_loop, hs, if_false, hz, add_zero]
  | succ f ih =>
    intro c disk size offset buf br h0 hf
    by_cases hc : size > 0 ∧ offset < disk.length
    · obtain ⟨c1, s, hb, hs⟩ := byte_to_sector_disk_total c disk offset h0 hc.2
      have e1 : Int.tmod offset 512 = offset % 512 := Int.tmod_eq_emod h0 (by norm_num)
      obtain ⟨chunk, hchunk⟩ : ∃ chunk : Int, chunk =
          (if size < (if disk.length - offset < 512 - offset % 512 then disk.length - offset
              else 512 - offset % 512) then size
            else (if disk.length - offset < 512 - offset % 512 then disk.length - offset
              else 512 - offset % 512)) := ⟨_, rfl⟩
      have hc1 : 1 ≤ chunk := by rw [hchunk]; split_ifs <;> omega
      have hc2 : chunk ≤ size := by rw [hchunk]; split_ifs <;> omega
      have hc3 : chunk ≤ disk.length - offset := by rw [hchunk]; split_ifs <;> omega
      have hc4 : offset % 512 + chunk ≤ 512 := by rw [hchunk]; split_ifs <;> omega
      obtain ⟨c2, bytes, hr, hlen⟩ := cache_read_total c1 s chunk
        (offset % 512) ⟨by omega, by omega, by simp only [BLOCK_SECTOR_SIZE]; omega⟩
      obtain ⟨c3, buf3, hrec, hlen3⟩ := ih c2 disk (size - chunk) (offset + chunk)
        (buf ++ bytes) (br + chunk) (by omega) (by omega)
      refine ⟨c3, buf3, ?_, ?_⟩
      · have hnle : ¬ (chunk ≤ 0) := by omega
        simp only [read_loop, hc, and_self, if_true, hb, hs, if_false, BLOCK_SECTOR_SIZE,
          Nat.cast_ofNat, e1, ← hchunk, hnle, hr, hrec]
        congr 3
        omega
      · rw [hlen3, List.length_append, hlen]
        omega
    · have hz : max 0 (min size (disk.length - offset)) = 0 := by omega
      refine ⟨c, buf, ?_, by rw [hz]; rfl⟩
      simp only [read_loop, hc, if_false, hz, add_zero]

/-- C14: for every open inode of length `L`, every `size >= 0` and every
`offset >= 0`, `inode_read_at` returns (no assertion fails, the loop ends) and
its value is `min (size, max (0, L - offset))`, the number of bytes it stored
in the buffer. -/
theorem inode_read_at_stops_at_length (fs : FS) (a : Nat) (n : inode)
    (hn : inode_at fs a = some n) (size offset : Int) (hsize : 0 ≤ size)
    (hoffset : 0 ≤ offset) :
    ∃ fs' buf, inode_read_at fs a size offset =
        some (fs', buf, min size (max 0 (n.data.length - offset))) ∧
      (buf.length : Int) = min size (max 0 (n.data.length - offset)) := by
  obtain ⟨c', buf', h1, h2⟩ := read_loop_count size.toNat fs.cache n.data size offset [] 0
    hoffset (le_refl _)
  have e : max 0 (min size (n.data.length - offset)) =
      min size (max 0 (n.data.length - offset)) := by omega
  refine ⟨{ fs with cache := c' }, buf', ?_, ?_⟩
  · simp only [inode_read_at, hn, h1, zero_add, e]
  · rw [h2, ← e]
    simp only [List.length_nil, zero_add]
    omega

/-- A read of 10 bytes at offset 5 of a file of 8387584 bytes returns 10, and
a read of 10 bytes at offset 8387580 returns 4. -/
theorem inode_read_at_stops_at_length_witness :
    inode_at example_big_fs 1 = some example_big_inode ∧
    (∃ fs' buf, inode_read_at example_big_fs 1 10 5 = some (fs', buf, 10) ∧
      (buf.length : Int) = 10) ∧
    (∃ fs' buf, inode_read_at example_big_fs 1 10 8387580 = some (fs', buf, 4) ∧
      (buf.length : Int) = 4) :=
  ⟨rfl, inode_read_at_stops_at_length example_big_fs 1 example_big_inode rfl 10 5
      (by decide) (by decide),
    inode_read_at_stops_at_length example_big_fs 1 example_big_inode rfl 10 8387580
      (by decide) (by decide)⟩

/-- When the closing opener is not the last one, or the inode is not removed,
`inode_close` leaves the free-map as it is: no sector is released. -/
theorem inode_close_keeps_free_map {fs : FS} {a : Nat} {n : inode}
    (hn : inode_at fs a = some n) (h : n.open_cnt - 1 ≠ 0 ∨ n.removed = false) :
    ∃ fs', inode_close fs (some a) = some fs' ∧ fs'.free_map = fs.free_map := by
  by_cases hcnt : n.open_cnt - 1 = 0
  · have hrem : n.removed = false := by
      rcases h with h | h
      · exact absurd hcnt h
      · exact h
    exact ⟨{ fs with open_inodes := fs.open_inodes.eraseP (fun m => decide (m.addr = a)) },
      by simp [inode_close, hn, hcnt, hrem], rfl⟩
  · exact ⟨_, inode_close_keep hn hcnt, rfl⟩

theorem example_image_abs :
    FsAbs (inode_init (cache_init example_image_dev) example_image_free_map) 202 202 4096 []
      example_image_dev.contents :=
  ⟨cache_init_inv _, fun x => by
      show decide (x ≤ 201) = decide (x < 202)
      exact decide_eq_decide.mpr (by omega),
    rfl, rfl, fun s hs _ i _ => view_cache_init _ s hs i⟩

set_option maxRecDepth 100000 in
/-- C11 (the code at a failing input): an inode of 189 sectors whose indirect
sector is sector 200 is opened, removed and closed by its only opener.  The
free-map receives the inode's sector 2, the data sectors 3 to 190 and the data
sector 201, but no release of the indirect sector 200, which stays
allocated. -/
theorem inode_close_leaks_indirect_sector :
    example_remove_scenario =
      some (96768, 200, 201 :: ((List.range 189).map (fun i => i + 2)).reverse, true) := by
  -- inode_open (2)
  obtain ⟨fs1, h1, habs1, hn1, hfm1⟩ := inode_open_fresh_abs example_image_abs 2 (by decide)
    (Or.inl (by omega)) rfl
  have hh : (inode_init (cache_init example_image_dev) example_image_free_map).heap_next = 1 :=
    rfl
  rw [hh] at h1 hn1
  obtain ⟨hdl, hdd, hdi⟩ := inode_disk_of_bytes_view (example_image_dev.contents 2)
    example_image_disk (fun i _ => rfl) (by decide) (by decide)
  obtain ⟨d, hd⟩ : ∃ d, d = inode_disk_of_bytes (memcpy_from (example_image_dev.contents 2) 0 512) :=
    ⟨_, rfl⟩
  rw [← hd] at hn1 hdl hdd hdi
  have hlen : d.length = 96768 := hdl.trans (by decide)
  have hw : uint16_t (d.indirect 0) = 200 := by
    rw [hdi 0 (by omega)]; rfl
  have hdir : ∀ i, i < 188 → d.direct i = 3 + i := by
    intro i hi
    rw [hdd i hi]
    show (3 + i) % 65536 = 3 + i
    omega
  -- inode_remove
  have h2 : inode_remove fs1 1 =
      some (inode_update fs1 1 (fun n => { n with removed := true })) := by
    simp only [inode_remove, hn1]
  have hn2 := inode_at_update hn1 (fun n => { n with removed := true }) (fun _ => rfl)
  -- inode_close: the loop that releases the sectors
  obtain ⟨fm1, hrel1, -, hu1, -, hl1⟩ := release_loop_direct 188 fs1.cache
    (free_map_release fs1.free_map 2) d 0 (by omega) (by rw [hlen]; norm_num) hdir
  obtain ⟨c2, hb2, -, -⟩ := byte_to_sector_disk_indirect_abs habs1 d (512 * 188) 0
    (by norm_num) (by omega) (by norm_num) (by rw [hlen]; norm_num) (Or.inl (by rw [hw]; omega))
  rw [hw] at hb2
  have e2 : example_image_dev.contents 200 0 % 256 +
      256 * (example_image_dev.contents 200 (0 + 1) % 256) = 201 := by decide
  rw [e2] at hb2
  have hrel : release_loop d.length.toNat fs1.cache (free_map_release fs1.free_map 2) d 0 =
      some (c2, free_map_release fm1 201) := by
    have ef : d.length.toNat = (96579 + 1) + 188 := by rw [hlen]; rfl
    have e0 : (0 : Int) = 512 * ((0 : Nat) : Int) := by norm_num
    have e188 : 512 * ((0 + 188 : Nat) : Int) = 512 * 188 := by norm_num
    rw [ef, e0, hrel1, e188, release_loop_step _ fm1 (by rw [hlen]; norm_num) hb2,
      release_loop_done _ _ _ _ _ (by rw [hlen]; norm_num)]
  have h3 : inode_close (inode_update fs1 1 (fun n => { n with removed := true })) (some 1) =
      some (FS.mk c2 (free_map_release fm1 201)
        ((inode_update fs1 1 (fun n => { n with removed := true })).open_inodes.eraseP
          (fun m => decide (m.addr = 1)))
        (inode_update fs1 1 (fun n => { n with removed := true })).heap_next) := by
    unfold inode_close
    simp only [hn2]
    have hz : ((1 : Int) - 1 = 0) := by norm_num
    simp only [hz, if_true]
    exact congrArg _ rfl |>.trans (by
      show (match release_loop d.length.toNat fs1.cache (free_map_release fs1.free_map 2) d 0 with
        | none => none
        | some (c, fm) => some _) = _
      rw [hrel])
  have hused : (free_map_release fm1 201).used 200 = true := by
    show (if 200 = 201 then false else fm1.used 200) = true
    rw [if_neg (by omega), hu1 200, if_neg (by omega)]
    show (if 200 = 2 then false else fs1.free_map.used 200) = true
    rw [if_neg (by omega), habs1.used]
    decide
  have hlist : (free_map_release fm1 201).released =
      201 :: ((List.range 189).map (fun i => i + 2)).reverse := by
    show 201 :: fm1.released = _
    rw [hl1]
    show 201 :: (((List.range 188).map (fun i => 3 + 0 + i)).reverse ++
      2 :: fs1.free_map.released) = _
    rw [habs1.released]
    rfl
  unfold example_remove_scenario
  rw [h1]
  simp only [example_remove_from, h2, hn2, h3, hlen, hw, hused, hlist]

set_option maxRecDepth 1000000 in
/-- C12 (the code at a failing input): a file created empty grows to length 1
by a write of one byte; after the only opener closes it, `inode_open` on the
same sector gives an inode of length 0: the close did not write the inode to
its sector. -/
theorem inode_close_does_not_write_inode :
    example_close_scenario = some (1, 1, 0) := by
  decide!

/-- C13 (the code at a failing input): with 190 free sectors, `inode_create (2,
191 * 512)` allocates the data sectors 3 to 192 and returns false.  Of the 190
sectors it then releases one is sector 49343, which it never allocated, and
the data sector 191, which it allocated, is not released and stays allocated
(sector 190 is released). -/
theorem inode_create_rollback_releases_wrong_sector :
    example_create_scenario = some (false, true, false, 190, true) := by
  obtain ⟨fs2, h, h1, h2, h3, h4⟩ := inode_create_191_abs
    (inode_init (cache_init example_dev) example_small_free_map) example_dev.contents
    ⟨cache_init_inv _, fun _ => rfl, rfl, rfl, fun s hs _ i _ => view_cache_init _ s hs i⟩
  unfold example_create_scenario
  rw [h]
  simp only [Option.map_some', h1, h2, h3, h4, decide_True]

/-! ## Swap -/

theorem swap_out_loop_contents (n : Nat) : ∀ (i : Nat) (dev : Block) (first : Nat)
    (kpage : Nat → Nat) (s j : Nat),
    (swap_out_loop n i dev first kpage).contents s j =
      if first + i ≤ s ∧ s < first + i + n ∧ j < BLOCK_SECTOR_SIZE
      then kpage ((s - first) * BLOCK_SECTOR_SIZE + j) else dev.contents s j := by
  induction n with
  | zero =>
    intro i dev first kpage s j
    have : ¬ (first + i ≤ s ∧ s < first + i + 0 ∧ j < BLOCK_SECTOR_SIZE) := by omega
    simp only [swap_out_loop, this, if_false]
  | succ n ih =>
    intro i dev first kpage s j
    simp only [swap_out_loop]
    rw [ih]
    simp only [block_write]
    by_cases h1 : s = first + i
    · subst h1
      by_cases hj : j < BLOCK_SECTOR_SIZE
      · have ha : ¬ (first + (i + 1) ≤ first + i ∧ first + i < first + (i + 1) + n ∧
            j < BLOCK_SECTOR_SIZE) := by omega
        have hb : (first + i ≤ first + i ∧ first + i < first + i + (n + 1) ∧
            j < BLOCK_SECTOR_SIZE) := ⟨by omega, by omega, hj⟩
        have hc : first + i - first = i := by omega
        rw [if_neg ha, if_pos hb, if_pos rfl, if_pos hj, hc]
      · have ha : ¬ (first + (i + 1) ≤ first + i ∧ first + i < first + (i + 1) + n ∧
            j < BLOCK_SECTOR_SIZE) := by omega
        have hb : ¬ (first + i ≤ first + i ∧ first + i < first + i + (n + 1) ∧
            j < BLOCK_SECTOR_SIZE) := fun h => hj h.2.2
        rw [if_neg ha, if_neg hb, if_pos rfl, if_neg hj]
    · simp only [h1, if_false]
      by_cases ha : (first + (i + 1) ≤ s ∧ s < first + (i + 1) + n ∧ j < BLOCK_SECTOR_SIZE)
      · have hb : (first + i ≤ s ∧ s < first + i + (n + 1) ∧ j < BLOCK_SECTOR_SIZE) := by omega
        simp only [ha, hb, if_true, and_self]
      · have hb : ¬ (first + i ≤ s ∧ s < first + i + (n + 1) ∧ j < BLOCK_SECTOR_SIZE) := by
          omega
        simp only [ha, hb, if_false]

theorem swap_in_loop_contents (n : Nat) : ∀ (i : Nat) (dev : Block) (first : Nat)
    (kpage : Nat → Nat),
    (swap_in_loop n i dev first kpage).1.contents = dev.contents := by
  induction n with
  | zero => intro i dev first kpage; rfl
  | succ n ih =>
    intro i dev first kpage
    simp only [swap_in_loop]
    rw [ih]
    rfl

theorem swap_in_loop_page (n : Nat) : ∀ (i : Nat) (dev : Block) (first : Nat)
    (kpage : Nat → Nat) (j : Nat),
    (swap_in_loop n i dev first kpage).2 j =
      if i * BLOCK_SECTOR_SIZE ≤ j ∧ j < (i + n) * BLOCK_SECTOR_SIZE
      then dev.contents (first + j / BLOCK_SECTOR_SIZE) (j % BLOCK_SECTOR_SIZE)
      else kpage j := by
  induction n with
  | zero =>
    intro i dev first kpage j
    have : ¬ (i * BLOCK_SECTOR_SIZE ≤ j ∧ j < (i + 0) * BLOCK_SECTOR_SIZE) := by
      simp only [Nat.add_zero]; omega
    simp only [swap_in_loop, this, if_false]
  | succ n ih =>
    intro i dev first kpage j
    simp only [swap_in_loop]
    rw [ih]
    simp only [block_read, memcpy_to, BLOCK_SECTOR_SIZE]
    by_cases h1 : i * 512 ≤ j ∧ j < i * 512 + 512
    · have ha : ¬ ((i + 1) * 512 ≤ j ∧ j < (i + 1 + n) * 512) := by omega
      have hb : (i * 512 ≤ j ∧ j < (i + (n + 1)) * 512) := by
        constructor
        · omega
        · nlinarith [h1.2]
      have hc : j - i * 512 < 512 := by omega
      have hd : j / 512 = i := by omega
      have he : j % 512 = j - i * 512 := by omega
      simp only [ha, hb, h1, hc, if_true, if_false, and_self, hd, he]
    · by_cases ha : ((i + 1) * 512 ≤ j ∧ j < (i + 1 + n) * 512)
      · have hb : (i * 512 ≤ j ∧ j < (i + (n + 1)) * 512) := by
          constructor
          · omega
          · have := ha.2
            have e : i + 1 + n = i + (n + 1) := by omega
            rw [e] at this; exact this
        simp only [ha, hb, h1, if_true, if_false, and_self]
      · have hb : ¬ (i * 512 ≤ j ∧ j < (i + (n + 1)) * 512) := by
          intro hb
          have e : i + 1 + n = i + (n + 1) := by omega
          rw [e] at ha
          omega
        simp only [ha, hb, h1, if_false]

theorem get_slot_spec (sw : Swap) (m : Bool) (sw1 : Swap) (ss : swap_slot)
    (h : get_slot sw m = some (sw1, some ss)) (hinv : SwapInv sw) :
    SwapInv sw1 ∧ ss ∈ sw1.swap_occupied ∧ sw1.swap_block = sw.swap_block ∧
      (∀ s, s ∈ sw1.swap_occupied ++ sw1.swap_unoccupied ↔
        s = ss ∨ s ∈ sw.swap_occupied ++ sw.swap_unoccupied) := by
  unfold get_slot at h
  have hcase : sw.swap_unoccupied = [] ∨ ∃ x rest, sw.swap_unoccupied = x :: rest := by
    cases sw.swap_unoccupied with
    | nil => exact Or.inl rfl
    | cons x rest => exact Or.inr ⟨x, rest, rfl⟩
  rcases hcase with hu | ⟨x, rest, hu⟩
  · rw [hu] at h
    simp only at h
    by_cases hfull : sw.next_sector ≥ sw.block_size
    · rw [if_pos hfull] at h
      simp at h
    · rw [if_neg hfull] at h
      cases m with
      | false => simp at h
      | true =>
        simp only [if_true, Option.some.injEq, Prod.mk.injEq] at h
        obtain ⟨h1, h2⟩ := h
        subst h1
        subst h2
        have hmem : ∀ s, s ∈ (sw.swap_occupied ++
            [({ addr := sw.heap_next, first_sector := sw.next_sector } : swap_slot)]) ++
              ([] : List swap_slot) ↔
            s = ({ addr := sw.heap_next, first_sector := sw.next_sector } : swap_slot) ∨
              s ∈ sw.swap_occupied ++ sw.swap_unoccupied := by
          intro s
          rw [hu]
          simp only [List.mem_append, List.mem_singleton, List.append_nil]
          tauto
        have hnot : ({ addr := sw.heap_next, first_sector := sw.next_sector } : swap_slot) ∉
            sw.swap_occupied ++ sw.swap_unoccupied := by
          intro hin
          have := hinv.fresh _ hin
          simp at this
        refine ⟨⟨?_, ?_, ?_, ?_, ?_, ?_, ?_⟩, ?_, rfl, hmem⟩
        · show ((sw.swap_occupied ++ [_]) ++ ([] : List swap_slot)).Nodup
          have hn := hinv.nodup
          rw [hu] at hn hnot
          simp only [List.append_nil] at hn hnot ⊢
          rw [List.nodup_append]
          refine ⟨hn, List.nodup_singleton _, ?_⟩
          intro a ha hb
          rw [List.mem_singleton] at hb
          subst hb
          exact hnot ha
        · intro s hs
          show s.addr < sw.heap_next + 1
          rcases (hmem s).1 hs with h1 | h1
          · subst h1; simp
          · have := hinv.fresh s h1; omega
        · intro s hs t ht hst
          rcases (hmem s).1 hs with h1 | h1 <;> rcases (hmem t).1 ht with h2 | h2
          · rw [h1, h2]
          · subst h1
            have := hinv.fresh t h2
            simp only at hst
            omega
          · subst h2
            have := hinv.fresh s h1
            simp only at hst
            omega
          · exact hinv.ident s h1 t h2 hst
        · intro s hs
          show s.first_sector + SWAP_SLOT_NUM_SECTORS ≤ sw.next_sector + SWAP_SLOT_NUM_SECTORS
          rcases (hmem s).1 hs with h1 | h1
          · subst h1; simp
          · have := hinv.below s h1; omega
        · intro s hs t ht
          rcases (hmem s).1 hs with h1 | h1 <;> rcases (hmem t).1 ht with h2 | h2
          · left; rw [h1, h2]
          · subst h1
            right; right
            exact hinv.below t h2
          · subst h2
            right; left
            exact hinv.below s h1
          · exact hinv.apart s h1 t h2
        · intro s hs
          rcases (hmem s).1 hs with h1 | h1
          · subst h1; exact hinv.next_aligned
          · exact hinv.aligned s h1
        · show (sw.next_sector + SWAP_SLOT_NUM_SECTORS) % SWAP_SLOT_NUM_SECTORS = 0
          have := hinv.next_aligned
          simp only [SWAP_SLOT_NUM_SECTORS, PGSIZE, BLOCK_SECTOR_SIZE] at this ⊢
          omega
        · show _ ∈ sw.swap_occupied ++ [_]
          simp
  · rw [hu] at h
    simp only [Option.some.injEq, Prod.mk.injEq] at h
    obtain ⟨h1, h2⟩ := h
    subst h1
    subst h2
    have hmem : ∀ s, s ∈ (sw.swap_occupied ++ [x]) ++ rest ↔
        s ∈ sw.swap_occupied ++ sw.swap_unoccupied := by
      intro s
      rw [hu]
      simp only [List.mem_append, List.mem_singleton, List.mem_cons]
      tauto
    have hx : x ∈ sw.swap_occupied ++ sw.swap_unoccupied := by
      rw [hu]; simp
    refine ⟨⟨?_, ?_, ?_, ?_, ?_, ?_, hinv.next_aligned⟩, ?_, rfl, ?_⟩
    · show ((sw.swap_occupied ++ [x]) ++ rest).Nodup
      have hn := hinv.nodup
      rw [hu] at hn
      rw [List.append_assoc]
      exact hn
    · intro s hs
      exact hinv.fresh s ((hmem s).1 hs)
    · intro s hs t ht
      exact hinv.ident s ((hmem s).1 hs) t ((hmem t).1 ht)
    · intro s hs
      exact hinv.below s ((hmem s).1 hs)
    · intro s hs t ht
      exact hinv.apart s ((hmem s).1 hs) t ((hmem t).1 ht)
    · intro s hs
      exact hinv.aligned s ((hmem s).1 hs)
    · show x ∈ sw.swap_occupied ++ [x]
      simp
    · intro s
      show s ∈ (sw.swap_occupied ++ [x]) ++ rest ↔ _
      rw [hmem s]
      constructor
      · intro h; exact Or.inr h
      · intro h
        rcases h with h | h
        · rw [h]; exact hx
        · exact h

theorem swap_out_spec (sw : Swap) (B : Nat → Nat) (m : Bool) (sw1 : Swap) (ss : swap_slot)
    (h : swap_out sw B m = some (sw1, ss)) (hinv : SwapInv sw) :
    SwapInv sw1 ∧ ss ∈ sw1.swap_occupied ∧ slot_holds sw1.swap_block ss B ∧
      (∀ s ∈ sw.swap_occupied ++ sw.swap_unoccupied,
        s ∈ sw1.swap_occupied ++ sw1.swap_unoccupied) ∧
      (∀ s ∈ sw1.swap_occupied ++ sw1.swap_unoccupied, s ≠ ss →
        ∀ B', slot_holds sw.swap_block s B' → slot_holds sw1.swap_block s B') := by
  unfold swap_out at h
  cases hg : get_slot sw m with
  | none => rw [hg] at h; simp at h
  | some r =>
    obtain ⟨sw0, o⟩ := r
    cases o with
    | none => rw [hg] at h; simp at h
    | some t =>
      rw [hg] at h
      simp only [Option.some.injEq, Prod.mk.injEq] at h
      obtain ⟨h1, h2⟩ := h
      subst h1
      subst h2
      obtain ⟨hinv0, hocc, hdev, hmem⟩ := get_slot_spec sw m sw0 t hg hinv
      refine ⟨⟨hinv0.nodup, hinv0.fresh, hinv0.ident, hinv0.below, hinv0.apart,
        hinv0.aligned, hinv0.next_aligned⟩, hocc, ?_, ?_, ?_⟩
      · intro i hi j hj
        show (swap_out_loop SWAP_SLOT_NUM_SECTORS 0 sw0.swap_block t.first_sector B).contents
          (t.first_sector + i) j = _
        rw [swap_out_loop_contents]
        have hc : t.first_sector + 0 ≤ t.first_sector + i ∧
            t.first_sector + i < t.first_sector + 0 + SWAP_SLOT_NUM_SECTORS ∧
            j < BLOCK_SECTOR_SIZE := ⟨by omega, by omega, hj⟩
        have e : t.first_sector + i - t.first_sector = i := by omega
        rw [if_pos hc, e]
      · intro s hs
        exact (hmem s).2 (Or.inr hs)
      · intro s hs hne B' hB i hi j hj
        show (swap_out_loop SWAP_SLOT_NUM_SECTORS 0 sw0.swap_block t.first_sector B).contents
          (s.first_sector + i) j = _
        rw [swap_out_loop_contents]
        have hmt : t ∈ sw0.swap_occupied ++ sw0.swap_unoccupied :=
          List.mem_append_left _ hocc
        have hc : ¬ (t.first_sector + 0 ≤ s.first_sector + i ∧
            s.first_sector + i < t.first_sector + 0 + SWAP_SLOT_NUM_SECTORS ∧
            j < BLOCK_SECTOR_SIZE) := by
          rcases hinv0.apart s hs t hmt with h1 | h1 | h1
          · exact absurd h1 hne
          · omega
          · omega
        rw [if_neg hc, hdev]
        exact hB i hi j hj

theorem swap_in_spec (sw : Swap) (t : swap_slot) (K : Nat → Nat) (sw1 : Swap)
    (K' : Nat → Nat) (r : Bool) (h : swap_in sw t K = some (sw1, K', r)) (hinv : SwapInv sw) :
    SwapInv sw1 ∧ sw1.swap_block.contents = sw.swap_block.contents ∧
      (∀ s, s ∈ sw1.swap_occupied ++ sw1.swap_unoccupied ↔
        s ∈ sw.swap_occupied ++ sw.swap_unoccupied) ∧ r = true ∧
      ∀ j < PGSIZE, K' j =
        sw.swap_block.contents (t.first_sector + j / BLOCK_SECTOR_SIZE)
          (j % BLOCK_SECTOR_SIZE) := by
  unfold swap_in at h
  by_cases ht : t ∈ sw.swap_occupied ++ sw.swap_unoccupied
  · rw [if_pos ht] at h
    simp only [Option.some.injEq, Prod.mk.injEq] at h
    obtain ⟨h1, h2, h3⟩ := h
    subst h1
    subst h2
    have hmem : ∀ s, s ∈ sw.swap_occupied.filter (fun s => decide (s.addr ≠ t.addr)) ++
        (sw.swap_unoccupied.filter (fun s => decide (s.addr ≠ t.addr)) ++ [t]) ↔
        s ∈ sw.swap_occupied ++ sw.swap_unoccupied := by
      intro s
      simp only [List.mem_append, List.mem_filter, List.mem_singleton, decide_eq_true_eq]
      constructor
      · intro h
        rcases h with h | h | h
        · exact Or.inl h.1
        · exact Or.inr h.1
        · rw [h]; exact (List.mem_append.1 ht)
      · intro h
        by_cases ha : s.addr = t.addr
        · right; right
          exact hinv.ident s (List.mem_append.2 h) t ht ha
        · rcases h with h | h
          · exact Or.inl ⟨h, ha⟩
          · exact Or.inr (Or.inl ⟨h, ha⟩)
    refine ⟨⟨?_, ?_, ?_, ?_, ?_, ?_, hinv.next_aligned⟩, ?_, hmem, h3.symm, ?_⟩
    · show (sw.swap_occupied.filter (fun s => decide (s.addr ≠ t.addr)) ++
        (sw.swap_unoccupied.filter (fun s => decide (s.addr ≠ t.addr)) ++ [t])).Nodup
      rw [← List.append_assoc, ← List.filter_append, List.nodup_append]
      refine ⟨hinv.nodup.filter _, List.nodup_singleton _, ?_⟩
      intro a ha hb
      rw [List.mem_singleton] at hb
      subst hb
      simp at ha
    · intro s hs
      exact hinv.fresh s ((hmem s).1 hs)
    · intro s hs u hu
      exact hinv.ident s ((hmem s).1 hs) u ((hmem u).1 hu)
    · intro s hs
      exact hinv.below s ((hmem s).1 hs)
    · intro s hs u hu
      exact hinv.apart s ((hmem s).1 hs) u ((hmem u).1 hu)
    · intro s hs
      exact hinv.aligned s ((hmem s).1 hs)
    · show (swap_in_loop SWAP_SLOT_NUM_SECTORS 0 sw.swap_block t.first_sector K).1.contents = _
      rw [swap_in_loop_contents]
    · intro j hj
      rw [swap_in_loop_page]
      have hc : 0 * BLOCK_SECTOR_SIZE ≤ j ∧ j < (0 + SWAP_SLOT_NUM_SECTORS) * BLOCK_SECTOR_SIZE := by
        simp only [PGSIZE, SWAP_SLOT_NUM_SECTORS, BLOCK_SECTOR_SIZE] at hj ⊢
        omega
      rw [if_pos hc]
  · rw [if_neg ht] at h
    simp at h

theorem swap_init_inv (dev : Block) (size : Nat) : SwapInv (swap_init dev size) := by
  refine ⟨?_, ?_, ?_, ?_, ?_, ?_, ?_⟩ <;> simp [swap_init]

theorem swap_run_keeps (ss : swap_slot) (B : Nat → Nat) (ops : List SwapOp) :
    ∀ (sw1 sw2 : Swap) (got : List swap_slot), SwapInv sw1 →
      ss ∈ sw1.swap_occupied ++ sw1.swap_unoccupied → slot_holds sw1.swap_block ss B →
      swap_run sw1 ops = some (sw2, got) → (∀ t ∈ got, t ≠ ss) →
      SwapInv sw2 ∧ ss ∈ sw2.swap_occupied ++ sw2.swap_unoccupied ∧
        slot_holds sw2.swap_block ss B := by
  induction ops with
  | nil =>
    intro sw1 sw2 got hinv hmem hh hrun _
    simp only [swap_run, Option.some.injEq, Prod.mk.injEq] at hrun
    rw [← hrun.1]
    exact ⟨hinv, hmem, hh⟩
  | cons op ops ih =>
    intro sw1 sw2 got hinv hmem hh hrun hgot
    simp only [swap_run] at hrun
    cases hop : op.run sw1 with
    | none => rw [hop] at hrun; simp at hrun
    | some r =>
      obtain ⟨swm, o⟩ := r
      rw [hop] at hrun
      simp only at hrun
      cases hrest : swap_run swm ops with
      | none => rw [hrest] at hrun; simp at hrun
      | some r2 =>
        obtain ⟨swe, l⟩ := r2
        rw [hrest] at hrun
        simp only [Option.some.injEq, Prod.mk.injEq] at hrun
        obtain ⟨h1, h2⟩ := hrun
        subst h1
        subst h2
        have hl : ∀ t ∈ l, t ≠ ss := fun t ht => hgot t (List.mem_append_right _ ht)
        cases op with
        | out kpage m =>
          simp only [SwapOp.run] at hop
          cases ho : swap_out sw1 kpage m with
          | none => rw [ho] at hop; simp at hop
          | some q =>
            obtain ⟨sq, t⟩ := q
            rw [ho] at hop
            simp only [Option.map_some', Option.some.injEq, Prod.mk.injEq] at hop
            obtain ⟨e1, e2⟩ := hop
            subst e1
            subst e2
            obtain ⟨hinvq, _, _, hkeep, hpres⟩ := swap_out_spec sw1 kpage m sq t ho hinv
            have hne : ss ≠ t := by
              intro e
              exact hgot t (List.mem_append_left _ (by simp)) e.symm
            exact ih sq swe l hinvq (hkeep ss hmem) (hpres ss (hkeep ss hmem) hne B hh)
              hrest hl
        | back t kpage =>
          simp only [SwapOp.run] at hop
          cases ho : swap_in sw1 t kpage with
          | none => rw [ho] at hop; simp at hop
          | some q =>
            obtain ⟨sq, K', r⟩ := q
            rw [ho] at hop
            simp only [Option.map_some', Option.some.injEq, Prod.mk.injEq] at hop
            obtain ⟨e1, e2⟩ := hop
            subst e1
            subst e2
            obtain ⟨hinvq, hdev, hm, _, _⟩ := swap_in_spec sw1 t kpage sq K' r ho hinv
            have hh2 : slot_holds sq.swap_block ss B := by
              intro i hi j hj
              rw [hdev]
              exact hh i hi j hj
            exact ih sq swe l hinvq ((hm ss).2 hmem) hh2 hrest hl

theorem swap_run_inv (ops : List SwapOp) : ∀ (sw1 sw2 : Swap) (got : List swap_slot),
    SwapInv sw1 → swap_run sw1 ops = some (sw2, got) → SwapInv sw2 := by
  induction ops with
  | nil =>
    intro sw1 sw2 got hinv hrun
    simp only [swap_run, Option.some.injEq, Prod.mk.injEq] at hrun
    rw [← hrun.1]
    exact hinv
  | cons op ops ih =>
    intro sw1 sw2 got hinv hrun
    simp only [swap_run] at hrun
    cases hop : op.run sw1 with
    | none => rw [hop] at hrun; simp at hrun
    | some r =>
      obtain ⟨swm, o⟩ := r
      rw [hop] at hrun
      simp only at hrun
      cases hrest : swap_run swm ops with
      | none => rw [hrest] at hrun; simp at hrun
      | some r2 =>
        obtain ⟨swe, l⟩ := r2
        rw [hrest] at hrun
        simp only [Option.some.injEq, Prod.mk.injEq] at hrun
        obtain ⟨h1, h2⟩ := hrun
        subst h1
        cases op with
        | out kpage m =>
          simp only [SwapOp.run] at hop
          cases ho : swap_out sw1 kpage m with
          | none => rw [ho] at hop; simp at hop
          | some q =>
            obtain ⟨sq, t⟩ := q
            rw [ho] at hop
            simp only [Option.map_some', Option.some.injEq, Prod.mk.injEq] at hop
            obtain ⟨e1, e2⟩ := hop
            subst e1
            exact ih sq swe l (swap_out_spec sw1 kpage m sq t ho hinv).1 hrest
        | back t kpage =>
          simp only [SwapOp.run] at hop
          cases ho : swap_in sw1 t kpage with
          | none => rw [ho] at hop; simp at hop
          | some q =>
            obtain ⟨sq, K', r⟩ := q
            rw [ho] at hop
            simp only [Option.map_some', Option.some.injEq, Prod.mk.injEq] at hop
            obtain ⟨e1, e2⟩ := hop
            subst e1
            exact ih sq swe l (swap_in_spec sw1 t kpage sq K' r ho hinv).1 hrest

/-- C15: in a state reached from `swap_init` by calls of `swap_out` and
`swap_in`, when `swap_out` of the page `B` returns the slot `ss`, and further
calls follow none of which is a `swap_out` that returns `ss` again, then
`swap_in (ss, K)` returns true and leaves the 4096 bytes of the page equal to
those of `B`. -/
theorem swap_out_then_swap_in_restores_page (dev : Block) (size : Nat) (ops0 : List SwapOp)
    (sw : Swap) (got0 : List swap_slot)
    (hreach : swap_run (swap_init dev size) ops0 = some (sw, got0))
    (B : Nat → Nat) (mem_ok : Bool) (sw1 : Swap) (ss : swap_slot)
    (hout : swap_out sw B mem_ok = some (sw1, ss))
    (ops : List SwapOp) (sw2 : Swap) (got : List swap_slot)
    (hrun : swap_run sw1 ops = some (sw2, got)) (hreuse : ∀ t ∈ got, t ≠ ss)
    (K : Nat → Nat) :
    ∃ sw3 K', swap_in sw2 ss K = some (sw3, K', true) ∧ ∀ j < PGSIZE, K' j = B j := by
  have hinv := swap_run_inv ops0 _ sw got0 (swap_init_inv dev size) hreach
  obtain ⟨hinv1, hocc, hholds, _, _⟩ := swap_out_spec sw B mem_ok sw1 ss hout hinv
  obtain ⟨hinv2, hmem2, hholds2⟩ := swap_run_keeps ss B ops sw1 sw2 got hinv1
    (List.mem_append_left _ hocc) hholds hrun hreuse
  cases hin : swap_in sw2 ss K with
  | none =>
    unfold swap_in at hin
    rw [if_pos hmem2] at hin
    simp at hin
  | some q =>
    obtain ⟨sw3, K', r⟩ := q
    obtain ⟨_, _, _, hr, hK⟩ := swap_in_spec sw2 ss K sw3 K' r hin hinv2
    subst hr
    refine ⟨sw3, K', rfl, ?_⟩
    intro j hj
    rw [hK j hj]
    have hlt : j / BLOCK_SECTOR_SIZE < SWAP_SLOT_NUM_SECTORS := by
      simp only [PGSIZE, SWAP_SLOT_NUM_SECTORS, BLOCK_SECTOR_SIZE] at hj ⊢
      omega
    have hlt2 : j % BLOCK_SECTOR_SIZE < BLOCK_SECTOR_SIZE := by
      simp only [BLOCK_SECTOR_SIZE]
      omega
    rw [hholds2 _ hlt _ hlt2]
    congr 1
    simp only [BLOCK_SECTOR_SIZE]
    omega

/-- On a swap device of 16 sectors, `swap_out` of `example_page` returns the
slot at sector 0; after a second `swap_out`, which returns the slot at sector
8, `swap_in` of the first slot gives the bytes of `example_page` back. -/
theorem swap_out_then_swap_in_restores_page_witness :
    swap_run (swap_init example_dev 16) [] = some (example_swap, []) ∧
    swap_out example_swap example_page true =
      some (example_swap_one, { addr := 1, first_sector := 0 }) ∧
    swap_run example_swap_one [SwapOp.out (fun _ => 0) true] =
      some (example_swap_full, [{ addr := 2, first_sector := 8 }]) ∧
    (∀ t ∈ [({ addr := 2, first_sector := 8 } : swap_slot)],
      t ≠ { addr := 1, first_sector := 0 }) ∧
    ∃ sw3 K', swap_in example_swap_full { addr := 1, first_sector := 0 } (fun _ => 0) =
        some (sw3, K', true) ∧ ∀ j < PGSIZE, K' j = example_page j :=
  ⟨rfl, rfl, rfl, by decide,
    swap_out_then_swap_in_restores_page example_dev 16 [] example_swap [] rfl example_page
      true example_swap_one { addr := 1, first_sector := 0 } rfl
      [SwapOp.out (fun _ => 0) true] example_swap_full [{ addr := 2, first_sector := 8 }] rfl
      (by decide) (fun _ => 0)⟩

/-- C16: when the free list is empty and the swap device is full, `get_slot`
returns `NULL` and leaves the swap table as it is, but `swap_out` does not
return: it reads `ss->first_sector` through the null pointer. -/
theorem swap_out_full_dereferences_null (sw : Swap) (kpage : Nat → Nat) (mem_ok : Bool)
    (hfree : sw.swap_unoccupied = []) (hfull : sw.next_sector ≥ sw.block_size) :
    get_slot sw mem_ok = some (sw, none) ∧ swap_out sw kpage mem_ok = none := by
  have hg : get_slot sw mem_ok = some (sw, none) := by
    unfold get_slot
    rw [hfree]
    simp only [hfull, if_true]
  refine ⟨hg, ?_⟩
  unfold swap_out
  rw [hg]

/-- On a swap device of 16 sectors that holds two pages, a third `swap_out`
does not return. -/
theorem swap_out_full_dereferences_null_witness :
    example_swap_full.swap_unoccupied = [] ∧
    example_swap_full.next_sector ≥ example_swap_full.block_size ∧
    get_slot example_swap_full true = some (example_swap_full, none) ∧
    swap_out example_swap_full example_page true = none :=
  ⟨rfl, by decide,
    swap_out_full_dereferences_null example_swap_full example_page true rfl (by decide)⟩

/-! ## Supplemental page table and frame table -/

theorem map_set_same {β : Type} (g : page → β) (q : page) : ∀ (t : List page) (i : Nat) (p : page),
    t[i]? = some p → g q = g p → (t.set i q).map g = t.map g := by
  intro t
  induction t with
  | nil => intro i p h _; simp at h
  | cons a rest ih =>
    intro i p h hq
    cases i with
    | zero =>
      simp only [List.getElem?_cons_zero, Option.some.injEq] at h
      subst h
      simp only [List.set_cons_zero, List.map_cons, hq]
    | succ i =>
      simp only [List.getElem?_cons_succ] at h
      simp only [List.set_cons_succ, List.map_cons, ih i p h hq]

theorem find_page_map (m : page → Bool) : ∀ (t t' : List page),
    t.map m = t'.map m → find_page m t = find_page m t' := by
  intro t
  induction t with
  | nil =>
    intro t' h
    cases t' with
    | nil => rfl
    | cons b rest => simp at h
  | cons a rest ih =>
    intro t' h
    cases t' with
    | nil => simp at h
    | cons b rest' =>
      simp only [List.map_cons, List.cons.injEq] at h
      simp only [find_page, h.1, ih rest' h.2]

theorem find_upage_congr {vm vm1 : VM} {cur : Nat}
    (h : (vm1.sup_page_table cur).map (fun p => (p.upage, p.writable)) =
      (vm.sup_page_table cur).map (fun p => (p.upage, p.writable))) (u : Nat) :
    find_upage vm1 cur u = find_upage vm cur u := by
  unfold find_upage
  apply find_page_map
  have := congrArg (List.map (fun x : Nat × Bool => decide (x.1 = u))) h
  simpa only [List.map_map] using this

theorem writable_congr {t1 t : List page}
    (h : t1.map (fun p => (p.upage, p.writable)) = t.map (fun p => (p.upage, p.writable)))
    (i : Nat) : (t1[i]?).map (fun p => p.writable) = (t[i]?).map (fun p => p.writable) := by
  have := congrArg (fun l : List (Nat × Bool) => (l[i]?).map (fun x => x.2)) h
  simpa only [List.getElem?_map, Option.map_map] using this

theorem find_page_lt (m : page → Bool) : ∀ (t : List page) (i : Nat),
    find_page m t = some i → ∃ p, t[i]? = some p ∧ m p = true := by
  intro t
  induction t with
  | nil => intro i h; simp [find_page] at h
  | cons a rest ih =>
    intro i h
    simp only [find_page] at h
    by_cases ha : m a = true
    · rw [if_pos ha] at h
      simp only [Option.some.injEq] at h
      subst h
      exact ⟨a, by simp, ha⟩
    · rw [if_neg ha] at h
      cases hr : find_page m rest with
      | none => rw [hr] at h; simp at h
      | some j =>
        rw [hr] at h
        simp only [Option.map_some', Option.some.injEq] at h
        subst h
        obtain ⟨p, hp, hm⟩ := ih j hr
        exact ⟨p, by simp [hp], hm⟩

theorem frame_clock_loop_tables : ∀ (l : List frame) (i : Nat) (vm : VM) (last : Option Nat),
    (frame_clock_loop l i vm last).1.sup_page_table = vm.sup_page_table ∧
    (frame_clock_loop l i vm last).1.frame_table = vm.frame_table ∧
    (frame_clock_loop l i vm last).1.swap = vm.swap ∧
    (frame_clock_loop l i vm last).1.memory = vm.memory := by
  intro l
  induction l with
  | nil => intro i vm last; exact ⟨rfl, rfl, rfl, rfl⟩
  | cons f rest ih =>
    intro i vm last
    simp only [frame_clock_loop]
    by_cases ha : pagedir_is_accessed vm f.pd f.upage = true
    · rw [if_pos ha]
      obtain ⟨h1, h2, h3, h4⟩ := ih (i + 1) (pagedir_set_accessed vm f.pd f.upage false) (some i)
      have e : ∀ (vm : VM) (a b : Nat) (c : Bool),
          (pagedir_set_accessed vm a b c).sup_page_table = vm.sup_page_table ∧
          (pagedir_set_accessed vm a b c).frame_table = vm.frame_table ∧
          (pagedir_set_accessed vm a b c).swap = vm.swap ∧
          (pagedir_set_accessed vm a b c).memory = vm.memory := by
        intro vm a b c
        unfold pagedir_set_accessed
        cases vm.pagedirs a b <;> exact ⟨rfl, rfl, rfl, rfl⟩
      obtain ⟨e1, e2, e3, e4⟩ := e vm f.pd f.upage false
      exact ⟨h1.trans e1, h2.trans e2, h3.trans e3, h4.trans e4⟩
    · rw [if_neg ha]
      exact ⟨rfl, rfl, rfl, rfl⟩

theorem page_set_swap_upages {vm vm1 : VM} {cur u : Nat} {ss : Option swap_slot} {ok : Bool}
    (h : page_set_swap vm cur u ss = some (vm1, ok)) :
    (vm1.sup_page_table cur).map (fun p => (p.upage, p.writable)) =
      (vm.sup_page_table cur).map (fun p => (p.upage, p.writable)) := by
  unfold page_set_swap at h
  cases hf : find_upage vm cur u with
  | none => rw [hf] at h; simp at h
  | some i =>
    rw [hf] at h
    simp only at h
    cases hp : (vm.sup_page_table cur)[i]? with
    | none => rw [hp] at h; simp at h
    | some p =>
      rw [hp] at h
      simp only [Option.some.injEq, Prod.mk.injEq] at h
      rw [← h.1]
      simp only [set_sup_page_table, if_true]
      exact map_set_same _ _ _ i p hp rfl

theorem get_next_frame_upages {vm vm1 : VM} {cur f : Nat} {m : Bool}
    (h : get_next_frame vm cur m = some (vm1, f)) :
    (vm1.sup_page_table cur).map (fun p => (p.upage, p.writable)) =
      (vm.sup_page_table cur).map (fun p => (p.upage, p.writable)) := by
  unfold get_next_frame at h
  by_cases hfail : vm.fail_on_next = true
  · rw [if_pos hfail] at h
    have hc := frame_clock_loop_tables vm.frame_table 0 vm none
    unfold frame_clock at h
    generalize frame_clock_loop vm.frame_table 0 vm none = r at h hc
    obtain ⟨vmc, o⟩ := r
    cases o with
    | none => simp at h
    | some g =>
      simp only at h
      cases he : evict_frame vmc cur g m with
      | none => rw [he] at h; simp at h
      | some vm2 =>
        rw [he] at h
        simp only [Option.map_some', Option.some.injEq, Prod.mk.injEq] at h
        obtain ⟨h1, _⟩ := h
        subst h1
        unfold evict_frame at he
        cases hfr : vmc.frame_table[g]? with
        | none => rw [hfr] at he; simp at he
        | some fr =>
          rw [hfr] at he
          simp only at he
          cases hs : swap_out vmc.swap (vmc.memory fr.kpage) m with
          | none => rw [hs] at he; simp at he
          | some q =>
            obtain ⟨sw, ss⟩ := q
            rw [hs] at he
            simp only at he
            cases hps : page_set_swap { vmc with swap := sw } cur fr.upage (some ss) with
            | none => rw [hps] at he; simp at he
            | some q2 =>
              obtain ⟨vm3, ok⟩ := q2
              rw [hps] at he
              simp only at he
              cases ok with
              | false => simp at he
              | true =>
                simp only [if_true, Option.some.injEq] at he
                subst he
                rw [page_set_swap_upages hps]
                show (vmc.sup_page_table cur).map _ = _
                rw [hc.1]
  · rw [if_neg hfail] at h
    by_cases hlt : vm.next_frame < vm.frame_table.length
    · rw [if_pos hlt] at h
      by_cases hlast : vm.next_frame + 1 = vm.frame_table.length
      · rw [if_pos hlast] at h
        simp only [Option.some.injEq, Prod.mk.injEq] at h
        rw [← h.1]
      · rw [if_neg hlast] at h
        simp only [Option.some.injEq, Prod.mk.injEq] at h
        rw [← h.1]
    · rw [if_neg hlt] at h
      simp at h

theorem frame_alloc_spec {vm vm1 : VM} {cur upage kpage : Nat} {w m pt : Bool}
    (h : frame_alloc vm cur upage w m pt = some (vm1, kpage)) :
    (vm1.sup_page_table cur).map (fun p => (p.upage, p.writable)) =
      (vm.sup_page_table cur).map (fun p => (p.upage, p.writable)) ∧
    vm1.pagedirs cur upage =
      some { kpage := kpage, writable := w, accessed := false, dirty := false } := by
  unfold frame_alloc at h
  cases hg : get_next_frame vm cur m with
  | none => rw [hg] at h; simp at h
  | some q =>
    obtain ⟨vm0, f⟩ := q
    rw [hg] at h
    simp only at h
    cases hfr : vm0.frame_table[f]? with
    | none => rw [hfr] at h; simp at h
    | some fr =>
      rw [hfr] at h
      simp only at h
      by_cases hc : pagedir_get_page vm0 cur upage ≠ 0 ∨ pt = false
      · rw [if_pos hc] at h; simp at h
      · rw [if_neg hc] at h
        simp only [Option.some.injEq, Prod.mk.injEq] at h
        obtain ⟨h1, h2⟩ := h
        subst h1
        subst h2
        refine ⟨?_, ?_⟩
        · show (vm0.sup_page_table cur).map _ = _
          exact get_next_frame_upages hg
        · show (if cur = cur ∧ upage = upage then _ else _) = _
          simp

theorem getElem?_append_length (t : List page) (x : page) : (t ++ [x])[t.length]? = some x := by
  induction t with
  | nil => rfl
  | cons a rest ih => simp

theorem set_append_length (t : List page) (x y : page) :
    (t ++ [x]).set t.length y = t ++ [y] := by
  induction t with
  | nil => rfl
  | cons a rest ih => simp [ih]

theorem page_set_frame_new {vm : VM} {cur upage kpage : Nat} {w : Bool}
    (hnone : find_upage vm cur upage = none) :
    page_set_frame vm cur upage kpage w true =
      some (set_sup_page_table vm cur (vm.sup_page_table cur ++
        [{ pd := cur, frame := kpage, upage := upage, active := true, file := 0, off := 0,
           writable := w, ss := none }])) := by
  unfold page_set_frame
  rw [hnone]
  have hin : page_in_table vm cur upage = false := by
    unfold page_in_table
    rw [hnone]
    simp
  simp only [page_alloc, hin, Bool.false_eq_true, if_false, if_true]
  simp only [set_sup_page_table, if_true, getElem?_append_length, set_append_length]
  congr 1
  congr 1
  funext c
  by_cases hc : c = cur <;> simp [hc]

/-- C18: for a user address whose page has an entry that is not writable,
`page_fetch` with `write` true returns false and leaves the state as it is, but
with `write` false it does not return: when `frame_alloc` returns,
`page_set_frame (page, kpage, true)` fails the assertion
`page_s->writable == writable`. -/
theorem page_fetch_read_of_read_only_page_asserts (vm : VM) (cur uaddr esp : Nat)
    (mem_ok pt_ok : Bool) (i : Nat) (p : page)
    (huser : is_user_vaddr uaddr = true) (hpage : pg_round_down uaddr ≠ 0)
    (hfind : find_upage vm cur (pg_round_down uaddr) = some i)
    (hp : (vm.sup_page_table cur)[i]? = some p) (hw : p.writable = false) :
    page_fetch vm cur uaddr esp true mem_ok pt_ok = some (vm, false) ∧
    page_fetch vm cur uaddr esp false mem_ok pt_ok = none := by
  have hin : page_in_table vm cur (pg_round_down uaddr) = true := by
    unfold page_in_table
    rw [hfind]
    simp [hpage]
  have hiw : page_is_writable vm cur (pg_round_down uaddr) = some false := by
    unfold page_is_writable
    rw [hfind]
    simp only [hp, Option.map_some', hw]
  constructor
  · unfold page_fetch
    simp only [huser, hin, hiw, Bool.not_true, Bool.false_eq_true, if_false, if_true,
      Option.map_some', Bool.not_false]
  · unfold page_fetch
    simp only [huser, hin, Bool.not_true, Bool.false_eq_true, if_false]
    cases hfa : frame_alloc vm cur (pg_round_down uaddr) true mem_ok pt_ok with
    | none => rfl
    | some q =>
      obtain ⟨vm1, kpage⟩ := q
      obtain ⟨hkeys, _⟩ := frame_alloc_spec hfa
      have hfind1 : find_upage vm1 cur (pg_round_down uaddr) = some i := by
        rw [find_upage_congr hkeys]; exact hfind
      have hw1 := writable_congr hkeys i
      rw [hp] at hw1
      simp only [Option.map_some', hw] at hw1
      have hsf : page_set_frame vm1 cur (pg_round_down uaddr) kpage true mem_ok = none := by
        unfold page_set_frame
        rw [hfind1]
        simp only
        cases hp1 : (vm1.sup_page_table cur)[i]? with
        | none => rfl
        | some p1 =>
          rw [hp1] at hw1
          simp only [Option.map_some', Option.some.injEq] at hw1
          simp only [hw1, Bool.false_eq_true, if_false]
      simp only [hsf]

/-- A page that is not writable, registered with `page_set_frame (0x08048000,
0xc0271000, false)`: a write access to it is refused, and a read access does
not return. -/
theorem page_fetch_read_of_read_only_page_asserts_witness :
    page_set_frame example_vm 1 0x08048000 0xc0271000 false true = some example_vm_read_only ∧
    pagedir_get_page example_vm_read_only 1 0x08048000 = 0 ∧
    is_user_vaddr 0x08048123 = true ∧ pg_round_down 0x08048123 = 0x08048000 ∧
    page_fetch example_vm_read_only 1 0x08048123 0xbffff000 true true true =
      some (example_vm_read_only, false) ∧
    page_fetch example_vm_read_only 1 0x08048123 0xbffff000 false true true = none :=
  ⟨page_set_frame_new (rfl : find_upage example_vm 1 0x08048000 = none), rfl, by decide,
    by decide,
    page_fetch_read_of_read_only_page_asserts example_vm_read_only 1 0x08048123 0xbffff000
      true true 0
      { pd := 1, frame := 0xc0271000, upage := 0x08048000, active := true, file := 0, off := 0,
        writable := false, ss := none }
      (by decide) (by decide) rfl rfl rfl⟩

set_option maxRecDepth 1000000 in
/-- C20: the property fails in a state reached by three calls of
`page_fetch`.  On a machine with two frames, threads 1 and 2 each fetch their
stack page at `0xbfffe000`; the property holds for both.  A third `page_fetch`
by thread 2, at `0xbfffdffc`, evicts the frame `0xc0271000` of thread 1, and
`evict_frame` records the swap slot on the page that the running thread 2 has
at `0xbfffe000`.  Afterwards the page of thread 1 is still active with frame
`0xc0271000`, and its page directory still maps it there, but the frame table
records that frame as owned by thread 2 for `0xbfffd000`; the page of thread 2
at `0xbfffe000`, which keeps its frame `0xc0272000`, is not active and carries
the slot that holds the bytes of thread 1. -/
theorem evict_frame_marks_page_of_running_thread :
    example_eviction_scenario =
      some (true, true, false,
        [{ pd := 1, frame := 0xc0271000, upage := 0xbfffe000, active := true, file := 0,
           off := 0, writable := true, ss := none }],
        [{ pd := 2, frame := 0xc0272000, upage := 0xbfffe000, active := false, file := 0,
           off := 0, writable := true, ss := some { addr := 1, first_sector := 0 } },
         { pd := 2, frame := 0xc0271000, upage := 0xbfffd000, active := true, file := 0,
           off := 0, writable := true, ss := none }],
        [{ kpage := 0xc0271000, pd := 2, upage := 0xbfffd000 },
         { kpage := 0xc0272000, pd := 2, upage := 0xbfffe000 }],
        0xc0271000) := by
  rfl

theorem find_page_none (m : page → Bool) : ∀ (t : List page),
    find_page m t = none → ∀ q ∈ t, m q = false := by
  intro t
  induction t with
  | nil => intro _ q hq; simp at hq
  | cons a rest ih =>
    intro h q hq
    simp only [find_page] at h
    by_cases ha : m a = true
    · rw [if_pos ha] at h; simp at h
    · rw [if_neg ha] at h
      have hr : find_page m rest = none := by
        cases hr : find_page m rest with
        | none => rfl
        | some j => rw [hr] at h; simp at h
      rcases List.mem_cons.mp hq with rfl | hq
      · simpa using ha
      · exact ih hr q hq

theorem find_page_at (m : page → Bool) (p : page) (rest : List page) (hp : m p = true) :
    ∀ (pre : List page), (∀ q ∈ pre, m q = false) →
      find_page m (pre ++ p :: rest) = some pre.length := by
  intro pre
  induction pre with
  | nil => intro _; simp [find_page, hp]
  | cons a pre ih =>
    intro h
    have ha : m a = false := h a (List.mem_cons_self _ _)
    have := ih (fun q hq => h q (List.mem_cons_of_mem _ hq))
    simp [find_page, ha, this]

theorem find_page_split (m : page → Bool) : ∀ (t : List page) (i : Nat),
    find_page m t = some i →
      ∃ pre p rest, t = pre ++ p :: rest ∧ pre.length = i ∧ m p = true ∧
        ∀ q ∈ pre, m q = false := by
  intro t
  induction t with
  | nil => intro i h; simp [find_page] at h
  | cons a rest ih =>
    intro i h
    simp only [find_page] at h
    by_cases ha : m a = true
    · rw [if_pos ha] at h
      simp only [Option.some.injEq] at h
      subst h
      exact ⟨[], a, rest, rfl, rfl, ha, by simp⟩
    · rw [if_neg ha] at h
      cases hr : find_page m rest with
      | none => rw [hr] at h; simp at h
      | some j =>
        rw [hr] at h
        simp only [Option.map_some', Option.some.injEq] at h
        subst h
        obtain ⟨pre, p, rest', e, hl, hm, hpre⟩ := ih j hr
        refine ⟨a :: pre, p, rest', by simp [e], by simp [hl], hm, ?_⟩
        intro q hq
        rcases List.mem_cons.mp hq with rfl | hq
        · simpa using ha
        · exact hpre q hq

theorem getElem?_append_cons (pre : List page) (p : page) (rest : List page) :
    (pre ++ p :: rest)[pre.length]? = some p := by
  induction pre with
  | nil => simp
  | cons a pre ih => simpa using ih

theorem eraseIdx_append_cons (pre : List page) (p : page) (rest : List page) :
    (pre ++ p :: rest).eraseIdx pre.length = pre ++ rest := by
  induction pre with
  | nil => rfl
  | cons a pre ih => simp [ih]

theorem file_span_size (len off : Int) (hoff : 0 ≤ off) :
    file_span len (if len - off < (PGSIZE : Int) then len - off else (PGSIZE : Int)) off =
      (min (len - off) (PGSIZE : Int)).toNat := by
  unfold file_span
  simp only [PGSIZE, Nat.cast_ofNat]
  by_cases h1 : len - off < 4096
  · rw [if_pos h1]
    have hmin : min (len - off) 4096 = len - off := min_eq_left (le_of_lt h1)
    rw [hmin]
    by_cases h2 : len - off ≤ 0 ∨ off < 0 ∨ len ≤ off
    · rw [if_pos h2]
      have : len - off ≤ 0 := by omega
      exact (Int.toNat_eq_zero.mpr this).symm
    · rw [if_neg h2, min_self]
  · rw [if_neg h1]
    have hmin : min (len - off) 4096 = 4096 := min_eq_right (by omega)
    rw [hmin]
    have h2 : ¬ ((4096 : Int) ≤ 0 ∨ off < 0 ∨ len ≤ off) := by omega
    rw [if_neg h2]
    have : min (4096 : Int) (len - off) = 4096 := min_eq_left (by omega)
    rw [this]

theorem file_write_at_spec (vm : VM) (cur f upage : Nat) (size off : Int)
    (hmap : file_span (file_length vm f) size off ≠ 0 → (vm.pagedirs cur upage).isSome) :
    ∃ vm1 k, file_write_at vm cur f upage size off = some (vm1, k) ∧
      vm1.sup_page_table = vm.sup_page_table ∧ vm1.memory = vm.memory ∧
      vm1.file_writes = vm.file_writes ++
        [(f, off, (List.range (file_span (file_length vm f) size off)).map
          (fun i => vm.memory (pagedir_get_page vm cur upage) i))] ∧
      (∀ g, (vm1.files g).length = (vm.files g).length) ∧
      (∀ g, g ≠ f → vm1.files g = vm.files g) ∧
      (∀ d u, u ≠ upage → vm1.pagedirs d u = vm.pagedirs d u) := by
  unfold file_write_at
  by_cases hn : file_span (file_length vm f) size off = 0
  · simp only [hn, if_true]
    exact ⟨_, _, rfl, rfl, rfl, by simp, fun _ => rfl, fun _ _ => rfl, fun _ _ _ => rfl⟩
  · simp only [hn, if_false]
    cases he : vm.pagedirs cur upage with
    | none =>
      have := hmap hn
      rw [he] at this
      simp at this
    | some e =>
      simp only
      refine ⟨_, _, rfl, rfl, rfl, ?_, ?_, ?_, ?_⟩
      · simp only [pagedir_get_page, he]
      · intro g
        by_cases hg : g = f
        · subst hg
          simp
        · simp [hg]
      · intro g hg
        simp [hg]
      · intro d u hu
        simp [pagedir_update, hu]

theorem page_remove_spec (vm : VM) (cur : Nat) (pre : List page) (p : page) (rest : List page)
    (ht : vm.sup_page_table cur = pre ++ p :: rest)
    (hu : ∀ q ∈ pre, q.upage ≠ p.upage) :
    ∃ vm2, page_remove vm cur p.upage = some vm2 ∧
      vm2.sup_page_table cur = pre ++ rest ∧
      (∀ c, c ≠ cur → vm2.sup_page_table c = vm.sup_page_table c) ∧
      vm2.memory = vm.memory ∧ vm2.file_writes = vm.file_writes ∧ vm2.files = vm.files ∧
      (∀ d u, u ≠ p.upage → vm2.pagedirs d u = vm.pagedirs d u) := by
  have hfind : find_upage vm cur p.upage = some pre.length := by
    unfold find_upage
    rw [ht]
    apply find_page_at
    · simp
    · intro q hq
      simpa using hu q hq
  unfold page_remove
  rw [hfind]
  simp only [ht, getElem?_append_cons, eraseIdx_append_cons]
  refine ⟨_, rfl, ?_, ?_, rfl, rfl, rfl, ?_⟩
  · simp [pagedir_clear_page, pagedir_update, set_sup_page_table]
  · intro c hc
    simp [pagedir_clear_page, pagedir_update, set_sup_page_table, hc]
  · intro d u hne
    simp [pagedir_clear_page, pagedir_update, set_sup_page_table, hne]

theorem page_unmap_writes_append (vm : VM) (cur f : Nat) (l1 l2 : List page) :
    page_unmap_writes vm cur f (l1 ++ l2) =
      page_unmap_writes vm cur f l1 ++ page_unmap_writes vm cur f l2 := by
  simp [page_unmap_writes, List.filter_append]

theorem page_unmap_writes_nil (vm : VM) (cur f : Nat) (l : List page)
    (h : ∀ q ∈ l, q.file ≠ f) : page_unmap_writes vm cur f l = [] := by
  unfold page_unmap_writes
  rw [List.map_eq_nil_iff, List.filter_eq_nil_iff]
  intro q hq
  simp [h q hq]

theorem page_unmap_writes_congr (vm vm2 : VM) (cur f : Nat) (hm : vm2.memory = vm.memory)
    (hl : (vm2.files f).length = (vm.files f).length) : ∀ (l : List page),
    (∀ q ∈ l, ∀ d, vm2.pagedirs d q.upage = vm.pagedirs d q.upage) →
      page_unmap_writes vm2 cur f l = page_unmap_writes vm cur f l := by
  intro l
  induction l with
  | nil => intro _; rfl
  | cons a l ih =>
    intro h
    have hl' := ih (fun q hq => h q (List.mem_cons_of_mem _ hq))
    have ha := h a (List.mem_cons_self _ _)
    have e1 : page_unmap_writes vm2 cur f (a :: l) =
        page_unmap_writes vm2 cur f [a] ++ page_unmap_writes vm2 cur f l :=
      page_unmap_writes_append vm2 cur f [a] l
    have e2 : page_unmap_writes vm cur f (a :: l) =
        page_unmap_writes vm cur f [a] ++ page_unmap_writes vm cur f l :=
      page_unmap_writes_append vm cur f [a] l
    rw [e1, e2, hl']
    congr 1
    have hdirty : pagedir_is_dirty vm2 a.pd a.upage = pagedir_is_dirty vm a.pd a.upage := by
      simp only [pagedir_is_dirty, ha]
    have hget : pagedir_get_page vm2 cur a.upage = pagedir_get_page vm cur a.upage := by
      simp only [pagedir_get_page, ha]
    have hlen : file_length vm2 f = file_length vm f := by
      simp only [file_length, hl]
    simp only [page_unmap_writes, List.filter_cons, List.filter_nil, hdirty]
    by_cases hc : (decide (a.file = f) && pagedir_is_dirty vm a.pd a.upage) = true
    · simp only [hc, if_true, List.map_cons, List.map_nil, hget, hlen, hm]
    · simp only [hc, Bool.false_eq_true, if_false, List.map_nil]

theorem page_unmap_step (vm : VM) (cur f : Nat) (hf : f ≠ 0) (pre : List page) (p : page)
    (rest : List page) (ht : vm.sup_page_table cur = pre ++ p :: rest)
    (hpre : ∀ q ∈ pre, q.file ≠ f) (hpf : p.file = f) (hpd : p.pd = cur) (hoff : 0 ≤ p.off)
    (hu : ∀ q ∈ pre, q.upage ≠ p.upage) :
    ∃ vm2, (∀ n, page_unmap_loop (n + 1) vm cur f = page_unmap_loop n vm2 cur f) ∧
      vm2.sup_page_table cur = pre ++ rest ∧
      (∀ c, c ≠ cur → vm2.sup_page_table c = vm.sup_page_table c) ∧
      vm2.memory = vm.memory ∧
      vm2.file_writes = vm.file_writes ++ page_unmap_writes vm cur f [p] ∧
      (∀ g, (vm2.files g).length = (vm.files g).length) ∧
      (∀ g, g ≠ f → vm2.files g = vm.files g) ∧
      (∀ d u, u ≠ p.upage → vm2.pagedirs d u = vm.pagedirs d u) := by
  have hfind : find_file vm cur f = some pre.length := by
    unfold find_file
    rw [ht]
    apply find_page_at
    · simpa using hpf
    · intro q hq
      simpa using hpre q hq
  have hget : (vm.sup_page_table cur)[pre.length]? = some p := by
    rw [ht]; exact getElem?_append_cons pre p rest
  by_cases hd : pagedir_is_dirty vm p.pd p.upage = true
  · have hsize : file_size_in_page vm p =
        some (if file_length vm p.file - p.off < (PGSIZE : Int)
          then file_length vm p.file - p.off else (PGSIZE : Int)) := by
      unfold file_size_in_page
      rw [if_neg (by rw [hpf]; exact hf)]
      by_cases hlt : file_length vm p.file - p.off < (PGSIZE : Int)
      · rw [if_pos hlt, if_pos hlt]
      · rw [if_neg hlt, if_neg hlt]
    have hmapped : (vm.pagedirs cur p.upage).isSome := by
      unfold pagedir_is_dirty at hd
      rw [hpd] at hd
      cases he : vm.pagedirs cur p.upage with
      | none => rw [he] at hd; simp at hd
      | some e => rfl
    obtain ⟨vm1, k, hw, ht1, hm1, hlog1, hlen1, hfiles1, hpd1⟩ :=
      file_write_at_spec vm cur f p.upage
        (if file_length vm p.file - p.off < (PGSIZE : Int)
          then file_length vm p.file - p.off else (PGSIZE : Int)) p.off (fun _ => hmapped)
    have ht1' : vm1.sup_page_table cur = pre ++ p :: rest := by rw [ht1]; exact ht
    obtain ⟨vm2, hrem, ht2, hoth2, hm2, hlog2, hfiles2, hpd2⟩ :=
      page_remove_spec vm1 cur pre p rest ht1' hu
    refine ⟨vm2, ?_, ht2, ?_, ?_, ?_, ?_, ?_, ?_⟩
    · intro n
      simp only [page_unmap_loop, hfind, hget, hd, if_true, hsize, hw, Option.map_some', hrem]
    · intro c hc
      rw [hoth2 c hc, ht1]
    · rw [hm2, hm1]
    · rw [hlog2, hlog1]
      congr 1
      have hsp := file_span_size (file_length vm f) p.off hoff
      simp only [page_unmap_writes, List.filter_cons, hpf, decide_True, Bool.true_and, hd,
        if_true, List.filter_nil, List.map_cons, List.map_nil]
      rw [hpf] at *
      rw [hsp]
    · intro g
      rw [hfiles2]
      exact hlen1 g
    · intro g hg
      rw [hfiles2]
      exact hfiles1 g hg
    · intro d u hne
      rw [hpd2 d u hne, hpd1 d u hne]
  · obtain ⟨vm2, hrem, ht2, hoth2, hm2, hlog2, hfiles2, hpd2⟩ :=
      page_remove_spec vm cur pre p rest ht hu
    refine ⟨vm2, ?_, ht2, hoth2, hm2, ?_, ?_, ?_, hpd2⟩
    · intro n
      simp only [page_unmap_loop, hfind, hget, hd, Bool.false_eq_true, if_false, hrem]
    · rw [hlog2]
      simp [page_unmap_writes, List.filter_cons, hd]
    · intro g; rw [hfiles2]
    · intro g _; rw [hfiles2]

theorem page_unmap_loop_spec (cur f : Nat) (hf : f ≠ 0) : ∀ (n : Nat) (vm : VM),
    ((vm.sup_page_table cur).map (fun p => p.upage)).Nodup →
    (∀ p ∈ vm.sup_page_table cur, p.file = f → p.pd = cur) →
    (∀ p ∈ vm.sup_page_table cur, p.file = f → 0 ≤ p.off) →
    (vm.sup_page_table cur).length < n →
    ∃ vm2, page_unmap_loop n vm cur f = some vm2 ∧
      vm2.sup_page_table cur =
        (vm.sup_page_table cur).filter (fun p => decide (p.file ≠ f)) ∧
      (∀ c, c ≠ cur → vm2.sup_page_table c = vm.sup_page_table c) ∧
      vm2.memory = vm.memory ∧
      vm2.file_writes = vm.file_writes ++ page_unmap_writes vm cur f (vm.sup_page_table cur) ∧
      (∀ g, (vm2.files g).length = (vm.files g).length) ∧
      (∀ g, g ≠ f → vm2.files g = vm.files g) := by
  intro n
  induction n with
  | zero => intro vm _ _ _ hlen; omega
  | succ n ih =>
    intro vm hnodup hpd hoff hlen
    cases hfind : find_file vm cur f with
    | none =>
      have hno : ∀ q ∈ vm.sup_page_table cur, q.file ≠ f := by
        intro q hq
        have := find_page_none _ _ hfind q hq
        simpa using this
      refine ⟨vm, ?_, ?_, fun _ _ => rfl, rfl, ?_, fun _ => rfl, fun _ _ => rfl⟩
      · simp only [page_unmap_loop, hfind]
      · symm
        rw [List.filter_eq_self]
        intro q hq
        simpa using hno q hq
      · rw [page_unmap_writes_nil vm cur f _ hno, List.append_nil]
    | some i =>
      obtain ⟨pre, p, rest, ht, _, hmp, hpre⟩ := find_page_split _ _ i hfind
      have hpf : p.file = f := by simpa using hmp
      have hpre' : ∀ q ∈ pre, q.file ≠ f := by
        intro q hq
        simpa using hpre q hq
      have hpmem : p ∈ vm.sup_page_table cur := by rw [ht]; simp
      rw [ht, List.map_append, List.map_cons] at hnodup
      have hnd := List.nodup_append.mp hnodup
      have hu : ∀ q ∈ pre, q.upage ≠ p.upage := by
        intro q hq he
        exact hnd.2.2 (List.mem_map_of_mem _ hq) (by rw [he]; simp)
      have hnd2 := List.nodup_cons.mp hnd.2.1
      have hu2 : ∀ q ∈ rest, q.upage ≠ p.upage := by
        intro q hq he
        exact hnd2.1 (by rw [← he]; exact List.mem_map_of_mem _ hq)
      obtain ⟨vm1, hstep, ht1, hoth1, hm1, hlog1, hlen1, hfiles1, hpd1⟩ :=
        page_unmap_step vm cur f hf pre p rest ht hpre' hpf (hpd p hpmem hpf)
          (hoff p hpmem hpf) hu
      have hsub : ∀ q ∈ vm1.sup_page_table cur, q ∈ vm.sup_page_table cur := by
        intro q hq
        rw [ht1] at hq
        rw [ht]
        rcases List.mem_append.mp hq with h | h
        · exact List.mem_append_left _ h
        · exact List.mem_append_right _ (List.mem_cons_of_mem _ h)
      have hnodup1 : ((vm1.sup_page_table cur).map (fun p => p.upage)).Nodup := by
        rw [ht1, List.map_append, List.nodup_append]
        refine ⟨hnd.1, hnd2.2, ?_⟩
        intro a ha hb
        exact hnd.2.2 ha (List.mem_cons_of_mem _ hb)
      have hlen1' : (vm1.sup_page_table cur).length < n := by
        rw [ht1]
        rw [ht] at hlen
        simp only [List.length_append, List.length_cons] at hlen ⊢
        omega
      obtain ⟨vm2, hrun, ht2, hoth2, hm2, hlog2, hlen2, hfiles2⟩ :=
        ih vm1 hnodup1 (fun q hq => hpd q (hsub q hq)) (fun q hq => hoff q (hsub q hq)) hlen1'
      refine ⟨vm2, ?_, ?_, ?_, ?_, ?_, ?_, ?_⟩
      · rw [hstep n]; exact hrun
      · rw [ht2, ht1, ht]
        simp [List.filter_append, List.filter_cons, hpf]
      · intro c hc
        rw [hoth2 c hc, hoth1 c hc]
      · rw [hm2, hm1]
      · rw [hlog2, hlog1, ht1, ht, List.append_assoc]
        congr 1
        have e : pre ++ p :: rest = pre ++ ([p] ++ rest) := by simp
        rw [e, page_unmap_writes_append vm cur f pre, page_unmap_writes_append vm cur f [p],
          page_unmap_writes_append vm1 cur f pre,
          page_unmap_writes_nil vm cur f pre hpre',
          page_unmap_writes_nil vm1 cur f pre hpre', List.nil_append, List.nil_append]
        congr 1
        apply page_unmap_writes_congr vm vm1 cur f hm1 (hlen1 f)
        intro q hq d
        exact hpd1 d q.upage (hu2 q hq)
      · intro g
        rw [hlen2 g, hlen1 g]
      · intro g hg
        rw [hfiles2 g hg, hfiles1 g hg]

/-- C19: `page_unmap (f)` returns, for a file `f` and a table of the running
thread in which no two pages have the same user page and every page backed by
`f` belongs to the page directory of the thread and has an offset that is not
negative.  The calls of `file_write_at` it makes are those of
`page_unmap_writes`: one for every page backed by `f` whose dirty bit is set,
in table order, with the first `min (file_length - off, PGSIZE)` bytes of the
frame of the page at the offset of the page, and none for a page whose dirty
bit is clear.  No file changes its length, no other file changes, the pages
backed by `f` are gone from the table, and the other pages and the tables of
the other threads are as before. -/
theorem page_unmap_writes_dirty_pages_back (vm : VM) (cur f : Nat) (hf : f ≠ 0)
    (hnodup : ((vm.sup_page_table cur).map (fun p => p.upage)).Nodup)
    (hpd : ∀ p ∈ vm.sup_page_table cur, p.file = f → p.pd = cur)
    (hoff : ∀ p ∈ vm.sup_page_table cur, p.file = f → 0 ≤ p.off) :
    ∃ vm2, page_unmap vm cur f = some vm2 ∧
      vm2.sup_page_table cur =
        (vm.sup_page_table cur).filter (fun p => decide (p.file ≠ f)) ∧
      (∀ c, c ≠ cur → vm2.sup_page_table c = vm.sup_page_table c) ∧
      vm2.memory = vm.memory ∧
      vm2.file_writes = vm.file_writes ++ page_unmap_writes vm cur f (vm.sup_page_table cur) ∧
      (∀ g, (vm2.files g).length = (vm.files g).length) ∧
      (∀ g, g ≠ f → vm2.files g = vm.files g) :=
  page_unmap_loop_spec cur f hf _ vm hnodup hpd hoff (Nat.lt_succ_self _)

set_option maxRecDepth 1000000 in
/-- A file of 1025 bytes mapped at `0x10000000` with `0xFF` stored at
`0x10000400`: `page_unmap` writes the 1025 bytes of the page at offset 0, the
last of which is `0xFF`, the file keeps its length of 1025 bytes and has
`0xFF` as byte 1024, and no page of the thread is left. -/
theorem page_unmap_writes_dirty_pages_back_witness :
    (7 ≠ 0 ∧
      ((example_vm_mapped.sup_page_table 1).map (fun p => p.upage)).Nodup ∧
      (∀ p ∈ example_vm_mapped.sup_page_table 1, p.file = 7 → p.pd = 1) ∧
      (∀ p ∈ example_vm_mapped.sup_page_table 1, p.file = 7 → 0 ≤ p.off)) ∧
    (∃ vm2, page_unmap example_vm_mapped 1 7 = some vm2 ∧
      vm2.sup_page_table 1 =
        (example_vm_mapped.sup_page_table 1).filter (fun p => decide (p.file ≠ 7)) ∧
      (∀ c, c ≠ 1 → vm2.sup_page_table c = example_vm_mapped.sup_page_table c) ∧
      vm2.memory = example_vm_mapped.memory ∧
      vm2.file_writes = example_vm_mapped.file_writes ++
        page_unmap_writes example_vm_mapped 1 7 (example_vm_mapped.sup_page_table 1) ∧
      (∀ g, (vm2.files g).length = (example_vm_mapped.files g).length) ∧
      (∀ g, g ≠ 7 → vm2.files g = example_vm_mapped.files g)) ∧
    (example_vm_mapped.sup_page_table 1).filter (fun p => decide (p.file ≠ 7)) = [] ∧
    (page_unmap_writes example_vm_mapped 1 7 (example_vm_mapped.sup_page_table 1)).map
      (fun w => (w.1, w.2.1, w.2.2.length, w.2.2.getD 1023 0, w.2.2.getD 1024 0)) =
      [(7, 0, 1025, 17, 255)] ∧
    example_mmap_scenario = some (1025, 17, 255, [], [(7, 0, 1025)]) :=
  ⟨⟨by decide, by decide, by decide, by decide⟩,
    page_unmap_writes_dirty_pages_back example_vm_mapped 1 7 (by decide) (by decide)
      (by decide) (by decide),
    rfl, rfl, rfl⟩

/-! ## Fixed-point arithmetic -/

theorem int32_of_range {v : Int} (h1 : -2147483648 ≤ v) (h2 : v < 2147483648) : int32 v = v := by
  unfold int32
  omega

theorem tdiv_of_nonpos {a b : Int} (ha : a ≤ 0) (hb : 0 < b) : Int.tdiv a b = -((-a) / b) := by
  have h1 : Int.tdiv (-(-a)) b = -(Int.tdiv (-a) b) := Int.neg_tdiv (-a) b
  rw [neg_neg] at h1
  rw [h1, Int.tdiv_eq_ediv (by omega) (by omega)]

theorem two_pow_divides (q : Int) (hq0 : 0 ≤ q) (hq : q ≤ 30) :
    (2147483648 : Int) = (2147483648 / (2 : Int) ^ q.toNat) * (2 : Int) ^ q.toNat := by
  obtain ⟨n, rfl⟩ := Int.eq_ofNat_of_zero_le hq0
  have hn : n ≤ 30 := by omega
  simp only [Int.toNat_ofNat]
  interval_cases n <;> norm_num

theorem two_pow_bounds (q : Int) (hq0 : 0 ≤ q) (hq : q ≤ 30) :
    1 ≤ (2 : Int) ^ q.toNat ∧ (2 : Int) ^ q.toNat ≤ 1073741824 ∧
      ((2 : Int) ^ q.toNat = 1 ∧ q = 0 ∨
        (2 : Int) ^ q.toNat = 2 * ((2 : Int) ^ q.toNat / 2) ∧ 0 < q) := by
  obtain ⟨n, rfl⟩ := Int.eq_ofNat_of_zero_le hq0
  have hn : n ≤ 30 := by omega
  simp only [Int.toNat_ofNat]
  interval_cases n <;> norm_num

theorem f_eq (q : Int) (hq0 : 0 ≤ q) (hq : q ≤ 30) : f q = 2 ^ q.toNat := by
  obtain ⟨h1, h2, _⟩ := two_pow_bounds q hq0 hq
  exact int32_of_range (by omega) (by omega)

theorem fxp_round_nonneg (q x : Int) (hq0 : 0 ≤ q) (hq : q ≤ 30) (hx : 0 ≤ x)
    (hpos : x + (2 ^ q.toNat : Int) / 2 < 2147483648) :
    fxp_round q x = (x + (2 ^ q.toNat : Int) / 2) / 2 ^ q.toNat := by
  obtain ⟨h1, h2, _⟩ := two_pow_bounds q hq0 hq
  unfold fxp_round
  rw [f_eq q hq0 hq]
  generalize (2 : Int) ^ q.toNat = P at *
  simp only [ge_iff_le, hx, if_true, one_mul]
  have hh0 : 0 ≤ P / 2 := Int.ediv_nonneg (by omega) (by omega)
  have hh1 : P / 2 ≤ P := by omega
  have e1 : int32 P = P := int32_of_range (by omega) (by omega)
  have e2 : Int.tdiv P 2 = P / 2 := Int.tdiv_eq_ediv (by omega) (by omega)
  have e3 : int32 (P / 2) = P / 2 := int32_of_range (by omega) (by omega)
  have e4 : int32 (x + P / 2) = x + P / 2 := int32_of_range (by omega) (by omega)
  have e5 : Int.tdiv (x + P / 2) P = (x + P / 2) / P :=
    Int.tdiv_eq_ediv (by omega) (by omega)
  have hr0 : 0 ≤ (x + P / 2) / P := Int.ediv_nonneg (by omega) (by omega)
  have hr1 : (x + P / 2) / P ≤ x + P / 2 := Int.ediv_le_self _ (by omega)
  rw [e1, e2, e3, e4, e5]
  exact int32_of_range (by omega) (by omega)

theorem fxp_round_neg (q x : Int) (hq0 : 0 ≤ q) (hq : q ≤ 30) (hx : x < 0)
    (hx1 : -2147483648 ≤ x)
    (hneg : -2147483648 ≤ x - (2 ^ q.toNat : Int) / 2) :
    fxp_round q x = -((-x + (2 ^ q.toNat : Int) / 2) / 2 ^ q.toNat) := by
  obtain ⟨h1, h2, _⟩ := two_pow_bounds q hq0 hq
  unfold fxp_round
  rw [f_eq q hq0 hq]
  generalize (2 : Int) ^ q.toNat = P at *
  have hx' : ¬ x ≥ 0 := by omega
  simp only [hx', if_false, neg_one_mul]
  have hh0 : 0 ≤ P / 2 := Int.ediv_nonneg (by omega) (by omega)
  have hh1 : P / 2 ≤ P := by omega
  have e1 : int32 (-P) = -P := int32_of_range (by omega) (by omega)
  have e2 : Int.tdiv (-P) 2 = -(P / 2) := by
    rw [tdiv_of_nonpos (by omega) (by omega), neg_neg]
  have e3 : int32 (-(P / 2)) = -(P / 2) := int32_of_range (by omega) (by omega)
  have e4 : int32 (x + -(P / 2)) = x + -(P / 2) := int32_of_range (by omega) (by omega)
  have e5 : Int.tdiv (x + -(P / 2)) P = -((-x + P / 2) / P) := by
    rw [tdiv_of_nonpos (by omega) (by omega)]
    have : -(x + -(P / 2)) = -x + P / 2 := by ring
    rw [this]
  have hr0 : 0 ≤ (-x + P / 2) / P := Int.ediv_nonneg (by omega) (by omega)
  have hr1 : (-x + P / 2) / P ≤ -x + P / 2 := Int.ediv_le_self _ (by omega)
  rw [e1, e2, e3, e4, e5]
  exact int32_of_range (by omega) (by omega)

theorem fxp_round_multiple (q n : Int) (hq0 : 0 ≤ q) (hq : q ≤ 30)
    (hx1 : -2147483648 ≤ n * 2 ^ q.toNat) (hx2 : n * 2 ^ q.toNat < 2147483648)
    (hmin : q = 0 ∨ n * 2 ^ q.toNat ≠ -2147483648) :
    fxp_round q (n * 2 ^ q.toNat) = n := by
  obtain ⟨h1, h2, h3⟩ := two_pow_bounds q hq0 hq
  have hdiv := two_pow_divides q hq0 hq
  have hh0 : 0 ≤ (2 : Int) ^ q.toNat / 2 := Int.ediv_nonneg (by omega) (by omega)
  have hhP : (2 : Int) ^ q.toNat / 2 < (2 : Int) ^ q.toNat := by omega
  by_cases hx : 0 ≤ n * 2 ^ q.toNat
  · have hpos : n * 2 ^ q.toNat + (2 ^ q.toNat : Int) / 2 < 2147483648 := by
      generalize (2 : Int) ^ q.toNat = P at *
      generalize (2147483648 : Int) / P = K at *
      have hnK : n < K := by
        rw [hdiv] at hx2
        exact lt_of_mul_lt_mul_right hx2 (by omega)
      have : (n + 1) * P ≤ K * P := mul_le_mul_of_nonneg_right (by omega) (by omega)
      rw [add_mul, one_mul] at this
      omega
    rw [fxp_round_nonneg q _ hq0 hq hx hpos]
    generalize (2 : Int) ^ q.toNat = P at *
    rw [add_comm, Int.add_mul_ediv_right _ _ (by omega : P ≠ 0),
      Int.ediv_eq_zero_of_lt hh0 hhP, zero_add]
  · have hx' : n * 2 ^ q.toNat < 0 := by omega
    have hneg : -2147483648 ≤ n * 2 ^ q.toNat - (2 ^ q.toNat : Int) / 2 := by
      rcases h3 with h3 | h3
      · rw [h3.1] at hx1 ⊢
        omega
      · have hne : n * 2 ^ q.toNat ≠ -2147483648 := by
          rcases hmin with hmin | hmin
          · omega
          · exact hmin
        generalize (2 : Int) ^ q.toNat = P at *
        generalize (2147483648 : Int) / P = K at *
        have hnK : -K ≤ n := by
          have : -K * P ≤ n * P := by
            rw [neg_mul, ← hdiv]; exact hx1
          exact le_of_mul_le_mul_right this (by omega)
        have hnK2 : -K ≠ n := by
          intro e
          apply hne
          rw [← e, neg_mul, ← hdiv]
        have : (-K + 1) * P ≤ n * P := mul_le_mul_of_nonneg_right (by omega) (by omega)
        rw [add_mul, one_mul, neg_mul, ← hdiv] at this
        omega
    rw [fxp_round_neg q _ hq0 hq hx' hx1 hneg]
    generalize (2 : Int) ^ q.toNat = P at *
    have e : -(n * P) + P / 2 = P / 2 + (-n) * P := by ring
    rw [e, Int.add_mul_ediv_right _ _ (by omega : P ≠ 0),
      Int.ediv_eq_zero_of_lt hh0 hhP, zero_add, neg_neg]

theorem fxp_of_int_eq (q n : Int) (hq0 : 0 ≤ q) (hq : q ≤ 30)
    (hx1 : -2147483648 ≤ n * 2 ^ q.toNat) (hx2 : n * 2 ^ q.toNat < 2147483648) :
    fxp_of_int q n = n * 2 ^ q.toNat := by
  unfold fxp_of_int
  rw [f_eq q hq0 hq]
  exact int32_of_range hx1 hx2

/-- C24 (amended): for `0 ≤ q ≤ 30` and a 32-bit `x` for which adding half a
unit, `f(q) / 2`, on the side of its sign does not overflow, `fxp_round (q, x)`
times `2 ^ q` is at most half a unit away from `x`, and when it is exactly half
a unit away it lies on the side away from zero (above a non-negative `x`, below
a negative one); for `q = 0` the result is `x`.  And
`fxp_round (q, fxp_of_int (q, n)) = n` whenever `n * 2 ^ q` fits in 32 bits
and, for `q ≥ 1`, is not `-2 ^ 31`. -/
theorem fxp_round_is_nearest (q : Int) (hq0 : 0 ≤ q) (hq : q ≤ 30) :
    (∀ x : Int, -2147483648 ≤ x → x < 2147483648 →
      (0 ≤ x → x + (2 ^ q.toNat : Int) / 2 < 2147483648) →
      (x < 0 → -2147483648 ≤ x - (2 ^ q.toNat : Int) / 2) →
      (-(2 ^ q.toNat : Int) ≤ 2 * (x - fxp_round q x * 2 ^ q.toNat) ∧
        2 * (x - fxp_round q x * 2 ^ q.toNat) ≤ 2 ^ q.toNat) ∧
      (2 * (x - fxp_round q x * 2 ^ q.toNat) = 2 ^ q.toNat → x < 0) ∧
      (2 * (x - fxp_round q x * 2 ^ q.toNat) = -(2 ^ q.toNat : Int) → 0 ≤ x) ∧
      (q = 0 → fxp_round q x = x)) ∧
    (∀ n : Int, -2147483648 ≤ n * 2 ^ q.toNat → n * 2 ^ q.toNat < 2147483648 →
      (q = 0 ∨ n * 2 ^ q.toNat ≠ -2147483648) →
      fxp_round q (fxp_of_int q n) = n) := by
  obtain ⟨h1, h2, h3⟩ := two_pow_bounds q hq0 hq
  constructor
  · intro x hx1 hx2 hpos hneg
    by_cases hx : 0 ≤ x
    · rw [fxp_round_nonneg q x hq0 hq hx (hpos hx)]
      generalize (2 : Int) ^ q.toNat = P at *
      have hd := Int.ediv_add_emod (x + P / 2) P
      have hm0 := Int.emod_nonneg (x + P / 2) (by omega : P ≠ 0)
      have hm1 := Int.emod_lt_of_pos (x + P / 2) (by omega : 0 < P)
      have hc : (x + P / 2) / P * P = P * ((x + P / 2) / P) := mul_comm _ _
      rw [hc]
      refine ⟨⟨?_, ?_⟩, ?_, ?_, ?_⟩
      · rcases h3 with h3 | h3 <;> omega
      · rcases h3 with h3 | h3 <;> omega
      · rcases h3 with h3 | h3 <;> omega
      · intro _; exact hx
      · intro hq
        rcases h3 with h3 | h3
        · rw [h3.1] at hd ⊢
          omega
        · omega
    · have hx' : x < 0 := by omega
      rw [fxp_round_neg q x hq0 hq hx' hx1 (hneg hx')]
      generalize (2 : Int) ^ q.toNat = P at *
      have hd := Int.ediv_add_emod (-x + P / 2) P
      have hm0 := Int.emod_nonneg (-x + P / 2) (by omega : P ≠ 0)
      have hm1 := Int.emod_lt_of_pos (-x + P / 2) (by omega : 0 < P)
      have hc : -((-x + P / 2) / P) * P = -(P * ((-x + P / 2) / P)) := by ring
      rw [hc]
      refine ⟨⟨?_, ?_⟩, ?_, ?_, ?_⟩
      · rcases h3 with h3 | h3 <;> omega
      · rcases h3 with h3 | h3 <;> omega
      · intro _; exact hx'
      · rcases h3 with h3 | h3 <;> omega
      · intro hq
        rcases h3 with h3 | h3
        · rw [h3.1] at hd ⊢
          omega
        · omega
  · intro n hn1 hn2 hmin
    rw [fxp_of_int_eq q n hq0 hq hn1 hn2]
    exact fxp_round_multiple q n hq0 hq hn1 hn2 hmin

/-- C24 (the claim as written fails): for `q = 1` and `n = -2 ^ 30` the product
`n * 2 ^ q = -2 ^ 31` fits in 32 bits, but `fxp_round` subtracts half a unit
from it, which overflows: with wrap-around the result is `2 ^ 30 - 1`, not
`n`. -/
theorem fxp_round_of_int_min_overflows :
    (-2147483648 : Int) ≤ -1073741824 * 2 ^ (1 : Int).toNat ∧
    (-1073741824 : Int) * 2 ^ (1 : Int).toNat < 2147483648 ∧
    fxp_of_int 1 (-1073741824) = -2147483648 ∧
    fxp_round 1 (fxp_of_int 1 (-1073741824)) = 1073741823 := by
  decide

/-- In the format with `q = 2`: 6 (one and a half) rounds to 2, -6 to -2, and
-7 converted to fixed point rounds back to -7. -/
theorem fxp_round_is_nearest_witness :
    ((0 : Int) ≤ 2 ∧ (2 : Int) ≤ 30) ∧
    fxp_round 2 6 = 2 ∧ fxp_round 2 (-6) = -2 ∧
    ((-(2 ^ (2 : Int).toNat : Int) ≤ 2 * (6 - fxp_round 2 6 * 2 ^ (2 : Int).toNat) ∧
        2 * (6 - fxp_round 2 6 * 2 ^ (2 : Int).toNat) ≤ 2 ^ (2 : Int).toNat) ∧
      (2 * (6 - fxp_round 2 6 * 2 ^ (2 : Int).toNat) = 2 ^ (2 : Int).toNat → (6 : Int) < 0) ∧
      (2 * (6 - fxp_round 2 6 * 2 ^ (2 : Int).toNat) = -(2 ^ (2 : Int).toNat : Int) →
        (0 : Int) ≤ 6) ∧
      ((2 : Int) = 0 → fxp_round 2 6 = 6)) ∧
    fxp_round 2 (fxp_of_int 2 (-7)) = -7 :=
  ⟨⟨by decide, by decide⟩, by decide, by decide,
    (fxp_round_is_nearest 2 (by decide) (by decide)).1 6 (by decide) (by decide)
      (fun _ => by decide) (fun _ => by decide),
    (fxp_round_is_nearest 2 (by decide) (by decide)).2 (-7) (by decide) (by decide)
      (by decide)⟩

/-! ## Growth of inodes -/

theorem free_map_scan_spec (used : Nat → Bool) : ∀ (n i s : Nat),
    free_map_scan used n i = some s → used s = false ∧ i ≤ s ∧ s < i + n := by
  intro n
  induction n with
  | zero => intro i s h; simp [free_map_scan] at h
  | succ n ih =>
    intro i s h
    simp only [free_map_scan] at h
    by_cases hu : used i = true
    · rw [if_pos hu] at h
      obtain ⟨a, b, c⟩ := ih (i + 1) s h
      exact ⟨a, by omega, by omega⟩
    · rw [if_neg hu] at h
      simp only [Option.some.injEq] at h
      subst h
      exact ⟨by simpa using hu, le_refl _, by omega⟩

theorem free_map_allocate_spec {fm fm1 : FreeMap} {s : Nat}
    (h : free_map_allocate fm = some (fm1, s)) :
    fm.used s = false ∧ s < fm.size ∧
      fm1 = { size := fm.size, used := fun x => if x = s then true else fm.used x,
              released := fm.released } := by
  unfold free_map_allocate at h
  cases hs : free_map_scan fm.used fm.size 0 with
  | none => rw [hs] at h; simp at h
  | some t =>
    rw [hs] at h
    simp only [Option.some.injEq, Prod.mk.injEq] at h
    obtain ⟨h1, h2⟩ := h
    subst h2
    obtain ⟨a, _, c⟩ := free_map_scan_spec _ _ _ _ hs
    exact ⟨a, by omega, h1.symm⟩

theorem release_after_allocate {fm fm1 : FreeMap} {s : Nat}
    (h : free_map_allocate fm = some (fm1, s)) (x : Nat) :
    (free_map_release fm1 s).used x = fm.used x := by
  obtain ⟨a, _, c⟩ := free_map_allocate_spec h
  subst c
  simp only [free_map_release]
  by_cases hx : x = s
  · subst hx; simp [a]
  · simp [hx]

/-- C29: `allocate_short` by the three outcomes of `free_map_allocate`.  When
the free-map has no sector, the result is false and the state is as before.
When the free-map hands out a sector above `UINT16_MAX`, the sector is released
again (the free-map has the same sectors in use as before), nothing is stored
and the result is false.  When it hands out a sector that fits, the result is
true, the sector is stored, the free-map keeps it allocated, and `cache_zero`
has run on it: through the cache all its 512 bytes read zero. -/
theorem allocate_short_by_cases (fs : FS) :
    (free_map_allocate fs.free_map = none → allocate_short fs = some (fs, none)) ∧
    (∀ fm s, free_map_allocate fs.free_map = some (fm, s) → s > UINT16_MAX →
      allocate_short fs = some ({ fs with free_map := free_map_release fm s }, none) ∧
      ∀ x, (free_map_release fm s).used x = fs.free_map.used x) ∧
    (∀ fm s, free_map_allocate fs.free_map = some (fm, s) → s ≤ UINT16_MAX →
      ∃ c, cache_zero fs.cache s = some c ∧
        allocate_short fs = some ({ fs with cache := c, free_map := fm }, some s) ∧
        (CacheInv fs.cache → ∀ i, i < BLOCK_SECTOR_SIZE → view c s i = 0)) := by
  refine ⟨?_, ?_, ?_⟩
  · intro h
    simp only [allocate_short, h]
  · intro fm s h hs
    refine ⟨?_, release_after_allocate h⟩
    simp only [allocate_short, h, hs, if_true]
  · intro fm s h hs
    have hs' : ¬ s > UINT16_MAX := by omega
    obtain ⟨c, hc⟩ := cache_zero_total fs.cache s
    refine ⟨c, hc, ?_, ?_⟩
    · simp only [allocate_short, h, hs', if_false, hc]
    · intro hinv i hi
      obtain ⟨c', hc', _, hv⟩ := cache_zero_inv hinv s
      rw [hc] at hc'
      simp only [Option.some.injEq] at hc'
      subst hc'
      have hne : s ≠ NONE := by
        simp only [UINT16_MAX] at hs
        simp only [NONE]
        omega
      rw [hv s hne i hi, if_pos rfl]

theorem allocate_short_used {fs fs1 : FS} {r : Option Nat}
    (h : allocate_short fs = some (fs1, r)) :
    (r = none → ∀ x, fs1.free_map.used x = fs.free_map.used x) ∧
    (∀ s, r = some s → s ≤ UINT16_MAX ∧ fs.free_map.used s = false ∧
      (∀ x, fs1.free_map.used x = if x = s then true else fs.free_map.used x) ∧
      fs1.free_map.released = fs.free_map.released) := by
  unfold allocate_short at h
  cases ha : free_map_allocate fs.free_map with
  | none =>
    rw [ha] at h
    simp only [Option.some.injEq, Prod.mk.injEq] at h
    obtain ⟨h1, h2⟩ := h
    subst h1; subst h2
    exact ⟨fun _ _ => rfl, fun s hs => by simp at hs⟩
  | some q =>
    obtain ⟨fm, t⟩ := q
    rw [ha] at h
    simp only at h
    by_cases hbig : t > UINT16_MAX
    · rw [if_pos hbig] at h
      simp only [Option.some.injEq, Prod.mk.injEq] at h
      obtain ⟨h1, h2⟩ := h
      subst h1; subst h2
      exact ⟨fun _ x => release_after_allocate ha x, fun s hs => by simp at hs⟩
    · rw [if_neg hbig] at h
      cases hz : cache_zero fs.cache t with
      | none => rw [hz] at h; simp at h
      | some c =>
        rw [hz] at h
        simp only [Option.some.injEq, Prod.mk.injEq] at h
        obtain ⟨h1, h2⟩ := h
        subst h1; subst h2
        obtain ⟨a, _, e⟩ := free_map_allocate_spec ha
        refine ⟨fun hn => by simp at hn, ?_⟩
        intro s hs
        simp only [Option.some.injEq] at hs
        subst hs
        subst e
        exact ⟨by omega, a, fun _ => rfl, rfl⟩

theorem allocate_short_total (fs : FS) : ∃ fs1 r, allocate_short fs = some (fs1, r) := by
  unfold allocate_short
  cases ha : free_map_allocate fs.free_map with
  | none => exact ⟨_, _, rfl⟩
  | some q =>
    obtain ⟨fm, t⟩ := q
    simp only
    by_cases hbig : t > UINT16_MAX
    · rw [if_pos hbig]; exact ⟨_, _, rfl⟩
    · rw [if_neg hbig]
      obtain ⟨c, hc⟩ := cache_zero_total fs.cache t
      rw [hc]
      exact ⟨_, _, rfl⟩

theorem append_sector_result {fs fs1 : FS} {disk disk1 : inode_disk} {b : Bool}
    (h : append_sector fs disk = some (fs1, disk1, b)) :
    (b = false → disk1.length = disk.length ∧
      ∀ x, fs1.free_map.used x = fs.free_map.used x) ∧
    (b = true → disk1.length = ROUND_UP disk.length 512 + 512 ∧
      ROUND_UP disk.length 512 + 512 ≤ MAX_INODE_LEN) := by
  unfold append_sector at h
  simp only [BLOCK_SECTOR_SIZE, Nat.cast_ofNat] at h
  split at h
  · injection h with h; injection h with h1 h2; injection h2 with h2 h3
    subst h1; subst h2; subst h3
    exact ⟨fun _ => ⟨rfl, fun _ => rfl⟩, fun hb => by simp at hb⟩
  · rename_i hle
    split at h
    · split at h
      · simp at h
      · rename_i fsa heq
        injection h with h; injection h with h1 h2; injection h2 with h2 h3
        subst h1; subst h2; subst h3
        exact ⟨fun _ => ⟨rfl, (allocate_short_used heq).1 rfl⟩, fun hb => by simp at hb⟩
      · rename_i fsa s heq
        injection h with h; injection h with h1 h2; injection h2 with h2 h3
        subst h1; subst h2; subst h3
        exact ⟨fun hb => by simp at hb, fun _ => ⟨rfl, by omega⟩⟩
    · by_cases hi : Int.tdiv (Int.tdiv (ROUND_UP disk.length 512 + 512 - 1) 512
            - (NUM_DIRECT : Int)) (INDIRECT_LEN : Int) >
          Int.tdiv (Int.tdiv (disk.length - 1) 512 - (NUM_DIRECT : Int)) (INDIRECT_LEN : Int)
      · simp only [hi, if_true] at h
        cases h1 : allocate_short fs with
        | none => rw [h1] at h; simp at h
        | some q1 =>
          obtain ⟨fsa, r1⟩ := q1
          rw [h1] at h
          cases r1 with
          | none =>
            simp only at h
            injection h with h; injection h with e1 e2; injection e2 with e2 e3
            subst e1; subst e2; subst e3
            exact ⟨fun _ => ⟨rfl, (allocate_short_used h1).1 rfl⟩, fun hb => by simp at hb⟩
          | some s1 =>
            simp only at h
            obtain ⟨hs1, hfree1, hused1, _⟩ := (allocate_short_used h1).2 s1 rfl
            cases h2 : allocate_short fsa with
            | none => rw [h2] at h; simp at h
            | some q2 =>
              obtain ⟨fsb, r2⟩ := q2
              rw [h2] at h
              cases r2 with
              | none =>
                simp only at h
                injection h with h; injection h with e1 e2; injection e2 with e2 e3
                subst e1; subst e2; subst e3
                refine ⟨fun _ => ⟨rfl, ?_⟩, fun hb => by simp at hb⟩
                intro x
                have hu2 := (allocate_short_used h2).1 rfl
                have hval : uint16_t (array_set disk.indirect
                    (Int.tdiv (Int.tdiv (ROUND_UP disk.length 512 + 512 - 1) 512
                      - (NUM_DIRECT : Int)) (INDIRECT_LEN : Int)).toNat s1
                    (Int.tdiv (Int.tdiv (ROUND_UP disk.length 512 + 512 - 1) 512
                      - (NUM_DIRECT : Int)) (INDIRECT_LEN : Int)).toNat) = s1 := by
                  simp only [array_set, if_true, uint16_t]
                  simp only [UINT16_MAX] at hs1
                  omega
                simp only [hval, free_map_release]
                by_cases hx : x = s1
                · subst hx; simp [hfree1]
                · simp only [hx, if_false]
                  rw [hu2 x, hused1 x, if_neg hx]
              | some s2 =>
                simp only at h
                split at h
                · simp at h
                · injection h with h; injection h with e1 e2; injection e2 with e2 e3
                  subst e1; subst e2; subst e3
                  exact ⟨fun hb => by simp at hb, fun _ => ⟨rfl, by omega⟩⟩
      · simp only [hi, if_false] at h
        cases h2 : allocate_short fs with
        | none => rw [h2] at h; simp at h
        | some q2 =>
          obtain ⟨fsb, r2⟩ := q2
          rw [h2] at h
          cases r2 with
          | none =>
            simp only at h
            injection h with h; injection h with e1 e2; injection e2 with e2 e3
            subst e1; subst e2; subst e3
            exact ⟨fun _ => ⟨rfl, (allocate_short_used h2).1 rfl⟩, fun hb => by simp at hb⟩
          | some s2 =>
            simp only at h
            split at h
            · simp at h
            · injection h with h; injection h with e1 e2; injection e2 with e2 e3
              subst e1; subst e2; subst e3
              exact ⟨fun hb => by simp at hb, fun _ => ⟨rfl, by omega⟩⟩

theorem append_sector_total (fs : FS) (disk : inode_disk) :
    ∃ fs1 disk1 b, append_sector fs disk = some (fs1, disk1, b) := by
  unfold append_sector
  simp only [BLOCK_SECTOR_SIZE, Nat.cast_ofNat, NUM_DIRECT, INDIRECT_LEN]
  by_cases hmax : ROUND_UP disk.length 512 + 512 > MAX_INODE_LEN
  · rw [if_pos hmax]; exact ⟨_, _, _, rfl⟩
  · rw [if_neg hmax]
    by_cases hd : Int.tdiv (ROUND_UP disk.length 512 + 512 - 1) 512 < 188
    · rw [if_pos hd]
      obtain ⟨fs1, r, h1⟩ := allocate_short_total fs
      rw [h1]
      cases r with
      | none => exact ⟨_, _, _, rfl⟩
      | some s => exact ⟨_, _, _, rfl⟩
    · rw [if_neg hd]
      have hofs : 0 ≤ Int.tmod (Int.tdiv (ROUND_UP disk.length 512 + 512 - 1) 512 - 188) 256 ∧
          Int.tmod (Int.tdiv (ROUND_UP disk.length 512 + 512 - 1) 512 - 188) 256 + 2 ≤ 512 := by
        rw [Int.tmod_eq_emod (by omega) (by norm_num)]
        omega
      by_cases hi : Int.tdiv (Int.tdiv (ROUND_UP disk.length 512 + 512 - 1) 512 - 188) 256 >
          Int.tdiv (Int.tdiv (disk.length - 1) 512 - 188) 256
      · simp only [hi, if_true]
        obtain ⟨fs1, r, h1⟩ := allocate_short_total fs
        rw [h1]
        cases r with
        | none => exact ⟨_, _, _, rfl⟩
        | some s1 =>
          simp only
          obtain ⟨fs2, r2, h2⟩ := allocate_short_total fs1
          rw [h2]
          cases r2 with
          | none => exact ⟨_, _, _, rfl⟩
          | some s2 =>
            simp only
            obtain ⟨c, hc⟩ := cache_write_total fs2.cache
              (uint16_t (array_set disk.indirect
                (Int.tdiv (Int.tdiv (ROUND_UP disk.length 512 + 512 - 1) 512 - 188) 256).toNat s1
                (Int.tdiv (Int.tdiv (ROUND_UP disk.length 512 + 512 - 1) 512 - 188) 256).toNat))
              (u16_bytes s2) 2
              (Int.tmod (Int.tdiv (ROUND_UP disk.length 512 + 512 - 1) 512 - 188) 256)
              ⟨by norm_num, hofs.1, by simp only [BLOCK_SECTOR_SIZE]; exact hofs.2⟩
            rw [hc]
            exact ⟨_, _, _, rfl⟩
      · simp only [hi, if_false]
        obtain ⟨fs2, r2, h2⟩ := allocate_short_total fs
        rw [h2]
        cases r2 with
        | none => exact ⟨_, _, _, rfl⟩
        | some s2 =>
          simp only
          obtain ⟨c, hc⟩ := cache_write_total fs2.cache
            (uint16_t (disk.indirect
              (Int.tdiv (Int.tdiv (ROUND_UP disk.length 512 + 512 - 1) 512 - 188) 256).toNat))
            (u16_bytes s2) 2
            (Int.tmod (Int.tdiv (ROUND_UP disk.length 512 + 512 - 1) 512 - 188) 256)
            ⟨by norm_num, hofs.1, by simp only [BLOCK_SECTOR_SIZE]; exact hofs.2⟩
          rw [hc]
          exact ⟨_, _, _, rfl⟩

/-- C28: `append_sector` returns, and whenever it returns false the length of
the inode is as before and the free-map has the same sectors in use as before
the call: a sector that an allocation inside handed out, the new indirect
sector included, has been released. -/
theorem append_sector_failure_restores_free_map (fs : FS) (disk : inode_disk) :
    (∃ fs1 disk1 b, append_sector fs disk = some (fs1, disk1, b)) ∧
    (∀ fs1 disk1, append_sector fs disk = some (fs1, disk1, false) →
      disk1.length = disk.length ∧ ∀ x, fs1.free_map.used x = fs.free_map.used x) :=
  ⟨append_sector_total fs disk, fun _ _ h => (append_sector_result h).1 rfl⟩

/-- C26: `extend_disk` with a target that is not above the length of the inode
returns that length and leaves the state and the inode as they are; and after
a call that returned at least the target, a second call with the same target
changes nothing and returns the same. -/
theorem extend_disk_below_length_is_no_op (fs : FS) (disk : inode_disk) (T : Int) :
    (T ≤ disk.length → extend_disk fs disk T = some (fs, disk, disk.length)) ∧
    (∀ fs1 disk1 r, extend_disk fs disk T = some (fs1, disk1, r) → T ≤ r →
      extend_disk fs1 disk1 T = some (fs1, disk1, r)) := by
  have hno : ∀ (fs : FS) (disk : inode_disk), T ≤ disk.length →
      extend_disk fs disk T = some (fs, disk, disk.length) := by
    intro fs disk h
    have : disk.length ≥ T := h
    simp only [extend_disk, this, if_true]
  refine ⟨hno fs disk, ?_⟩
  intro fs1 disk1 r h hr
  have hlen : r = disk1.length := by
    simp only [extend_disk] at h
    split at h
    · injection h with h; injection h with h1 h2; injection h2 with h2 h3
      subst h2; exact h3.symm
    · split at h
      · simp at h
      · injection h with h; injection h with h1 h2; injection h2 with h2 h3
        subst h2; exact h3.symm
  subst hlen
  exact hno fs1 disk1 hr

theorem extend_loop_result (fuel : Nat) : ∀ (fs : FS) (disk : inode_disk) (T : Int) (fs1 : FS)
    (disk1 : inode_disk), extend_loop fuel fs disk T = some (fs1, disk1) →
    0 ≤ disk.length → disk.length % 512 = 0 →
    disk.length ≤ disk1.length ∧ disk1.length % 512 = 0 ∧
      (disk1.length = disk.length ∨ disk1.length < T + 512) ∧
      (disk1.length < T → ∃ fsa diska, append_sector fsa diska = some (fs1, disk1, false)) := by
  induction fuel with
  | zero =>
    intro fs disk T fs1 disk1 h h0 hmul
    simp only [extend_loop] at h
    split at h
    · simp at h
    · rename_i hlt
      injection h with h; injection h with h1 h2
      subst h1; subst h2
      exact ⟨le_refl _, hmul, Or.inl rfl, fun hc => absurd hc hlt⟩
  | succ fuel ih =>
    intro fs disk T fs1 disk1 h h0 hmul
    simp only [extend_loop] at h
    split at h
    · rename_i hlt
      cases ha : append_sector fs disk with
      | none => rw [ha] at h; simp at h
      | some q =>
        obtain ⟨fsa, diska, b⟩ := q
        rw [ha] at h
        cases b with
        | true =>
          simp only at h
          have hl := ((append_sector_result ha).2 rfl).1
          rw [ROUND_UP_of_dvd h0 hmul] at hl
          obtain ⟨a1, a2, a3, a4⟩ := ih fsa diska T fs1 disk1 h (by omega) (by omega)
          refine ⟨by omega, a2, ?_, a4⟩
          right
          rcases a3 with a3 | a3 <;> omega
        | false =>
          simp only at h
          injection h with h; injection h with h1 h2
          subst h1; subst h2
          have hl := ((append_sector_result ha).1 rfl).1
          exact ⟨by omega, by rw [hl]; exact hmul, Or.inl hl, fun _ => ⟨fs, disk, ha⟩⟩
    · rename_i hlt
      injection h with h; injection h with h1 h2
      subst h1; subst h2
      exact ⟨le_refl _, hmul, Or.inl rfl, fun hc => absurd hc hlt⟩

theorem extend_loop_total (fuel : Nat) : ∀ (fs : FS) (disk : inode_disk) (T : Int),
    0 ≤ disk.length → disk.length % 512 = 0 → T - disk.length ≤ 512 * fuel →
    ∃ r, extend_loop fuel fs disk T = some r := by
  induction fuel with
  | zero =>
    intro fs disk T h0 hmul hf
    have : ¬ disk.length < T := by omega
    simp only [extend_loop, this, if_false]
    exact ⟨_, rfl⟩
  | succ fuel ih =>
    intro fs disk T h0 hmul hf
    simp only [extend_loop]
    by_cases hlt : disk.length < T
    · rw [if_pos hlt]
      obtain ⟨fsa, diska, b, ha⟩ := append_sector_total fs disk
      rw [ha]
      cases b with
      | true =>
        simp only
        have hl := ((append_sector_result ha).2 rfl).1
        rw [ROUND_UP_of_dvd h0 hmul] at hl
        exact ih fsa diska T (by omega) (by omega) (by push_cast at hf ⊢; omega)
      | false => exact ⟨_, rfl⟩
    · rw [if_neg hlt]
      exact ⟨_, rfl⟩

theorem ROUND_UP_eq {x : Int} (h0 : 0 ≤ x) : ROUND_UP x 512 = (x + 511) / 512 * 512 := by
  simp only [ROUND_UP]
  rw [Int.tdiv_eq_ediv (by omega) (by norm_num)]
  have : x + 512 - 1 = x + 511 := by ring
  rw [this]

/-- C25: for an inode whose length is not negative `extend_disk` returns, with
a length `L` that is the new length of the inode, at least the old length and
at most the larger of old length and target.  When the target is above the old
length, `L` is the target itself, or it is below the target, and then it is a
multiple of the sector size not below the old length rounded up, and a call of
`append_sector` returned false.  When moreover the target is at most
`MAX_INODE_LEN` and the free-map can serve two allocations for every sector to
add, `L` is the target. -/
theorem extend_disk_reaches_target_or_stops_short (fs : FS) (disk : inode_disk) (T : Int)
    (h0 : 0 ≤ disk.length) :
    ∃ fs1 disk1 L, extend_disk fs disk T = some (fs1, disk1, L) ∧ disk1.length = L ∧
      disk.length ≤ L ∧ L ≤ max disk.length T ∧
      (disk.length < T →
        L = T ∨ (L < T ∧ L % 512 = 0 ∧ ROUND_UP disk.length 512 ≤ L ∧
          ∃ fsa diska, append_sector fsa diska = some (fs1, disk1, false))) ∧
      (disk.length < T → T ≤ MAX_INODE_LEN →
        allocs_fit (2 * ((ROUND_UP T 512 - ROUND_UP disk.length 512) / 512).toNat)
          fs.free_map = true → L = T) := by
  have hM : MAX_INODE_LEN = 8388608 := by norm_num [MAX_INODE_LEN]
  by_cases hge : disk.length ≥ T
  · refine ⟨fs, disk, disk.length, by simp only [extend_disk, hge, if_true], rfl, le_refl _,
      le_max_left _ _, fun h => by omega, fun h => by omega⟩
  · have hru := ROUND_UP_eq h0
    have hT0 : 0 ≤ T := by omega
    have hruT := ROUND_UP_eq hT0
    have hd0 : 0 ≤ ROUND_UP disk.length 512 := by rw [hru]; omega
    have hd1 : ROUND_UP disk.length 512 % 512 = 0 := by rw [hru]; omega
    have hd2 : disk.length ≤ ROUND_UP disk.length 512 := by rw [hru]; omega
    obtain ⟨⟨fsa, diska⟩, hloop⟩ := extend_loop_total (T - ROUND_UP disk.length 512).toNat fs
      { disk with length := ROUND_UP disk.length 512 } T hd0 hd1
      (by show T - ROUND_UP disk.length 512 ≤ _; omega)
    obtain ⟨r1, r2, r3, r4⟩ := extend_loop_result _ _ _ _ _ _ hloop hd0 hd1
    have r1' : ROUND_UP disk.length 512 ≤ diska.length := r1
    have r3' : diska.length = ROUND_UP disk.length 512 ∨ diska.length < T + 512 := r3
    have hext : extend_disk fs disk T = some (fsa,
        (if diska.length > T then { diska with length := T } else diska),
        (if diska.length > T then { diska with length := T } else diska).length) := by
      simp only [extend_disk, hge, if_false, BLOCK_SECTOR_SIZE, Nat.cast_ofNat, hloop]
    by_cases hgt : diska.length > T
    · simp only [hgt, if_true] at hext
      refine ⟨_, _, _, hext, rfl, by omega, le_max_right _ _, fun _ => Or.inl rfl,
        fun _ _ _ => rfl⟩
    · simp only [hgt, if_false] at hext
      refine ⟨_, _, _, hext, rfl, by omega, ?_, ?_, ?_⟩
      · exact le_trans (by omega) (le_max_right _ _)
      · intro _
        by_cases he : diska.length = T
        · exact Or.inl he
        · right
          have hlt : diska.length < T := by omega
          exact ⟨hlt, r2, r1', r4 hlt⟩
      · intro _ hTmax hfit
        obtain ⟨m, hm⟩ : ∃ m : Nat,
            (m : Int) = (ROUND_UP T 512 - ROUND_UP disk.length 512) / 512 :=
          ⟨((ROUND_UP T 512 - ROUND_UP disk.length 512) / 512).toNat, by
            rw [Int.toNat_of_nonneg]; rw [hru, hruT]; omega⟩
        have hfit' : allocs_fit (2 * m + 0) fs.free_map = true := by
          have e : m = ((ROUND_UP T 512 - ROUND_UP disk.length 512) / 512).toNat := by
            rw [← hm]; rfl
          rw [Nat.add_zero, e]
          exact hfit
        obtain ⟨fsb, diskb, hl, hlen, _⟩ := extend_loop_ok m
          (T - ROUND_UP disk.length 512).toNat 0 fs
          { disk with length := ROUND_UP disk.length 512 } T (ROUND_UP T 512)
          hd0 hd1
          (by show ROUND_UP disk.length 512 + 512 * (m : Int) = _
              rw [hm, hru, hruT]; omega)
          (by rw [hruT, hM]; omega)
          (fun _ => by rw [hruT]; omega)
          (Or.inl ⟨by rw [hruT]; omega, by
            have : (m : Int) ≤ T - ROUND_UP disk.length 512 := by
              rw [hm, hru, hruT]; rw [hru] at hd2; omega
            omega⟩)
          hfit'
        rw [hloop] at hl
        injection hl with hl; injection hl with e1 e2
        subst e2
        rw [hruT] at hlen
        omega

/-- C27: when the inode has 188 sectors (its length is 96256) and the free-map
hands out a sector `s` that fits in `uint16_t`, `append_sector` adds sector
index 188 without an indirect sector of its own: `s` is the only sector taken
from the free-map, the array `indirect` of the inode is as before, so
`indirect[0]` is not a sector allocated for it, and the id of `s` is written
into the sector that `indirect[0]` happens to name. -/
theorem append_sector_at_188_allocates_no_indirect (fs : FS) (disk : inode_disk)
    (fm : FreeMap) (s : Nat) (hlen : disk.length = 96256)
    (halloc : free_map_allocate fs.free_map = some (fm, s)) (hs : s ≤ UINT16_MAX) :
    ∃ c0 c1, cache_zero fs.cache s = some c0 ∧
      cache_write c0 (uint16_t (disk.indirect 0)) (u16_bytes s) 2 0 = some c1 ∧
      append_sector fs disk =
        some ({ fs with cache := c1, free_map := fm }, { disk with length := 96768 }, true) := by
  obtain ⟨c0, hc0⟩ := cache_zero_total fs.cache s
  obtain ⟨c1, hc1⟩ := cache_write_total c0 (uint16_t (disk.indirect 0)) (u16_bytes s) 2 0
    ⟨by norm_num, by norm_num, by simp only [BLOCK_SECTOR_SIZE]; norm_num⟩
  refine ⟨c0, c1, hc0, hc1, ?_⟩
  have hr : ROUND_UP (96256 : Int) 512 = 96256 := by decide
  have hs' : ¬ s > UINT16_MAX := by omega
  have hal : allocate_short fs = some ({ fs with cache := c0, free_map := fm }, some s) := by
    simp only [allocate_short, halloc, hs', if_false, hc0]
  have e1 : Int.tdiv (96256 + 512 - 1 : Int) 512 = 188 := by decide
  have e2 : Int.tdiv (96256 - 1 : Int) 512 = 187 := by decide
  have e3 : Int.tdiv (188 - 188 : Int) 256 = 0 := by decide
  have e4 : Int.tdiv (187 - 188 : Int) 256 = 0 := by decide
  have e5 : Int.tmod (188 - 188 : Int) 256 = 0 := by decide
  have hmax : ¬ ((96256 : Int) + 512 > MAX_INODE_LEN) := by
    simp only [MAX_INODE_LEN]; norm_num
  unfold append_sector
  simp only [BLOCK_SECTOR_SIZE, Nat.cast_ofNat, NUM_DIRECT, INDIRECT_LEN, hr, hlen, hmax,
    if_false, e1, e2, e3, e4, e5, lt_irrefl, gt_iff_lt, hal, Int.toNat_zero, hc1]
  norm_num

theorem example_fs_high_allocate :
    free_map_allocate example_fs_high.free_map =
      some (example_free_map_65536, 65536) :=
  free_map_allocate_first example_fs_high.free_map 65536 (by decide)
    (show 65536 < 70000 by omega)
    (fun j hj => show decide (j < 65536) = true by simpa using hj)

set_option maxRecDepth 1000000 in
/-- The three outcomes on concrete free-maps: none free; the lowest free
sector is 65536; the lowest free sector is 191. -/
theorem allocate_short_by_cases_witness :
    allocate_short example_fs_full = some (example_fs_full, none) ∧
    (allocate_short example_fs_high =
      some ({ example_fs_high with
              free_map := free_map_release example_free_map_65536 65536 }, none) ∧
      ∀ x, (free_map_release example_free_map_65536 65536).used x =
        example_fs_high.free_map.used x) ∧
    (∃ c, cache_zero example_fs_188.cache 191 = some c ∧
      allocate_short example_fs_188 =
        some ({ example_fs_188 with cache := c, free_map := example_free_map_191 },
          some 191) ∧
      (CacheInv example_fs_188.cache → ∀ i, i < BLOCK_SECTOR_SIZE → view c 191 i = 0)) :=
  ⟨(allocate_short_by_cases example_fs_full).1 rfl,
    (allocate_short_by_cases example_fs_high).2.1 _ 65536 example_fs_high_allocate (by decide),
    (allocate_short_by_cases example_fs_188).2.2 _ 191 rfl (by decide)⟩

set_option maxRecDepth 1000000 in
/-- The inode has 444 sectors and the free-map one free sector, 499:
`append_sector` takes it as the indirect sector `indirect[1]`, finds no data
sector, releases 499 and returns false; the length is as before and so are the
sectors in use. -/
theorem append_sector_failure_restores_free_map_witness :
    append_sector example_fs_one_free example_disk_444 =
      some (example_append_failure.1, example_append_failure.2.1, false) ∧
    (example_append_failure.2.1.length = example_disk_444.length ∧
      ∀ x, example_append_failure.1.free_map.used x = example_fs_one_free.free_map.used x) ∧
    example_append_failure.2.1.length = 227328 ∧
    example_append_failure.1.free_map.released = [499] ∧
    example_append_failure.2.1.indirect 1 = 499 :=
  ⟨rfl,
    (append_sector_failure_restores_free_map example_fs_one_free example_disk_444).2 _ _ rfl,
    rfl, rfl, rfl⟩

set_option maxRecDepth 1000000 in
/-- An inode of 96256 bytes: `extend_disk` to 1000 changes nothing, also when
called again. -/
theorem extend_disk_below_length_is_no_op_witness :
    (1000 : Int) ≤ example_disk_188.length ∧
    extend_disk example_fs_188 example_disk_188 1000 =
      some (example_fs_188, example_disk_188, 96256) ∧
    extend_disk example_fs_188 example_disk_188 1000 =
      some (example_fs_188, example_disk_188, example_disk_188.length) :=
  ⟨by decide,
    (extend_disk_below_length_is_no_op example_fs_188 example_disk_188 1000).2 example_fs_188
      example_disk_188 96256
      ((extend_disk_below_length_is_no_op example_fs_188 example_disk_188 1000).1 (by decide))
      (by decide),
    (extend_disk_below_length_is_no_op example_fs_188 example_disk_188 1000).1 (by decide)⟩

set_option maxRecDepth 1000000 in
/-- An inode of 96256 bytes extended to 96257 bytes: with free sectors the
result is 96257, and with a full free-map it is 96256. -/
theorem extend_disk_reaches_target_or_stops_short_witness :
    (0 : Int) ≤ example_disk_188.length ∧
    (∃ fs1 disk1 L, extend_disk example_fs_188 example_disk_188 96257 = some (fs1, disk1, L) ∧
      disk1.length = L ∧ example_disk_188.length ≤ L ∧
      L ≤ max example_disk_188.length 96257) ∧
    (extend_disk example_fs_188 example_disk_188 96257).map (fun r => r.2.2) = some 96257 ∧
    (extend_disk example_fs_full example_disk_188 96257).map (fun r => r.2.2) = some 96256 :=
  ⟨by decide,
    (extend_disk_reaches_target_or_stops_short example_fs_188 example_disk_188 96257
      (by decide)).elim (fun fs1 h => h.elim (fun disk1 h => h.elim (fun L h =>
        ⟨fs1, disk1, L, h.1, h.2.1, h.2.2.1, h.2.2.2.1⟩))),
    rfl, rfl⟩

set_option maxRecDepth 1000000 in
/-- The inode has 188 sectors, and `indirect[0]` is 0: `append_sector` takes
the one sector 191 from the free-map, for the data, and writes its id into
sector 0, which was not allocated for the inode. -/
theorem append_sector_at_188_allocates_no_indirect_witness :
    example_disk_188.length = 96256 ∧
    free_map_allocate example_fs_188.free_map = some (example_free_map_191, 191) ∧
    uint16_t (example_disk_188.indirect 0) = 0 ∧
    ∃ c0 c1, cache_zero example_fs_188.cache 191 = some c0 ∧
      cache_write c0 (uint16_t (example_disk_188.indirect 0)) (u16_bytes 191) 2 0 = some c1 ∧
      append_sector example_fs_188 example_disk_188 =
        some ({ example_fs_188 with cache := c1, free_map := example_free_map_191 },
              { example_disk_188 with length := 96768 }, true) :=
  ⟨rfl, rfl, rfl,
    append_sector_at_188_allocates_no_indirect example_fs_188 example_disk_188 _ 191 rfl rfl
      (by decide)⟩

/-! ## Victim selection -/

theorem clock_scan_pass (n : Nat) : ∀ (i : Nat) (bc : Nat → cache_entry) (last : Option Nat),
    0 < n → ∃ j, (clock_scan n i bc last).2 = some j ∧ i ≤ j ∧ j < i + n ∧
      (∀ k, i ≤ k → k < j → (bc k).accessed = true ∧
        ((clock_scan n i bc last).1 k).accessed = false) ∧
      (∀ k, k < i ∨ j < k → (clock_scan n i bc last).1 k = bc k) ∧
      ((clock_scan n i bc last).1 j).accessed = false := by
  induction n with
  | zero => intro i bc last h; omega
  | succ n ih =>
    intro i bc last _
    simp only [clock_scan]
    by_cases ha : (bc i).accessed = true
    · rw [if_pos ha]
      by_cases hn : n = 0
      · subst hn
        simp only [clock_scan]
        refine ⟨i, rfl, le_refl _, by omega, fun k h1 h2 => by omega, ?_, ?_⟩
        · intro k hk
          have : k ≠ i := by omega
          simp [set_entry, this]
        · simp [set_entry]
      · obtain ⟨j, h1, h2, h3, h4, h5, h6⟩ :=
          ih (i + 1) (set_entry bc i { bc i with accessed := false }) (some i) (by omega)
        refine ⟨j, h1, by omega, by omega, ?_, ?_, h6⟩
        · intro k hk1 hk2
          by_cases hki : k = i
          · subst hki
            refine ⟨ha, ?_⟩
            rw [h5 k (Or.inl (by omega))]
            simp [set_entry]
          · obtain ⟨a, b⟩ := h4 k (by omega) hk2
            refine ⟨?_, b⟩
            simpa [set_entry, hki] using a
        · intro k hk
          have hki : k ≠ i := by omega
          rw [h5 k (by omega)]
          simp [set_entry, hki]
    · rw [if_neg ha]
      refine ⟨i, rfl, le_refl _, by omega, fun k h1 h2 => by omega, fun _ _ => rfl, ?_⟩
      simpa using ha

theorem frame_clock_loop_index : ∀ (l : List frame) (i : Nat) (vm : VM) (last : Option Nat),
    l ≠ [] → ∃ f, (frame_clock_loop l i vm last).2 = some f ∧ i ≤ f ∧ f < i + l.length := by
  intro l
  induction l with
  | nil => intro i vm last h; exact absurd rfl h
  | cons fr rest ih =>
    intro i vm last _
    simp only [frame_clock_loop]
    by_cases ha : pagedir_is_accessed vm fr.pd fr.upage = true
    · rw [if_pos ha]
      cases rest with
      | nil =>
        simp only [frame_clock_loop]
        exact ⟨i, rfl, le_refl _, by simp⟩
      | cons g rest' =>
        obtain ⟨f, h1, h2, h3⟩ := ih (i + 1) (pagedir_set_accessed vm fr.pd fr.upage false)
          (some i) (by simp)
        refine ⟨f, h1, by omega, ?_⟩
        simp only [List.length_cons] at h3 ⊢
        omega
    · rw [if_neg ha]
      exact ⟨i, rfl, le_refl _, by simp⟩

/-- C30: in a sequential execution `next_cache_entry` returns after one pass of
its loop, without a restart: it inspects the entries 0 to `j` of the 64, where
`j` is the victim it returns; the entries before `j` had their accessed flag
set and have it cleared, the entries after `j` are untouched.  And
`frame_clock` on a frame table that is not empty returns a frame `f` of the
table after one pass over the frames 0 to `f`.  So neither inspects more than
`N` entries, which is below `2 * N`, and both yield a victim. -/
theorem clock_selection_is_one_pass (c : Cache) (vm : VM) (hne : vm.frame_table ≠ []) :
    (∃ c1 j, next_cache_entry 1 c = some (c1, j) ∧ j < CACHE_SIZE ∧
      j + 1 ≤ 2 * CACHE_SIZE ∧
      (∀ k, k < j → (c.buffer_cache k).accessed = true ∧
        (c1.buffer_cache k).accessed = false) ∧
      (∀ k, j < k → (c1.buffer_cache k).accessed = (c.buffer_cache k).accessed) ∧
      (c1.buffer_cache j).accessed = false) ∧
    (∃ f, (frame_clock vm).2 = some f ∧ f < vm.frame_table.length ∧
      f + 1 ≤ 2 * vm.frame_table.length) := by
  constructor
  · obtain ⟨j, h1, _, h3, h4, h5, h6⟩ :=
      clock_scan_pass CACHE_SIZE 0 c.buffer_cache none (by decide)
    generalize hr : clock_scan CACHE_SIZE 0 c.buffer_cache none = r at h1 h4 h5 h6
    obtain ⟨bc, o⟩ := r
    simp only at h1 h4 h5 h6
    subst h1
    have hj : j < CACHE_SIZE := by omega
    have hna : (!(bc j).accessed) = true := by simp [h6]
    by_cases hd : (bc j).dirty = true
    · refine ⟨{ buffer_cache := set_entry bc j { bc j with dirty := false },
                fs_device := block_write c.fs_device (bc j).sector (bc j).data },
        j, ?_, hj, by omega, ?_, ?_, ?_⟩
      · simp only [next_cache_entry, hr, hna, if_true, hd]
      · intro k hk
        have hkj : k ≠ j := by omega
        obtain ⟨a, b⟩ := h4 k (Nat.zero_le _) hk
        exact ⟨a, by simpa [set_entry, hkj] using b⟩
      · intro k hk
        have hkj : k ≠ j := by omega
        simp only [set_entry, hkj, if_false]
        rw [h5 k (Or.inr hk)]
      · simp [set_entry, h6]
    · refine ⟨{ buffer_cache := bc, fs_device := c.fs_device }, j, ?_, hj, by omega,
        ?_, ?_, ?_⟩
      · simp only [next_cache_entry, hr, hna, if_true, hd, Bool.false_eq_true, if_false]
      · intro k hk
        exact h4 k (Nat.zero_le _) hk
      · intro k hk
        show (bc k).accessed = _
        rw [h5 k (Or.inr hk)]
      · exact h6
  · obtain ⟨f, h1, _, h3⟩ := frame_clock_loop_index vm.frame_table 0 vm none hne
    exact ⟨f, h1, by omega, by omega⟩

/-- A fresh cache, in which no entry has been accessed, gives entry 0 as
victim; the frame table of `example_vm` gives frame 0. -/
theorem clock_selection_is_one_pass_witness :
    example_vm.frame_table ≠ [] ∧
    (∃ c1 j, next_cache_entry 1 (cache_init example_dev) = some (c1, j) ∧ j < CACHE_SIZE ∧
      j + 1 ≤ 2 * CACHE_SIZE ∧
      (∀ k, k < j → ((cache_init example_dev).buffer_cache k).accessed = true ∧
        (c1.buffer_cache k).accessed = false) ∧
      (∀ k, j < k →
        (c1.buffer_cache k).accessed = ((cache_init example_dev).buffer_cache k).accessed) ∧
      (c1.buffer_cache j).accessed = false) ∧
    (∃ f, (frame_clock example_vm).2 = some f ∧ f < example_vm.frame_table.length ∧
      f + 1 ≤ 2 * example_vm.frame_table.length) ∧
    (next_cache_entry 1 (cache_init example_dev)).map (fun r => r.2) = some 0 ∧
    (frame_clock example_vm).2 = some 0 :=
  ⟨by decide, (clock_selection_is_one_pass (cache_init example_dev) example_vm (by decide)).1,
    (clock_selection_is_one_pass (cache_init example_dev) example_vm (by decide)).2, rfl, rfl⟩

/-! ## Eviction -/

theorem pagedir_set_accessed_get_page (vm : VM) (a b : Nat) (c : Bool) (pd u : Nat) :
    pagedir_get_page (pagedir_set_accessed vm a b c) pd u = pagedir_get_page vm pd u := by
  unfold pagedir_set_accessed
  cases he : vm.pagedirs a b with
  | none => rfl
  | some e =>
    simp only [pagedir_get_page, pagedir_update]
    by_cases h : pd = a ∧ u = b
    · obtain ⟨h1, h2⟩ := h
      subst h1; subst h2
      simp [he]
    · simp [h]

theorem frame_clock_loop_get_page : ∀ (l : List frame) (i : Nat) (vm : VM) (last : Option Nat)
    (pd u : Nat),
    pagedir_get_page (frame_clock_loop l i vm last).1 pd u = pagedir_get_page vm pd u := by
  intro l
  induction l with
  | nil => intro i vm last pd u; rfl
  | cons fr rest ih =>
    intro i vm last pd u
    simp only [frame_clock_loop]
    by_cases ha : pagedir_is_accessed vm fr.pd fr.upage = true
    · rw [if_pos ha, ih, pagedir_set_accessed_get_page]
    · rw [if_neg ha]

theorem evict_frame_spec {vm vm1 : VM} {cur f : Nat} {m : Bool} {fr : frame}
    (hfr : vm.frame_table[f]? = some fr) (hev : evict_frame vm cur f m = some vm1) :
    (∀ c, c ≠ cur → vm1.sup_page_table c = vm.sup_page_table c) ∧
    vm1.pagedirs = vm.pagedirs ∧ vm1.frame_table = vm.frame_table ∧
    ∃ i p sw ss, swap_out vm.swap (vm.memory fr.kpage) m = some (sw, ss) ∧ vm1.swap = sw ∧
      find_upage vm cur fr.upage = some i ∧ (vm.sup_page_table cur)[i]? = some p ∧
      vm1.sup_page_table cur =
        (vm.sup_page_table cur).set i { p with ss := some ss, active := false } := by
  unfold evict_frame at hev
  rw [hfr] at hev
  simp only at hev
  cases hs : swap_out vm.swap (vm.memory fr.kpage) m with
  | none => rw [hs] at hev; simp at hev
  | some q =>
    obtain ⟨sw, ss⟩ := q
    rw [hs] at hev
    simp only at hev
    unfold page_set_swap at hev
    have hfu : find_upage { vm with swap := sw } cur fr.upage = find_upage vm cur fr.upage := rfl
    rw [hfu] at hev
    cases hf : find_upage vm cur fr.upage with
    | none => rw [hf] at hev; simp at hev
    | some i =>
      rw [hf] at hev
      simp only at hev
      cases hp : (vm.sup_page_table cur)[i]? with
      | none => rw [hp] at hev; simp at hev
      | some p =>
        rw [hp] at hev
        simp only [if_true, Option.some.injEq] at hev
        subst hev
        refine ⟨?_, rfl, rfl, i, p, sw, ss, rfl, rfl, rfl, hp, ?_⟩
        · intro c hc
          simp [set_sup_page_table, hc]
        · simp [set_sup_page_table]

/-- C22: `evict_frame`, called by thread `cur` for a frame, records the swap
slot on the page that `cur` has at the user page of the frame, and makes that
page not active; the tables of all other threads are as before.  So when the
frame belongs to another thread, the page of its owner is not touched: it
stays active and gets no slot. -/
theorem evict_frame_records_slot_on_running_thread (vm vm1 : VM) (cur f : Nat) (m : Bool)
    (fr : frame) (hfr : vm.frame_table[f]? = some fr)
    (hev : evict_frame vm cur f m = some vm1) :
    (∀ c, c ≠ cur → vm1.sup_page_table c = vm.sup_page_table c) ∧
    ∃ i p sw ss, swap_out vm.swap (vm.memory fr.kpage) m = some (sw, ss) ∧
      find_upage vm cur fr.upage = some i ∧ (vm.sup_page_table cur)[i]? = some p ∧
      vm1.sup_page_table cur =
        (vm.sup_page_table cur).set i { p with ss := some ss, active := false } := by
  obtain ⟨h1, _, _, i, p, sw, ss, h2, _, h3, h4, h5⟩ := evict_frame_spec hfr hev
  exact ⟨h1, i, p, sw, ss, h2, h3, h4, h5⟩

set_option maxRecDepth 1000000 in
/-- Thread 2 evicts the first frame, which holds the page of thread 1 at
`0xbfffe000`: the page of thread 1 stays active without a slot, and the page
that thread 2 has at `0xbfffe000`, in the second frame, gets the slot and is
not active any more. -/
theorem evict_frame_records_slot_on_running_thread_witness :
    example_vm_two_threads.frame_table[0]? =
      some { kpage := 0xc0271000, pd := 1, upage := 0xbfffe000 } ∧
    evict_frame example_vm_two_threads 2 0 true = some example_vm_evicted ∧
    ((∀ c, c ≠ 2 → example_vm_evicted.sup_page_table c =
        example_vm_two_threads.sup_page_table c) ∧
      ∃ i p sw ss, swap_out example_vm_two_threads.swap
          (example_vm_two_threads.memory 0xc0271000) true = some (sw, ss) ∧
        find_upage example_vm_two_threads 2 0xbfffe000 = some i ∧
        (example_vm_two_threads.sup_page_table 2)[i]? = some p ∧
        example_vm_evicted.sup_page_table 2 =
          (example_vm_two_threads.sup_page_table 2).set i
            { p with ss := some ss, active := false }) ∧
    example_vm_evicted.sup_page_table 1 =
      [{ pd := 1, frame := 0xc0271000, upage := 0xbfffe000, active := true, file := 0,
         off := 0, writable := true, ss := none }] ∧
    example_vm_evicted.sup_page_table 2 =
      [{ pd := 2, frame := 0xc0272000, upage := 0xbfffe000, active := false, file := 0,
         off := 0, writable := true, ss := some { addr := 1, first_sector := 0 } }] :=
  ⟨rfl, rfl,
    evict_frame_records_slot_on_running_thread example_vm_two_threads example_vm_evicted 2 0
      true { kpage := 0xc0271000, pd := 1, upage := 0xbfffe000 } rfl rfl,
    rfl, rfl⟩

theorem frame_alloc_get_page {vm vm1 : VM} {cur upage kpage : Nat} {w m pt : Bool}
    (h : frame_alloc vm cur upage w m pt = some (vm1, kpage)) :
    pagedir_get_page vm1 cur upage = kpage ∧
    ∀ pd u, ¬ (pd = cur ∧ u = upage) →
      pagedir_get_page vm1 pd u = pagedir_get_page vm pd u := by
  unfold frame_alloc at h
  cases hg : get_next_frame vm cur m with
  | none => rw [hg] at h; simp at h
  | some q =>
    obtain ⟨vm0, f⟩ := q
    rw [hg] at h
    simp only at h
    have hkeep : ∀ pd u, pagedir_get_page vm0 pd u = pagedir_get_page vm pd u := by
      intro pd u
      unfold get_next_frame at hg
      by_cases hfail : vm.fail_on_next = true
      · rw [if_pos hfail] at hg
        have hc := frame_clock_loop_get_page vm.frame_table 0 vm none pd u
        have ht := frame_clock_loop_tables vm.frame_table 0 vm none
        unfold frame_clock at hg
        generalize frame_clock_loop vm.frame_table 0 vm none = r at hg hc ht
        obtain ⟨vmc, o⟩ := r
        cases o with
        | none => simp at hg
        | some g =>
          simp only at hg
          cases he : evict_frame vmc cur g m with
          | none => rw [he] at hg; simp at hg
          | some vm2 =>
            rw [he] at hg
            simp only [Option.map_some', Option.some.injEq, Prod.mk.injEq] at hg
            obtain ⟨e1, _⟩ := hg
            subst e1
            cases hfr : vmc.frame_table[g]? with
            | none =>
              unfold evict_frame at he
              rw [hfr] at he
              simp at he
            | some fr =>
              obtain ⟨_, hpd, _⟩ := evict_frame_spec hfr he
              simp only [pagedir_get_page, hpd]
              exact hc
      · rw [if_neg hfail] at hg
        by_cases hlt : vm.next_frame < vm.frame_table.length
        · rw [if_pos hlt] at hg
          by_cases hlast : vm.next_frame + 1 = vm.frame_table.length
          · rw [if_pos hlast] at hg
            simp only [Option.some.injEq, Prod.mk.injEq] at hg
            rw [← hg.1]
            rfl
          · rw [if_neg hlast] at hg
            simp only [Option.some.injEq, Prod.mk.injEq] at hg
            rw [← hg.1]
            rfl
        · rw [if_neg hlt] at hg
          simp at hg
    cases hfr : vm0.frame_table[f]? with
    | none => rw [hfr] at h; simp at h
    | some fr =>
      rw [hfr] at h
      simp only at h
      by_cases hc : pagedir_get_page vm0 cur upage ≠ 0 ∨ pt = false
      · rw [if_pos hc] at h; simp at h
      · rw [if_neg hc] at h
        simp only [Option.some.injEq, Prod.mk.injEq] at h
        obtain ⟨h1, h2⟩ := h
        subst h1
        subst h2
        refine ⟨?_, ?_⟩
        · simp [pagedir_get_page, pagedir_set_page, pagedir_update]
        · intro pd u hne
          rw [← hkeep pd u]
          simp [pagedir_get_page, pagedir_set_page, pagedir_update, hne]

/-- C23: a call of `frame_alloc` that returns changes the mapping of the page
it is called for, which then maps to the frame returned, and of no other page:
whatever page directory and user page mapped to the frame of the victim before
the call still maps to it afterwards.  So after an eviction two pages map to
the same frame. -/
theorem frame_alloc_keeps_mapping_of_victim (vm vm1 : VM) (cur upage kpage : Nat)
    (w m pt : Bool) (h : frame_alloc vm cur upage w m pt = some (vm1, kpage)) :
    pagedir_get_page vm1 cur upage = kpage ∧
    ∀ pd u, ¬ (pd = cur ∧ u = upage) →
      pagedir_get_page vm1 pd u = pagedir_get_page vm pd u :=
  frame_alloc_get_page h

set_option maxRecDepth 1000000 in
/-- Thread 1 has its pages `0xbfffe000` and `0xbfffd000` in the two frames;
`frame_alloc` for `0xbfffc000` evicts the first frame, `0xc0271000`, and
returns it: afterwards `0xbfffe000` and `0xbfffc000` both map to it. -/
theorem frame_alloc_keeps_mapping_of_victim_witness :
    frame_alloc example_vm_one_thread 1 0xbfffc000 true true true =
      some (example_vm_third.1, 0xc0271000) ∧
    example_vm_one_thread.frame_table =
      [{ kpage := 0xc0271000, pd := 1, upage := 0xbfffe000 },
       { kpage := 0xc0272000, pd := 1, upage := 0xbfffd000 }] ∧
    pagedir_get_page example_vm_one_thread 1 0xbfffe000 = 0xc0271000 ∧
    (pagedir_get_page example_vm_third.1 1 0xbfffc000 = 0xc0271000 ∧
      ∀ pd u, ¬ (pd = 1 ∧ u = 0xbfffc000) →
        pagedir_get_page example_vm_third.1 pd u = pagedir_get_page example_vm_one_thread pd u) ∧
    pagedir_get_page example_vm_third.1 1 0xbfffe000 = 0xc0271000 ∧
    example_vm_third.1.frame_table =
      [{ kpage := 0xc0271000, pd := 1, upage := 0xbfffc000 },
       { kpage := 0xc0272000, pd := 1, upage := 0xbfffd000 }] ∧
    (example_vm_third.1.sup_page_table 1).map (fun p => (p.upage, p.active)) =
      [(0xbfffe000, false), (0xbfffd000, true)] :=
  ⟨rfl, rfl, rfl,
    frame_alloc_keeps_mapping_of_victim example_vm_one_thread example_vm_third.1 1 0xbfffc000
      0xc0271000 true true true rfl,
    rfl, rfl, rfl⟩

/-- A call of `frame_alloc` in the first pass over the frame table (the static
`fail_on_next` is not set) for a page that is not mapped returns the kernel
page of the frame at `next_frame` and moves `next_frame` on; it evicts nothing:
the swap table, the page tables and the contents of the frames are as before.
After the call for the last frame `fail_on_next` is set. -/
theorem frame_alloc_first_pass (vm : VM) (cur upage : Nat) (w m : Bool) (fr : frame)
    (hfail : vm.fail_on_next = false) (hfr : vm.frame_table[vm.next_frame]? = some fr)
    (hfree : pagedir_get_page vm cur upage = 0) :
    ∃ vm1, frame_alloc vm cur upage w m true = some (vm1, fr.kpage) ∧
      vm1.swap = vm.swap ∧ vm1.sup_page_table = vm.sup_page_table ∧ vm1.memory = vm.memory ∧
      vm1.frame_table = vm.frame_table.set vm.next_frame { fr with upage := upage, pd := cur } ∧
      (vm.next_frame + 1 = vm.frame_table.length →
        vm1.next_frame = 0 ∧ vm1.fail_on_next = true) ∧
      (vm.next_frame + 1 ≠ vm.frame_table.length →
        vm1.next_frame = vm.next_frame + 1 ∧ vm1.fail_on_next = false) := by
  have hlt : vm.next_frame < vm.frame_table.length := by
    by_contra hc
    rw [List.getElem?_eq_none (by omega)] at hfr
    simp at hfr
  have hfree' : ¬ (pagedir_get_page vm cur upage ≠ 0 ∨ true = false) := by simp [hfree]
  by_cases hlast : vm.next_frame + 1 = vm.frame_table.length
  · have hg : get_next_frame vm cur m =
        some ({ vm with next_frame := 0, fail_on_next := true }, vm.next_frame) := by
      simp only [get_next_frame, hfail, Bool.false_eq_true, if_false, hlt, if_true, hlast]
    refine ⟨{ pagedir_set_page { vm with next_frame := 0, fail_on_next := true } cur upage
                fr.kpage w with
              frame_table := vm.frame_table.set vm.next_frame
                { fr with upage := upage, pd := cur } }, ?_, rfl, rfl, rfl, rfl,
      fun _ => ⟨rfl, rfl⟩, fun h => absurd hlast h⟩
    unfold frame_alloc
    rw [hg]
    simp only [hfr]
    rw [if_neg (by simpa [pagedir_get_page] using hfree')]
  · have hg : get_next_frame vm cur m =
        some ({ vm with next_frame := vm.next_frame + 1 }, vm.next_frame) := by
      simp only [get_next_frame, hfail, Bool.false_eq_true, if_false, hlt, if_true, hlast]
    refine ⟨{ pagedir_set_page { vm with next_frame := vm.next_frame + 1 } cur upage
                fr.kpage w with
              frame_table := vm.frame_table.set vm.next_frame
                { fr with upage := upage, pd := cur } }, ?_, rfl, rfl, rfl, rfl,
      fun h => absurd h hlast, fun _ => ⟨rfl, hfail⟩⟩
    unfold frame_alloc
    rw [hg]
    simp only [hfr]
    rw [if_neg (by simpa [pagedir_get_page] using hfree')]

/-- C21: once `fail_on_next` is set, which the call for the last frame of the
first pass does, a call of `frame_alloc` in which `frame_clock` picks a frame
whose user page the running thread has no page for does not return: after
`swap_out` has written the frame to a slot, `page_set_swap` dereferences the
null pointer of `find_upage`.  A frame that `frame_free` has marked unowned
has the user page `NULL`, so this is what happens when the clock picks it. -/
theorem frame_alloc_faults_on_frame_without_page (vm : VM) (cur upage f : Nat)
    (w m pt : Bool) (fr : frame) (hfail : vm.fail_on_next = true)
    (hclock : (frame_clock vm).2 = some f) (hfr : vm.frame_table[f]? = some fr)
    (hnone : find_upage vm cur fr.upage = none) :
    frame_alloc vm cur upage w m pt = none := by
  have ht := frame_clock_loop_tables vm.frame_table 0 vm none
  unfold frame_clock at hclock
  unfold frame_alloc get_next_frame frame_clock
  rw [if_pos hfail]
  generalize frame_clock_loop vm.frame_table 0 vm none = r at hclock ht
  obtain ⟨vmc, o⟩ := r
  simp only at hclock ht
  subst hclock
  simp only
  have hev : evict_frame vmc cur f m = none := by
    cases he : evict_frame vmc cur f m with
    | none => rfl
    | some vm2 =>
      have hfr' : vmc.frame_table[f]? = some fr := by rw [ht.2.1]; exact hfr
      obtain ⟨_, _, _, i, p, sw, ss, _, _, hfind, _⟩ := evict_frame_spec hfr' he
      have : find_upage vmc cur fr.upage = find_upage vm cur fr.upage := by
        unfold find_upage
        rw [ht.1]
      rw [this, hnone] at hfind
      simp at hfind
  rw [hev]
  rfl

set_option maxRecDepth 1000000 in
/-- With two frames, the first two calls of `frame_alloc`, by thread 1, return
the two frames in table order and leave the swap table as it is.  After
`frame_free` for thread 1 both frames are unowned, and the next call, by thread
2, does not return. -/
theorem frame_alloc_faults_on_frame_without_page_witness :
    frame_alloc example_vm 1 0xbfffe000 true true true =
      some (example_vm_alloc, 0xc0271000) ∧
    frame_alloc example_vm_alloc 1 0xbfffd000 true true true =
      some (example_vm_alloc2, 0xc0272000) ∧
    example_vm_alloc2.swap = example_vm.swap ∧
    example_vm_exited.frame_table =
      [{ kpage := 0xc0271000, pd := 0, upage := 0 },
       { kpage := 0xc0272000, pd := 0, upage := 0 }] ∧
    example_vm_exited.fail_on_next = true ∧
    (frame_clock example_vm_exited).2 = some 0 ∧
    find_upage example_vm_exited 2 0 = none ∧
    frame_alloc example_vm_exited 2 0xbfffe000 true true true = none :=
  ⟨rfl, rfl, rfl, rfl, rfl, rfl, rfl,
    frame_alloc_faults_on_frame_without_page example_vm_exited 2 0xbfffe000 0 true true true
      { kpage := 0xc0271000, pd := 0, upage := 0 } rfl rfl rfl rfl⟩

/-! ## Victim selection of the cache -/

theorem clock_scan_first (n : Nat) : ∀ (i : Nat) (bc : Nat → cache_entry) (last : Option Nat),
    0 < n → ∃ j, (clock_scan n i bc last).2 = some j ∧
      ((bc j).accessed = false ∨ ((bc j).accessed = true ∧ j + 1 = i + n)) := by
  induction n with
  | zero => intro i bc last h; omega
  | succ n ih =>
    intro i bc last _
    simp only [clock_scan]
    by_cases ha : (bc i).accessed = true
    · rw [if_pos ha]
      by_cases hn : n = 0
      · subst hn
        simp only [clock_scan]
        exact ⟨i, rfl, Or.inr ⟨ha, by omega⟩⟩
      · obtain ⟨j, h1, h2⟩ :=
          ih (i + 1) (set_entry bc i { bc i with accessed := false }) (some i) (by omega)
        obtain ⟨j', h1', h2', _⟩ := clock_scan_pass n (i + 1)
          (set_entry bc i { bc i with accessed := false }) (some i) (by omega)
        rw [h1] at h1'
        simp only [Option.some.injEq] at h1'
        subst h1'
        have hji : j ≠ i := by omega
        refine ⟨j, h1, ?_⟩
        simp only [set_entry, hji, if_false] at h2
        rcases h2 with h2 | h2
        · exact Or.inl h2
        · exact Or.inr ⟨h2.1, by omega⟩
    · rw [if_neg ha]
      exact ⟨i, rfl, Or.inl (by simpa using ha)⟩

theorem next_cache_entry_index {c c1 : Cache} {j : Nat}
    (h : next_cache_entry 1 c = some (c1, j)) :
    (clock_scan CACHE_SIZE 0 c.buffer_cache none).2 = some j ∧
    ∀ k, (c1.buffer_cache k).accessed =
      ((clock_scan CACHE_SIZE 0 c.buffer_cache none).1 k).accessed := by
  unfold next_cache_entry at h
  generalize clock_scan CACHE_SIZE 0 c.buffer_cache none = r at h
  obtain ⟨bc, o⟩ := r
  cases o with
  | none => simp at h
  | some i =>
    simp only at h
    by_cases ha : (!(bc i).accessed) = true
    · rw [if_pos ha] at h
      by_cases hd : (bc i).dirty = true
      · rw [if_pos hd] at h
        simp only [Option.some.injEq, Prod.mk.injEq] at h
        obtain ⟨h1, h2⟩ := h
        subst h1; subst h2
        refine ⟨rfl, fun k => ?_⟩
        by_cases hk : k = i
        · subst hk; simp [set_entry]
        · simp [set_entry, hk]
      · rw [if_neg hd] at h
        simp only [Option.some.injEq, Prod.mk.injEq] at h
        obtain ⟨h1, h2⟩ := h
        subst h1; subst h2
        exact ⟨rfl, fun _ => rfl⟩
    · rw [if_neg ha] at h
      simp [next_cache_entry] at h

/-- C31: in a sequential execution `next_cache_entry` returns an entry `j` of
the 64 such that every entry before `j` had its accessed flag set and has it
cleared, and entry `j` had its flag clear, or it is the last entry and every
flag was set.  No entry changes its sector or its data.  If entry `j` was dirty,
its data has been written to the device at its sector, and otherwise the device
is as before.  The entry returned is neither accessed nor dirty, and the other
entries keep their dirty flag. -/
theorem next_cache_entry_returns_flushed_victim (c : Cache) :
    ∃ c1 j, next_cache_entry 1 c = some (c1, j) ∧ j < CACHE_SIZE ∧
      (∀ k, k < j → (c.buffer_cache k).accessed = true ∧
        (c1.buffer_cache k).accessed = false) ∧
      ((c.buffer_cache j).accessed = false ∨
        (j + 1 = CACHE_SIZE ∧ ∀ k, k < CACHE_SIZE → (c.buffer_cache k).accessed = true)) ∧
      (∀ k, (c1.buffer_cache k).sector = (c.buffer_cache k).sector ∧
        (c1.buffer_cache k).data = (c.buffer_cache k).data) ∧
      (∀ k, k ≠ j → (c1.buffer_cache k).dirty = (c.buffer_cache k).dirty) ∧
      (c1.buffer_cache j).accessed = false ∧ (c1.buffer_cache j).dirty = false ∧
      c1.fs_device = (if (c.buffer_cache j).dirty
        then block_write c.fs_device (c.buffer_cache j).sector (c.buffer_cache j).data
        else c.fs_device) := by
  obtain ⟨c1, j, hrun, hj, hsd, hdo, hd, ha, hdev⟩ := next_cache_entry_spec 0 c
  obtain ⟨hidx, hacc⟩ := next_cache_entry_index hrun
  obtain ⟨j1, h1, _, _, h4, _, _⟩ :=
    clock_scan_pass CACHE_SIZE 0 c.buffer_cache none (by decide)
  obtain ⟨j2, h1', h2'⟩ := clock_scan_first CACHE_SIZE 0 c.buffer_cache none (by decide)
  rw [hidx] at h1 h1'
  simp only [Option.some.injEq] at h1 h1'
  subst h1
  subst h1'
  refine ⟨c1, j, hrun, hj, ?_, ?_, hsd, hdo, ha, hd, hdev⟩
  · intro k hk
    obtain ⟨a, b⟩ := h4 k (Nat.zero_le _) hk
    exact ⟨a, by rw [hacc k]; exact b⟩
  · rcases h2' with h | ⟨h, hlast⟩
    · exact Or.inl h
    · right
      refine ⟨by omega, fun k hk => ?_⟩
      by_cases hkj : k = j
      · subst hkj; exact h
      · exact (h4 k (Nat.zero_le _) (by omega)).1

/-! ## Swap slots -/

theorem swap_run_members (ops : List SwapOp) : ∀ (sw1 sw2 : Swap) (got : List swap_slot),
    SwapInv sw1 → swap_run sw1 ops = some (sw2, got) →
    (∀ s ∈ sw1.swap_occupied ++ sw1.swap_unoccupied,
      s ∈ sw2.swap_occupied ++ sw2.swap_unoccupied) ∧
    (∀ s ∈ got, s ∈ sw2.swap_occupied ++ sw2.swap_unoccupied) := by
  induction ops with
  | nil =>
    intro sw1 sw2 got _ hrun
    simp only [swap_run, Option.some.injEq, Prod.mk.injEq] at hrun
    obtain ⟨h1, h2⟩ := hrun
    subst h1; subst h2
    exact ⟨fun s hs => hs, fun s hs => by simp at hs⟩
  | cons op ops ih =>
    intro sw1 sw2 got hinv hrun
    simp only [swap_run] at hrun
    cases hop : op.run sw1 with
    | none => rw [hop] at hrun; simp at hrun
    | some r =>
      obtain ⟨swm, o⟩ := r
      rw [hop] at hrun
      simp only at hrun
      cases hrest : swap_run swm ops with
      | none => rw [hrest] at hrun; simp at hrun
      | some r2 =>
        obtain ⟨swe, l⟩ := r2
        rw [hrest] at hrun
        simp only [Option.some.injEq, Prod.mk.injEq] at hrun
        obtain ⟨h1, h2⟩ := hrun
        subst h1
        subst h2
        cases op with
        | out kpage m =>
          simp only [SwapOp.run] at hop
          cases ho : swap_out sw1 kpage m with
          | none => rw [ho] at hop; simp at hop
          | some q =>
            obtain ⟨sq, t⟩ := q
            rw [ho] at hop
            simp only [Option.map_some', Option.some.injEq, Prod.mk.injEq] at hop
            obtain ⟨e1, e2⟩ := hop
            subst e1
            subst e2
            obtain ⟨hinvq, hocc, _, hkeep, _⟩ := swap_out_spec sw1 kpage m sq t ho hinv
            obtain ⟨a, b⟩ := ih sq swe l hinvq hrest
            refine ⟨fun s hs => a s (hkeep s hs), ?_⟩
            intro s hs
            simp only [Option.toList, List.singleton_append, List.mem_cons] at hs
            rcases hs with hs | hs
            · subst hs
              exact a s (List.mem_append_left _ hocc)
            · exact b s hs
        | back t kpage =>
          simp only [SwapOp.run] at hop
          cases ho : swap_in sw1 t kpage with
          | none => rw [ho] at hop; simp at hop
          | some q =>
            obtain ⟨sq, K', r⟩ := q
            rw [ho] at hop
            simp only [Option.map_some', Option.some.injEq, Prod.mk.injEq] at hop
            obtain ⟨e1, e2⟩ := hop
            subst e1
            subst e2
            obtain ⟨hinvq, _, hm, _, _⟩ := swap_in_spec sw1 t kpage sq K' r ho hinv
            obtain ⟨a, b⟩ := ih sq swe l hinvq hrest
            refine ⟨fun s hs => a s ((hm s).2 hs), ?_⟩
            intro s hs
            simp only [Option.toList, List.nil_append] at hs
            exact b s hs

/-- C33: in every state reached from `swap_init` by calls of `swap_out` and
`swap_in` (of any slot of the table, occupied or free), the occupied list
followed by the free list has no slot twice, so no slot is in both lists; every
slot that a call of `swap_out` returned is in one of them; two different slots
cover ranges of sectors that do not overlap; and the first sector of every slot
is a multiple of `PGSIZE / 512`, with the whole slot below `next_sector`. -/
theorem swap_slots_in_one_list_and_apart (dev : Block) (size : Nat) (ops : List SwapOp)
    (sw : Swap) (got : List swap_slot)
    (hrun : swap_run (swap_init dev size) ops = some (sw, got)) :
    (sw.swap_occupied ++ sw.swap_unoccupied).Nodup ∧
    (∀ s ∈ sw.swap_occupied, s ∉ sw.swap_unoccupied) ∧
    (∀ s ∈ got, s ∈ sw.swap_occupied ++ sw.swap_unoccupied) ∧
    (∀ s ∈ sw.swap_occupied ++ sw.swap_unoccupied,
      ∀ t ∈ sw.swap_occupied ++ sw.swap_unoccupied, s ≠ t →
        s.first_sector + SWAP_SLOT_NUM_SECTORS ≤ t.first_sector ∨
          t.first_sector + SWAP_SLOT_NUM_SECTORS ≤ s.first_sector) ∧
    (∀ s ∈ sw.swap_occupied ++ sw.swap_unoccupied,
      s.first_sector % (PGSIZE / BLOCK_SECTOR_SIZE) = 0 ∧
        s.first_sector + PGSIZE / BLOCK_SECTOR_SIZE ≤ sw.next_sector) := by
  have hinv := swap_run_inv ops _ sw got (swap_init_inv dev size) hrun
  obtain ⟨_, hgot⟩ := swap_run_members ops _ sw got (swap_init_inv dev size) hrun
  refine ⟨hinv.nodup, ?_, hgot, ?_, ?_⟩
  · intro s hs hu
    exact (List.nodup_append.mp hinv.nodup).2.2 hs hu
  · intro s hs t ht hne
    rcases hinv.apart s hs t ht with h | h
    · exact absurd h hne
    · exact h
  · intro s hs
    exact ⟨hinv.aligned s hs, hinv.below s hs⟩

set_option maxRecDepth 1000000 in
/-- A run with `swap_in` called twice on the same slot: the slot is in the free
list once, and the next `swap_out` takes it from there. -/
theorem swap_slots_in_one_list_and_apart_witness :
    swap_run (swap_init example_dev 16) example_swap_ops = some example_swap_run ∧
    example_swap_run.1.swap_occupied = [{ addr := 1, first_sector := 0 }] ∧
    example_swap_run.1.swap_unoccupied = [] ∧
    example_swap_run.2 = [{ addr := 1, first_sector := 0 }, { addr := 1, first_sector := 0 }] ∧
    (example_swap_run.1.swap_occupied ++ example_swap_run.1.swap_unoccupied).Nodup ∧
    (∀ s ∈ example_swap_run.1.swap_occupied, s ∉ example_swap_run.1.swap_unoccupied) :=
  ⟨rfl, rfl, rfl, rfl,
    (swap_slots_in_one_list_and_apart example_dev 16 example_swap_ops example_swap_run.1
      example_swap_run.2 rfl).1,
    (swap_slots_in_one_list_and_apart example_dev 16 example_swap_ops example_swap_run.1
      example_swap_run.2 rfl).2.1⟩

theorem swap_out_loop_writes (n : Nat) : ∀ (i : Nat) (dev : Block) (first : Nat)
    (kpage : Nat → Nat) (k : Nat), k < n →
    first + (i + k) ∈ (swap_out_loop n i dev first kpage).writes := by
  have hkeep : ∀ (n i : Nat) (dev : Block) (first : Nat) (kpage : Nat → Nat) (s : Nat),
      s ∈ dev.writes → s ∈ (swap_out_loop n i dev first kpage).writes := by
    intro n
    induction n with
    | zero => intro i dev first kpage s hs; exact hs
    | succ n ih =>
      intro i dev first kpage s hs
      simp only [swap_out_loop]
      apply ih
      simp [block_write, hs]
  induction n with
  | zero => intro i dev first kpage k hk; omega
  | succ n ih =>
    intro i dev first kpage k hk
    simp only [swap_out_loop]
    cases k with
    | zero =>
      apply hkeep
      simp [block_write]
    | succ k =>
      have := ih (i + 1) (block_write dev (first + i) (fun j => kpage (i * BLOCK_SECTOR_SIZE + j)))
        first kpage k (by omega)
      have e : first + (i + 1 + k) = first + (i + (k + 1)) := by omega
      rw [e] at this
      exact this

/-- C35: when the free list is empty and `next_sector` is below the size of
the swap device by less than a slot, `get_slot` still hands out the slot at
`next_sector`, which reaches beyond the end of the device, and `swap_out`
writes the sector with the number `block_size`, the first one beyond the
end. -/
theorem get_slot_overruns_device (sw : Swap) (kpage : Nat → Nat)
    (hfree : sw.swap_unoccupied = []) (hlt : sw.next_sector < sw.block_size)
    (hover : sw.block_size < sw.next_sector + SWAP_SLOT_NUM_SECTORS) :
    ∃ sw1 ss, get_slot sw true = some (sw1, some ss) ∧ ss.first_sector = sw.next_sector ∧
      sw.block_size < ss.first_sector + SWAP_SLOT_NUM_SECTORS ∧
      ∃ sw2, swap_out sw kpage true = some (sw2, ss) ∧ sw.block_size ∈ sw2.swap_block.writes := by
  have hnf : ¬ sw.next_sector ≥ sw.block_size := by omega
  have hg : get_slot sw true =
      some ({ sw with next_sector := sw.next_sector + SWAP_SLOT_NUM_SECTORS,
                      swap_occupied := sw.swap_occupied ++
                        [{ addr := sw.heap_next, first_sector := sw.next_sector }],
                      heap_next := sw.heap_next + 1 },
            some { addr := sw.heap_next, first_sector := sw.next_sector }) := by
    unfold get_slot
    rw [hfree]
    simp only [hnf, if_false, if_true]
  refine ⟨_, _, hg, rfl, hover, ?_⟩
  refine ⟨_, by unfold swap_out; rw [hg], ?_⟩
  have hk : sw.block_size - sw.next_sector < SWAP_SLOT_NUM_SECTORS := by omega
  have := swap_out_loop_writes SWAP_SLOT_NUM_SECTORS 0 sw.swap_block sw.next_sector kpage
    (sw.block_size - sw.next_sector) hk
  have e : sw.next_sector + (0 + (sw.block_size - sw.next_sector)) = sw.block_size := by omega
  rw [e] at this
  exact this

set_option maxRecDepth 1000000 in
/-- A swap device of 12 sectors: the second `swap_out` gets the slot at sector
8 and writes the sectors 8 to 15. -/
theorem get_slot_overruns_device_witness :
    swap_out (swap_init example_dev 12) example_page true =
      some (example_swap_12, { addr := 1, first_sector := 0 }) ∧
    example_swap_12.swap_unoccupied = [] ∧ example_swap_12.next_sector = 8 ∧
    example_swap_12.block_size = 12 ∧
    (∃ sw1 ss, get_slot example_swap_12 true = some (sw1, some ss) ∧
      ss.first_sector = example_swap_12.next_sector ∧
      example_swap_12.block_size < ss.first_sector + SWAP_SLOT_NUM_SECTORS ∧
      ∃ sw2, swap_out example_swap_12 (fun _ => 0) true = some (sw2, ss) ∧
        example_swap_12.block_size ∈ sw2.swap_block.writes) ∧
    (swap_out example_swap_12 (fun _ => 0) true).map
      (fun r => (r.2.first_sector, r.1.swap_block.writes.take 8)) =
      some (8, [15, 14, 13, 12, 11, 10, 9, 8]) :=
  ⟨rfl, rfl, rfl, rfl,
    get_slot_overruns_device example_swap_12 (fun _ => 0) rfl (by decide) (by decide),
    rfl⟩

/-! ## Contents of pages -/

theorem evict_frame_memory {vm vm1 : VM} {cur f : Nat} {m : Bool}
    (hev : evict_frame vm cur f m = some vm1) : vm1.memory = vm.memory := by
  unfold evict_frame at hev
  cases hfr : vm.frame_table[f]? with
  | none => rw [hfr] at hev; simp at hev
  | some fr =>
    rw [hfr] at hev
    simp only at hev
    cases hs : swap_out vm.swap (vm.memory fr.kpage) m with
    | none => rw [hs] at hev; simp at hev
    | some q =>
      obtain ⟨sw, ss⟩ := q
      rw [hs] at hev
      simp only at hev
      unfold page_set_swap at hev
      have hfu : find_upage { vm with swap := sw } cur fr.upage = find_upage vm cur fr.upage :=
        rfl
      rw [hfu] at hev
      cases hf : find_upage vm cur fr.upage with
      | none => rw [hf] at hev; simp at hev
      | some i =>
        rw [hf] at hev
        simp only at hev
        cases hp : (vm.sup_page_table cur)[i]? with
        | none => rw [hp] at hev; simp at hev
        | some p =>
          rw [hp] at hev
          simp only [if_true, Option.some.injEq] at hev
          subst hev
          rfl

theorem frame_alloc_memory {vm vm1 : VM} {cur upage kpage : Nat} {w m pt : Bool}
    (h : frame_alloc vm cur upage w m pt = some (vm1, kpage)) : vm1.memory = vm.memory := by
  unfold frame_alloc at h
  cases hg : get_next_frame vm cur m with
  | none => rw [hg] at h; simp at h
  | some q =>
    obtain ⟨vm0, f⟩ := q
    rw [hg] at h
    simp only at h
    have hkeep : vm0.memory = vm.memory := by
      unfold get_next_frame at hg
      by_cases hfail : vm.fail_on_next = true
      · rw [if_pos hfail] at hg
        have ht := frame_clock_loop_tables vm.frame_table 0 vm none
        unfold frame_clock at hg
        generalize frame_clock_loop vm.frame_table 0 vm none = r at hg ht
        obtain ⟨vmc, o⟩ := r
        cases o with
        | none => simp at hg
        | some g =>
          simp only at hg
          cases he : evict_frame vmc cur g m with
          | none => rw [he] at hg; simp at hg
          | some vm2 =>
            rw [he] at hg
            simp only [Option.map_some', Option.some.injEq, Prod.mk.injEq] at hg
            obtain ⟨e1, _⟩ := hg
            subst e1
            rw [evict_frame_memory he]
            exact ht.2.2.2
      · rw [if_neg hfail] at hg
        by_cases hlt : vm.next_frame < vm.frame_table.length
        · rw [if_pos hlt] at hg
          by_cases hlast : vm.next_frame + 1 = vm.frame_table.length
          · rw [if_pos hlast] at hg
            simp only [Option.some.injEq, Prod.mk.injEq] at hg
            rw [← hg.1]
          · rw [if_neg hlast] at hg
            simp only [Option.some.injEq, Prod.mk.injEq] at hg
            rw [← hg.1]
        · rw [if_neg hlt] at hg
          simp at hg
    cases hfr : vm0.frame_table[f]? with
    | none => rw [hfr] at h; simp at h
    | some fr =>
      rw [hfr] at h
      simp only at h
      by_cases hc : pagedir_get_page vm0 cur upage ≠ 0 ∨ pt = false
      · rw [if_pos hc] at h; simp at h
      · rw [if_neg hc] at h
        simp only [Option.some.injEq, Prod.mk.injEq] at h
        obtain ⟨h1, _⟩ := h
        subst h1
        exact hkeep

/-- C32: a call of `page_fetch` that services a stack growth (the page has no
entry, and the call returns true) maps the page to a frame and writes to no
frame: every byte of every frame, the one installed included, is what it was
before the call.  So the page is a zero page only when the frame happened to
hold zeros; after an eviction it holds the bytes of the evicted page. -/
theorem page_fetch_stack_growth_keeps_frame_bytes (vm vm2 : VM) (cur uaddr esp : Nat)
    (write mem_ok pt_ok : Bool)
    (hnone : find_upage vm cur (pg_round_down uaddr) = none)
    (h : page_fetch vm cur uaddr esp write mem_ok pt_ok = some (vm2, true)) :
    ∃ kpage, vm2.pagedirs cur (pg_round_down uaddr) =
        some { kpage := kpage, writable := true, accessed := false, dirty := false } ∧
      ∀ k i, vm2.memory k i = vm.memory k i := by
  have hin : page_in_table vm cur (pg_round_down uaddr) = false := by
    unfold page_in_table
    rw [hnone]
    simp
  unfold page_fetch at h
  by_cases hu : is_user_vaddr uaddr = true
  · simp only [hu, Bool.not_true, Bool.false_eq_true, if_false, hin, Bool.not_false,
      if_true] at h
    by_cases hesp : esp = 0
    · simp [hesp] at h
    · simp only [hesp, if_false] at h
      by_cases hsg : stack_growth uaddr esp = true
      · simp only [hsg, if_true] at h
        cases hfa : frame_alloc vm cur (pg_round_down uaddr) true mem_ok pt_ok with
        | none => rw [hfa] at h; simp at h
        | some q =>
          obtain ⟨vm1, kpage⟩ := q
          rw [hfa] at h
          simp only at h
          obtain ⟨hkeys, hpd⟩ := frame_alloc_spec hfa
          have hmem := frame_alloc_memory hfa
          have hnone1 : find_upage vm1 cur (pg_round_down uaddr) = none := by
            rw [find_upage_congr hkeys]; exact hnone
          cases hm : mem_ok with
          | false =>
            rw [hm] at h
            simp [page_set_frame, hnone1, page_alloc] at h
          | true =>
            rw [hm] at h
            rw [page_set_frame_new hnone1] at h
            simp only [Option.map_some', Option.some.injEq, Prod.mk.injEq, and_true] at h
            subst h
            refine ⟨kpage, hpd, ?_⟩
            intro k i
            show vm1.memory k i = vm.memory k i
            rw [hmem]
      · simp [hsg] at h
  · simp [hu] at h

set_option maxRecDepth 1000000 in
/-- Two stack growths.  In the first pass the page `0xbfffe000` gets the frame
`0xc0271000`, whose byte 1 is 1 as before.  With both frames taken, the page
`0xbfffc000` gets the frame `0xc0271000` of the evicted page `0xbfffe000`, with
byte 1 still 1. -/
theorem page_fetch_stack_growth_keeps_frame_bytes_witness :
    find_upage example_vm 1 (pg_round_down 0xbfffeffc) = none ∧
    page_fetch example_vm 1 0xbfffeffc 0xbffff000 false true true =
      some (example_vm_stack, true) ∧
    (∃ kpage, example_vm_stack.pagedirs 1 (pg_round_down 0xbfffeffc) =
        some { kpage := kpage, writable := true, accessed := false, dirty := false } ∧
      ∀ k i, example_vm_stack.memory k i = example_vm.memory k i) ∧
    pagedir_get_page example_vm_stack 1 0xbfffe000 = 0xc0271000 ∧
    example_vm_stack.memory 0xc0271000 1 = 1 ∧
    find_upage example_vm_one_thread 1 (pg_round_down 0xbfffcffc) = none ∧
    page_fetch example_vm_one_thread 1 0xbfffcffc 0xbfffd000 false true true =
      some (example_vm_stack_evict, true) ∧
    (∃ kpage, example_vm_stack_evict.pagedirs 1 (pg_round_down 0xbfffcffc) =
        some { kpage := kpage, writable := true, accessed := false, dirty := false } ∧
      ∀ k i, example_vm_stack_evict.memory k i = example_vm_one_thread.memory k i) ∧
    pagedir_get_page example_vm_stack_evict 1 0xbfffc000 = 0xc0271000 ∧
    example_vm_stack_evict.memory 0xc0271000 1 = 1 :=
  ⟨rfl, rfl,
    page_fetch_stack_growth_keeps_frame_bytes example_vm example_vm_stack 1 0xbfffeffc
      0xbffff000 false true true rfl rfl,
    rfl, rfl, rfl, rfl,
    page_fetch_stack_growth_keeps_frame_bytes example_vm_one_thread example_vm_stack_evict 1
      0xbfffcffc 0xbfffd000 false true true rfl rfl,
    rfl, rfl⟩

theorem pagedir_set_dirty_fields (vm : VM) (a b : Nat) (c : Bool) :
    (pagedir_set_dirty vm a b c).memory = vm.memory ∧
    (pagedir_set_dirty vm a b c).swap = vm.swap := by
  unfold pagedir_set_dirty
  cases vm.pagedirs a b <;> exact ⟨rfl, rfl⟩

/-- C34: for a page of the running thread that has a backing file,
`page_write_data` does not look at the swap slot recorded on the page: the
swap table is as before (`swap_in` is not called), and the frame that the page
is mapped to receives the bytes of the file from the offset of the page.  So
what was written to the slot is not restored. -/
theorem page_write_data_reads_file_not_slot (vm vm1 : VM) (cur upage i : Nat) (p : page)
    (b : Bool) (hfind : find_upage vm cur upage = some i)
    (hp : (vm.sup_page_table cur)[i]? = some p) (hfile : p.file ≠ 0)
    (h : page_write_data vm cur upage = some (vm1, b)) :
    vm1.swap = vm.swap ∧
    ∃ size, file_size_in_page vm p = some size ∧
      ∀ e, vm.pagedirs cur upage = some e →
        ∀ j, j < file_span (file_length vm p.file) size p.off →
          vm1.memory e.kpage j = (vm.files p.file).getD (p.off.toNat + j) 0 := by
  unfold page_write_data at h
  rw [hfind] at h
  simp only [hp, hfile, ne_eq, not_false_eq_true, if_true] at h
  cases hsz : file_size_in_page vm p with
  | none => rw [hsz] at h; simp at h
  | some size =>
    rw [hsz] at h
    simp only at h
    cases hr : file_read_at vm cur p.file upage size p.off with
    | none => rw [hr] at h; simp at h
    | some q =>
      obtain ⟨vmr, n⟩ := q
      rw [hr] at h
      simp only [Option.some.injEq, Prod.mk.injEq] at h
      obtain ⟨h1, _⟩ := h
      subst h1
      obtain ⟨hm, hs⟩ := pagedir_set_dirty_fields vmr p.pd upage false
      rw [hm, hs]
      unfold file_read_at at hr
      by_cases hn : file_span (file_length vm p.file) size p.off = 0
      · simp only [hn, if_true, Option.some.injEq, Prod.mk.injEq] at hr
        obtain ⟨e1, _⟩ := hr
        subst e1
        refine ⟨rfl, size, rfl, ?_⟩
        intro e _ j hj
        omega
      · simp only [hn, if_false] at hr
        cases he : vm.pagedirs cur upage with
        | none => rw [he] at hr; simp at hr
        | some e0 =>
          rw [he] at hr
          simp only [Option.some.injEq, Prod.mk.injEq] at hr
          obtain ⟨e1, _⟩ := hr
          subst e1
          refine ⟨rfl, size, rfl, ?_⟩
          intro e hee j hj
          simp only [Option.some.injEq] at hee
          subst hee
          simp [hj]

set_option maxRecDepth 1000000 in
/-- The page at `0x10000000` is backed by the file 7, whose byte 1024 is 17; the
program has stored `0xFF` there, and the page has been written to the slot at
sector 0, so that byte 0 of sector 2 of the swap device is `0xFF`.
`page_write_data` returns true and leaves 17 in byte 1024 of the frame. -/
theorem page_write_data_reads_file_not_slot_witness :
    find_upage example_vm_swapped 1 0x10000000 = some 0 ∧
    (example_vm_swapped.sup_page_table 1)[0]? =
      some { pd := 1, frame := 0xc0271000, upage := 0x10000000, active := false, file := 7,
             off := 0, writable := true, ss := some { addr := 1, first_sector := 0 } } ∧
    example_vm_swapped.swap.swap_block.contents 2 0 = 255 ∧
    page_write_data example_vm_swapped 1 0x10000000 = some (example_vm_restored.1, true) ∧
    (example_vm_restored.1.swap = example_vm_swapped.swap ∧
      ∃ size, file_size_in_page example_vm_swapped
          { pd := 1, frame := 0xc0271000, upage := 0x10000000, active := false, file := 7,
            off := 0, writable := true, ss := some { addr := 1, first_sector := 0 } } =
          some size ∧
        ∀ e, example_vm_swapped.pagedirs 1 0x10000000 = some e →
          ∀ j, j < file_span (file_length example_vm_swapped 7) size 0 →
            example_vm_restored.1.memory e.kpage j =
              (example_vm_swapped.files 7).getD ((0 : Int).toNat + j) 0) ∧
    pagedir_get_page example_vm_restored.1 1 0x10000000 = 0xc0271000 ∧
    example_vm_restored.1.memory 0xc0271000 1024 = 17 :=
  ⟨rfl, rfl, rfl, rfl,
    page_write_data_reads_file_not_slot example_vm_swapped example_vm_restored.1 1 0x10000000 0
      { pd := 1, frame := 0xc0271000, upage := 0x10000000, active := false, file := 7,
        off := 0, writable := true, ss := some { addr := 1, first_sector := 0 } }
      true rfl rfl (by decide) rfl,
    rfl, rfl⟩

/-! ## File descriptors -/

theorem fd_scan_no_match (fd : Int) (l : List file_store) (k : Nat) (s : Option Nat)
    (hno : ∀ e ∈ l, e.fd ≠ fd) :
    fd_scan fd l k s = if l = [] then s else some (k + l.length - 1) := by
  induction l generalizing k s with
  | nil => simp [fd_scan]
  | cons e rest ih =>
    have he : e.fd ≠ fd := hno e (List.mem_cons_self _ _)
    have hrest : ∀ x ∈ rest, x.fd ≠ fd := fun x hx => hno x (List.mem_cons_of_mem _ hx)
    unfold fd_scan
    rw [if_neg he, ih (k + 1) (some k) hrest]
    by_cases hr : rest = []
    · subst hr; simp
    · simp only [hr, if_false, List.cons_ne_nil, List.length_cons]
      congr 1
      omega

theorem fd_scan_match (fd : Int) (l : List file_store) (k : Nat) (s : Option Nat)
    (hyes : ∃ e ∈ l, e.fd = fd) :
    ∃ j e, fd_scan fd l k s = some (k + j) ∧ l[j]? = some e ∧ e.fd = fd ∧
      ∀ i x, i < j → l[i]? = some x → x.fd ≠ fd := by
  induction l generalizing k s with
  | nil => obtain ⟨e, he, _⟩ := hyes; simp at he
  | cons a rest ih =>
    unfold fd_scan
    by_cases ha : a.fd = fd
    · refine ⟨0, a, by simp [ha], by simp, ha, ?_⟩
      intro i x hi
      omega
    · have hyes2 : ∃ e ∈ rest, e.fd = fd := by
        obtain ⟨e, he, hfd⟩ := hyes
        rcases List.mem_cons.mp he with h1 | h1
        · subst h1; exact absurd hfd ha
        · exact ⟨e, h1, hfd⟩
      obtain ⟨j, e, h1, h2, h3, h4⟩ := ih (k + 1) (some k) hyes2
      refine ⟨j + 1, e, ?_, by simpa using h2, h3, ?_⟩
      · rw [if_neg ha, h1]
        congr 1
        omega
      · intro i x hi hx
        cases i with
        | zero =>
          simp only [List.getElem?_cons_zero, Option.some.injEq] at hx
          subst hx
          exact ha
        | succ i =>
          simp only [List.getElem?_cons_succ] at hx
          exact h4 i x (by omega) hx

/-- For a descriptor below `MIN_USER_FD` the result of `fd_to_file_store` is
`NULL`, and so are those of `fd_to_file` and `remove_fd`, which leaves the
list as it is. -/
theorem fd_to_file_store_below_min (l : List file_store) (fd : Int) (hfd : fd < MIN_USER_FD) :
    fd_to_file_store l fd = none ∧ fd_to_file l fd = 0 ∧ remove_fd l fd = (l, 0) := by
  have h : fd_to_file_store l fd = none := by
    unfold fd_to_file_store
    rw [if_pos hfd]
  refine ⟨h, ?_, ?_⟩
  · unfold fd_to_file
    rw [h]
  · unfold remove_fd
    rw [h]

/-- For a descriptor that an entry of the list carries, `fd_to_file_store`
returns the first such entry. -/
theorem fd_to_file_store_of_match (l : List file_store) (fd : Int) (hfd : MIN_USER_FD ≤ fd)
    (hyes : ∃ e ∈ l, e.fd = fd) :
    ∃ j e, fd_to_file_store l fd = some j ∧ l[j]? = some e ∧ e.fd = fd ∧
      fd_to_file l fd = e.file ∧ remove_fd l fd = (l.eraseIdx j, e.file) := by
  obtain ⟨j, e, h1, h2, h3, _⟩ := fd_scan_match fd l 0 none hyes
  have h : fd_to_file_store l fd = some j := by
    unfold fd_to_file_store
    rw [if_neg (by omega), h1]
    simp
  refine ⟨j, e, h, h2, h3, ?_, ?_⟩
  · unfold fd_to_file
    rw [h]
    simp only [h2]
  · unfold remove_fd
    rw [h]
    simp only [h2]

/-- A descriptor issued by `create_fd` is at least `MIN_USER_FD` and differs
from those of the list, as long as the descriptor at the front is below
`INT_MAX`. -/
theorem create_fd_fresh (l : List file_store) (f : Nat) (mapped : Bool) (hinv : FdInv l)
    (hmax : ∀ e ∈ l, e.fd < 2147483647) (hf : f ≠ 0) :
    FdInv (create_fd l f mapped true).1 ∧
    MIN_USER_FD ≤ (create_fd l f mapped true).2 ∧
    (∀ e ∈ l, e.fd ≠ (create_fd l f mapped true).2) ∧
    ∃ e, (create_fd l f mapped true).1 = e :: l ∧ e.fd = (create_fd l f mapped true).2 ∧
      e.file = f := by
  obtain ⟨hp, hmin⟩ := hinv
  unfold create_fd
  simp only [hf, if_false, Bool.not_true, Bool.false_eq_true]
  cases l with
  | nil =>
    refine ⟨⟨by simp, ?_⟩, le_refl _, by simp, ⟨_, rfl, rfl, rfl⟩⟩
    intro e he
    simp only [List.mem_singleton] at he
    subst he
    exact le_refl _
  | cons a rest =>
    have ha := hmin a (List.mem_cons_self _ _)
    have ha2 := hmax a (List.mem_cons_self _ _)
    have h32 : int32 (a.fd + 1) = a.fd + 1 := by
      unfold MIN_USER_FD at ha
      unfold int32
      omega
    simp only [h32]
    have hlt : ∀ e ∈ a :: rest, e.fd < a.fd + 1 := by
      intro e he
      rcases List.mem_cons.mp he with h1 | h1
      · subst h1; omega
      · have := (List.pairwise_cons.mp hp).1 e h1
        omega
    refine ⟨⟨List.pairwise_cons.mpr ⟨hlt, hp⟩, ?_⟩, ?_, ?_, ⟨_, rfl, rfl, rfl⟩⟩
    · intro e he
      rcases List.mem_cons.mp he with h1 | h1
      · subst h1
        show MIN_USER_FD ≤ a.fd + 1
        omega
      · exact hmin e h1
    · show MIN_USER_FD ≤ a.fd + 1
      omega
    · intro e he
      have := hlt e he
      show e.fd ≠ a.fd + 1
      omega

/-- C36: for a descriptor of at least `MIN_USER_FD` that no entry of a list
with at least one entry carries, `fd_to_file_store` does not return `NULL`: it
returns the last entry of the list, whose descriptor is another one.  So
`fd_to_file` gives the file of that entry, and `remove_fd` takes that entry out
of the list. -/
theorem fd_to_file_store_returns_last_entry_without_match (init : List file_store)
    (last : file_store) (fd : Int) (hfd : MIN_USER_FD ≤ fd)
    (hno : ∀ e ∈ init ++ [last], e.fd ≠ fd) :
    fd_to_file_store (init ++ [last]) fd = some init.length ∧
    (init ++ [last])[init.length]? = some last ∧ last.fd ≠ fd ∧
    fd_to_file (init ++ [last]) fd = last.file ∧
    remove_fd (init ++ [last]) fd = (init, last.file) := by
  have h : fd_to_file_store (init ++ [last]) fd = some init.length := by
    unfold fd_to_file_store
    rw [if_neg (by omega), fd_scan_no_match fd _ 0 none hno]
    simp
  have hl : (init ++ [last])[init.length]? = some last := by simp
  refine ⟨h, hl, hno last (by simp), ?_, ?_⟩
  · unfold fd_to_file
    rw [h]
    simp only [hl]
  · unfold remove_fd
    rw [h]
    simp only [hl]
    congr 1
    rw [List.eraseIdx_append_of_length_le (le_refl _)]
    simp

/-- A thread has opened the files 11 and 12 and has the descriptors 2 and 3;
for the descriptor 7, which it never got, `fd_to_file_store` returns the entry
of the descriptor 2, and `remove_fd`, which `sys_close (7)` calls, removes that
entry. -/
theorem fd_to_file_store_returns_last_entry_without_match_witness :
    example_files_open =
      [{ file := 12, fd := 3, mapped := false }] ++ [{ file := 11, fd := 2, mapped := false }] ∧
    (fd_to_file_store
        ([{ file := 12, fd := 3, mapped := false }] ++ [{ file := 11, fd := 2, mapped := false }])
        7 = some [({ file := 12, fd := 3, mapped := false } : file_store)].length ∧
      ([{ file := 12, fd := 3, mapped := false }] ++
        [({ file := 11, fd := 2, mapped := false } : file_store)])[
          [({ file := 12, fd := 3, mapped := false } : file_store)].length]? =
        some { file := 11, fd := 2, mapped := false } ∧
      ({ file := 11, fd := 2, mapped := false } : file_store).fd ≠ 7 ∧
      fd_to_file
        ([{ file := 12, fd := 3, mapped := false }] ++ [{ file := 11, fd := 2, mapped := false }])
        7 = ({ file := 11, fd := 2, mapped := false } : file_store).file ∧
      remove_fd
        ([{ file := 12, fd := 3, mapped := false }] ++ [{ file := 11, fd := 2, mapped := false }])
        7 = ([{ file := 12, fd := 3, mapped := false }],
             ({ file := 11, fd := 2, mapped := false } : file_store).file)) ∧
    fd_to_file example_files_open 7 = 11 ∧
    remove_fd example_files_open 7 = ([{ file := 12, fd := 3, mapped := false }], 11) :=
  ⟨by decide,
    fd_to_file_store_returns_last_entry_without_match
      [{ file := 12, fd := 3, mapped := false }] { file := 11, fd := 2, mapped := false } 7
      (by decide) (by decide),
    by decide, by decide⟩

/-! ## Console output of sys_write -/

theorem mapM_option_some {α β : Type} (g : α → Option β) (h : α → β) (l : List α)
    (hg : ∀ x ∈ l, g x = some (h x)) : l.mapM g = some (l.map h) := by
  induction l with
  | nil => rfl
  | cons a rest ih =>
    rw [List.mapM_cons, hg a (List.mem_cons_self _ _),
      ih (fun x hx => hg x (List.mem_cons_of_mem _ hx))]
    rfl

theorem user_load_of_mapped (vm : VM) (cur uaddr : Nat)
    (h : pagedir_get_page vm cur (pg_round_down uaddr) ≠ 0) :
    user_load vm cur uaddr = some ((user_load vm cur uaddr).getD 0) := by
  unfold pagedir_get_page at h
  unfold user_load
  cases he : vm.pagedirs cur (pg_round_down uaddr) with
  | none => rw [he] at h; exact absurd rfl h
  | some e => rfl

theorem putbuf_of_mapped (vm : VM) (cur : Nat) (console : List Nat) (buffer n : Nat)
    (h : ∀ i, i < n → pagedir_get_page vm cur (pg_round_down (buffer + i)) ≠ 0) :
    putbuf vm cur console buffer n =
      some (console ++ (List.range n).map (fun i => (user_load vm cur (buffer + i)).getD 0)) := by
  unfold putbuf
  rw [mapM_option_some _ (fun i => (user_load vm cur (buffer + i)).getD 0)]
  · rfl
  · intro x hx
    exact user_load_of_mapped vm cur _ (h x (List.mem_range.mp hx))

theorem is_valid_uaddr_of_mapped (vm : VM) (cur uaddr esp : Nat) (mem_ok pt_ok : Bool)
    (h : is_user_vaddr uaddr = true ∧ pagedir_get_page vm cur (pg_round_down uaddr) ≠ 0) :
    is_valid_uaddr vm cur uaddr esp false mem_ok pt_ok = some (vm, true) := by
  unfold is_valid_uaddr
  simp [h.1, h.2]

theorem sys_write_check_of_mapped (n : Nat) (vm : VM) (cur addr esp : Nat) (mem_ok pt_ok : Bool)
    (h : ∀ i, i < n → is_user_vaddr (addr + i) = true ∧
      pagedir_get_page vm cur (pg_round_down (addr + i)) ≠ 0) :
    sys_write_check n vm cur addr esp mem_ok pt_ok = some (vm, true) := by
  induction n generalizing addr with
  | zero => rfl
  | succ n ih =>
    unfold sys_write_check
    rw [is_valid_uaddr_of_mapped vm cur addr esp mem_ok pt_ok (by simpa using h 0 (by omega))]
    simp only
    apply ih
    intro i hi
    have := h (i + 1) (by omega)
    rwa [show addr + (i + 1) = addr + 1 + i by omega] at this

theorem range_map_chunks (g : Nat → Nat) (m r : Nat) (hr : m < r) :
    (List.range r).map (fun p => g (p % m)) =
      (List.range m).map g ++ (List.range (r - m)).map (fun p => g (p % m)) := by
  have e : r = m + (r - m) := by omega
  conv_lhs => rw [e, List.range_add, List.map_append, List.map_map]
  congr 1
  · apply List.map_congr_left
    intro p hp
    have := List.mem_range.mp hp
    simp [Nat.mod_eq_of_lt this]
  · apply List.map_congr_left
    intro p _
    simp

theorem sys_write_putbuf_of_mapped (fuel : Nat) (vm : VM) (cur : Nat) (console : List Nat)
    (buffer remaining : Nat) (hfuel : remaining / MAX_PUTBUF_LEN < fuel)
    (h : ∀ i, i < remaining → pagedir_get_page vm cur (pg_round_down (buffer + i)) ≠ 0) :
    sys_write_putbuf fuel vm cur console buffer remaining =
      some (console ++ (List.range remaining).map
        (fun p => (user_load vm cur (buffer + p % MAX_PUTBUF_LEN)).getD 0)) := by
  induction fuel generalizing console remaining with
  | zero => exact absurd hfuel (Nat.not_lt_zero _)
  | succ fuel ih =>
    unfold sys_write_putbuf
    by_cases hgt : remaining > MAX_PUTBUF_LEN
    · rw [if_pos hgt, putbuf_of_mapped vm cur console buffer MAX_PUTBUF_LEN
        (fun i hi => h i (by omega))]
      simp only
      have hf2 : (remaining - MAX_PUTBUF_LEN) / MAX_PUTBUF_LEN < fuel := by
        unfold MAX_PUTBUF_LEN at *
        omega
      rw [ih _ _ hf2 (fun i hi => h i (by omega))]
      rw [range_map_chunks (fun q => (user_load vm cur (buffer + q)).getD 0) MAX_PUTBUF_LEN
        remaining hgt, List.append_assoc]
    · rw [if_neg hgt, putbuf_of_mapped vm cur console buffer remaining h]
      congr 2
      apply List.map_congr_left
      intro p hp
      have := List.mem_range.mp hp
      rw [Nat.mod_eq_of_lt (by omega)]

/-- C37: for a buffer of `size` bytes that are mapped user addresses,
`sys_write` to `STD_OUT` returns `(int) size`, and the bytes that the console
gets are, at every position `p` below `size`, the byte at
`buffer + p mod MAX_PUTBUF_LEN`: every call of `putbuf` starts at `buffer`
again.  So for a size above `MAX_PUTBUF_LEN` and a byte at
`buffer + MAX_PUTBUF_LEN` that differs from the byte at `buffer`, the console
does not get the bytes of the buffer. -/
theorem sys_write_stdout_repeats_first_bytes (vm : VM) (cur : Nat) (console : List Nat)
    (files_open : List file_store) (pos : Int) (buffer size esp : Nat) (mem_ok pt_ok : Bool)
    (hbuf : is_user_vaddr buffer = true ∧
      pagedir_get_page vm cur (pg_round_down buffer) ≠ 0)
    (hbytes : ∀ i, i < size → is_user_vaddr (buffer + i) = true ∧
      pagedir_get_page vm cur (pg_round_down (buffer + i)) ≠ 0) :
    sys_write vm cur console files_open pos STD_OUT buffer size esp mem_ok pt_ok =
      some (vm,
        console ++ (List.range size).map
          (fun p => (user_load vm cur (buffer + p % MAX_PUTBUF_LEN)).getD 0),
        some (int32 (size : Int))) ∧
    (MAX_PUTBUF_LEN < size →
      user_load vm cur (buffer + MAX_PUTBUF_LEN) ≠ user_load vm cur buffer →
      (List.range size).map (fun p => (user_load vm cur (buffer + p % MAX_PUTBUF_LEN)).getD 0) ≠
        (List.range size).map (fun p => (user_load vm cur (buffer + p)).getD 0)) := by
  constructor
  · unfold sys_write
    rw [if_neg (by decide), is_valid_uaddr_of_mapped vm cur buffer esp mem_ok pt_ok hbuf]
    simp only
    rw [sys_write_check_of_mapped size vm cur buffer esp mem_ok pt_ok hbytes]
    simp only [if_true]
    rw [sys_write_putbuf_of_mapped _ vm cur console buffer size (Nat.lt_succ_self _)
      (fun i hi => (hbytes i hi).2)]
    rfl
  · intro hgt hne heq
    have h1 := (List.map_inj_left.mp heq) MAX_PUTBUF_LEN (List.mem_range.mpr hgt)
    simp only [Nat.mod_self, Nat.add_zero] at h1
    apply hne
    rw [user_load_of_mapped vm cur _ (hbytes MAX_PUTBUF_LEN hgt).2,
      user_load_of_mapped vm cur buffer hbuf.2, h1]

set_option maxRecDepth 1000000 in
/-- Thread 1 has the page `0xbfffe000` in the frame `0xc0271000`, whose byte
`i` is `i mod 256`, and writes 301 bytes from `0xbfffe000` to `STD_OUT`: the
last byte that the console gets is the byte 0 of the buffer, which is 0, while
the byte 300 of the buffer is 44. -/
theorem sys_write_stdout_repeats_first_bytes_witness :
    (is_user_vaddr 0xbfffe000 = true ∧
      pagedir_get_page example_vm_alloc 1 (pg_round_down 0xbfffe000) ≠ 0) ∧
    (∀ i, i < 301 → is_user_vaddr (0xbfffe000 + i) = true ∧
      pagedir_get_page example_vm_alloc 1 (pg_round_down (0xbfffe000 + i)) ≠ 0) ∧
    (sys_write example_vm_alloc 1 [] [] 0 STD_OUT 0xbfffe000 301 0xbffff000 true true =
        some (example_vm_alloc,
          [] ++ (List.range 301).map
            (fun p => (user_load example_vm_alloc 1 (0xbfffe000 + p % MAX_PUTBUF_LEN)).getD 0),
          some (int32 ((301 : Nat) : Int))) ∧
      (MAX_PUTBUF_LEN < 301 →
        user_load example_vm_alloc 1 (0xbfffe000 + MAX_PUTBUF_LEN) ≠
          user_load example_vm_alloc 1 0xbfffe000 →
        (List.range 301).map
            (fun p => (user_load example_vm_alloc 1 (0xbfffe000 + p % MAX_PUTBUF_LEN)).getD 0) ≠
          (List.range 301).map
            (fun p => (user_load example_vm_alloc 1 (0xbfffe000 + p)).getD 0))) ∧
    user_load example_vm_alloc 1 (0xbfffe000 + 300) = some 44 ∧
    user_load example_vm_alloc 1 0xbfffe000 = some 0 ∧
    ((List.range 301).map
      (fun p => (user_load example_vm_alloc 1 (0xbfffe000 + p % MAX_PUTBUF_LEN)).getD 0))[300]? =
      some 0 :=
  ⟨by decide, by decide,
    sys_write_stdout_repeats_first_bytes example_vm_alloc 1 [] [] 0 0xbfffe000 301 0xbffff000
      true true (by decide) (by decide),
    by decide, by decide, by decide⟩

end Pintos
